import Mathlib

/-!
A verification development for the four-phase compiler front-end.

Shallow embedding of the hand-written lexer (`lexer_scratch.cpp`), the
recursive-descent parser (`phase2/parser.cpp`), the scope analyzer
(`phase4-typeChecking/scope_analyzer.cpp`), the type checker
(`phase-IR/type_checker.cpp`) and the IR generator (`phase-IR/ir.cpp`),
followed by theorems about them.

Conventions of the embedding.

* A C++ `char` is a `Char`; `isalpha`, `isdigit`, `isalnum`, `isspace` are the
  classifications of the "C" locale.  A `std::string` used as source text is a
  `List Char`; token lexemes are `String`s.
* The `int` position of the lexer is a natural number; this is exact for every
  source shorter than `2 ^ 31` characters.
* A C++ exception is the `error` case of `Except`.
* `while` loops that walk the source are recursive functions on the part of the
  source that is still unread; the mutually recursive parser functions take an
  explicit call-depth budget.
-/

namespace Compiler

/-! ## Tokens (`lexer_scratch.cpp`, `phase2/lexer.h`) -/

/-- The token kinds, in the order of the C++ enumeration. -/
inductive tokenType where
  | T_FUNCTION | T_INT | T_FLOAT | T_BOOL | T_STRING
  | T_IF | T_ELSE | T_WHILE | T_FOR | T_RETURN
  | T_IDENTIFIER | T_INTLIT | T_FLOATLIT | T_STRINGLIT | T_BOOLLIT
  | T_ASSIGNOP | T_EQUALSOP | T_NOTEQOP | T_LESSOP | T_GREATOP | T_LEQOP | T_GEQOP
  | T_AND | T_OR | T_PLUS | T_MINUS | T_MUL | T_DIV
  | T_PLUS_ASSIGN | T_MINUS_ASSIGN | T_MUL_ASSIGN | T_DIV_ASSIGN
  | T_INCREMENT | T_DECREMENT
  | T_PARENL | T_PARENR | T_BRACEL | T_BRACER | T_BRACKL | T_BRACKR
  | T_COMMA | T_SEMICOLON | T_QUOTES
  | T_COMMENT
  | T_INVALID | T_EOF
deriving DecidableEq, Repr

open tokenType

/-- A token: its kind and its lexeme. -/
structure token where
  type : tokenType
  value : String
deriving DecidableEq, Repr

/-- The `runtime_error`s thrown by the hand-written lexer. -/
inductive LexerError where
  | invalidIdentifier (invalidVal : String)
  | unterminatedString
  | unterminatedBlockComment
  | unknownToken (c : Char)
deriving DecidableEq, Repr

/-- The text carried by the `runtime_error`. -/
def LexerError.what : LexerError → String
  | .invalidIdentifier v => "Invalid identifier: '" ++ v ++ "'"
  | .unterminatedString => "Unterminated string literal"
  | .unterminatedBlockComment => "Unterminated block comment"
  | .unknownToken c => "Unknown token starting at: " ++ String.singleton c

/-! ## The hand-written lexer (`lexer_scratch.cpp`) -/

/-- The function `isspace` of the "C" locale. -/
def isspace (c : Char) : Bool :=
  c = ' ' || c = '\t' || c = '\n' || c = '\x0b' || c = '\x0c' || c = '\r'

/-- The function `isalpha` of the "C" locale. -/
def isalpha (c : Char) : Bool := c.isAlpha

/-- The function `isdigit`. -/
def isdigit (c : Char) : Bool := c.isDigit

/-- The function `isalnum` of the "C" locale. -/
def isalnum (c : Char) : Bool := c.isAlphanum

/-- The class `lexer`: the source and the position in it. -/
structure lexer where
  src : List Char
  pos : Nat
deriving DecidableEq, Repr

/-- The call `src.substr(start, len)`. -/
def substr (src : List Char) (start len : Nat) : String :=
  String.mk ((src.drop start).take len)

/-- The loop `while (!isEOF() && p(peek())) advance();` started at position `pos`
with `rest` the unread part of the source; the result is the final position. -/
def scanWhile (p : Char → Bool) : List Char → Nat → Nat
  | [], pos => pos
  | c :: rest, pos => if p c then scanWhile p rest (pos + 1) else pos

/-- The loop of `stringLiteral`: stops at the first `"`, a backslash makes the
loop step over the character after it (when there is one). -/
def scanString : List Char → Nat → Nat
  | [], pos => pos
  | c :: rest, pos =>
    if c = '"' then pos
    else if c = '\\' then
      match rest with
      | [] => pos + 1
      | _ :: rest2 => scanString rest2 (pos + 2)
    else scanString rest (pos + 1)

/-- The loop of `comment` for a block comment: the position just after the first
`*/`, or `none` when the end of the source is reached (the function then throws). -/
def scanBlockComment : List Char → Nat → Option Nat
  | [], _ => none
  | c :: rest, pos =>
    match rest with
    | [] => scanBlockComment rest (pos + 1)
    | d :: _ => if c = '*' && d = '/' then some (pos + 2) else scanBlockComment rest (pos + 1)

/-- The chain of comparisons at the end of `identifierOrKeyword`. -/
def keywordOrIdentifier (val : String) : token :=
  if val = "fn" then ⟨T_FUNCTION, val⟩
  else if val = "int" then ⟨T_INT, val⟩
  else if val = "float" then ⟨T_FLOAT, val⟩
  else if val = "bool" then ⟨T_BOOL, val⟩
  else if val = "string" then ⟨T_STRING, val⟩
  else if val = "if" then ⟨T_IF, val⟩
  else if val = "else" then ⟨T_ELSE, val⟩
  else if val = "while" then ⟨T_WHILE, val⟩
  else if val = "for" then ⟨T_FOR, val⟩
  else if val = "return" then ⟨T_RETURN, val⟩
  else if val = "true" || val = "false" then ⟨T_BOOLLIT, val⟩
  else ⟨T_IDENTIFIER, val⟩

namespace lexer

/-- The unread part of the source. -/
def rest (lx : lexer) : List Char := lx.src.drop lx.pos

def isEOF (lx : lexer) : Bool := decide (lx.pos ≥ lx.src.length)

def skipWhitespace (lx : lexer) : lexer :=
  { lx with pos := scanWhile isspace lx.rest lx.pos }

def peek (lx : lexer) : Char :=
  if lx.isEOF then '\x00' else lx.src.getD lx.pos '\x00'

/-- The state after `advance()` (the character it returns is never used). -/
def advance (lx : lexer) : lexer :=
  if lx.isEOF then lx else { lx with pos := lx.pos + 1 }

/-- The test `pos + 1 < src.size() && src[pos + 1] == d`. -/
def nextIs (lx : lexer) (d : Char) : Bool :=
  decide (lx.pos + 1 < lx.src.length) && lx.src.getD (lx.pos + 1) '\x00' = d

def identifierOrKeyword (lx : lexer) : token × lexer :=
  let start := lx.pos
  let lx1 : lexer := { lx with pos := scanWhile (fun c => isalnum c || c = '_') lx.rest lx.pos }
  let val := substr lx.src start (lx1.pos - start)
  (keywordOrIdentifier val, lx1)

def number (lx : lexer) : Except LexerError (token × lexer) :=
  let start := lx.pos
  let lx1 : lexer := { lx with pos := scanWhile isdigit lx.rest lx.pos }
  let isFloat : Bool := !lx1.isEOF && lx1.peek = '.'
  let lx2 : lexer :=
    if isFloat then
      let lxa := lx1.advance
      { lxa with pos := scanWhile isdigit lxa.rest lxa.pos }
    else lx1
  if !lx2.isEOF && (isalpha lx2.peek || lx2.peek = '_') then
    let errStart := start
    let lx3 : lexer :=
      { lx2 with pos := scanWhile (fun c => isalnum c || c = '_') lx2.rest lx2.pos }
    let invalidVal := substr lx.src errStart (lx3.pos - errStart)
    .error (.invalidIdentifier invalidVal)
  else
    let val := substr lx.src start (lx2.pos - start)
    if isFloat then .ok (⟨T_FLOATLIT, val⟩, lx2) else .ok (⟨T_INTLIT, val⟩, lx2)

def stringLiteral (lx : lexer) : Except LexerError (token × lexer) :=
  let lx1 := lx.advance
  let start := lx1.pos
  let lx2 : lexer := { lx1 with pos := scanString lx1.rest lx1.pos }
  if lx2.isEOF then .error .unterminatedString
  else
    let val := substr lx.src start (lx2.pos - start)
    .ok (⟨T_STRINGLIT, val⟩, lx2.advance)

def comment (lx : lexer) : Except LexerError (token × lexer) :=
  let lx1 := lx.advance
  if lx1.peek = '/' then
    .ok (⟨T_COMMENT, ""⟩, { lx1 with pos := scanWhile (fun c => c != '\n') lx1.rest lx1.pos })
  else if lx1.peek = '*' then
    let lx2 := lx1.advance
    match scanBlockComment lx2.rest lx2.pos with
    | some p => .ok (⟨T_COMMENT, ""⟩, { lx2 with pos := p })
    | none => .error .unterminatedBlockComment
  else .ok (⟨T_DIV, "/"⟩, lx1)

/-- The state after `pos += 2`. -/
def skip2 (lx : lexer) : lexer := { lx with pos := lx.pos + 2 }

/-- The part of `getNextToken` after `char c = peek();`. -/
def tokenAt (lx : lexer) (c : Char) : Except LexerError (token × lexer) :=
  if isalpha c || c = '_' then .ok lx.identifierOrKeyword
  else if isdigit c then lx.number
  else if c = '"' then lx.stringLiteral
  else if c = '/' then lx.comment
  else if c = '=' && lx.nextIs '=' then .ok (⟨T_EQUALSOP, "=="⟩, lx.skip2)
  else if c = '!' && lx.nextIs '=' then .ok (⟨T_NOTEQOP, "!="⟩, lx.skip2)
  else if c = '<' && lx.nextIs '=' then .ok (⟨T_LEQOP, "<="⟩, lx.skip2)
  else if c = '>' && lx.nextIs '=' then .ok (⟨T_GEQOP, ">="⟩, lx.skip2)
  else if c = '&' && lx.nextIs '&' then .ok (⟨T_AND, "&&"⟩, lx.skip2)
  else if c = '|' && lx.nextIs '|' then .ok (⟨T_OR, "||"⟩, lx.skip2)
  else if c = '+' then
    if lx.nextIs '+' then .ok (⟨T_INCREMENT, "++"⟩, lx.skip2)
    else if lx.nextIs '=' then .ok (⟨T_PLUS_ASSIGN, "+="⟩, lx.skip2)
    else .ok (⟨T_PLUS, "+"⟩, lx.advance)
  else if c = '-' then
    if lx.nextIs '-' then .ok (⟨T_DECREMENT, "--"⟩, lx.skip2)
    else if lx.nextIs '=' then .ok (⟨T_MINUS_ASSIGN, "-="⟩, lx.skip2)
    else .ok (⟨T_MINUS, "-"⟩, lx.advance)
  else if c = '*' then
    if lx.nextIs '=' then .ok (⟨T_MUL_ASSIGN, "*="⟩, lx.skip2)
    else .ok (⟨T_MUL, "*"⟩, lx.advance)
  else if c = '/' then
    if lx.nextIs '=' then .ok (⟨T_DIV_ASSIGN, "/="⟩, lx.skip2)
    else lx.comment
  else if c = '=' then .ok (⟨T_ASSIGNOP, "="⟩, lx.advance)
  else if c = '<' then .ok (⟨T_LESSOP, "<"⟩, lx.advance)
  else if c = '>' then .ok (⟨T_GREATOP, ">"⟩, lx.advance)
  else if c = '+' then .ok (⟨T_PLUS, "+"⟩, lx.advance)
  else if c = '-' then .ok (⟨T_MINUS, "-"⟩, lx.advance)
  else if c = '*' then .ok (⟨T_MUL, "*"⟩, lx.advance)
  else if c = '(' then .ok (⟨T_PARENL, "("⟩, lx.advance)
  else if c = ')' then .ok (⟨T_PARENR, ")"⟩, lx.advance)
  else if c = '\x7b' then .ok (⟨T_BRACEL, "\x7b"⟩, lx.advance)
  else if c = '\x7d' then .ok (⟨T_BRACER, "\x7d"⟩, lx.advance)
  else if c = '[' then .ok (⟨T_BRACKL, "["⟩, lx.advance)
  else if c = ']' then .ok (⟨T_BRACKR, "]"⟩, lx.advance)
  else if c = ',' then .ok (⟨T_COMMA, ","⟩, lx.advance)
  else if c = ';' then .ok (⟨T_SEMICOLON, ";"⟩, lx.advance)
  else if c = '"' then .ok (⟨T_QUOTES, "\""⟩, lx.advance)
  else .error (.unknownToken c)

def getNextToken (lx0 : lexer) : Except LexerError (token × lexer) :=
  let lx := lx0.skipWhitespace
  if lx.isEOF then .ok (⟨T_EOF, ""⟩, lx)
  else tokenAt lx lx.peek

end lexer

/-- The outcome of the driver loop of `main` in `lexer_scratch.cpp`: the tokens
printed before the loop ended, and how it ended. -/
inductive LexRun where
  | eof (printed : List token)
  | failed (printed : List token) (err : LexerError)
  | unfinished (printed : List token)
deriving DecidableEq, Repr

def LexRun.push (t : token) : LexRun → LexRun
  | .eof ts => .eof (t :: ts)
  | .failed ts e => .failed (t :: ts) e
  | .unfinished ts => .unfinished (t :: ts)

/-- The loop `while (true) { t = getNextToken(); if (t.type == T_EOF) break; ... }`
of `main`, cut off after `fuel` calls. -/
def tokenize : Nat → lexer → LexRun
  | 0, _ => .unfinished []
  | fuel + 1, lx =>
    match lx.getNextToken with
    | .error e => .failed [] e
    | .ok (t, lx1) => if t.type = T_EOF then .eof [] else (tokenize fuel lx1).push t

/-! ## The syntax tree (`phase2/parser.cpp`, `phase-IR/parser.h`)

The C++ nodes are reached through `shared_ptr<ASTNode>`; the parser builds
expression nodes in expression positions and statement nodes in statement
positions only, and the embedding records this in the types.  A pointer that the
parser may leave null (`VarDeclNode::init`, `ReturnNode::expr`,
`IfNode::elseBlock`) is an `Option`.  A `shared_ptr<BlockNode>` is the list of
the statements of the block. -/

/-- The expression nodes. -/
inductive Expr where
  | BinaryOpNode (op : String) (left right : Expr)
  | UnaryOpNode (op : String) (operand : Expr) (isPostfix : Bool)
  | LiteralNode (kind value : String)
  | IdentifierNode (name : String)
  | CallNode (callee : Expr) (args : List Expr)
  | AssignmentNode (left : Expr) (op : String) (right : Expr)
deriving Repr

/-- The statement nodes. -/
inductive Stmt where
  | BlockNode (stmts : List Stmt)
  | VarDeclNode (typeName name : String) (init : Option Expr)
  | ReturnNode (expr : Option Expr)
  | IfNode (cond : Expr) (thenBlock : List Stmt) (elseBlock : Option (List Stmt))
  | WhileNode (cond : Expr) (body : List Stmt)
  | ExprStmtNode (expr : Expr)
deriving Repr

/-- The items of a program: a `FunctionNode` or a statement. -/
inductive Item where
  | FunctionNode (retType name : String) (params : List (String × String)) (body : List Stmt)
  | Statement (s : Stmt)
deriving Repr

/-- The root node. -/
structure ProgramNode where
  items : List Item
deriving Repr

/-! ## The parser (`phase2/parser.cpp`)

The implementation file of the lexer that the parser is linked with is not part
of the sources; the parser only calls `getNextToken`.  The lexer is therefore
given by the sequence of its answers. -/

/-- The lexer as the parser sees it: `pending` are the tokens that the next calls
of `getNextToken` return; after them the lexer throws `failure`, or, when there
is none, returns `(T_EOF, "")` on every call. -/
structure TokenStream where
  pending : List token
  failure : Option LexerError
deriving DecidableEq, Repr

def TokenStream.getNextToken (s : TokenStream) : Except LexerError (token × TokenStream) :=
  match s.pending with
  | t :: r => .ok (t, { s with pending := r })
  | [] =>
    match s.failure with
    | some e => .error e
    | none => .ok (⟨T_EOF, ""⟩, s)

/-- The answers of the hand-written lexer on a source. -/
def TokenStream.ofSource (src : String) : TokenStream :=
  match tokenize (src.length + 1) ⟨src.toList, 0⟩ with
  | .eof ts => ⟨ts, none⟩
  | .failed ts e => ⟨ts, some e⟩
  | .unfinished ts => ⟨ts, none⟩

/-- The enumeration `ParseError::Kind` (`phase3/parser_error.h`). -/
inductive ParseErrorKind where
  | UnexpectedEOF | FailedToFindToken | ExpectedTypeToken | ExpectedIdentifier
  | UnexpectedToken | ExpectedFloatLit | ExpectedIntLit | ExpectedStringLit
  | ExpectedBoolLit | ExpectedExpr
deriving DecidableEq, Repr

/-- The struct `ParseError`. -/
structure ParseError where
  kind : ParseErrorKind
  offending : token
deriving DecidableEq, Repr

/-- What ends a run of the parser without a tree: an exception of the lexer, a
`ParseError`, or the exhaustion of the call-depth budget of the embedding. -/
inductive ParseFailure where
  | lexerError (e : LexerError)
  | parseError (e : ParseError)
  | outOfFuel
deriving DecidableEq, Repr

/-- The function `tokenTypeToString`. -/
def tokenTypeToString (type : tokenType) (val : String) : String :=
  match type with
  | T_FUNCTION => "T_FUNCTION" | T_INT => "T_INT" | T_FLOAT => "T_FLOAT"
  | T_BOOL => "T_BOOL" | T_STRING => "T_STRING" | T_IF => "T_IF" | T_ELSE => "T_ELSE"
  | T_WHILE => "T_WHILE" | T_FOR => "T_FOR" | T_RETURN => "T_RETURN"
  | T_IDENTIFIER => "T_IDENTIFIER(\"" ++ val ++ "\")"
  | T_INTLIT => "T_INTLIT(" ++ val ++ ")"
  | T_FLOATLIT => "T_FLOATLIT(" ++ val ++ ")"
  | T_STRINGLIT => "T_STRINGLIT(" ++ val ++ ")"
  | T_BOOLLIT => "T_BOOLLIT(" ++ val ++ ")"
  | T_ASSIGNOP => "T_ASSIGNOP" | T_EQUALSOP => "T_EQUALSOP" | T_NOTEQOP => "T_NOTEQOP"
  | T_LESSOP => "T_LESSOP" | T_GREATOP => "T_GREATOP" | T_LEQOP => "T_LEQOP"
  | T_GEQOP => "T_GEQOP" | T_AND => "T_AND" | T_OR => "T_OR" | T_PLUS => "T_PLUS"
  | T_MINUS => "T_MINUS" | T_MUL => "T_MUL" | T_DIV => "T_DIV"
  | T_PARENL => "T_PARENL" | T_PARENR => "T_PARENR" | T_BRACEL => "T_BRACEL"
  | T_BRACER => "T_BRACER" | T_BRACKL => "T_BRACKL" | T_BRACKR => "T_BRACKR"
  | T_COMMA => "T_COMMA" | T_SEMICOLON => "T_SEMICOLON" | T_QUOTES => "T_QUOTES"
  | T_COMMENT => "T_COMMENT" | T_INVALID => "T_INVALID"
  | T_PLUS_ASSIGN => "T_PLUS_ASSIGN" | T_MINUS_ASSIGN => "T_MINUS_ASSIGN"
  | T_MUL_ASSIGN => "T_MUL_ASSIGN" | T_DIV_ASSIGN => "T_DIV_ASSIGN"
  | T_INCREMENT => "T_INCREMENT" | T_DECREMENT => "T_DECREMENT" | T_EOF => "T_EOF"

/-- The class `Parser`: the lexer and the current token. -/
structure Parser where
  lx : TokenStream
  cur : token
deriving DecidableEq, Repr

/-- The loop of `Parser::advance`: take the next answer of the lexer until it is
not a `T_COMMENT`. -/
def advanceLoop : List token → Option LexerError → Except ParseFailure Parser
  | [], none => .ok ⟨⟨[], none⟩, ⟨T_EOF, ""⟩⟩
  | [], some e => .error (.lexerError e)
  | t :: r, f => if t.type = T_COMMENT then advanceLoop r f else .ok ⟨⟨r, f⟩, t⟩

namespace Parser

def advance (p : Parser) : Except ParseFailure Parser :=
  advanceLoop p.lx.pending p.lx.failure

/-- The constructor `Parser(src)`: the lexer on the source, then `advance()`. -/
def new (lx : TokenStream) : Except ParseFailure Parser :=
  advanceLoop lx.pending lx.failure

def expect (t : tokenType) (errKind : ParseErrorKind) (p : Parser) :
    Except ParseFailure Parser :=
  if p.cur.type ≠ t then
    if p.cur.type = T_EOF then .error (.parseError ⟨.UnexpectedEOF, p.cur⟩)
    else .error (.parseError ⟨errKind, p.cur⟩)
  else p.advance

def parseTypeName (p : Parser) : Except ParseFailure (String × Parser) :=
  if p.cur.type = T_INT || p.cur.type = T_FLOAT || p.cur.type = T_BOOL
      || p.cur.type = T_STRING then do
    let s := p.cur.value
    let p1 ← p.advance
    pure (s, p1)
  else .error (.parseError ⟨.ExpectedTypeToken, p.cur⟩)

def parsePrimary (parseExpression : Parser → Except ParseFailure (Expr × Parser))
    (p : Parser) : Except ParseFailure (Expr × Parser) :=
  if p.cur.type = T_IDENTIFIER then do
    let p1 ← p.advance
    pure (.IdentifierNode p.cur.value, p1)
  else if p.cur.type = T_INTLIT then do
    let p1 ← p.advance
    pure (.LiteralNode "int" p.cur.value, p1)
  else if p.cur.type = T_FLOATLIT then do
    let p1 ← p.advance
    pure (.LiteralNode "float" p.cur.value, p1)
  else if p.cur.type = T_STRINGLIT then do
    let p1 ← p.advance
    pure (.LiteralNode "string" p.cur.value, p1)
  else if p.cur.type = T_BOOLLIT then do
    let p1 ← p.advance
    pure (.LiteralNode "bool" p.cur.value, p1)
  else if p.cur.type = T_PARENL then do
    let p1 ← p.advance
    let (e, p2) ← parseExpression p1
    let p3 ← expect T_PARENR .FailedToFindToken p2
    pure (e, p3)
  else
    match p.cur.type with
    | T_INT => .error (.parseError ⟨.ExpectedIntLit, p.cur⟩)
    | T_FLOAT => .error (.parseError ⟨.ExpectedFloatLit, p.cur⟩)
    | T_STRING => .error (.parseError ⟨.ExpectedStringLit, p.cur⟩)
    | T_BOOL => .error (.parseError ⟨.ExpectedBoolLit, p.cur⟩)
    | T_EOF => .error (.parseError ⟨.UnexpectedEOF, p.cur⟩)
    | _ => .error (.parseError ⟨.UnexpectedToken, p.cur⟩)

/-- The operator string chosen by `parseAssignment` for the current token. -/
def assignmentOp (cur : token) : String :=
  let op := if cur.value.isEmpty then tokenTypeToString cur.type cur.value else cur.value
  if cur.type = T_ASSIGNOP then "="
  else if cur.type = T_PLUS_ASSIGN then "+="
  else if cur.type = T_MINUS_ASSIGN then "-="
  else if cur.type = T_MUL_ASSIGN then "*="
  else if cur.type = T_DIV_ASSIGN then "/="
  else op

/-! The expression functions call one another; each call spends one unit of the
budget, and so does each turn of a `while` loop that parses. -/

mutual

def parseExpression : Nat → Parser → Except ParseFailure (Expr × Parser)
  | 0, _ => .error .outOfFuel
  | n + 1, p =>
    if p.cur.type = T_EOF then .error (.parseError ⟨.ExpectedExpr, p.cur⟩)
    else parseAssignment n p

def parseAssignment : Nat → Parser → Except ParseFailure (Expr × Parser)
  | 0, _ => .error .outOfFuel
  | n + 1, p => do
    let (left, p1) ← parseLogicalOr n p
    if p1.cur.type = T_ASSIGNOP || p1.cur.type = T_PLUS_ASSIGN
        || p1.cur.type = T_MINUS_ASSIGN || p1.cur.type = T_MUL_ASSIGN
        || p1.cur.type = T_DIV_ASSIGN then do
      let op := assignmentOp p1.cur
      let p2 ← p1.advance
      let (right, p3) ← parseAssignment n p2
      pure (.AssignmentNode left op right, p3)
    else pure (left, p1)

def parseLogicalOr : Nat → Parser → Except ParseFailure (Expr × Parser)
  | 0, _ => .error .outOfFuel
  | n + 1, p => do
    let (node, p1) ← parseLogicalAnd n p
    parseLogicalOrLoop n node p1

/-- The loop `while (cur.type == T_OR)` of `parseLogicalOr`. -/
def parseLogicalOrLoop : Nat → Expr → Parser → Except ParseFailure (Expr × Parser)
  | 0, _, _ => .error .outOfFuel
  | n + 1, node, p =>
    if p.cur.type = T_OR then do
      let op := "||"
      let p1 ← p.advance
      let (rhs, p2) ← parseLogicalAnd n p1
      parseLogicalOrLoop n (.BinaryOpNode op node rhs) p2
    else pure (node, p)

def parseLogicalAnd : Nat → Parser → Except ParseFailure (Expr × Parser)
  | 0, _ => .error .outOfFuel
  | n + 1, p => do
    let (node, p1) ← parseEquality n p
    parseLogicalAndLoop n node p1

/-- The loop `while (cur.type == T_AND)` of `parseLogicalAnd`. -/
def parseLogicalAndLoop : Nat → Expr → Parser → Except ParseFailure (Expr × Parser)
  | 0, _, _ => .error .outOfFuel
  | n + 1, node, p =>
    if p.cur.type = T_AND then do
      let op := "&&"
      let p1 ← p.advance
      let (rhs, p2) ← parseEquality n p1
      parseLogicalAndLoop n (.BinaryOpNode op node rhs) p2
    else pure (node, p)

def parseEquality : Nat → Parser → Except ParseFailure (Expr × Parser)
  | 0, _ => .error .outOfFuel
  | n + 1, p => do
    let (node, p1) ← parseRelational n p
    parseEqualityLoop n node p1

/-- The loop of `parseEquality`. -/
def parseEqualityLoop : Nat → Expr → Parser → Except ParseFailure (Expr × Parser)
  | 0, _, _ => .error .outOfFuel
  | n + 1, node, p =>
    if p.cur.type = T_EQUALSOP || p.cur.type = T_NOTEQOP then do
      let op := p.cur.value
      let p1 ← p.advance
      let (rhs, p2) ← parseRelational n p1
      parseEqualityLoop n (.BinaryOpNode op node rhs) p2
    else pure (node, p)

def parseRelational : Nat → Parser → Except ParseFailure (Expr × Parser)
  | 0, _ => .error .outOfFuel
  | n + 1, p => do
    let (node, p1) ← parseAdditive n p
    parseRelationalLoop n node p1

/-- The loop of `parseRelational`. -/
def parseRelationalLoop : Nat → Expr → Parser → Except ParseFailure (Expr × Parser)
  | 0, _, _ => .error .outOfFuel
  | n + 1, node, p =>
    if p.cur.type = T_LESSOP || p.cur.type = T_GREATOP || p.cur.type = T_LEQOP
        || p.cur.type = T_GEQOP then do
      let op := p.cur.value
      let p1 ← p.advance
      let (rhs, p2) ← parseAdditive n p1
      parseRelationalLoop n (.BinaryOpNode op node rhs) p2
    else pure (node, p)

def parseAdditive : Nat → Parser → Except ParseFailure (Expr × Parser)
  | 0, _ => .error .outOfFuel
  | n + 1, p => do
    let (node, p1) ← parseMultiplicative n p
    parseAdditiveLoop n node p1

/-- The loop of `parseAdditive`. -/
def parseAdditiveLoop : Nat → Expr → Parser → Except ParseFailure (Expr × Parser)
  | 0, _, _ => .error .outOfFuel
  | n + 1, node, p =>
    if p.cur.type = T_PLUS || p.cur.type = T_MINUS then do
      let op := p.cur.value
      let p1 ← p.advance
      let (rhs, p2) ← parseMultiplicative n p1
      parseAdditiveLoop n (.BinaryOpNode op node rhs) p2
    else pure (node, p)

def parseMultiplicative : Nat → Parser → Except ParseFailure (Expr × Parser)
  | 0, _ => .error .outOfFuel
  | n + 1, p => do
    let (node, p1) ← parseUnary n p
    parseMultiplicativeLoop n node p1

/-- The loop of `parseMultiplicative`. -/
def parseMultiplicativeLoop : Nat → Expr → Parser → Except ParseFailure (Expr × Parser)
  | 0, _, _ => .error .outOfFuel
  | n + 1, node, p =>
    if p.cur.type = T_MUL || p.cur.type = T_DIV then do
      let op := p.cur.value
      let p1 ← p.advance
      let (rhs, p2) ← parseUnary n p1
      parseMultiplicativeLoop n (.BinaryOpNode op node rhs) p2
    else pure (node, p)

def parseUnary : Nat → Parser → Except ParseFailure (Expr × Parser)
  | 0, _ => .error .outOfFuel
  | n + 1, p =>
    if p.cur.type = T_PLUS || p.cur.type = T_MINUS then do
      let op := p.cur.value
      let p1 ← p.advance
      let (operand, p2) ← parseUnary n p1
      pure (.UnaryOpNode op operand false, p2)
    else if p.cur.type = T_INCREMENT || p.cur.type = T_DECREMENT then do
      let op := p.cur.value
      let p1 ← p.advance
      let (operand, p2) ← parseUnary n p1
      pure (.UnaryOpNode op operand false, p2)
    else parsePostfix n p

def parsePostfix : Nat → Parser → Except ParseFailure (Expr × Parser)
  | 0, _ => .error .outOfFuel
  | n + 1, p => do
    let (node, p1) ← parsePrimary (parseExpression n) p
    parsePostfixLoop n node p1

/-- The loop `while (true)` of `parsePostfix`. -/
def parsePostfixLoop : Nat → Expr → Parser → Except ParseFailure (Expr × Parser)
  | 0, _, _ => .error .outOfFuel
  | n + 1, node, p =>
    if p.cur.type = T_PARENL then do
      let p1 ← p.advance
      let (args, p2) ← (if p1.cur.type ≠ T_PARENR then parseArgs n [] p1 else pure ([], p1))
      let p3 ← expect T_PARENR .FailedToFindToken p2
      parsePostfixLoop n (.CallNode node args) p3
    else if p.cur.type = T_INCREMENT || p.cur.type = T_DECREMENT then do
      let op := p.cur.value
      let p1 ← p.advance
      parsePostfixLoop n (.UnaryOpNode op node true) p1
    else pure (node, p)

/-- The inner loop `while (true)` of `parsePostfix` that collects the arguments. -/
def parseArgs : Nat → List Expr → Parser → Except ParseFailure (List Expr × Parser)
  | 0, _, _ => .error .outOfFuel
  | n + 1, args, p => do
    let (e, p1) ← parseExpression n p
    if p1.cur.type = T_COMMA then do
      let p2 ← p1.advance
      parseArgs n (args ++ [e]) p2
    else pure (args ++ [e], p1)

end

mutual

def parseBlock : Nat → Parser → Except ParseFailure (List Stmt × Parser)
  | 0, _ => .error .outOfFuel
  | n + 1, p => do
    let p1 ← expect T_BRACEL .FailedToFindToken p
    let (stmts, p2) ← parseBlockLoop n [] p1
    let p3 ← expect T_BRACER .FailedToFindToken p2
    pure (stmts, p3)

/-- The loop `while (cur.type != T_BRACER && cur.type != T_EOF)` of `parseBlock`. -/
def parseBlockLoop : Nat → List Stmt → Parser → Except ParseFailure (List Stmt × Parser)
  | 0, _, _ => .error .outOfFuel
  | n + 1, stmts, p =>
    if p.cur.type ≠ T_BRACER && p.cur.type ≠ T_EOF then do
      let (s, p1) ← parseStatementOrDecl n p
      parseBlockLoop n (stmts ++ [s]) p1
    else pure (stmts, p)

def parseStatementOrDecl : Nat → Parser → Except ParseFailure (Stmt × Parser)
  | 0, _ => .error .outOfFuel
  | n + 1, p =>
    if p.cur.type = T_INT || p.cur.type = T_FLOAT || p.cur.type = T_BOOL
        || p.cur.type = T_STRING then do
      let (tname, p1) ← parseTypeName p
      if p1.cur.type ≠ T_IDENTIFIER then
        throw (.parseError ⟨.ExpectedIdentifier, p1.cur⟩)
      let name := p1.cur.value
      let p2 ← p1.advance
      let (init, p4) ← (if p2.cur.type = T_ASSIGNOP then do
          let p3 ← p2.advance
          let (e, p4) ← parseExpression n p3
          pure (some e, p4)
        else pure (none, p2))
      let p5 ← expect T_SEMICOLON .FailedToFindToken p4
      pure (.VarDeclNode tname name init, p5)
    else if p.cur.type = T_IF then parseIf n p
    else if p.cur.type = T_WHILE then parseWhile n p
    else if p.cur.type = T_RETURN then do
      let p1 ← p.advance
      let (expr, p2) ← (if p1.cur.type ≠ T_SEMICOLON then do
          let (e, p2) ← parseExpression n p1
          pure (some e, p2)
        else pure (none, p1))
      let p3 ← expect T_SEMICOLON .FailedToFindToken p2
      pure (.ReturnNode expr, p3)
    else if p.cur.type = T_BRACEL then do
      let (b, p1) ← parseBlock n p
      pure (.BlockNode b, p1)
    else do
      let (e, p1) ← parseExpression n p
      let p2 ← expect T_SEMICOLON .FailedToFindToken p1
      pure (.ExprStmtNode e, p2)

def parseIf : Nat → Parser → Except ParseFailure (Stmt × Parser)
  | 0, _ => .error .outOfFuel
  | n + 1, p => do
    let p1 ← expect T_IF .FailedToFindToken p
    let p2 ← expect T_PARENL .FailedToFindToken p1
    let (cond, p3) ← parseExpression n p2
    let p4 ← expect T_PARENR .FailedToFindToken p3
    let (thenB, p5) ← parseBlock n p4
    if p5.cur.type = T_ELSE then do
      let p6 ← p5.advance
      if p6.cur.type = T_BRACEL then do
        let (elseB, p7) ← parseBlock n p6
        pure (.IfNode cond thenB (some elseB), p7)
      else do
        let (s, p7) ← parseStatementOrDecl n p6
        pure (.IfNode cond thenB (some [s]), p7)
    else pure (.IfNode cond thenB none, p5)

def parseWhile : Nat → Parser → Except ParseFailure (Stmt × Parser)
  | 0, _ => .error .outOfFuel
  | n + 1, p => do
    let p1 ← expect T_WHILE .FailedToFindToken p
    let p2 ← expect T_PARENL .FailedToFindToken p1
    let (cond, p3) ← parseExpression n p2
    let p4 ← expect T_PARENR .FailedToFindToken p3
    let (body, p5) ← parseBlock n p4
    pure (.WhileNode cond body, p5)

end

/-- The loop `while (true)` of `parseFunction` that reads the parameters. -/
def parseParams : Nat → List (String × String) → Parser →
    Except ParseFailure (List (String × String) × Parser)
  | 0, _, _ => .error .outOfFuel
  | n + 1, params, p => do
    let (ptype, p1) ← parseTypeName p
    if p1.cur.type ≠ T_IDENTIFIER then
      throw (.parseError ⟨.ExpectedIdentifier, p1.cur⟩)
    let pname := p1.cur.value
    let p2 ← p1.advance
    if p2.cur.type = T_COMMA then do
      let p3 ← p2.advance
      parseParams n (params ++ [(ptype, pname)]) p3
    else pure (params ++ [(ptype, pname)], p2)

def parseFunction (n : Nat) (p : Parser) : Except ParseFailure (Item × Parser) := do
  let p1 ← expect T_FUNCTION .FailedToFindToken p
  let (ret, p2) ← parseTypeName p1
  if p2.cur.type ≠ T_IDENTIFIER then
    throw (.parseError ⟨.ExpectedIdentifier, p2.cur⟩)
  let fname := p2.cur.value
  let p3 ← p2.advance
  let p4 ← expect T_PARENL .FailedToFindToken p3
  let (params, p5) ← (if p4.cur.type ≠ T_PARENR then parseParams n [] p4 else pure ([], p4))
  let p6 ← expect T_PARENR .FailedToFindToken p5
  let (body, p7) ← parseBlock n p6
  pure (.FunctionNode ret fname params body, p7)

/-- The loop `while (cur.type != T_EOF)` of `parseProgram`. -/
def parseProgramLoop : Nat → List Item → Parser → Except ParseFailure (List Item × Parser)
  | 0, _, _ => .error .outOfFuel
  | n + 1, items, p =>
    if p.cur.type ≠ T_EOF then
      if p.cur.type = T_FUNCTION then do
        let (f, p1) ← parseFunction n p
        parseProgramLoop n (items ++ [f]) p1
      else do
        let (s, p1) ← parseStatementOrDecl n p
        parseProgramLoop n (items ++ [.Statement s]) p1
    else pure (items, p)

def parseProgram (n : Nat) (p : Parser) : Except ParseFailure (ProgramNode × Parser) := do
  let (items, p1) ← parseProgramLoop n [] p
  pure (⟨items⟩, p1)

end Parser

/-- The statements of `main` in `phase2/parser.cpp`: build the parser on the
answers of the lexer and parse the program. -/
def parseSource (fuel : Nat) (lx : TokenStream) : Except ParseFailure ProgramNode := do
  let p ← Parser.new lx
  let (prog, _) ← Parser.parseProgram fuel p
  pure prog

/-! ## Scopes (`phase-IR/scope_analyzer.h`, `phase4-typeChecking/scope_analyzer.cpp`)

A `ScopeNode` is reachable only from `currentScope` through `parent` pointers,
and the chain always ends in the global scope: `enterScope` puts a new node in
front of the chain and `exitScope` drops the first node.  The chain is the list
`inner` (innermost scope first) followed by `globalScope`.  The
`unordered_map` of a scope is an association list; a name is inserted only
after `find` has missed it. -/

/-- The enumeration `ScopeError`. -/
inductive ScopeError where
  | UndeclaredVariableAccessed
  | UndefinedFunctionCalled
  | VariableRedefinition
  | FunctionPrototypeRedefinition
deriving DecidableEq, Repr

/-- The struct `SymbolInfo`. -/
structure SymbolInfo where
  name : String
  type : String
  isFunction : Bool
  paramTypes : List String
  scopeLevel : Nat
deriving DecidableEq, Repr

/-- The class `ScopeException`: the error kind and the symbol. -/
structure ScopeException where
  errorType : ScopeError
  symbolName : String
deriving DecidableEq, Repr

/-- The struct `ScopeStack::ScopeNode` without its parent pointer. -/
structure ScopeNode where
  id : Nat
  symbols : List (String × SymbolInfo)
deriving DecidableEq, Repr

/-- The call `symbols.find(name)`. -/
def ScopeNode.find (sc : ScopeNode) (name : String) : Option SymbolInfo :=
  sc.symbols.lookup name

/-- The assignment `symbols[name] = info` for a name that `find` has missed. -/
def ScopeNode.insert (sc : ScopeNode) (name : String) (info : SymbolInfo) : ScopeNode :=
  { sc with symbols := (name, info) :: sc.symbols }

/-- The class `ScopeStack`. -/
structure ScopeStack where
  inner : List ScopeNode
  globalScope : ScopeNode
  nextScopeId : Nat
deriving DecidableEq, Repr

/-- The search loop of `ScopeStack::lookup` along a chain of scopes. -/
def lookupIn (name : String) (functionLookup : Bool) : List ScopeNode → Option SymbolInfo
  | [] => none
  | scope :: parents =>
    match scope.find name with
    | some info =>
      if functionLookup && !info.isFunction then lookupIn name functionLookup parents
      else if !functionLookup && info.isFunction then lookupIn name functionLookup parents
      else some info
    | none => lookupIn name functionLookup parents

namespace ScopeStack

/-- The constructor `ScopeStack()`. -/
def new : ScopeStack := ⟨[], ⟨0, []⟩, 1⟩

/-- The node `currentScope` points to. -/
def currentScope (s : ScopeStack) : ScopeNode :=
  match s.inner with
  | [] => s.globalScope
  | sc :: _ => sc

/-- The chain from `currentScope` to the global scope. -/
def chain (s : ScopeStack) : List ScopeNode := s.inner ++ [s.globalScope]

def enterScope (s : ScopeStack) : ScopeStack :=
  { s with inner := ⟨s.nextScopeId, []⟩ :: s.inner, nextScopeId := s.nextScopeId + 1 }

def exitScope (s : ScopeStack) : ScopeStack :=
  match s.inner with
  | [] => s
  | _ :: parents => { s with inner := parents }

def addSymbol (s : ScopeStack) (name type : String) (isFunction : Bool) :
    Except ScopeException ScopeStack :=
  if (s.currentScope.find name).isSome then
    if isFunction then .error ⟨.FunctionPrototypeRedefinition, name⟩
    else .error ⟨.VariableRedefinition, name⟩
  else
    let info : SymbolInfo := ⟨name, type, isFunction, [], s.currentScope.id⟩
    match s.inner with
    | [] => .ok { s with globalScope := s.globalScope.insert name info }
    | sc :: parents => .ok { s with inner := sc.insert name info :: parents }

def addFunction (s : ScopeStack) (name retType : String) (paramTypes : List String) :
    Except ScopeException ScopeStack :=
  if (s.globalScope.find name).isSome then .error ⟨.FunctionPrototypeRedefinition, name⟩
  else
    let info : SymbolInfo := ⟨name, retType, true, paramTypes, s.globalScope.id⟩
    .ok { s with globalScope := s.globalScope.insert name info }

def lookup (s : ScopeStack) (name : String) (functionLookup : Bool) : Option SymbolInfo :=
  lookupIn name functionLookup s.chain

def requireSymbol (s : ScopeStack) (name : String) : Except ScopeException SymbolInfo :=
  match s.lookup name false with
  | none => .error ⟨.UndeclaredVariableAccessed, name⟩
  | some info => .ok info

def requireFunction (s : ScopeStack) (name : String) : Except ScopeException SymbolInfo :=
  match s.lookup name true with
  | none => .error ⟨.UndefinedFunctionCalled, name⟩
  | some info => .ok info

/-- The loop `for (param : params) addSymbol(param.second, param.first, false)` of
`analyzeFunction`, `checkFunction` and `genFunction`. -/
def addParams : List (String × String) → ScopeStack → Except ScopeException ScopeStack
  | [], s => .ok s
  | param :: params, s => do
    let s1 ← s.addSymbol param.2 param.1 false
    addParams params s1

end ScopeStack

/-! ## The scope analyzer (`phase4-typeChecking/scope_analyzer.cpp`)

`analyzeNode` dispatches on the class of the node; the embedding has one
function for the expression nodes and one for the statement nodes, each with the
body of the C++ function of that class in the matching case.  The functions for
expressions only read the scope stack. -/

namespace ScopeAnalyzer

mutual

def analyzeExpr : Expr → ScopeStack → Except ScopeException Unit
  -- analyzeBinaryOp
  | .BinaryOpNode _ left right, s => do
    analyzeExpr left s
    analyzeExpr right s
  -- analyzeUnaryOp
  | .UnaryOpNode _ operand _, s => analyzeExpr operand s
  -- analyzeLiteral
  | .LiteralNode _ _, _ => pure ()
  -- analyzeIdentifier
  | .IdentifierNode name, s => do
    let _ ← s.requireSymbol name
    pure ()
  -- analyzeCall
  | .CallNode callee args, s => do
    match callee with
    | .IdentifierNode name => do
      let _ ← s.requireFunction name
      pure ()
    | _ => analyzeExpr callee s
    analyzeExprs args s
  -- analyzeAssignment
  | .AssignmentNode left _ right, s => do
    match left with
    | .IdentifierNode name => do
      let _ ← s.requireSymbol name
      pure ()
    | _ => analyzeExpr left s
    analyzeExpr right s

/-- The loop `for (arg : node->args) analyzeNode(arg)`. -/
def analyzeExprs : List Expr → ScopeStack → Except ScopeException Unit
  | [], _ => pure ()
  | arg :: args, s => do
    analyzeExpr arg s
    analyzeExprs args s

end

mutual

def analyzeStmt : Stmt → ScopeStack → Except ScopeException ScopeStack
  -- analyzeBlock
  | .BlockNode stmts, s => do
    let s1 ← analyzeStmts stmts s.enterScope
    pure s1.exitScope
  -- analyzeVarDecl
  | .VarDeclNode typeName name init, s => do
    match init with
    | some e => analyzeExpr e s
    | none => pure ()
    s.addSymbol name typeName false
  -- analyzeReturn
  | .ReturnNode expr, s => do
    match expr with
    | some e => analyzeExpr e s
    | none => pure ()
    pure s
  -- analyzeIf
  | .IfNode cond thenBlock elseBlock, s => do
    analyzeExpr cond s
    let s1 ← analyzeStmts thenBlock s.enterScope
    let s2 := s1.exitScope
    match elseBlock with
    | some stmts => do
      let s3 ← analyzeStmts stmts s2.enterScope
      pure s3.exitScope
    | none => pure s2
  -- analyzeWhile
  | .WhileNode cond body, s => do
    analyzeExpr cond s
    let s1 ← analyzeStmts body s.enterScope
    pure s1.exitScope
  -- analyzeExprStmt
  | .ExprStmtNode expr, s => do
    analyzeExpr expr s
    pure s

/-- The loop `for (stmt : stmts) analyzeNode(stmt)`. -/
def analyzeStmts : List Stmt → ScopeStack → Except ScopeException ScopeStack
  | [], s => pure s
  | stmt :: stmts, s => do
    let s1 ← analyzeStmt stmt s
    analyzeStmts stmts s1

end

def analyzeFunction (params : List (String × String)) (body : List Stmt) (s : ScopeStack) :
    Except ScopeException ScopeStack := do
  let s1 ← s.enterScope.addParams params
  let s2 ← analyzeStmts body s1
  pure s2.exitScope

/-- The first loop of `analyzeProgram`: `addFunction` for every function item. -/
def hoistFunctions : List Item → ScopeStack → Except ScopeException ScopeStack
  | [], s => pure s
  | .FunctionNode retType name params _ :: items, s => do
    let s1 ← s.addFunction name retType (params.map (·.1))
    hoistFunctions items s1
  | .Statement _ :: items, s => hoistFunctions items s

/-- The second loop of `analyzeProgram`: `analyzeNode` for every item. -/
def analyzeItems : List Item → ScopeStack → Except ScopeException ScopeStack
  | [], s => pure s
  | .FunctionNode _ _ params body :: items, s => do
    let s1 ← analyzeFunction params body s
    analyzeItems items s1
  | .Statement stmt :: items, s => do
    let s1 ← analyzeStmt stmt s
    analyzeItems items s1

def analyzeProgram (node : ProgramNode) (s : ScopeStack) : Except ScopeException ScopeStack := do
  let s1 ← hoistFunctions node.items s
  analyzeItems node.items s1

/-- The method `ScopeAnalyzer::analyze` of a new `ScopeAnalyzer`; the result is
the scope stack that `getScopeStack()` then returns. -/
def analyze (program : ProgramNode) : Except ScopeException ScopeStack :=
  analyzeProgram program ScopeStack.new

end ScopeAnalyzer

/-! ## The type checker (`phase-IR/type_checker.h`, `phase-IR/type_checker.cpp`)

The checker works on the `ScopeStack` it was built with.  Its `addSymbol` calls
may throw a `ScopeException`, its own checks throw a `TypeCheckException`. -/

/-- The enumeration `TypeChkError`. -/
inductive TypeChkError where
  | ErroneousVarDecl
  | FnCallParamCount
  | FnCallParamType
  | ErroneousReturnType
  | ExpressionTypeMismatch
  | ExpectedBooleanExpression
  | ErroneousBreak
  | NonBooleanCondStmt
  | EmptyExpression
  | AttemptedBoolOpOnNonBools
  | AttemptedBitOpOnNonNumeric
  | AttemptedShiftOnNonInt
  | AttemptedAddOpOnNonNumeric
  | AttemptedExponentiationOfNonNumeric
  | ReturnStmtNotFound
deriving DecidableEq, Repr

/-- The class `TypeCheckException`: the error kind and the detail text. -/
structure TypeCheckException where
  errorType : TypeChkError
  details : String
deriving DecidableEq, Repr

/-- An exception that leaves `TypeChecker::check`. -/
inductive CheckFailure where
  | scopeException (e : ScopeException)
  | typeCheckException (e : TypeCheckException)
deriving DecidableEq, Repr

/-- The fields of the class `TypeChecker`. -/
structure TypeChecker where
  scopeStack : ScopeStack
  currentFunctionRetType : String
  hasReturnStmt : Bool
deriving DecidableEq, Repr

namespace TypeChecker

/-- The constructor `TypeChecker(ScopeStack& stack)`. -/
def new (stack : ScopeStack) : TypeChecker := ⟨stack, "", false⟩

def isNumericType (type : String) : Bool := type = "int" || type = "float"

def isIntegerType (type : String) : Bool := type = "int"

def isBooleanType (type : String) : Bool := type = "bool"

def areTypesCompatible (type1 type2 : String) : Bool :=
  if type1 = type2 then true
  else if (type1 = "int" && type2 = "float") || (type1 = "float" && type2 = "int") then true
  else false

def promoteTypes (type1 type2 : String) : String :=
  if type1 = type2 then type1
  else if (type1 = "int" && type2 = "float") || (type1 = "float" && type2 = "int") then "float"
  else type1

/-- The statement `throw TypeCheckException(type, detail)`. -/
def fail {α : Type} (type : TypeChkError) (detail : String) : Except CheckFailure α :=
  .error (.typeCheckException ⟨type, detail⟩)

/-- A call of a `ScopeStack` method that may throw. -/
def liftScope {α : Type} (r : Except ScopeException α) : Except CheckFailure α :=
  match r with
  | .ok a => .ok a
  | .error e => .error (.scopeException e)

def checkIdentifier (name : String) (s : ScopeStack) : Except CheckFailure String :=
  match s.lookup name false with
  | none => fail .ExpressionTypeMismatch ("Undefined variable '" ++ name ++ "'")
  | some symbol => pure symbol.type

/-- The part of `checkBinaryOp` after the operands have been checked. -/
def binaryOpType (op leftType rightType : String) : Except CheckFailure String :=
  if op = "&&" || op = "||" then
    if !isBooleanType leftType || !isBooleanType rightType then
      fail .AttemptedBoolOpOnNonBools ("Operator '" ++ op ++
        "' requires boolean operands, got '" ++ leftType ++ "' and '" ++ rightType ++ "'")
    else pure "bool"
  else if op = "==" || op = "!=" || op = "<" || op = ">" || op = "<=" || op = ">=" then
    if !areTypesCompatible leftType rightType then
      fail .ExpressionTypeMismatch ("Cannot compare '" ++ leftType ++ "' with '" ++
        rightType ++ "'")
    else pure "bool"
  else if op = "+" || op = "-" || op = "*" || op = "/" then
    if !isNumericType leftType || !isNumericType rightType then
      fail .AttemptedAddOpOnNonNumeric ("Operator '" ++ op ++
        "' requires numeric operands, got '" ++ leftType ++ "' and '" ++ rightType ++ "'")
    else pure (promoteTypes leftType rightType)
  else pure leftType

/-- The part of `checkUnaryOp` after the operand has been checked. -/
def unaryOpType (op operandType : String) : Except CheckFailure String :=
  if op = "-" || op = "+" then
    if !isNumericType operandType then
      fail .AttemptedAddOpOnNonNumeric ("Unary '" ++ op ++
        "' requires numeric operand, got '" ++ operandType ++ "'")
    else pure operandType
  else if op = "++" || op = "--" then
    if !isNumericType operandType then
      fail .AttemptedAddOpOnNonNumeric ("Operator '" ++ op ++
        "' requires numeric operand, got '" ++ operandType ++ "'")
    else pure operandType
  else pure operandType

/-- The part of `checkAssignment` after both sides have been checked. -/
def assignmentType (op leftType rightType : String) : Except CheckFailure String :=
  if op ≠ "=" then
    if !isNumericType leftType || !isNumericType rightType then
      fail .AttemptedAddOpOnNonNumeric ("Compound assignment '" ++ op ++
        "' requires numeric operands")
    else pure leftType
  else
    if !areTypesCompatible leftType rightType then
      fail .ExpressionTypeMismatch ("Cannot assign value of type '" ++ rightType ++
        "' to variable of type '" ++ leftType ++ "'")
    else pure leftType

mutual

/-- The function `checkNode` on an expression node. -/
def checkExpr : Expr → ScopeStack → Except CheckFailure String
  -- checkBinaryOp
  | .BinaryOpNode op left right, s => do
    let leftType ← checkExpr left s
    let rightType ← checkExpr right s
    binaryOpType op leftType rightType
  -- checkUnaryOp
  | .UnaryOpNode op operand _, s => do
    let operandType ← checkExpr operand s
    unaryOpType op operandType
  -- checkLiteral
  | .LiteralNode kind _, _ => pure kind
  -- checkIdentifier
  | .IdentifierNode name, s => checkIdentifier name s
  -- checkCall
  | .CallNode callee args, s =>
    match callee with
    | .IdentifierNode name =>
      match s.lookup name true with
      | none => fail .ExpressionTypeMismatch ("Undefined function '" ++ name ++ "'")
      | some funcSymbol =>
        if args.length ≠ funcSymbol.paramTypes.length then
          fail .FnCallParamCount ("Function '" ++ name ++ "' expects " ++
            toString funcSymbol.paramTypes.length ++ " parameters but got " ++
            toString args.length)
        else do
          checkArgs name args funcSymbol.paramTypes 0 s
          pure funcSymbol.type
    | _ => fail .ExpressionTypeMismatch "Invalid function call"
  -- checkAssignment
  | .AssignmentNode left op right, s =>
    match left with
    | .IdentifierNode name => do
      let leftType ← checkIdentifier name s
      let rightType ← checkExpr right s
      assignmentType op leftType rightType
    | _ => fail .ExpressionTypeMismatch "Left side of assignment must be a variable"

/-- The loop `for (int i = 0; i < node->args.size(); i++)` of `checkCall`, from
index `i` on; `expected` are the parameter types from index `i` on. -/
def checkArgs (fname : String) : List Expr → List String → Nat → ScopeStack →
    Except CheckFailure Unit
  | [], _, _, _ => pure ()
  | arg :: args, expected, i, s => do
    let argType ← checkExpr arg s
    let expectedType := expected.headD ""
    if !areTypesCompatible expectedType argType then
      fail .FnCallParamType ("Parameter " ++ toString (i + 1) ++ " of function '" ++ fname ++
        "' expects type '" ++ expectedType ++ "' but got '" ++ argType ++ "'")
    else checkArgs fname args expected.tail (i + 1) s

end

mutual

/-- The function `checkNode` on a statement node. -/
def checkStmt : Stmt → TypeChecker → Except CheckFailure TypeChecker
  -- checkBlock
  | .BlockNode stmts, c => do
    let c1 ← checkStmts stmts { c with scopeStack := c.scopeStack.enterScope }
    pure { c1 with scopeStack := c1.scopeStack.exitScope }
  -- checkVarDecl
  | .VarDeclNode typeName name init, c => do
    match init with
    | some e => do
      let initType ← checkExpr e c.scopeStack
      if !areTypesCompatible typeName initType then
        fail .ErroneousVarDecl ("Cannot initialize variable '" ++ name ++ "' of type '" ++
          typeName ++ "' with expression of type '" ++ initType ++ "'")
    | none => pure ()
    let s1 ← liftScope (c.scopeStack.addSymbol name typeName false)
    pure { c with scopeStack := s1 }
  -- checkReturn
  | .ReturnNode expr, c0 => do
    let c := { c0 with hasReturnStmt := true }
    match expr with
    | some e => do
      let exprType ← checkExpr e c.scopeStack
      if c.currentFunctionRetType = "void" then
        fail .ErroneousReturnType "Cannot return a value from void function"
      if !areTypesCompatible c.currentFunctionRetType exprType then
        fail .ErroneousReturnType ("Expected return type '" ++ c.currentFunctionRetType ++
          "' but got '" ++ exprType ++ "'")
      pure c
    | none =>
      if c.currentFunctionRetType ≠ "void" then
        fail .ErroneousReturnType ("Function must return value of type '" ++
          c.currentFunctionRetType ++ "'")
      else pure c
  -- checkIf
  | .IfNode cond thenBlock elseBlock, c => do
    let condType ← checkExpr cond c.scopeStack
    if !isBooleanType condType then
      fail .NonBooleanCondStmt ("If condition must be boolean, got '" ++ condType ++ "'")
    let c1 ← checkStmts thenBlock { c with scopeStack := c.scopeStack.enterScope }
    let c2 := { c1 with scopeStack := c1.scopeStack.exitScope }
    match elseBlock with
    | some stmts => do
      let c3 ← checkStmts stmts { c2 with scopeStack := c2.scopeStack.enterScope }
      pure { c3 with scopeStack := c3.scopeStack.exitScope }
    | none => pure c2
  -- checkWhile
  | .WhileNode cond body, c => do
    let condType ← checkExpr cond c.scopeStack
    if !isBooleanType condType then
      fail .NonBooleanCondStmt ("While condition must be boolean, got '" ++ condType ++ "'")
    let c1 ← checkStmts body { c with scopeStack := c.scopeStack.enterScope }
    pure { c1 with scopeStack := c1.scopeStack.exitScope }
  -- checkExprStmt
  | .ExprStmtNode expr, c => do
    let _ ← checkExpr expr c.scopeStack
    pure c

/-- The loop `for (stmt : stmts) checkNode(stmt)`. -/
def checkStmts : List Stmt → TypeChecker → Except CheckFailure TypeChecker
  | [], c => pure c
  | stmt :: stmts, c => do
    let c1 ← checkStmt stmt c
    checkStmts stmts c1

end

def checkFunction (retType name : String) (params : List (String × String))
    (body : List Stmt) (c0 : TypeChecker) : Except CheckFailure TypeChecker := do
  let c : TypeChecker :=
    { c0 with currentFunctionRetType := retType, hasReturnStmt := false }
  let s1 ← liftScope (c.scopeStack.enterScope.addParams params)
  let c2 ← checkStmts body { c with scopeStack := s1 }
  let c3 : TypeChecker := { c2 with scopeStack := c2.scopeStack.exitScope }
  if retType ≠ "void" && !c3.hasReturnStmt then
    fail .ReturnStmtNotFound ("Function '" ++ name ++ "' must return a value of type '" ++
      retType ++ "'")
  else pure c3

/-- The loop of `checkProgram`: `checkNode` for every item. -/
def checkItems : List Item → TypeChecker → Except CheckFailure TypeChecker
  | [], c => pure c
  | .FunctionNode retType name params body :: items, c => do
    let c1 ← checkFunction retType name params body c
    checkItems items c1
  | .Statement stmt :: items, c => do
    let c1 ← checkStmt stmt c
    checkItems items c1

def checkProgram (node : ProgramNode) (c : TypeChecker) : Except CheckFailure TypeChecker :=
  checkItems node.items c

def check (program : ProgramNode) (c : TypeChecker) : Except CheckFailure TypeChecker :=
  checkProgram program c

end TypeChecker

/-- The outcome of the two statements `scopeAnalyzer.analyze(ast)` and
`typeChecker.check(ast)` of `main`. -/
inductive FrontEndResult where
  | scopeErrorInAnalyzer (e : ScopeException)
  | scopeErrorInTypeChecker (e : ScopeException)
  | typeCheckError (e : TypeCheckException)
  | accepted
deriving DecidableEq, Repr

/-- The statements of `main` (`phase-IR/main.cpp`,
`phase4-typeChecking/main.cpp`) from the construction of the `ScopeAnalyzer` to
the end of type checking: the checker is built on `getScopeStack()` of the
analyzer. -/
def analyzeAndCheck (ast : ProgramNode) : FrontEndResult :=
  match ScopeAnalyzer.analyze ast with
  | .error e => .scopeErrorInAnalyzer e
  | .ok stack =>
    match TypeChecker.check ast (TypeChecker.new stack) with
    | .error (.scopeException e) => .scopeErrorInTypeChecker e
    | .error (.typeCheckException e) => .typeCheckError e
    | .ok _ => .accepted

/-! ## The IR generator (`phase-IR/ir.h`, `phase-IR/ir.cpp`)

The counters `tempCounter` and `labelCounter` are C++ `int`s.  Incrementing an
`int` that holds `INT_MAX` has no defined behaviour; the embedding stops there
with `signedOverflow`. -/

/-- The enumeration `IROpcode`. -/
inductive IROpcode where
  | ADD | SUB | MUL | DIV
  | NEG | NOT
  | EQ | NE | LT | LE | GT | GE
  | AND | OR
  | ASSIGN | COPY
  | LABEL | GOTO | IF_FALSE | IF_TRUE
  | PARAM | CALL | RETURN
  | FUNC_BEGIN | FUNC_END
deriving DecidableEq, Repr

/-- The struct `IRInstruction`. -/
structure IRInstruction where
  op : IROpcode
  result : String
  arg1 : String
  arg2 : String
deriving DecidableEq, Repr

/-- What ends `IRGenerator::generate` without a result. -/
inductive IRFailure where
  | scopeException (e : ScopeException)
  | signedOverflow
deriving DecidableEq, Repr

/-- The largest value of a C++ `int`. -/
def INT_MAX : Nat := 2147483647

/-- The fields of the class `IRGenerator`. -/
structure IRGenerator where
  instructions : List IRInstruction
  scopeStack : ScopeStack
  tempCounter : Nat
  labelCounter : Nat
  currentFunction : String
deriving DecidableEq, Repr

namespace IRGenerator

/-- The constructor `IRGenerator()`. -/
def new : IRGenerator := ⟨[], ScopeStack.new, 0, 0, ""⟩

def newTemp (g : IRGenerator) : Except IRFailure (String × IRGenerator) :=
  if g.tempCounter ≥ INT_MAX then .error .signedOverflow
  else .ok ("t" ++ toString g.tempCounter, { g with tempCounter := g.tempCounter + 1 })

def newLabel (g : IRGenerator) : Except IRFailure (String × IRGenerator) :=
  if g.labelCounter ≥ INT_MAX then .error .signedOverflow
  else .ok ("L" ++ toString g.labelCounter, { g with labelCounter := g.labelCounter + 1 })

/-- The method `emit`; an argument left out in the C++ call is the empty string. -/
def emit (g : IRGenerator) (op : IROpcode) (result arg1 arg2 : String) : IRGenerator :=
  { g with instructions := g.instructions ++ [⟨op, result, arg1, arg2⟩] }

/-- A call of a `ScopeStack` method that may throw. -/
def liftScope {α : Type} (r : Except ScopeException α) : Except IRFailure α :=
  match r with
  | .ok a => .ok a
  | .error e => .error (.scopeException e)

/-- The opcode chosen by `genBinaryOp`. -/
def binaryOpcode (op : String) : IROpcode :=
  if op = "+" then .ADD
  else if op = "-" then .SUB
  else if op = "*" then .MUL
  else if op = "/" then .DIV
  else if op = "==" then .EQ
  else if op = "!=" then .NE
  else if op = "<" then .LT
  else if op = "<=" then .LE
  else if op = ">" then .GT
  else if op = ">=" then .GE
  else if op = "&&" then .AND
  else if op = "||" then .OR
  else .ADD

/-- The opcode chosen by `genAssignment` for a compound assignment. -/
def compoundOpcode (op : String) : IROpcode :=
  if op = "+=" then .ADD
  else if op = "-=" then .SUB
  else if op = "*=" then .MUL
  else if op = "/=" then .DIV
  else .ADD

mutual

def genExpression : Expr → IRGenerator → Except IRFailure (String × IRGenerator)
  -- genBinaryOp
  | .BinaryOpNode op left right, g => do
    let (left, g1) ← genExpression left g
    let (right, g2) ← genExpression right g1
    let (result, g3) ← g2.newTemp
    pure (result, g3.emit (binaryOpcode op) result left right)
  -- genUnaryOp
  | .UnaryOpNode op operand isPostfix, g => do
    let (operand, g1) ← genExpression operand g
    if op = "++" || op = "--" then
      let one := "1"
      let opc := if op = "++" then IROpcode.ADD else IROpcode.SUB
      if isPostfix then do
        let (temp, g2) ← g1.newTemp
        let g3 := g2.emit .COPY temp operand ""
        let (result, g4) ← g3.newTemp
        let g5 := g4.emit opc result operand one
        pure (temp, g5.emit .COPY operand result "")
      else do
        let (result, g2) ← g1.newTemp
        let g3 := g2.emit opc result operand one
        pure (result, g3.emit .COPY operand result "")
    else if op = "-" then do
      let (result, g2) ← g1.newTemp
      pure (result, g2.emit .NEG result operand "")
    else if op = "!" then do
      let (result, g2) ← g1.newTemp
      pure (result, g2.emit .NOT result operand "")
    else pure (operand, g1)
  -- genLiteral
  | .LiteralNode _ value, g => pure (value, g)
  -- genIdentifier
  | .IdentifierNode name, g => pure (name, g)
  -- genCall
  | .CallNode callee args, g =>
    match callee with
    | .IdentifierNode name => do
      let g1 ← genArgs args g
      let (result, g2) ← g1.newTemp
      let numArgs := toString args.length
      pure (result, g2.emit .CALL result name numArgs)
    | _ => pure ("", g)
  -- genAssignment
  | .AssignmentNode left op right, g =>
    match left with
    | .IdentifierNode name => do
      let (rightValue, g1) ← genExpression right g
      if op = "=" then
        pure (name, g1.emit .COPY name rightValue "")
      else do
        let (result, g2) ← g1.newTemp
        let g3 := g2.emit (compoundOpcode op) result name rightValue
        pure (name, g3.emit .COPY name result "")
    | _ => pure ("", g)

/-- The loop of `genCall`: for every argument, `genExpression` and then the
emission of its `PARAM`. -/
def genArgs : List Expr → IRGenerator → Except IRFailure IRGenerator
  | [], g => pure g
  | arg :: args, g => do
    let (argValue, g1) ← genExpression arg g
    genArgs args (g1.emit .PARAM "" argValue "")

end

mutual

/-- The dispatch on the class of a statement in the loops of `genFunction` and
`genBlock`, with the body of the function it calls. -/
def genStmt : Stmt → IRGenerator → Except IRFailure IRGenerator
  -- genVarDecl
  | .VarDeclNode typeName name init, g => do
    let g1 ← (match init with
      | some e => do
        let (initValue, g1) ← genExpression e g
        pure (g1.emit .COPY name initValue "")
      | none => pure g)
    let s1 ← liftScope (g1.scopeStack.addSymbol name typeName false)
    pure { g1 with scopeStack := s1 }
  -- genReturn
  | .ReturnNode expr, g =>
    match expr with
    | some e => do
      let (retValue, g1) ← genExpression e g
      pure (g1.emit .RETURN "" retValue "")
    | none => pure (g.emit .RETURN "" "" "")
  -- genIf
  | .IfNode cond thenBlock elseBlock, g => do
    let (condResult, g1) ← genExpression cond g
    let (elseLabel, g2) ← g1.newLabel
    let (endLabel, g3) ← g2.newLabel
    match elseBlock with
    | some stmts => do
      let g4 := g3.emit .IF_FALSE elseLabel condResult ""
      let g5 ← genStmts thenBlock { g4 with scopeStack := g4.scopeStack.enterScope }
      let g6 := { g5 with scopeStack := g5.scopeStack.exitScope }
      let g7 := g6.emit .GOTO endLabel "" ""
      let g8 := g7.emit .LABEL elseLabel "" ""
      let g9 ← genStmts stmts { g8 with scopeStack := g8.scopeStack.enterScope }
      let g10 := { g9 with scopeStack := g9.scopeStack.exitScope }
      pure (g10.emit .LABEL endLabel "" "")
    | none => do
      let g4 := g3.emit .IF_FALSE endLabel condResult ""
      let g5 ← genStmts thenBlock { g4 with scopeStack := g4.scopeStack.enterScope }
      let g6 := { g5 with scopeStack := g5.scopeStack.exitScope }
      pure (g6.emit .LABEL endLabel "" "")
  -- genWhile
  | .WhileNode cond body, g => do
    let (startLabel, g1) ← g.newLabel
    let (endLabel, g2) ← g1.newLabel
    let g3 := g2.emit .LABEL startLabel "" ""
    let (condResult, g4) ← genExpression cond g3
    let g5 := g4.emit .IF_FALSE endLabel condResult ""
    let g6 ← genStmts body { g5 with scopeStack := g5.scopeStack.enterScope }
    let g7 := { g6 with scopeStack := g6.scopeStack.exitScope }
    let g8 := g7.emit .GOTO startLabel "" ""
    pure (g8.emit .LABEL endLabel "" "")
  -- genExprStmt
  | .ExprStmtNode expr, g => do
    let (_, g1) ← genExpression expr g
    pure g1
  -- genBlock
  | .BlockNode stmts, g => do
    let g1 ← genStmts stmts { g with scopeStack := g.scopeStack.enterScope }
    pure { g1 with scopeStack := g1.scopeStack.exitScope }

/-- The loop over the statements of a block or of a function body. -/
def genStmts : List Stmt → IRGenerator → Except IRFailure IRGenerator
  | [], g => pure g
  | stmt :: stmts, g => do
    let g1 ← genStmt stmt g
    genStmts stmts g1

end

def genFunction (name : String) (params : List (String × String)) (body : List Stmt)
    (g0 : IRGenerator) : Except IRFailure IRGenerator := do
  let g : IRGenerator := { g0 with currentFunction := name }
  let g1 := g.emit .FUNC_BEGIN name "" ""
  let s1 ← liftScope (g1.scopeStack.enterScope.addParams params)
  let g2 ← genStmts body { g1 with scopeStack := s1 }
  let g3 : IRGenerator := { g2 with scopeStack := g2.scopeStack.exitScope }
  pure (g3.emit .FUNC_END name "" "")

/-- The second loop of `genProgram`. -/
def genItems : List Item → IRGenerator → Except IRFailure IRGenerator
  | [], g => pure g
  | .FunctionNode _ name params body :: items, g => do
    let g1 ← genFunction name params body g
    genItems items g1
  | .Statement (.VarDeclNode typeName name init) :: items, g => do
    let g1 ← genStmt (.VarDeclNode typeName name init) g
    genItems items g1
  | .Statement _ :: items, g => genItems items g

def genProgram (node : ProgramNode) (g : IRGenerator) : Except IRFailure IRGenerator := do
  let s1 ← liftScope (ScopeAnalyzer.hoistFunctions node.items g.scopeStack)
  genItems node.items { g with scopeStack := s1 }

/-- The method `IRGenerator::generate` of a new `IRGenerator`; the instruction
list of the result is what `getInstructions()` then returns. -/
def generate (program : ProgramNode) : Except IRFailure IRGenerator :=
  genProgram program IRGenerator.new

end IRGenerator

/-! ## Notions used in the statements -/

/-- The twelve binary operators of the precedence table: the token of each (kind and
lexeme) and its level, `||` < `&&` < (`==` `!=`) < (`<` `>` `<=` `>=`) < (`+` `-`) <
(`*` `/`). -/
def binaryOperators : List (token × Nat) :=
  [(⟨T_OR, "||"⟩, 0), (⟨T_AND, "&&"⟩, 1),
   (⟨T_EQUALSOP, "=="⟩, 2), (⟨T_NOTEQOP, "!="⟩, 2),
   (⟨T_LESSOP, "<"⟩, 3), (⟨T_GREATOP, ">"⟩, 3), (⟨T_LEQOP, "<="⟩, 3), (⟨T_GEQOP, ">="⟩, 3),
   (⟨T_PLUS, "+"⟩, 4), (⟨T_MINUS, "-"⟩, 4),
   (⟨T_MUL, "*"⟩, 5), (⟨T_DIV, "/"⟩, 5)]

/-- The parser at the start of the expression `a OP1 b OP2 c`, the three operands
being identifiers and nothing following the expression. -/
def threeOperands (a b c : String) (op1 op2 : token) : Parser :=
  ⟨⟨[op1, ⟨T_IDENTIFIER, b⟩, op2, ⟨T_IDENTIFIER, c⟩], none⟩, ⟨T_IDENTIFIER, a⟩⟩

/-- The parser after the last token of the source has been consumed. -/
def Parser.atEnd : Parser := ⟨⟨[], none⟩, ⟨T_EOF, ""⟩⟩

/-- Whether an expression node is an `IdentifierNode`. -/
def Expr.isIdentifier : Expr → Bool
  | .IdentifierNode _ => true
  | _ => false

mutual

/-- Every `CallNode` in the expression has an `IdentifierNode` as callee. -/
def Expr.calleesAreIdentifiers : Expr → Bool
  | .BinaryOpNode _ left right => left.calleesAreIdentifiers && right.calleesAreIdentifiers
  | .UnaryOpNode _ operand _ => operand.calleesAreIdentifiers
  | .LiteralNode _ _ => true
  | .IdentifierNode _ => true
  | .CallNode callee args =>
    callee.isIdentifier && callee.calleesAreIdentifiers && Expr.allCalleesAreIdentifiers args
  | .AssignmentNode left _ right => left.calleesAreIdentifiers && right.calleesAreIdentifiers

/-- Every `CallNode` in the expressions of the list has an `IdentifierNode` as callee. -/
def Expr.allCalleesAreIdentifiers : List Expr → Bool
  | [] => true
  | e :: es => e.calleesAreIdentifiers && Expr.allCalleesAreIdentifiers es

end

mutual

/-- Every `AssignmentNode` in the expression has an `IdentifierNode` on its left. -/
def Expr.targetsAreIdentifiers : Expr → Bool
  | .BinaryOpNode _ left right => left.targetsAreIdentifiers && right.targetsAreIdentifiers
  | .UnaryOpNode _ operand _ => operand.targetsAreIdentifiers
  | .LiteralNode _ _ => true
  | .IdentifierNode _ => true
  | .CallNode callee args => callee.targetsAreIdentifiers && Expr.allTargetsAreIdentifiers args
  | .AssignmentNode left _ right =>
    left.isIdentifier && left.targetsAreIdentifiers && right.targetsAreIdentifiers

/-- Every `AssignmentNode` in the expressions of the list has an `IdentifierNode` on
its left. -/
def Expr.allTargetsAreIdentifiers : List Expr → Bool
  | [] => true
  | e :: es => e.targetsAreIdentifiers && Expr.allTargetsAreIdentifiers es

end

/-- A property of expressions holds for the expression behind a pointer that may
be null. -/
def holdsForOptional (P : Expr → Bool) : Option Expr → Bool
  | none => true
  | some e => P e

mutual

/-- The property `P` holds for every expression that occurs in the statement. -/
def Stmt.allExprs (P : Expr → Bool) : Stmt → Bool
  | .BlockNode stmts => Stmt.allExprsList P stmts
  | .VarDeclNode _ _ init => holdsForOptional P init
  | .ReturnNode expr => holdsForOptional P expr
  | .IfNode cond thenBlock elseBlock =>
    P cond && Stmt.allExprsList P thenBlock &&
      (match elseBlock with
       | some stmts => Stmt.allExprsList P stmts
       | none => true)
  | .WhileNode cond body => P cond && Stmt.allExprsList P body
  | .ExprStmtNode expr => P expr

/-- The property `P` holds for every expression that occurs in the statements. -/
def Stmt.allExprsList (P : Expr → Bool) : List Stmt → Bool
  | [] => true
  | s :: ss => s.allExprs P && Stmt.allExprsList P ss

end

/-- The property `P` holds for every expression that occurs in the items. -/
def Item.allExprsList (P : Expr → Bool) : List Item → Bool
  | [] => true
  | .FunctionNode _ _ _ body :: items => Stmt.allExprsList P body && Item.allExprsList P items
  | .Statement s :: items => s.allExprs P && Item.allExprsList P items

/-- Every `CallNode` of the program has an `IdentifierNode` as callee. -/
def ProgramNode.calleesAreIdentifiers (prog : ProgramNode) : Bool :=
  Item.allExprsList Expr.calleesAreIdentifiers prog.items

/-- Every `AssignmentNode` of the program has an `IdentifierNode` on its left. -/
def ProgramNode.targetsAreIdentifiers (prog : ProgramNode) : Bool :=
  Item.allExprsList Expr.targetsAreIdentifiers prog.items

mutual

/-- A `ReturnNode` occurs in the statement, at any depth. -/
def Stmt.containsReturn : Stmt → Bool
  | .BlockNode stmts => Stmt.anyContainsReturn stmts
  | .VarDeclNode _ _ _ => false
  | .ReturnNode _ => true
  | .IfNode _ thenBlock elseBlock =>
    Stmt.anyContainsReturn thenBlock ||
      (match elseBlock with
       | some stmts => Stmt.anyContainsReturn stmts
       | none => false)
  | .WhileNode _ body => Stmt.anyContainsReturn body
  | .ExprStmtNode _ => false

/-- A `ReturnNode` occurs in one of the statements, at any depth. -/
def Stmt.anyContainsReturn : List Stmt → Bool
  | [] => false
  | s :: ss => s.containsReturn || Stmt.anyContainsReturn ss

end

/-- The number written by a string of decimal digits. -/
def decimalValue (cs : List Char) : Nat :=
  cs.foldl (fun acc c => acc * 10 + (c.toNat - 48)) 0

/-- The opcodes that name a label as their target. -/
def IROpcode.isJump (op : IROpcode) : Bool :=
  op = .GOTO || op = .IF_FALSE || op = .IF_TRUE

/-- The results of the `LABEL` instructions of a list, in order. -/
def labelDefinitions (instrs : List IRInstruction) : List String :=
  (instrs.filter (fun i => i.op = .LABEL)).map (·.result)

/-- The targets of the `GOTO`, `IF_FALSE` and `IF_TRUE` instructions of a list, in
order. -/
def jumpTargets (instrs : List IRInstruction) : List String :=
  (instrs.filter (fun i => i.op.isJump)).map (·.result)

/-- The name that `newLabel` gives to the label number `k`. -/
def labelName (k : Nat) : String := "L" ++ toString k

/-- In the instruction list `seg` no label is defined twice, every label defined
has a number from `lo` up to, but excluding, `hi`, and every jump goes to a label
defined in `seg`. -/
def LabelsSound (lo hi : Nat) (seg : List IRInstruction) : Prop :=
  (labelDefinitions seg).Nodup ∧
  (∀ l ∈ labelDefinitions seg, ∃ k, lo ≤ k ∧ k < hi ∧ l = labelName k) ∧
  (∀ l ∈ jumpTargets seg, l ∈ labelDefinitions seg)

namespace IRGenerator

/-- From `g` to `g1` the generator has appended instructions, none of them a
`LABEL` or a jump, and has allocated no label. -/
def Plain (g g1 : IRGenerator) : Prop :=
  g1.labelCounter = g.labelCounter ∧
  ∃ seg, g1.instructions = g.instructions ++ seg ∧
    labelDefinitions seg = [] ∧ jumpTargets seg = []

/-- From `g` to `g1` the generator has appended instructions in which every
`LABEL` carries a label allocated in between and no label is defined twice, and
every jump goes to one of these labels. -/
def LabelStep (g g1 : IRGenerator) : Prop :=
  g.labelCounter ≤ g1.labelCounter ∧
  ∃ seg, g1.instructions = g.instructions ++ seg ∧
    LabelsSound g.labelCounter g1.labelCounter seg

end IRGenerator

/-- The expression is an identifier or a literal. -/
def Expr.isAtom : Expr → Bool
  | .IdentifierNode _ => true
  | .LiteralNode _ _ => true
  | _ => false

/-- The name of an identifier, the lexeme of a literal. -/
def Expr.atomValue : Expr → String
  | .IdentifierNode name => name
  | .LiteralNode _ value => value
  | _ => ""

/-- The instruction list ends with `n` instructions `PARAM` followed by one
instruction `CALL`: the `PARAM`s of the last call are contiguous and immediately
precede its `CALL`. -/
def endsWithParamsAndCall (n : Nat) (instrs : List IRInstruction) : Bool :=
  match instrs.reverse with
  | [] => false
  | last :: before =>
    last.op = .CALL && decide (n ≤ before.length) &&
      (before.take n).all (fun i => i.op = .PARAM)

/-- One call moved the lexer forward inside the same source. -/
def lexer.Advanced (lx lx1 : lexer) : Prop :=
  lx1.src = lx.src ∧ lx.pos < lx1.pos ∧ lx1.pos ≤ lx.src.length

/-- The names of the top-level functions of a program. -/
def declaredFunctions : List Item → List String
  | [] => []
  | .FunctionNode _ name _ _ :: items => name :: declaredFunctions items
  | .Statement _ :: items => declaredFunctions items

mutual

/-- The expression is well scoped when `vars` are the names of the parameters and
variables whose declaration precedes it in a scope that encloses it, and `funcs`
the names of the top-level functions: an identifier used as a value or as an
assignment target is in `vars`, the identifier of a call is in `funcs`. -/
def Expr.wellScoped (funcs vars : List String) : Expr → Bool
  | .BinaryOpNode _ left right => left.wellScoped funcs vars && right.wellScoped funcs vars
  | .UnaryOpNode _ operand _ => operand.wellScoped funcs vars
  | .LiteralNode _ _ => true
  | .IdentifierNode name => decide (name ∈ vars)
  | .CallNode callee args =>
    (match callee with
     | .IdentifierNode name => decide (name ∈ funcs)
     | _ => callee.wellScoped funcs vars) &&
      Expr.allWellScoped funcs vars args
  | .AssignmentNode left _ right =>
    (match left with
     | .IdentifierNode name => decide (name ∈ vars)
     | _ => left.wellScoped funcs vars) &&
      right.wellScoped funcs vars

/-- All expressions of the list are well scoped. -/
def Expr.allWellScoped (funcs vars : List String) : List Expr → Bool
  | [] => true
  | e :: es => e.wellScoped funcs vars && Expr.allWellScoped funcs vars es

end

/-- The name that a statement declares in the scope in which it stands. -/
def Stmt.declared : Stmt → List String
  | .VarDeclNode _ name _ => [name]
  | _ => []

mutual

/-- The statement is well scoped when `vars` are the names declared before it in
the scopes that enclose it: its expressions are well scoped, and so are the
statements of its blocks, each block being a scope of its own whose
declarations end with it. -/
def Stmt.wellScoped (funcs vars : List String) : Stmt → Bool
  | .BlockNode stmts => Stmt.allWellScoped funcs vars stmts
  | .VarDeclNode _ _ init => holdsForOptional (Expr.wellScoped funcs vars) init
  | .ReturnNode expr => holdsForOptional (Expr.wellScoped funcs vars) expr
  | .IfNode cond thenBlock elseBlock =>
    cond.wellScoped funcs vars && Stmt.allWellScoped funcs vars thenBlock &&
      (match elseBlock with
       | some stmts => Stmt.allWellScoped funcs vars stmts
       | none => true)
  | .WhileNode cond body => cond.wellScoped funcs vars && Stmt.allWellScoped funcs vars body
  | .ExprStmtNode expr => expr.wellScoped funcs vars

/-- The statements of one scope are well scoped: each statement sees the names
declared by the statements before it. -/
def Stmt.allWellScoped (funcs vars : List String) : List Stmt → Bool
  | [] => true
  | s :: rest => s.wellScoped funcs vars && Stmt.allWellScoped funcs (s.declared ++ vars) rest

end

/-- The items of a program are well scoped, `vars` being the global variables
declared before them: the body of a function sees its parameters and the global
variables declared before the function. -/
def Item.allWellScoped (funcs : List String) : List String → List Item → Bool
  | _, [] => true
  | vars, .FunctionNode _ _ params body :: items =>
    Stmt.allWellScoped funcs (params.map (·.2) ++ vars) body &&
      Item.allWellScoped funcs vars items
  | vars, .Statement s :: items =>
    s.wellScoped funcs vars && Item.allWellScoped funcs (s.declared ++ vars) items

/-- Scope soundness of a program. -/
def ProgramNode.wellScoped (prog : ProgramNode) : Bool :=
  Item.allWellScoped (declaredFunctions prog.items) [] prog.items

/-- Every symbol found in a scope of the chain is accounted for: a variable or
parameter is in `vars`, a function is in `funcs`. -/
def ScopeInv (funcs vars : List String) (chain : List ScopeNode) : Prop :=
  ∀ sc ∈ chain, ∀ (name : String) (info : SymbolInfo), sc.find name = some info →
    (info.isFunction = false → name ∈ vars) ∧ (info.isFunction = true → name ∈ funcs)

/-- The scope stack `s1` differs from `s` in its current scope at most. -/
def SameOuter (s s1 : ScopeStack) : Prop :=
  s1.inner.length = s.inner.length ∧ s1.inner.tail = s.inner.tail ∧
    (s.inner ≠ [] → s1.globalScope = s.globalScope)

/-! ## Operator classes of the type rules -/

/-- The boolean operators of `checkBinaryOp`. -/
def booleanOperators : List String := ["&&", "||"]

/-- The equality and relational operators of `checkBinaryOp`. -/
def comparisonOperators : List String := ["==", "!=", "<", ">", "<=", ">="]

/-- The arithmetic operators of `checkBinaryOp`. -/
def arithmeticOperators : List String := ["+", "-", "*", "/"]

/-- The compound assignment operators. -/
def compoundAssignmentOperators : List String := ["+=", "-=", "*=", "/="]

/-- The unary operators that `checkUnaryOp` restricts to numeric operands. -/
def signAndStepOperators : List String := ["+", "-", "++", "--"]

/-- The type is `int` or `float`. -/
def IsIntOrFloat (type : String) : Prop := type = "int" ∨ type = "float"

instance (type : String) : Decidable (IsIntOrFloat type) := by
  unfold IsIntOrFloat; infer_instance

/-- The types are equal, or one is `int` and the other `float`. -/
def Compatible (type1 type2 : String) : Prop :=
  type1 = type2 ∨ (IsIntOrFloat type1 ∧ IsIntOrFloat type2)

instance (type1 type2 : String) : Decidable (Compatible type1 type2) := by
  unfold Compatible; infer_instance

/-! ## Hoisting of functions -/

/-- The first name of `names` that is in `seen` or occurs earlier in `names`. -/
def firstRepeated : List String → List String → Option String
  | _, [] => none
  | seen, name :: names =>
    if name ∈ seen then some name else firstRepeated (name :: seen) names

/-- The scope stacks that the walk of the analyzer over the items of a program
can be in when hoisting has left the stack `s0`: the walk enters a scope, leaves
a scope, or adds a variable or parameter to the current scope. -/
inductive WalkedFrom (s0 : ScopeStack) : ScopeStack → Prop
  | start : WalkedFrom s0 s0
  | enter {s : ScopeStack} : WalkedFrom s0 s → WalkedFrom s0 s.enterScope
  | leave {s : ScopeStack} : WalkedFrom s0 s → WalkedFrom s0 s.exitScope
  | declare {s s1 : ScopeStack} (name type : String) :
      WalkedFrom s0 s → s.addSymbol name type false = .ok s1 → WalkedFrom s0 s1

/-- The global scope binds the name to a function. -/
def ScopeStack.hasFunction (s : ScopeStack) (name : String) : Prop :=
  ∃ info, s.globalScope.find name = some info ∧ info.isFunction = true


/-! ## Temporaries of the intermediate code -/

/-- The name that `newTemp` gives to the temporary number `k`. -/
def tempName (k : Nat) : String := "t" ++ toString k

/-- The opcode of each binary operator, as the lowering of `BinaryOp` has it. -/
def binaryOpcodeTable : List (String × IROpcode) :=
  [("+", .ADD), ("-", .SUB), ("*", .MUL), ("/", .DIV), ("==", .EQ), ("!=", .NE),
   ("<", .LT), ("<=", .LE), (">", .GT), (">=", .GE), ("&&", .AND), ("||", .OR)]


/-- The labels that the instructions mention: those they define and those they
jump to. -/
def labelsMentioned (instrs : List IRInstruction) : List String :=
  labelDefinitions instrs ++ jumpTargets instrs

/-- The names are pairwise different labels with numbers from `lo` up to, but
excluding, `hi`. -/
def LabelsIn (lo hi : Nat) (names : List String) : Prop :=
  names.Nodup ∧ ∀ l ∈ names, ∃ k, lo ≤ k ∧ k < hi ∧ l = labelName k

/-- From `g` to `g1` the generator has appended instructions that jump to labels
allocated in between, to each of them at most once. -/
def IRGenerator.JumpStep (g g1 : IRGenerator) : Prop :=
  g.labelCounter ≤ g1.labelCounter ∧
  ∃ seg, g1.instructions = g.instructions ++ seg ∧
    LabelsIn g.labelCounter g1.labelCounter (jumpTargets seg)


/-- The name has the form of a temporary: `t` followed by the decimal notation of
a number, as `newTemp` writes it. -/
def isTempName (s : String) : Bool :=
  decide (s = tempName (decimalValue (s.data.drop 1)))

/-- The two operand fields of an instruction. -/
def IRInstruction.operands (i : IRInstruction) : List String := [i.arg1, i.arg2]

/-- The elements of a list in the order in which they first occur. -/
def firstOccurrences (xs : List String) : List String :=
  xs.foldl (fun seen x => if x ∈ seen then seen else seen ++ [x]) []

/-- The temporaries of the instructions, in the order of their first occurrence
as the result of an instruction. -/
def temporariesInOrder (instrs : List IRInstruction) : List String :=
  firstOccurrences ((instrs.map (·.result)).filter isTempName)

/-- Every operand that is a temporary is among `defined` or is the result of an
earlier instruction of the list. -/
def operandsDefinedFrom : List String → List IRInstruction → Bool
  | _, [] => true
  | defined, i :: rest =>
    i.operands.all (fun o => !isTempName o || decide (o ∈ defined)) &&
      operandsDefinedFrom (defined ++ [i.result]) rest

/-- Every operand that is a temporary is the result of an earlier instruction. -/
def operandsDefinedBefore (instrs : List IRInstruction) : Bool :=
  operandsDefinedFrom [] instrs

mutual

/-- The identifiers and the literals of an expression. -/
def Expr.names : Expr → List String
  | .BinaryOpNode _ left right => left.names ++ right.names
  | .UnaryOpNode _ operand _ => operand.names
  | .LiteralNode _ value => [value]
  | .IdentifierNode name => [name]
  | .CallNode callee args => callee.names ++ Expr.allNames args
  | .AssignmentNode left _ right => left.names ++ right.names

/-- The identifiers and the literals of a list of expressions. -/
def Expr.allNames : List Expr → List String
  | [] => []
  | e :: es => e.names ++ Expr.allNames es

end

/-- The identifiers and the literals of an optional expression. -/
def Expr.optionalNames : Option Expr → List String
  | some e => e.names
  | none => []

mutual

/-- The declared variable, the identifiers and the literals of a statement. -/
def Stmt.names : Stmt → List String
  | .BlockNode stmts => Stmt.allNames stmts
  | .VarDeclNode _ name init => name :: Expr.optionalNames init
  | .ReturnNode expr => Expr.optionalNames expr
  | .IfNode cond thenBlock elseBlock =>
    cond.names ++ Stmt.allNames thenBlock ++
      (match elseBlock with
       | some stmts => Stmt.allNames stmts
       | none => [])
  | .WhileNode cond body => cond.names ++ Stmt.allNames body
  | .ExprStmtNode expr => expr.names

/-- The declared variables, the identifiers and the literals of a list of
statements. -/
def Stmt.allNames : List Stmt → List String
  | [] => []
  | s :: rest => s.names ++ Stmt.allNames rest

end

/-- The function names, the declared variables, the identifiers and the literals
of the items of a program. -/
def Item.allNames : List Item → List String
  | [] => []
  | .FunctionNode _ name _ body :: items => name :: (Stmt.allNames body ++ Item.allNames items)
  | .Statement s :: items => s.names ++ Item.allNames items

/-- The function names, the declared variables, the identifiers and the literals
of a program. -/
def ProgramNode.names (prog : ProgramNode) : List String :=
  Item.allNames prog.items

/-- The temporaries of the code of `g` are numbered in the order of their first
definition up to the counter, and are defined before they are used. -/
def IRGenerator.TempsInOrder (g : IRGenerator) : Prop :=
  temporariesInOrder g.instructions = (List.range g.tempCounter).map tempName ∧
  operandsDefinedBefore g.instructions = true

/-- The value is no temporary, or it is the result of an instruction of `g`. -/
def IRGenerator.Defined (g : IRGenerator) (v : String) : Prop :=
  isTempName v = true → v ∈ g.instructions.map (·.result)

-- Equality of outcomes is decidable when it is for errors and for results.
deriving instance DecidableEq for Except

/-- The text contains no double quote that ends a string literal and does not
end inside an escape: it is made of characters other than `"` and `\`, and of
pairs of a `\` and the one character that it escapes. -/
def escapedText : List Char → Bool
  | [] => true
  | c :: rest =>
    if c = '"' then false
    else if c = '\\' then
      match rest with
      | [] => false
      | _ :: rest2 => escapedText rest2
    else escapedText rest

/-- The tokens of the five assignment operators. -/
def assignmentOperators : List token :=
  [⟨T_ASSIGNOP, "="⟩, ⟨T_PLUS_ASSIGN, "+="⟩, ⟨T_MINUS_ASSIGN, "-="⟩,
   ⟨T_MUL_ASSIGN, "*="⟩, ⟨T_DIV_ASSIGN, "/="⟩]

/-- The four type names of the language. -/
def basicTypes : List String := ["int", "float", "bool", "string"]

/-- A token of one of the four type keywords carries the keyword as its lexeme. -/
def token.TypeNameOk (t : token) : Prop :=
  (t.type = T_INT → t.value = "int") ∧ (t.type = T_FLOAT → t.value = "float") ∧
  (t.type = T_BOOL → t.value = "bool") ∧ (t.type = T_STRING → t.value = "string")

instance (t : token) : Decidable t.TypeNameOk :=
  inferInstanceAs (Decidable ((t.type = T_INT → t.value = "int") ∧
    (t.type = T_FLOAT → t.value = "float") ∧ (t.type = T_BOOL → t.value = "bool") ∧
    (t.type = T_STRING → t.value = "string")))

/-- The tokens that the lexer is still to return have the lexemes of their type
keywords. -/
def TokenStream.TypeNamesOk (lx : TokenStream) : Prop :=
  ∀ t ∈ lx.pending, t.TypeNameOk

instance (lx : TokenStream) : Decidable lx.TypeNamesOk :=
  inferInstanceAs (Decidable (∀ t ∈ lx.pending, t.TypeNameOk))

/-- The current token of the parser and the tokens still to come have the
lexemes of their type keywords. -/
def Parser.TokensOk (p : Parser) : Prop :=
  p.cur.TypeNameOk ∧ p.lx.TypeNamesOk

instance (p : Parser) : Decidable p.TokensOk :=
  inferInstanceAs (Decidable (p.cur.TypeNameOk ∧ p.lx.TypeNamesOk))

/-- The run of a part of the parser, when it returns, returns a value for which
`Q` holds. -/
def Parser.Returns {α : Type} (r : Except ParseFailure α) (Q : α → Prop) : Prop :=
  match r with
  | .ok a => Q a
  | .error _ => True

mutual

/-- Every declaration in the statement has one of the four type names. -/
def Stmt.typesBasic : Stmt → Bool
  | .BlockNode stmts => Stmt.allTypesBasic stmts
  | .VarDeclNode typeName _ _ => decide (typeName ∈ basicTypes)
  | .ReturnNode _ => true
  | .IfNode _ thenBlock elseBlock =>
    Stmt.allTypesBasic thenBlock &&
      (match elseBlock with
       | some stmts => Stmt.allTypesBasic stmts
       | none => true)
  | .WhileNode _ body => Stmt.allTypesBasic body
  | .ExprStmtNode _ => true

/-- Every declaration in the statements has one of the four type names. -/
def Stmt.allTypesBasic : List Stmt → Bool
  | [] => true
  | s :: rest => s.typesBasic && Stmt.allTypesBasic rest

end

/-- The return type and the parameter types of a function and the types of the
declarations in its body, or the types of the declarations in a top-level
statement, are among the four type names. -/
def Item.typesBasic : Item → Bool
  | .FunctionNode retType _ params body =>
    decide (retType ∈ basicTypes) && params.all (fun p => decide (p.1 ∈ basicTypes)) &&
      Stmt.allTypesBasic body
  | .Statement s => s.typesBasic

/-- Every type written in the program is one of the four type names. -/
def ProgramNode.typesBasic (prog : ProgramNode) : Bool :=
  prog.items.all Item.typesBasic

mutual

/-- A `return;` without expression occurs in the statement, at any depth. -/
def Stmt.containsBareReturn : Stmt → Bool
  | .BlockNode stmts => Stmt.anyContainsBareReturn stmts
  | .VarDeclNode _ _ _ => false
  | .ReturnNode none => true
  | .ReturnNode (some _) => false
  | .IfNode _ thenBlock elseBlock =>
    Stmt.anyContainsBareReturn thenBlock ||
      (match elseBlock with
       | some stmts => Stmt.anyContainsBareReturn stmts
       | none => false)
  | .WhileNode _ body => Stmt.anyContainsBareReturn body
  | .ExprStmtNode _ => false

/-- A `return;` without expression occurs in one of the statements, at any
depth. -/
def Stmt.anyContainsBareReturn : List Stmt → Bool
  | [] => false
  | s :: ss => s.containsBareReturn || Stmt.anyContainsBareReturn ss

end

/-- The item is a function without a `return` statement in its body, or it
contains a `return;` without expression. -/
def Item.lacksReturnValue : Item → Bool
  | .FunctionNode _ _ _ body => !Stmt.anyContainsReturn body || Stmt.anyContainsBareReturn body
  | .Statement s => s.containsBareReturn

/-- The items for which `genProgram` generates code: the functions and the
top-level variable declarations. -/
def Item.isLowered : Item → Bool
  | .FunctionNode _ _ _ _ => true
  | .Statement (.VarDeclNode _ _ _) => true
  | .Statement _ => false

/-- The program without the top-level statements that are no declarations. -/
def ProgramNode.loweredItems (prog : ProgramNode) : ProgramNode :=
  ⟨prog.items.filter Item.isLowered⟩

mutual

/-- The number of `if` and `while` statements in a statement, at any depth. -/
def Stmt.controlCount : Stmt → Nat
  | .BlockNode stmts => Stmt.allControlCount stmts
  | .VarDeclNode _ _ _ => 0
  | .ReturnNode _ => 0
  | .IfNode _ thenBlock elseBlock =>
    1 + Stmt.allControlCount thenBlock +
      (match elseBlock with
       | some stmts => Stmt.allControlCount stmts
       | none => 0)
  | .WhileNode _ body => 1 + Stmt.allControlCount body
  | .ExprStmtNode _ => 0

/-- The number of `if` and `while` statements in a list of statements, at any
depth. -/
def Stmt.allControlCount : List Stmt → Nat
  | [] => 0
  | s :: rest => s.controlCount + Stmt.allControlCount rest

end

/-- The number of `if` and `while` statements in the bodies of the functions
among the items. -/
def Item.controlCount : List Item → Nat
  | [] => 0
  | .FunctionNode _ _ _ body :: items => Stmt.allControlCount body + Item.controlCount items
  | .Statement _ :: items => Item.controlCount items

/-- The number of `if` and `while` statements that are lowered: those in the
bodies of the functions of the program. -/
def ProgramNode.controlCount (prog : ProgramNode) : Nat :=
  Item.controlCount prog.items

/-- The names bound in a scope. -/
def ScopeNode.names (sc : ScopeNode) : List String := sc.symbols.map (·.1)

/-- The two scope stacks have the same scopes from the current one to the global
one, with the same names bound in each. -/
def ScopeStack.SameNames (a b : ScopeStack) : Prop :=
  a.chain.map ScopeNode.names = b.chain.map ScopeNode.names

/-- The run of a part of the generator throws no `ScopeException`: it returns a
value for which `Q` holds, or it stops at the overflow of a counter. -/
def IRGenerator.Completes {α : Type} (r : Except IRFailure α) (Q : α → Prop) : Prop :=
  match r with
  | .ok a => Q a
  | .error .signedOverflow => True
  | .error (.scopeException _) => False

mutual

/-- An upper bound of the number of temporaries that `genExpression` allocates
for the expression. -/
def Expr.tempBound : Expr → Nat
  | .BinaryOpNode _ left right => left.tempBound + right.tempBound + 1
  | .UnaryOpNode _ operand _ => operand.tempBound + 2
  | .LiteralNode _ _ => 0
  | .IdentifierNode _ => 0
  | .CallNode _ args => Expr.allTempBound args + 1
  | .AssignmentNode _ _ right => right.tempBound + 1

/-- The sum of the bounds of the expressions. -/
def Expr.allTempBound : List Expr → Nat
  | [] => 0
  | e :: rest => e.tempBound + Expr.allTempBound rest

end

mutual

/-- An upper bound of the number of temporaries that `genStmt` allocates for the
statement. -/
def Stmt.tempBound : Stmt → Nat
  | .BlockNode stmts => Stmt.allTempBound stmts
  | .VarDeclNode _ _ init =>
    (match init with
     | some e => e.tempBound
     | none => 0)
  | .ReturnNode expr =>
    (match expr with
     | some e => e.tempBound
     | none => 0)
  | .IfNode cond thenBlock elseBlock =>
    cond.tempBound + Stmt.allTempBound thenBlock +
      (match elseBlock with
       | some stmts => Stmt.allTempBound stmts
       | none => 0)
  | .WhileNode cond body => cond.tempBound + Stmt.allTempBound body
  | .ExprStmtNode expr => expr.tempBound

/-- The sum of the bounds of the statements. -/
def Stmt.allTempBound : List Stmt → Nat
  | [] => 0
  | s :: rest => s.tempBound + Stmt.allTempBound rest

end

/-- An upper bound of the number of temporaries allocated for the items: the
bounds of the function bodies and of the top-level declarations. -/
def Item.tempBound : List Item → Nat
  | [] => 0
  | .FunctionNode _ _ _ body :: items => Stmt.allTempBound body + Item.tempBound items
  | .Statement (.VarDeclNode typeName name init) :: items =>
    (Stmt.VarDeclNode typeName name init).tempBound + Item.tempBound items
  | .Statement _ :: items => Item.tempBound items

/-- An upper bound of the number of temporaries allocated for the program. -/
def ProgramNode.tempBound (prog : ProgramNode) : Nat :=
  Item.tempBound prog.items

/-- The run of a part of the generator does not stop at the overflow of a
counter: it returns a value for which `Q` holds, or it throws a
`ScopeException`. -/
def IRGenerator.Fits {α : Type} (r : Except IRFailure α) (Q : α → Prop) : Prop :=
  match r with
  | .ok a => Q a
  | .error .signedOverflow => False
  | .error (.scopeException _) => True

mutual

/-- The numbers of the labels that `genIf` allocates first for the `if`
statements without `else` in a statement, at any depth, when the statement is
lowered with the label counter at `c`. -/
def Stmt.skippedLabels : Stmt → Nat → List Nat
  | .BlockNode stmts, c => Stmt.allSkippedLabels stmts c
  | .VarDeclNode _ _ _, _ => []
  | .ReturnNode _, _ => []
  | .IfNode _ thenBlock elseBlock, c =>
    (match elseBlock with
     | some stmts =>
       Stmt.allSkippedLabels thenBlock (c + 2) ++
         Stmt.allSkippedLabels stmts (c + 2 + 2 * Stmt.allControlCount thenBlock)
     | none => c :: Stmt.allSkippedLabels thenBlock (c + 2))
  | .WhileNode _ body, c => Stmt.allSkippedLabels body (c + 2)
  | .ExprStmtNode _, _ => []

/-- The same for a list of statements lowered one after the other. -/
def Stmt.allSkippedLabels : List Stmt → Nat → List Nat
  | [], _ => []
  | s :: rest, c => s.skippedLabels c ++ Stmt.allSkippedLabels rest (c + 2 * s.controlCount)

end

/-- The same for the function bodies among the items. -/
def Item.skippedLabels : List Item → Nat → List Nat
  | [], _ => []
  | .FunctionNode _ _ _ body :: items, c =>
    Stmt.allSkippedLabels body c ++ Item.skippedLabels items (c + 2 * Stmt.allControlCount body)
  | .Statement _ :: items, c => Item.skippedLabels items c

/-- The numbers of the labels that `genIf` allocates first for the `if`
statements without `else` in the function bodies of the program. -/
def ProgramNode.skippedLabels (prog : ProgramNode) : List Nat :=
  Item.skippedLabels prog.items 0

/-- The instructions use the label number `n + 1` in an `IF_FALSE` and in a
`LABEL`, and they mention the label number `n` nowhere. -/
def SkipsLabel (seg : List IRInstruction) (n : Nat) : Prop :=
  (∃ condResult : String, ⟨.IF_FALSE, labelName (n + 1), condResult, ""⟩ ∈ seg) ∧
  ⟨.LABEL, labelName (n + 1), "", ""⟩ ∈ seg ∧
  labelName n ∉ labelsMentioned seg

/-- The code that the loop of `genCall` emits for the arguments: for every
argument in turn its code and then its `PARAM`.  `parts` gives for every argument
its code and its value. -/
def paramCode : List (List IRInstruction × String) → List IRInstruction
  | [] => []
  | (code, v) :: rest => code ++ ⟨.PARAM, "", v, ""⟩ :: paramCode rest

/-- The loop of `genCall` lowers the arguments one after the other from `g`:
`parts` gives for every argument the instructions that `genExpression` appends
for it and the value that it returns, each argument being lowered from the state
after the `PARAM` of the argument before; `g1` is the state after the last
`PARAM`. -/
def IRGenerator.LowersArgs : List Expr → IRGenerator → List (List IRInstruction × String) →
    IRGenerator → Prop
  | [], g, parts, g1 => parts = [] ∧ g1 = g
  | a :: args, g, parts, g1 =>
    ∃ (code : List IRInstruction) (v : String) (ga : IRGenerator)
      (rest : List (List IRInstruction × String)),
      parts = (code, v) :: rest ∧ IRGenerator.genExpression a g = .ok (v, ga) ∧
      ga.instructions = g.instructions ++ code ∧
      IRGenerator.LowersArgs args (ga.emit .PARAM "" v "") rest g1

/-- The expression is a binary operation or a call of an identifier. -/
def Expr.isOperationOrCall : Expr → Bool
  | .BinaryOpNode _ _ _ => true
  | .CallNode (.IdentifierNode _) _ => true
  | _ => false

/-- The names that occur in the instructions, as result or as operand. -/
def namesUsed : List IRInstruction → List String
  | [] => []
  | i :: rest => i.result :: i.arg1 :: i.arg2 :: namesUsed rest

/-- The call `genExpression e0 g0` calls `genExpression e g`: `e` is `e0` itself
and `g` is `g0`, or `e` is lowered inside an operand of `e0`, from the state in
which `genExpression` lowers that operand.  The right operand of a binary
operation is lowered from the state that the left operand leaves, an argument of
a call from the state after the `PARAM`s of the arguments before it. -/
inductive Expr.LoweredIn : Expr → IRGenerator → Expr → IRGenerator → Prop
  | self (e : Expr) (g : IRGenerator) : Expr.LoweredIn e g e g
  | binaryLeft {op : String} {left right e : Expr} {g0 g : IRGenerator} :
    Expr.LoweredIn left g0 e g → Expr.LoweredIn (.BinaryOpNode op left right) g0 e g
  | binaryRight {op : String} {left right e : Expr} {g0 gl g : IRGenerator} {l : String} :
    IRGenerator.genExpression left g0 = .ok (l, gl) → Expr.LoweredIn right gl e g →
    Expr.LoweredIn (.BinaryOpNode op left right) g0 e g
  | unaryOperand {op : String} {operand e : Expr} {isPostfix : Bool} {g0 g : IRGenerator} :
    Expr.LoweredIn operand g0 e g → Expr.LoweredIn (.UnaryOpNode op operand isPostfix) g0 e g
  | callArgument {name : String} {before after : List Expr} {arg e : Expr}
      {g0 gp g : IRGenerator} :
    IRGenerator.genArgs before g0 = .ok gp → Expr.LoweredIn arg gp e g →
    Expr.LoweredIn (.CallNode (.IdentifierNode name) (before ++ arg :: after)) g0 e g
  | assignmentRight {name op : String} {right e : Expr} {g0 g : IRGenerator} :
    Expr.LoweredIn right g0 e g →
    Expr.LoweredIn (.AssignmentNode (.IdentifierNode name) op right) g0 e g

/-- The call `genStmt st g0` calls `genExpression e g`, in one of the
expressions of `st` or in a statement of one of its blocks; a statement of a
block is lowered from the state that the statements before it leave. -/
inductive Stmt.LoweredIn : Stmt → IRGenerator → Expr → IRGenerator → Prop
  | varDecl {typeName name : String} {init e : Expr} {g0 g : IRGenerator} :
    Expr.LoweredIn init g0 e g → Stmt.LoweredIn (.VarDeclNode typeName name (some init)) g0 e g
  | returnValue {value e : Expr} {g0 g : IRGenerator} :
    Expr.LoweredIn value g0 e g → Stmt.LoweredIn (.ReturnNode (some value)) g0 e g
  | exprStmt {expr e : Expr} {g0 g : IRGenerator} :
    Expr.LoweredIn expr g0 e g → Stmt.LoweredIn (.ExprStmtNode expr) g0 e g
  | ifCond {cond e : Expr} {thenBlock : List Stmt} {elseBlock : Option (List Stmt)}
      {g0 g : IRGenerator} :
    Expr.LoweredIn cond g0 e g → Stmt.LoweredIn (.IfNode cond thenBlock elseBlock) g0 e g
  | ifThenOnly {cond e : Expr} {before after : List Stmt} {st : Stmt}
      {g0 g1 g2 g3 gp g : IRGenerator} {condResult elseLabel endLabel : String} :
    IRGenerator.genExpression cond g0 = .ok (condResult, g1) →
    g1.newLabel = .ok (elseLabel, g2) → g2.newLabel = .ok (endLabel, g3) →
    IRGenerator.genStmts before
      { g3.emit .IF_FALSE endLabel condResult "" with
        scopeStack := (g3.emit .IF_FALSE endLabel condResult "").scopeStack.enterScope } =
      .ok gp →
    Stmt.LoweredIn st gp e g →
    Stmt.LoweredIn (.IfNode cond (before ++ st :: after) none) g0 e g
  | ifThen {cond e : Expr} {before after elseStmts : List Stmt} {st : Stmt}
      {g0 g1 g2 g3 gp g : IRGenerator} {condResult elseLabel endLabel : String} :
    IRGenerator.genExpression cond g0 = .ok (condResult, g1) →
    g1.newLabel = .ok (elseLabel, g2) → g2.newLabel = .ok (endLabel, g3) →
    IRGenerator.genStmts before
      { g3.emit .IF_FALSE elseLabel condResult "" with
        scopeStack := (g3.emit .IF_FALSE elseLabel condResult "").scopeStack.enterScope } =
      .ok gp →
    Stmt.LoweredIn st gp e g →
    Stmt.LoweredIn (.IfNode cond (before ++ st :: after) (some elseStmts)) g0 e g
  | ifElse {cond e : Expr} {thenBlock before after : List Stmt} {st : Stmt}
      {g0 g1 g2 g3 g5 gp g : IRGenerator} {condResult elseLabel endLabel : String} :
    IRGenerator.genExpression cond g0 = .ok (condResult, g1) →
    g1.newLabel = .ok (elseLabel, g2) → g2.newLabel = .ok (endLabel, g3) →
    IRGenerator.genStmts thenBlock
      { g3.emit .IF_FALSE elseLabel condResult "" with
        scopeStack := (g3.emit .IF_FALSE elseLabel condResult "").scopeStack.enterScope } =
      .ok g5 →
    IRGenerator.genStmts before
      { (({ g5 with scopeStack := g5.scopeStack.exitScope } : IRGenerator).emit
            .GOTO endLabel "" "").emit .LABEL elseLabel "" "" with
        scopeStack := g5.scopeStack.exitScope.enterScope } = .ok gp →
    Stmt.LoweredIn st gp e g →
    Stmt.LoweredIn (.IfNode cond thenBlock (some (before ++ st :: after))) g0 e g
  | whileCond {cond e : Expr} {body : List Stmt} {g0 g1 g2 g : IRGenerator}
      {startLabel endLabel : String} :
    g0.newLabel = .ok (startLabel, g1) → g1.newLabel = .ok (endLabel, g2) →
    Expr.LoweredIn cond (g2.emit .LABEL startLabel "" "") e g →
    Stmt.LoweredIn (.WhileNode cond body) g0 e g
  | whileBody {cond e : Expr} {before after : List Stmt} {st : Stmt}
      {g0 g1 g2 g4 gp g : IRGenerator} {startLabel endLabel condResult : String} :
    g0.newLabel = .ok (startLabel, g1) → g1.newLabel = .ok (endLabel, g2) →
    IRGenerator.genExpression cond (g2.emit .LABEL startLabel "" "") = .ok (condResult, g4) →
    IRGenerator.genStmts before
      { g4.emit .IF_FALSE endLabel condResult "" with
        scopeStack := (g4.emit .IF_FALSE endLabel condResult "").scopeStack.enterScope } =
      .ok gp →
    Stmt.LoweredIn st gp e g →
    Stmt.LoweredIn (.WhileNode cond (before ++ st :: after)) g0 e g
  | block {before after : List Stmt} {st : Stmt} {e : Expr} {g0 gp g : IRGenerator} :
    IRGenerator.genStmts before { g0 with scopeStack := g0.scopeStack.enterScope } = .ok gp →
    Stmt.LoweredIn st gp e g →
    Stmt.LoweredIn (.BlockNode (before ++ st :: after)) g0 e g

/-- The second loop of `genProgram`, on the item from the state `g0`, calls
`genExpression e g`: in a statement of the body of a function, which is lowered
after `FUNC_BEGIN` and the statements before it, or in a top-level
declaration. -/
inductive Item.LoweredIn : Item → IRGenerator → Expr → IRGenerator → Prop
  | function {retType name : String} {params : List (String × String)}
      {before after : List Stmt} {st : Stmt} {e : Expr} {g0 gp g : IRGenerator}
      {s1 : ScopeStack} :
    IRGenerator.liftScope
      ((({ g0 with currentFunction := name } : IRGenerator).emit
        .FUNC_BEGIN name "" "").scopeStack.enterScope.addParams params) = .ok s1 →
    IRGenerator.genStmts before
      { ({ g0 with currentFunction := name } : IRGenerator).emit .FUNC_BEGIN name "" "" with
        scopeStack := s1 } = .ok gp →
    Stmt.LoweredIn st gp e g →
    Item.LoweredIn (.FunctionNode retType name params (before ++ st :: after)) g0 e g
  | declaration {typeName name : String} {init : Option Expr} {e : Expr} {g0 g : IRGenerator} :
    Stmt.LoweredIn (.VarDeclNode typeName name init) g0 e g →
    Item.LoweredIn (.Statement (.VarDeclNode typeName name init)) g0 e g

/-- The run of `IRGenerator.generate` on the program calls `genExpression e g`:
after the function names have been added to the scope stack of a new generator,
the item in which the call occurs is lowered from the state that the items before
it leave. -/
def ProgramNode.Lowers (prog : ProgramNode) (e : Expr) (g : IRGenerator) : Prop :=
  ∃ (s1 : ScopeStack) (before after : List Item) (item : Item) (gp : IRGenerator),
    IRGenerator.liftScope
      (ScopeAnalyzer.hoistFunctions prog.items IRGenerator.new.scopeStack) = .ok s1 ∧
    prog.items = before ++ item :: after ∧
    IRGenerator.genItems before { IRGenerator.new with scopeStack := s1 } = .ok gp ∧
    Item.LoweredIn item gp e g

/-! ## Theorems about the hand-written lexer -/

theorem scanWhile_ge (p : Char → Bool) (l : List Char) (pos : Nat) :
    pos ≤ scanWhile p l pos := by
  induction l generalizing pos with
  | nil => simp [scanWhile]
  | cons c r ih =>
    simp only [scanWhile]
    split
    · exact Nat.le_trans (Nat.le_succ pos) (ih (pos + 1))
    · exact Nat.le_refl pos

theorem scanWhile_le (p : Char → Bool) (l : List Char) (pos : Nat) :
    scanWhile p l pos ≤ pos + l.length := by
  induction l generalizing pos with
  | nil => simp [scanWhile]
  | cons c r ih =>
    simp only [scanWhile, List.length_cons]
    split
    · have := ih (pos + 1)
      omega
    · omega

theorem scanWhile_gt (p : Char → Bool) (c : Char) (r : List Char) (pos : Nat)
    (hc : p c = true) : pos < scanWhile p (c :: r) pos := by
  simp only [scanWhile, hc, if_true]
  exact scanWhile_ge p r (pos + 1)

theorem scanString_ge : ∀ (l : List Char) (pos : Nat), pos ≤ scanString l pos
  | [], pos => by simp [scanString]
  | [c], pos => by
    simp only [scanString]
    split
    · exact Nat.le_refl pos
    · split <;> omega
  | c :: d :: r, pos => by
    simp only [scanString]
    split
    · exact Nat.le_refl pos
    · split
      · have := scanString_ge r (pos + 2)
        omega
      · have := scanString_ge (d :: r) (pos + 1)
        omega

theorem scanString_le : ∀ (l : List Char) (pos : Nat), scanString l pos ≤ pos + l.length
  | [], pos => by simp [scanString]
  | [c], pos => by
    simp only [scanString, List.length_cons, List.length_nil]
    split
    · omega
    · split <;> omega
  | c :: d :: r, pos => by
    simp only [scanString, List.length_cons]
    split
    · omega
    · split
      · have := scanString_le r (pos + 2)
        omega
      · have := scanString_le (d :: r) (pos + 1)
        simp only [List.length_cons] at this
        omega

theorem scanBlockComment_bounds : ∀ (l : List Char) (pos q : Nat),
    scanBlockComment l pos = some q → pos < q ∧ q ≤ pos + l.length
  | [], pos, q => by simp [scanBlockComment]
  | [c], pos, q => by simp [scanBlockComment]
  | c :: d :: r, pos, q => by
    simp only [scanBlockComment, List.length_cons]
    split
    · intro h
      simp only [Option.some.injEq] at h
      omega
    · intro h
      have := scanBlockComment_bounds (d :: r) (pos + 1) q h
      simp only [List.length_cons] at this
      omega

theorem token_ite_type_ne (c : Prop) [Decidable c] (a b : token) (k : tokenType)
    (ha : a.type ≠ k) (hb : b.type ≠ k) : (if c then a else b).type ≠ k := by
  split <;> assumption

theorem keywordOrIdentifier_type (val : String) :
    (keywordOrIdentifier val).type ≠ T_EOF ∧ (keywordOrIdentifier val).type ≠ T_DIV_ASSIGN := by
  unfold keywordOrIdentifier
  constructor
  all_goals
    repeat' apply token_ite_type_ne
    all_goals exact fun h => tokenType.noConfusion h

namespace lexer

theorem rest_length (lx : lexer) : lx.rest.length = lx.src.length - lx.pos := by
  simp [rest]

theorem rest_eq_cons (lx : lexer) (h : lx.isEOF = false) :
    lx.rest = lx.peek :: lx.src.drop (lx.pos + 1) := by
  have hlt : lx.pos < lx.src.length := by
    simpa [isEOF] using h
  simp only [rest, peek, h]
  rw [List.drop_eq_getElem_cons hlt]
  simp [List.getD_eq_getElem?_getD, List.getElem?_eq_getElem hlt]

theorem rest_eq_nil (lx : lexer) (h : lx.isEOF = true) : lx.rest = [] := by
  have hge : lx.src.length ≤ lx.pos := by
    simpa [isEOF] using h
  simp [rest, List.drop_eq_nil_iff, hge]

theorem pos_lt_of_not_isEOF (lx : lexer) (h : lx.isEOF = false) : lx.pos < lx.src.length := by
  simpa [isEOF] using h

theorem advance_advanced (lx : lexer) (h : lx.isEOF = false) : Advanced lx lx.advance := by
  have := pos_lt_of_not_isEOF lx h
  simp only [Advanced, advance, h]
  simp
  omega

theorem advance_src (lx : lexer) : lx.advance.src = lx.src := by
  unfold advance
  split <;> rfl

theorem advance_pos_ge (lx : lexer) : lx.pos ≤ lx.advance.pos := by
  unfold advance
  split <;> simp

theorem advance_pos_le (lx : lexer) (h : lx.pos ≤ lx.src.length) :
    lx.advance.pos ≤ lx.src.length := by
  unfold advance
  split
  · exact h
  · rename_i hne
    have := pos_lt_of_not_isEOF lx (by simpa using hne)
    simp
    omega

theorem skip2_advanced (lx : lexer) (d : Char) (h : lx.nextIs d = true) :
    Advanced lx lx.skip2 := by
  simp only [nextIs, Bool.and_eq_true, decide_eq_true_eq] at h
  have h1 := h.1
  refine ⟨rfl, ?_, ?_⟩ <;> simp only [skip2] <;> omega

/-- The loop `while (!isEOF() && p(peek())) advance();` stays inside the source. -/
theorem scan_le (p : Char → Bool) (lx : lexer) (h : lx.pos ≤ lx.src.length) :
    scanWhile p lx.rest lx.pos ≤ lx.src.length := by
  have h1 := scanWhile_le p lx.rest lx.pos
  rw [rest_length] at h1
  omega

theorem Advanced.trans_le {a b c : lexer} (h : Advanced a b) (hs : c.src = b.src)
    (h1 : b.pos ≤ c.pos) (h2 : c.pos ≤ a.src.length) : Advanced a c :=
  ⟨hs.trans h.1, Nat.lt_of_lt_of_le h.2.1 h1, h2⟩

theorem identifierOrKeyword_type (lx : lexer) :
    (lx.identifierOrKeyword).1.type ≠ T_EOF ∧ (lx.identifierOrKeyword).1.type ≠ T_DIV_ASSIGN :=
  keywordOrIdentifier_type _

theorem identifierOrKeyword_snd (lx : lexer) : (lx.identifierOrKeyword).2 =
    { lx with pos := scanWhile (fun c => isalnum c || c = '_') lx.rest lx.pos } := rfl

theorem isalnum_of_isalpha (c : Char) (h : isalpha c = true) : isalnum c = true := by
  simp only [isalpha, isalnum, Char.isAlphanum, Bool.or_eq_true] at *
  exact Or.inl h

/-- The loop `while (!isEOF() && p(peek())) advance();` run after progress was made. -/
theorem Advanced.scan {a b : lexer} (p : Char → Bool) (h : Advanced a b) :
    Advanced a { b with pos := scanWhile p b.rest b.pos } := by
  refine ⟨h.1, Nat.lt_of_lt_of_le h.2.1 (scanWhile_ge _ _ _), ?_⟩
  have := scan_le p b (by rw [h.1]; exact h.2.2)
  rw [h.1] at this
  exact this

theorem Advanced.advance {a b : lexer} (h : Advanced a b) : Advanced a b.advance := by
  refine ⟨(advance_src b).trans h.1, Nat.lt_of_lt_of_le h.2.1 (advance_pos_ge b), ?_⟩
  have := advance_pos_le b (by rw [h.1]; exact h.2.2)
  rw [h.1] at this
  exact this

/-- The loop `while (!isEOF() && p(peek())) advance();` started on a character that
satisfies `p`. -/
theorem scan_first_advanced (p : Char → Bool) (lx : lexer) (h : lx.isEOF = false)
    (hc : p lx.peek = true) : Advanced lx { lx with pos := scanWhile p lx.rest lx.pos } := by
  refine ⟨rfl, ?_, scan_le _ lx (Nat.le_of_lt (pos_lt_of_not_isEOF lx h))⟩
  show lx.pos < scanWhile p lx.rest lx.pos
  rw [rest_eq_cons lx h]
  exact scanWhile_gt _ _ _ _ hc

theorem identifierOrKeyword_advanced (lx : lexer) (h : lx.isEOF = false)
    (hc : (isalpha lx.peek || lx.peek = '_') = true) :
    Advanced lx (lx.identifierOrKeyword).2 := by
  rw [identifierOrKeyword_snd]
  apply scan_first_advanced _ lx h
  simp only [Bool.or_eq_true, decide_eq_true_eq] at hc ⊢
  rcases hc with hc | hc
  · exact Or.inl (isalnum_of_isalpha _ hc)
  · exact Or.inr hc

theorem number_advanced (lx : lexer) (h : lx.isEOF = false) (hc : isdigit lx.peek = true)
    (t : token) (lx1 : lexer) (hr : lx.number = .ok (t, lx1)) :
    Advanced lx lx1 ∧ t.type ≠ T_EOF ∧ t.type ≠ T_DIV_ASSIGN := by
  have h1 := scan_first_advanced isdigit lx h hc
  have h2 := (h1.advance).scan isdigit
  unfold number at hr
  simp only at hr
  split_ifs at hr
  all_goals
    simp only [Except.ok.injEq, Prod.mk.injEq] at hr
    obtain ⟨rfl, rfl⟩ := hr
    first
      | exact ⟨h2, fun h => tokenType.noConfusion h, fun h => tokenType.noConfusion h⟩
      | exact ⟨h1, fun h => tokenType.noConfusion h, fun h => tokenType.noConfusion h⟩

theorem stringLiteral_advanced (lx : lexer) (h : lx.isEOF = false)
    (t : token) (lx1 : lexer) (hr : lx.stringLiteral = .ok (t, lx1)) :
    Advanced lx lx1 ∧ t.type ≠ T_EOF ∧ t.type ≠ T_DIV_ASSIGN := by
  have h1 := advance_advanced lx h
  have h2 : Advanced lx { lx.advance with pos := scanString lx.advance.rest lx.advance.pos } := by
    refine ⟨h1.1, Nat.lt_of_lt_of_le h1.2.1 (scanString_ge _ _), ?_⟩
    have := scanString_le lx.advance.rest lx.advance.pos
    rw [rest_length, advance_src] at this
    have := h1.2.2
    show scanString lx.advance.rest lx.advance.pos ≤ lx.src.length
    omega
  unfold stringLiteral at hr
  simp only at hr
  split_ifs at hr
  simp only [Except.ok.injEq, Prod.mk.injEq] at hr
  obtain ⟨rfl, rfl⟩ := hr
  exact ⟨h2.advance, fun h => tokenType.noConfusion h, fun h => tokenType.noConfusion h⟩

theorem comment_advanced (lx : lexer) (h : lx.isEOF = false)
    (t : token) (lx1 : lexer) (hr : lx.comment = .ok (t, lx1)) :
    Advanced lx lx1 ∧ t.type ≠ T_EOF ∧ t.type ≠ T_DIV_ASSIGN := by
  have h1 := advance_advanced lx h
  unfold comment at hr
  simp only at hr
  split at hr
  · simp only [Except.ok.injEq, Prod.mk.injEq] at hr
    obtain ⟨rfl, rfl⟩ := hr
    exact ⟨h1.scan _, fun h => tokenType.noConfusion h, fun h => tokenType.noConfusion h⟩
  · split at hr
    · split at hr
      · rename_i p hp
        simp only [Except.ok.injEq, Prod.mk.injEq] at hr
        obtain ⟨rfl, rfl⟩ := hr
        have hb := scanBlockComment_bounds _ _ _ hp
        rw [rest_length] at hb
        have h2 := h1.advance
        refine ⟨⟨h2.1, ?_, ?_⟩, fun h => tokenType.noConfusion h,
          fun h => tokenType.noConfusion h⟩
        · show lx.pos < p
          have := h2.2.1
          omega
        · show p ≤ lx.src.length
          have := h2.2.2
          rw [h2.1] at hb
          omega
      · exact absurd hr (by simp)
    · simp only [Except.ok.injEq, Prod.mk.injEq] at hr
      obtain ⟨rfl, rfl⟩ := hr
      exact ⟨h1, fun h => tokenType.noConfusion h, fun h => tokenType.noConfusion h⟩

theorem skipWhitespace_src (lx : lexer) : lx.skipWhitespace.src = lx.src := rfl

theorem skipWhitespace_pos_ge (lx : lexer) : lx.pos ≤ lx.skipWhitespace.pos :=
  scanWhile_ge _ _ _

theorem skipWhitespace_pos_le (lx : lexer) (h : lx.pos ≤ lx.src.length) :
    lx.skipWhitespace.pos ≤ lx.src.length :=
  scan_le _ lx h

theorem skipWhitespace_of_isEOF (lx : lexer) (h : lx.isEOF = true) : lx.skipWhitespace = lx := by
  simp [skipWhitespace, rest_eq_nil lx h, scanWhile]

end lexer
theorem ite_ok_elim {ε α : Type} {c : Prop} [Decidable c] {a b : Except ε α} {r : α}
    {P : Prop} (h : (if c then a else b) = .ok r) (h1 : c → a = .ok r → P)
    (h2 : ¬c → b = .ok r → P) : P := by
  by_cases hc : c
  · rw [if_pos hc] at h
    exact h1 hc h
  · rw [if_neg hc] at h
    exact h2 hc h

namespace lexer

theorem skip2_advanced_and (lx : lexer) (b : Bool) (d : Char)
    (h : (b && lx.nextIs d) = true) : Advanced lx lx.skip2 := by
  simp only [Bool.and_eq_true] at h
  exact skip2_advanced lx d h.2

set_option maxHeartbeats 1000000 in
/-- A call of `getNextToken` that does not find the end of the source returns a
token that is not `T_EOF` (and not `T_DIV_ASSIGN`) and moves the position
forward, to a position inside the source. -/
theorem tokenAt_progress (w : lexer) (hE : w.isEOF = false)
    (t : token) (lx1 : lexer) (h : w.tokenAt w.peek = .ok (t, lx1)) :
    Advanced w lx1 ∧ t.type ≠ T_EOF ∧ t.type ≠ T_DIV_ASSIGN := by
  unfold tokenAt at h
  repeat' (with_reducible (refine ite_ok_elim h (fun hc h2 => ?_) (fun hc h2 => ?_)) <;>
    (clear h; rename' h2 => h))
  all_goals first
    | (exfalso; contradiction)
    | exact comment_advanced _ hE _ _ h
    | exact number_advanced _ hE (by assumption) _ _ h
    | exact stringLiteral_advanced _ hE _ _ h
    | (have hk := Except.ok.inj h
       have h1 := identifierOrKeyword_advanced _ hE (by assumption)
       have h3 := identifierOrKeyword_type w
       rw [hk] at h1 h3
       exact ⟨h1, h3⟩)
    | (have hk := Prod.mk.inj (Except.ok.inj h)
       obtain ⟨rfl, rfl⟩ := hk
       first
         | exact ⟨skip2_advanced_and _ _ _ (by assumption), fun h => tokenType.noConfusion h,
             fun h => tokenType.noConfusion h⟩
         | exact ⟨skip2_advanced _ _ (by assumption), fun h => tokenType.noConfusion h,
             fun h => tokenType.noConfusion h⟩
         | exact ⟨advance_advanced _ hE, fun h => tokenType.noConfusion h,
             fun h => tokenType.noConfusion h⟩)

theorem getNextToken_cases (lx : lexer) (t : token) (lx1 : lexer)
    (h : lx.getNextToken = .ok (t, lx1)) :
    (lx.skipWhitespace.isEOF = true ∧ t = ⟨T_EOF, ""⟩ ∧ lx1 = lx.skipWhitespace) ∨
    (lx.skipWhitespace.isEOF = false ∧
      lx.skipWhitespace.tokenAt lx.skipWhitespace.peek = .ok (t, lx1)) := by
  unfold getNextToken at h
  by_cases hE : lx.skipWhitespace.isEOF = true
  · left
    simp only [hE, if_true, Except.ok.injEq, Prod.mk.injEq] at h
    exact ⟨hE, h.1.symm, h.2.symm⟩
  · right
    simp only [hE, if_false] at h
    exact ⟨by simpa using hE, h⟩

theorem getNextToken_of_isEOF (lx : lexer) (h : lx.isEOF = true) :
    lx.getNextToken = .ok (⟨T_EOF, ""⟩, lx) := by
  unfold getNextToken
  simp only [skipWhitespace_of_isEOF lx h, h, if_true]

/-- What one successful call of `getNextToken` does to the position. -/
theorem getNextToken_step (lx : lexer) (hp : lx.pos ≤ lx.src.length) (t : token) (lx1 : lexer)
    (h : lx.getNextToken = .ok (t, lx1)) :
    lx1.src = lx.src ∧ lx1.pos ≤ lx.src.length ∧
    (t.type ≠ T_EOF → lx.pos < lx1.pos) ∧
    (t.type = T_EOF → t = ⟨T_EOF, ""⟩ ∧ lx1.getNextToken = .ok (⟨T_EOF, ""⟩, lx1)) ∧
    t.type ≠ T_DIV_ASSIGN := by
  rcases getNextToken_cases lx t lx1 h with ⟨hE, rfl, rfl⟩ | ⟨hE, ht⟩
  · refine ⟨rfl, skipWhitespace_pos_le lx hp, fun hne => absurd rfl hne, fun _ => ⟨rfl, ?_⟩,
      fun h => tokenType.noConfusion h⟩
    exact getNextToken_of_isEOF _ hE
  · obtain ⟨hadv, hne, hdiv⟩ := tokenAt_progress _ hE t lx1 ht
    refine ⟨hadv.1, hadv.2.2, fun _ => ?_, fun he => absurd he hne, hdiv⟩
    exact Nat.lt_of_le_of_lt (skipWhitespace_pos_ge lx) hadv.2.1

theorem getNextToken_type_ne_div_assign (lx : lexer) (t : token) (lx1 : lexer)
    (h : lx.getNextToken = .ok (t, lx1)) : t.type ≠ T_DIV_ASSIGN := by
  rcases getNextToken_cases lx t lx1 h with ⟨-, rfl, -⟩ | ⟨hE, ht⟩
  · exact fun h => tokenType.noConfusion h
  · exact (tokenAt_progress _ hE t lx1 ht).2.2

end lexer

theorem LexRun.push_eof (t : token) (r : LexRun) (ts : List token) (h : r = .eof ts) :
    r.push t = .eof (t :: ts) := by
  subst h
  rfl

theorem LexRun.push_failed (t : token) (r : LexRun) (ts : List token) (e : LexerError)
    (h : r = .failed ts e) : r.push t = .failed (t :: ts) e := by
  subst h
  rfl

/-- The driver loop ends, with `T_EOF` or with an exception, before its budget is
used up when the budget exceeds the number of unread characters. -/
theorem tokenize_finishes : ∀ (fuel : Nat) (lx : lexer), lx.pos ≤ lx.src.length →
    lx.src.length - lx.pos < fuel →
    ∃ printed : List token, printed.length ≤ lx.src.length - lx.pos ∧
      (∀ t ∈ printed, t.type ≠ T_EOF) ∧
      (tokenize fuel lx = .eof printed ∨ ∃ e, tokenize fuel lx = .failed printed e)
  | 0, _, _, hf => absurd hf (Nat.not_lt_zero _)
  | fuel + 1, lx, hp, hf => by
    unfold tokenize
    cases hg : lx.getNextToken with
    | error e => exact ⟨[], Nat.zero_le _, by simp, Or.inr ⟨e, rfl⟩⟩
    | ok r =>
      obtain ⟨t, lx1⟩ := r
      obtain ⟨hsrc, hle, hlt, -, -⟩ := lexer.getNextToken_step lx hp t lx1 hg
      by_cases ht : t.type = T_EOF
      · exact ⟨[], Nat.zero_le _, by simp, Or.inl (by simp [ht])⟩
      · have hlt1 := hlt ht
        obtain ⟨printed, hlen, hne, hres⟩ := tokenize_finishes fuel lx1 (by rw [hsrc]; exact hle)
          (by rw [hsrc]; omega)
        rw [hsrc] at hlen
        refine ⟨t :: printed, by simp only [List.length_cons]; omega, ?_, ?_⟩
        · intro u hu
          rcases List.mem_cons.mp hu with rfl | hu
          · exact ht
          · exact hne u hu
        · simp only [ht, if_false]
          rcases hres with h1 | ⟨e, h1⟩
          · exact Or.inl (LexRun.push_eof t _ _ h1)
          · exact Or.inr ⟨e, LexRun.push_failed t _ _ e h1⟩

/-- C6 (lexer totality).  For every source (of a length that an `int` position
can hold): a successful call of `getNextToken` of the hand-written lexer keeps
the position inside the source; it moves the position strictly forward when the
token is not `T_EOF`; when the token is `T_EOF` it is `(T_EOF, "")` and every
later call returns `(T_EOF, "")` again without changing the lexer.  Hence the
driver loop that calls `getNextToken` repeatedly from position 0 terminates:
with any budget above the length of the source it ends either at `T_EOF` or
with one lexer error, after at most `|source|` tokens, none of them `T_EOF`. -/
theorem lexer_totality (src : List Char) (_hsize : src.length < 2 ^ 31) :
    (∀ (lx : lexer) (t : token) (lx1 : lexer), lx.src = src → lx.pos ≤ src.length →
        lx.getNextToken = .ok (t, lx1) →
        lx1.src = src ∧ lx1.pos ≤ src.length ∧
        (t.type ≠ T_EOF → lx.pos < lx1.pos) ∧
        (t.type = T_EOF → t = ⟨T_EOF, ""⟩ ∧ lx1.getNextToken = .ok (⟨T_EOF, ""⟩, lx1))) ∧
    (∀ fuel : Nat, src.length < fuel →
        ∃ printed : List token, printed.length ≤ src.length ∧
          (∀ t ∈ printed, t.type ≠ T_EOF) ∧
          (tokenize fuel ⟨src, 0⟩ = .eof printed ∨
            ∃ e, tokenize fuel ⟨src, 0⟩ = .failed printed e)) := by
  constructor
  · intro lx t lx1 hsrc hp h
    subst hsrc
    obtain ⟨h1, h2, h3, h4, -⟩ := lexer.getNextToken_step lx hp t lx1 h
    exact ⟨h1, h2, h3, h4⟩
  · intro fuel hf
    exact tokenize_finishes fuel ⟨src, 0⟩ (Nat.zero_le _) (by simpa using hf)

/-- Witness for C6: the source `x /= 1;` with a budget of eight calls. -/
theorem lexer_totality_witness :
    "x /= 1;".toList.length < 2 ^ 31 ∧
    ∃ printed : List token, printed.length ≤ "x /= 1;".toList.length ∧
      (∀ t ∈ printed, t.type ≠ T_EOF) ∧
      (tokenize 8 ⟨"x /= 1;".toList, 0⟩ = .eof printed ∨
        ∃ e, tokenize 8 ⟨"x /= 1;".toList, 0⟩ = .failed printed e) :=
  ⟨by decide, (lexer_totality "x /= 1;".toList (by decide)).2 8 (by decide)⟩

/-- C7 (the operator `/=`).  On the source `/=` the hand-written lexer returns
the token `(T_DIV, "/")` and stops after the first character, and the next call
returns `(T_ASSIGNOP, "=")`; more generally no call of `getNextToken` ever
returns a token of kind `T_DIV_ASSIGN`: the test for `/=` stands behind the
earlier test `c == '/'`, which hands every `/` to `comment()`.  The other eleven
two-character operators are returned as one token. -/
theorem lexer_never_returns_div_assign :
    lexer.getNextToken ⟨"/=".toList, 0⟩ = .ok (⟨T_DIV, "/"⟩, ⟨"/=".toList, 1⟩) ∧
    lexer.getNextToken ⟨"/=".toList, 1⟩ = .ok (⟨T_ASSIGNOP, "="⟩, ⟨"/=".toList, 2⟩) ∧
    (∀ (lx : lexer) (lexeme : String) (lx1 : lexer),
        lx.getNextToken ≠ .ok (⟨T_DIV_ASSIGN, lexeme⟩, lx1)) ∧
    tokenize 12 ⟨"==!=<=>=&&||+=-=*=++--".toList, 0⟩ = .eof
      [⟨T_EQUALSOP, "=="⟩, ⟨T_NOTEQOP, "!="⟩, ⟨T_LEQOP, "<="⟩, ⟨T_GEQOP, ">="⟩,
       ⟨T_AND, "&&"⟩, ⟨T_OR, "||"⟩, ⟨T_PLUS_ASSIGN, "+="⟩, ⟨T_MINUS_ASSIGN, "-="⟩,
       ⟨T_MUL_ASSIGN, "*="⟩, ⟨T_INCREMENT, "++"⟩, ⟨T_DECREMENT, "--"⟩] := by
  refine ⟨rfl, rfl, ?_, by decide⟩
  intro lx lexeme lx1 h
  exact lexer.getNextToken_type_ne_div_assign lx _ lx1 h rfl
/-! ## Theorems about the parser -/

set_option maxRecDepth 4000 in
/-- C2 (precedence law).  For identifiers `a`, `b`, `c` and binary operators `OP1`,
`OP2` of levels `l1`, `l2`, `parseExpression` on `a OP1 b OP2 c` returns, with
any call-depth budget of at least 16, the tree
`BinaryOp(OP2, BinaryOp(OP1, a, b), c)` when `l1 ≥ l2` and the tree
`BinaryOp(OP1, a, BinaryOp(OP2, b, c))` when `OP2` binds tighter, and has then
consumed all five tokens. -/
theorem precedence_law (a b c : String) (op1 op2 : token) (l1 l2 : Nat)
    (h1 : (op1, l1) ∈ binaryOperators) (h2 : (op2, l2) ∈ binaryOperators) (k : Nat) :
    Parser.parseExpression (k + 16) (threeOperands a b c op1 op2) =
      .ok (if l1 ≥ l2 then
          .BinaryOpNode op2.value
            (.BinaryOpNode op1.value (.IdentifierNode a) (.IdentifierNode b)) (.IdentifierNode c)
        else
          .BinaryOpNode op1.value (.IdentifierNode a)
            (.BinaryOpNode op2.value (.IdentifierNode b) (.IdentifierNode c)),
        Parser.atEnd) := by
  simp only [binaryOperators, List.mem_cons, Prod.mk.injEq, List.mem_singleton,
    List.not_mem_nil, or_false] at h1 h2
  repeat' (rcases h1 with ⟨rfl, rfl⟩ | h1)
  all_goals repeat' (rcases h2 with ⟨rfl, rfl⟩ | h2)
  all_goals subst_vars
  all_goals rfl

/-- Witness for C2: `x + y * z` with a budget of 16. -/
theorem precedence_law_witness :
    Parser.parseExpression 16 (threeOperands "x" "y" "z" ⟨T_PLUS, "+"⟩ ⟨T_MUL, "*"⟩) =
      .ok (.BinaryOpNode "+" (.IdentifierNode "x")
          (.BinaryOpNode "*" (.IdentifierNode "y") (.IdentifierNode "z")), Parser.atEnd) :=
  precedence_law "x" "y" "z" ⟨T_PLUS, "+"⟩ ⟨T_MUL, "*"⟩ 4 5 (by decide) (by decide) 0
/-! ## Theorems about the type checker -/

theorem bind_eq_ok {ε α β : Type} (x : Except ε α) (f : α → Except ε β) (b : β) :
    (x >>= f) = .ok b ↔ ∃ a, x = .ok a ∧ f a = .ok b := by
  cases x with
  | error e => simp [bind, Except.bind]
  | ok a => simp [bind, Except.bind]

theorem pure_eq_ok {ε α : Type} (a b : α) : (pure a : Except ε α) = .ok b ↔ a = b := by
  simp [pure, Except.pure]

namespace TypeChecker

theorem fail_ne_ok {α : Type} (k : TypeChkError) (d : String) (a : α) :
    (fail k d : Except CheckFailure α) ≠ .ok a := by
  simp [fail]

theorem fail_bind {α β : Type} (k : TypeChkError) (d : String) (f : α → Except CheckFailure β) :
    (fail k d >>= f) = fail k d := rfl

theorem ite_fail_eq_ok {α : Type} (c : Prop) [Decidable c] (k : TypeChkError) (d : String)
    (x : Except CheckFailure α) (a : α) :
    (if c then fail k d else x) = .ok a ↔ ¬c ∧ x = .ok a := by
  by_cases hc : c <;> simp [hc, fail]

mutual

/-- An expression that `checkNode` accepts has only identifiers as callees and as
assignment targets. -/
theorem checkExpr_shape : ∀ (e : Expr) (s : ScopeStack) (t : String),
    checkExpr e s = .ok t → e.calleesAreIdentifiers = true ∧ e.targetsAreIdentifiers = true
  | .BinaryOpNode op left right, s, t, h => by
    simp only [checkExpr, bind_eq_ok] at h
    obtain ⟨lt, hl, rt, hr, -⟩ := h
    have h1 := checkExpr_shape left s lt hl
    have h2 := checkExpr_shape right s rt hr
    simp [Expr.calleesAreIdentifiers, Expr.targetsAreIdentifiers, h1, h2]
  | .UnaryOpNode op operand _, s, t, h => by
    simp only [checkExpr, bind_eq_ok] at h
    obtain ⟨ot, ho, -⟩ := h
    have h1 := checkExpr_shape operand s ot ho
    simp [Expr.calleesAreIdentifiers, Expr.targetsAreIdentifiers, h1]
  | .LiteralNode _ _, _, _, _ => by
    simp [Expr.calleesAreIdentifiers, Expr.targetsAreIdentifiers]
  | .IdentifierNode _, _, _, _ => by
    simp [Expr.calleesAreIdentifiers, Expr.targetsAreIdentifiers]
  | .CallNode callee args, s, t, h => by
    cases callee with
    | IdentifierNode name =>
      simp only [checkExpr] at h
      split at h
      · exact absurd h (fail_ne_ok _ _ _)
      · split at h
        · exact absurd h (fail_ne_ok _ _ _)
        · simp only [bind_eq_ok] at h
          obtain ⟨u, ha, -⟩ := h
          have h1 := checkArgs_shape name args _ 0 s ha
          simp [Expr.calleesAreIdentifiers, Expr.targetsAreIdentifiers, Expr.isIdentifier, h1]
    | _ => exact absurd h (by simp [checkExpr, fail])
  | .AssignmentNode left op right, s, t, h => by
    cases left with
    | IdentifierNode name =>
      simp only [checkExpr, bind_eq_ok] at h
      obtain ⟨lt, -, rt, hr, -⟩ := h
      have h1 := checkExpr_shape right s rt hr
      simp [Expr.calleesAreIdentifiers, Expr.targetsAreIdentifiers, Expr.isIdentifier, h1]
    | _ => exact absurd h (by simp [checkExpr, fail])

theorem checkArgs_shape (fname : String) : ∀ (args : List Expr) (expected : List String)
    (i : Nat) (s : ScopeStack), checkArgs fname args expected i s = .ok () →
    Expr.allCalleesAreIdentifiers args = true ∧ Expr.allTargetsAreIdentifiers args = true
  | [], _, _, _, _ => by
    simp [Expr.allCalleesAreIdentifiers, Expr.allTargetsAreIdentifiers]
  | arg :: args, expected, i, s, h => by
    simp only [checkArgs, bind_eq_ok] at h
    obtain ⟨at1, ha, h⟩ := h
    split at h
    · exact absurd h (fail_ne_ok _ _ _)
    · have h1 := checkExpr_shape arg s at1 ha
      have h2 := checkArgs_shape fname args _ _ s h
      simp [Expr.allCalleesAreIdentifiers, Expr.allTargetsAreIdentifiers, h1, h2]

end

mutual

theorem checkStmt_allExprs (P : Expr → Bool)
    (hP : ∀ (e : Expr) (s : ScopeStack) (t : String), checkExpr e s = .ok t → P e = true) :
    ∀ (st : Stmt) (c c1 : TypeChecker), checkStmt st c = .ok c1 → st.allExprs P = true
  | .BlockNode stmts, c, c1, h => by
    simp only [checkStmt, bind_eq_ok] at h
    obtain ⟨c2, h2, -⟩ := h
    simpa [Stmt.allExprs] using checkStmts_allExprs P hP stmts _ c2 h2
  | .VarDeclNode typeName name none, c, c1, h => by
    simp [Stmt.allExprs, holdsForOptional]
  | .VarDeclNode typeName name (some e), c, c1, h => by
    simp only [checkStmt, bind_eq_ok] at h
    obtain ⟨it, hi, -⟩ := h
    simpa [Stmt.allExprs, holdsForOptional] using hP e _ it hi
  | .ReturnNode none, c, c1, h => by
    simp [Stmt.allExprs, holdsForOptional]
  | .ReturnNode (some e), c, c1, h => by
    simp only [checkStmt, bind_eq_ok] at h
    obtain ⟨et, he, -⟩ := h
    simpa [Stmt.allExprs, holdsForOptional] using hP e _ et he
  | .IfNode cond thenBlock none, c, c1, h => by
    simp only [checkStmt, bind_eq_ok, pure_bind, fail_bind, ite_fail_eq_ok] at h
    obtain ⟨ct, hc, -, c2, h2, -⟩ := h
    have h4 := hP cond _ ct hc
    have h5 := checkStmts_allExprs P hP thenBlock _ c2 h2
    simp [Stmt.allExprs, h4, h5]
  | .IfNode cond thenBlock (some stmts), c, c1, h => by
    simp only [checkStmt, bind_eq_ok, pure_bind, fail_bind, ite_fail_eq_ok] at h
    obtain ⟨ct, hc, -, c2, h2, c3, h6, -⟩ := h
    have h4 := hP cond _ ct hc
    have h5 := checkStmts_allExprs P hP thenBlock _ c2 h2
    have h7 := checkStmts_allExprs P hP stmts _ c3 h6
    simp [Stmt.allExprs, h4, h5, h7]
  | .WhileNode cond body, c, c1, h => by
    simp only [checkStmt, bind_eq_ok, pure_bind, fail_bind, ite_fail_eq_ok] at h
    obtain ⟨ct, hc, -, c2, h2, -⟩ := h
    have h4 := hP cond _ ct hc
    have h5 := checkStmts_allExprs P hP body _ c2 h2
    simp [Stmt.allExprs, h4, h5]
  | .ExprStmtNode expr, c, c1, h => by
    simp only [checkStmt, bind_eq_ok] at h
    obtain ⟨et, he, -⟩ := h
    simpa [Stmt.allExprs] using hP expr _ et he

theorem checkStmts_allExprs (P : Expr → Bool)
    (hP : ∀ (e : Expr) (s : ScopeStack) (t : String), checkExpr e s = .ok t → P e = true) :
    ∀ (stmts : List Stmt) (c c1 : TypeChecker), checkStmts stmts c = .ok c1 →
      Stmt.allExprsList P stmts = true
  | [], _, _, _ => by simp [Stmt.allExprsList]
  | st :: stmts, c, c1, h => by
    simp only [checkStmts, bind_eq_ok] at h
    obtain ⟨c2, h2, h3⟩ := h
    have h4 := checkStmt_allExprs P hP st c c2 h2
    have h5 := checkStmts_allExprs P hP stmts c2 c1 h3
    simp [Stmt.allExprsList, h4, h5]

end

theorem checkItems_allExprs (P : Expr → Bool)
    (hP : ∀ (e : Expr) (s : ScopeStack) (t : String), checkExpr e s = .ok t → P e = true) :
    ∀ (items : List Item) (c c1 : TypeChecker), checkItems items c = .ok c1 →
      Item.allExprsList P items = true
  | [], _, _, _ => by simp [Item.allExprsList]
  | .FunctionNode retType name params body :: items, c, c1, h => by
    simp only [checkItems, bind_eq_ok] at h
    obtain ⟨c2, h2, h3⟩ := h
    simp only [checkFunction, bind_eq_ok] at h2
    obtain ⟨s1, -, c3, h4, -⟩ := h2
    have h5 := checkStmts_allExprs P hP body _ c3 h4
    have h6 := checkItems_allExprs P hP items c2 c1 h3
    simp [Item.allExprsList, h5, h6]
  | .Statement st :: items, c, c1, h => by
    simp only [checkItems, bind_eq_ok] at h
    obtain ⟨c2, h2, h3⟩ := h
    have h5 := checkStmt_allExprs P hP st c c2 h2
    have h6 := checkItems_allExprs P hP items c2 c1 h3
    simp [Item.allExprsList, h5, h6]

mutual

/-- The flag `hasReturnStmt` after a statement was checked is set exactly when it
was set before or the statement contains a `ReturnNode`; the return type of the
current function is not changed. -/
theorem checkStmt_hasReturn : ∀ (st : Stmt) (c c1 : TypeChecker), checkStmt st c = .ok c1 →
    c1.hasReturnStmt = (c.hasReturnStmt || st.containsReturn) ∧
    c1.currentFunctionRetType = c.currentFunctionRetType
  | .BlockNode stmts, c, c1, h => by
    simp only [checkStmt, bind_eq_ok, pure_eq_ok] at h
    obtain ⟨c2, h2, rfl⟩ := h
    simpa [Stmt.containsReturn] using checkStmts_hasReturn stmts _ c2 h2
  | .VarDeclNode typeName name none, c, c1, h => by
    simp only [checkStmt, bind_eq_ok, pure_eq_ok, pure_bind] at h
    obtain ⟨s1, -, rfl⟩ := h
    simp [Stmt.containsReturn]
  | .VarDeclNode typeName name (some e), c, c1, h => by
    simp only [checkStmt, bind_eq_ok, pure_eq_ok, pure_bind, fail_bind, ite_fail_eq_ok] at h
    obtain ⟨it, -, -, s1, -, rfl⟩ := h
    simp [Stmt.containsReturn]
  | .ReturnNode none, c, c1, h => by
    simp only [checkStmt, ite_fail_eq_ok, pure_eq_ok] at h
    obtain ⟨-, rfl⟩ := h
    simp [Stmt.containsReturn]
  | .ReturnNode (some e), c, c1, h => by
    simp only [checkStmt, bind_eq_ok, pure_eq_ok, pure_bind, fail_bind, ite_fail_eq_ok] at h
    obtain ⟨et, -, -, -, rfl⟩ := h
    simp [Stmt.containsReturn]
  | .IfNode cond thenBlock none, c, c1, h => by
    simp only [checkStmt, bind_eq_ok, pure_bind, fail_bind, ite_fail_eq_ok, pure_eq_ok] at h
    obtain ⟨ct, hc, -, c2, h2, rfl⟩ := h
    simpa [Stmt.containsReturn] using checkStmts_hasReturn thenBlock _ c2 h2
  | .IfNode cond thenBlock (some stmts), c, c1, h => by
    simp only [checkStmt, bind_eq_ok, pure_bind, fail_bind, ite_fail_eq_ok, pure_eq_ok] at h
    obtain ⟨ct, hc, -, c2, h2, c3, h6, rfl⟩ := h
    have h5 := checkStmts_hasReturn thenBlock _ c2 h2
    have h7 := checkStmts_hasReturn stmts _ c3 h6
    simp only [Stmt.containsReturn]
    simp only at h5 h7 ⊢
    rw [h7.1, h7.2, h5.1, h5.2]
    simp [Bool.or_assoc]
  | .WhileNode cond body, c, c1, h => by
    simp only [checkStmt, bind_eq_ok, pure_eq_ok, pure_bind, fail_bind, ite_fail_eq_ok] at h
    obtain ⟨ct, hc, -, c2, h2, rfl⟩ := h
    simpa [Stmt.containsReturn] using checkStmts_hasReturn body _ c2 h2
  | .ExprStmtNode expr, c, c1, h => by
    simp only [checkStmt, bind_eq_ok, pure_eq_ok] at h
    obtain ⟨et, he, rfl⟩ := h
    simp [Stmt.containsReturn]

theorem checkStmts_hasReturn : ∀ (stmts : List Stmt) (c c1 : TypeChecker),
    checkStmts stmts c = .ok c1 →
    c1.hasReturnStmt = (c.hasReturnStmt || Stmt.anyContainsReturn stmts) ∧
    c1.currentFunctionRetType = c.currentFunctionRetType
  | [], c, c1, h => by
    simp only [checkStmts, pure_eq_ok] at h
    subst h
    simp [Stmt.anyContainsReturn]
  | st :: stmts, c, c1, h => by
    simp only [checkStmts, bind_eq_ok] at h
    obtain ⟨c2, h2, h3⟩ := h
    have h4 := checkStmt_hasReturn st c c2 h2
    have h5 := checkStmts_hasReturn stmts c2 c1 h3
    rw [h5.1, h5.2, h4.1, h4.2]
    simp [Stmt.anyContainsReturn, Bool.or_assoc]

end

end TypeChecker
/-- C1 (errors of the type-checking phase).  The program `int x;`, and every
program that consists of one top-level declaration `T x;`, is accepted by
`ScopeAnalyzer.analyze`, and `TypeChecker.check` on the scope stack of the
analyzer then throws the `ScopeException` `VariableRedefinition` for `x`: the
analyzer has left `x` in the global scope, and `checkVarDecl` adds it again. -/
theorem typeChecker_throws_scope_exception :
    parseSource 8 (TokenStream.ofSource "int x;") =
      .ok ⟨[.Statement (.VarDeclNode "int" "x" none)]⟩ ∧
    analyzeAndCheck ⟨[.Statement (.VarDeclNode "int" "x" none)]⟩ =
      .scopeErrorInTypeChecker ⟨.VariableRedefinition, "x"⟩ ∧
    ∀ typeName name : String,
      analyzeAndCheck ⟨[.Statement (.VarDeclNode typeName name none)]⟩ =
        .scopeErrorInTypeChecker ⟨.VariableRedefinition, name⟩ := by
  refine ⟨rfl, by decide, ?_⟩
  intro typeName name
  simp [analyzeAndCheck, ScopeAnalyzer.analyze, ScopeAnalyzer.analyzeProgram,
    ScopeAnalyzer.hoistFunctions, ScopeAnalyzer.analyzeItems, ScopeAnalyzer.analyzeStmt,
    ScopeStack.new, ScopeStack.addSymbol, ScopeStack.currentScope, ScopeNode.find,
    ScopeNode.insert, TypeChecker.check, TypeChecker.checkProgram, TypeChecker.checkItems,
    TypeChecker.checkStmt, TypeChecker.new, TypeChecker.liftScope, bind, Except.bind, pure,
    Except.pure, List.lookup]

/-- C8, as stated, fails: the source `1(2);` is parsed, and the `CallNode` of the
tree has a `LiteralNode` as callee. -/
theorem parser_accepts_literal_callee :
    parseSource 40 (TokenStream.ofSource "1(2);") =
      .ok ⟨[.Statement (.ExprStmtNode
        (.CallNode (.LiteralNode "int" "1") [.LiteralNode "int" "2"]))]⟩ ∧
    ProgramNode.calleesAreIdentifiers ⟨[.Statement (.ExprStmtNode
        (.CallNode (.LiteralNode "int" "1") [.LiteralNode "int" "2"]))]⟩ = false :=
  ⟨rfl, rfl⟩

/-- C8, amended.  In every program that `TypeChecker.check` accepts, every
`CallNode` has an `IdentifierNode` as callee (`checkCall` throws
`ExpressionTypeMismatch` for any other callee; the parser itself does not
restrict the callee). -/
theorem checked_program_callees_are_identifiers (prog : ProgramNode) (c c1 : TypeChecker)
    (h : TypeChecker.check prog c = .ok c1) : prog.calleesAreIdentifiers = true :=
  TypeChecker.checkItems_allExprs Expr.calleesAreIdentifiers
    (fun e s t he => (TypeChecker.checkExpr_shape e s t he).1) prog.items c c1 h

/-- Witness for C8, amended: the program `fn int f() { return f(); }`, checked as
`main` does. -/
theorem checked_program_callees_are_identifiers_witness :
    ProgramNode.calleesAreIdentifiers
      ⟨[.FunctionNode "int" "f" [] [.ReturnNode (some (.CallNode (.IdentifierNode "f") []))]]⟩
      = true :=
  checked_program_callees_are_identifiers
    ⟨[.FunctionNode "int" "f" [] [.ReturnNode (some (.CallNode (.IdentifierNode "f") []))]]⟩
    (TypeChecker.new ⟨[], ⟨0, [("f", ⟨"f", "int", true, [], 0⟩)]⟩, 2⟩)
    ⟨⟨[], ⟨0, [("f", ⟨"f", "int", true, [], 0⟩)]⟩, 3⟩, "int", true⟩ rfl

/-- C9, as stated, fails: the source `a + b = c;` is parsed, and the
`AssignmentNode` of the tree has a `BinaryOpNode` on its left. -/
theorem parser_accepts_binary_assignment_target :
    parseSource 40 (TokenStream.ofSource "a + b = c;") =
      .ok ⟨[.Statement (.ExprStmtNode
        (.AssignmentNode (.BinaryOpNode "+" (.IdentifierNode "a") (.IdentifierNode "b")) "="
          (.IdentifierNode "c")))]⟩ ∧
    ProgramNode.targetsAreIdentifiers ⟨[.Statement (.ExprStmtNode
        (.AssignmentNode (.BinaryOpNode "+" (.IdentifierNode "a") (.IdentifierNode "b")) "="
          (.IdentifierNode "c")))]⟩ = false :=
  ⟨rfl, rfl⟩

/-- C9, amended.  In every program that `TypeChecker.check` accepts, every
`AssignmentNode` has an `IdentifierNode` on its left (`checkAssignment` throws
`ExpressionTypeMismatch` for any other left side; the parser itself does not
restrict the left side). -/
theorem checked_program_targets_are_identifiers (prog : ProgramNode) (c c1 : TypeChecker)
    (h : TypeChecker.check prog c = .ok c1) : prog.targetsAreIdentifiers = true :=
  TypeChecker.checkItems_allExprs Expr.targetsAreIdentifiers
    (fun e s t he => (TypeChecker.checkExpr_shape e s t he).2) prog.items c c1 h

/-- Witness for C9, amended: the program `fn int f(int x) { x = 1; return x; }`. -/
theorem checked_program_targets_are_identifiers_witness :
    ProgramNode.targetsAreIdentifiers
      ⟨[.FunctionNode "int" "f" [("int", "x")]
        [.ExprStmtNode (.AssignmentNode (.IdentifierNode "x") "=" (.LiteralNode "int" "1")),
         .ReturnNode (some (.IdentifierNode "x"))]]⟩ = true :=
  checked_program_targets_are_identifiers
    ⟨[.FunctionNode "int" "f" [("int", "x")]
        [.ExprStmtNode (.AssignmentNode (.IdentifierNode "x") "=" (.LiteralNode "int" "1")),
         .ReturnNode (some (.IdentifierNode "x"))]]⟩
    (TypeChecker.new ⟨[], ⟨0, [("f", ⟨"f", "int", true, ["int"], 0⟩)]⟩, 2⟩)
    ⟨⟨[], ⟨0, [("f", ⟨"f", "int", true, ["int"], 0⟩)]⟩, 3⟩, "int", true⟩ rfl

/-- C10 (the return check).  For a function whose return type is not `void`, whose
parameters are added without exception and whose body statements pass
`checkNode`: `checkFunction` throws `ReturnStmtNotFound` if and only if no
`ReturnNode` occurs in the body at any depth (inside blocks, `if` arms and `while`
bodies included), and it returns normally when one occurs. -/
theorem checkFunction_return_check (retType name : String) (params : List (String × String))
    (body : List Stmt) (c : TypeChecker) (s1 : ScopeStack) (c2 : TypeChecker)
    (hret : retType ≠ "void")
    (hparams : TypeChecker.liftScope (c.scopeStack.enterScope.addParams params) = .ok s1)
    (hbody : TypeChecker.checkStmts body
      { scopeStack := s1, currentFunctionRetType := retType, hasReturnStmt := false } = .ok c2) :
    ((∃ e, TypeChecker.checkFunction retType name params body c = .error (.typeCheckException e)
        ∧ e.errorType = .ReturnStmtNotFound) ↔ Stmt.anyContainsReturn body = false) ∧
    (Stmt.anyContainsReturn body = true →
      TypeChecker.checkFunction retType name params body c =
        .ok { c2 with scopeStack := c2.scopeStack.exitScope }) := by
  have hflag := (TypeChecker.checkStmts_hasReturn body _ c2 hbody).1
  simp only [Bool.false_or] at hflag
  have hrun : TypeChecker.checkFunction retType name params body c =
      if (decide (retType ≠ "void") && !c2.hasReturnStmt) = true then
        TypeChecker.fail .ReturnStmtNotFound ("Function '" ++ name ++
          "' must return a value of type '" ++ retType ++ "'")
      else .ok { c2 with scopeStack := c2.scopeStack.exitScope } := by
    simp only [TypeChecker.checkFunction, hparams, hbody, bind, Except.bind]
    rfl
  rw [hrun, hflag]
  cases hb : Stmt.anyContainsReturn body
  · simp [hret, TypeChecker.fail]
  · simp [hret]

/-- Witness for C10: `fn int f(){ if(false){return 1;} }` passes the check, the
return statement being present though never executed, and `fn int f(){ }` is
rejected with `ReturnStmtNotFound`. -/
theorem checkFunction_return_check_witness :
    TypeChecker.checkFunction "int" "f" []
        [.IfNode (.LiteralNode "bool" "false") [.ReturnNode (some (.LiteralNode "int" "1"))] none]
        (TypeChecker.new ScopeStack.new) =
      .ok ⟨⟨[], ⟨0, []⟩, 3⟩, "int", true⟩ ∧
    ∃ e, TypeChecker.checkFunction "int" "f" [] [] (TypeChecker.new ScopeStack.new) =
        .error (.typeCheckException e) ∧ e.errorType = .ReturnStmtNotFound :=
  ⟨(checkFunction_return_check "int" "f" []
      [.IfNode (.LiteralNode "bool" "false") [.ReturnNode (some (.LiteralNode "int" "1"))] none]
      (TypeChecker.new ScopeStack.new) ⟨[⟨1, []⟩], ⟨0, []⟩, 2⟩
      ⟨⟨[⟨1, []⟩], ⟨0, []⟩, 3⟩, "int", true⟩ (by decide) rfl rfl).2 rfl,
   (checkFunction_return_check "int" "f" [] [] (TypeChecker.new ScopeStack.new)
      ⟨[⟨1, []⟩], ⟨0, []⟩, 2⟩ ⟨⟨[⟨1, []⟩], ⟨0, []⟩, 2⟩, "int", false⟩
      (by decide) rfl rfl).1.2 rfl⟩
/-! ## Theorems about the scope analyzer -/

theorem ScopeNode.find_insert (sc : ScopeNode) (name : String) (info : SymbolInfo) (n : String) :
    (sc.insert name info).find n = if n = name then some info else sc.find n := by
  simp only [ScopeNode.find, ScopeNode.insert, List.lookup_cons]
  by_cases h : n = name
  · simp [h]
  · have hb : (n == name) = false := by simpa using h
    simp [h, hb]

theorem lookupIn_sound (name : String) (fl : Bool) : ∀ (chain : List ScopeNode) (info : SymbolInfo),
    lookupIn name fl chain = some info →
    ∃ sc ∈ chain, sc.find name = some info ∧ info.isFunction = fl
  | [], info, h => by simp [lookupIn] at h
  | sc :: parents, info, h => by
    simp only [lookupIn] at h
    split at h
    · rename_i i hi
      split at h
      · obtain ⟨sc1, hm, hf⟩ := lookupIn_sound name fl parents info h
        exact ⟨sc1, List.mem_cons_of_mem _ hm, hf⟩
      · split at h
        · obtain ⟨sc1, hm, hf⟩ := lookupIn_sound name fl parents info h
          exact ⟨sc1, List.mem_cons_of_mem _ hm, hf⟩
        · rename_i h1 h2
          simp only [Option.some.injEq] at h
          subst h
          refine ⟨sc, List.mem_cons_self _ _, hi, ?_⟩
          cases fl <;> cases hf : i.isFunction <;> simp_all
    · obtain ⟨sc1, hm, hf⟩ := lookupIn_sound name fl parents info h
      exact ⟨sc1, List.mem_cons_of_mem _ hm, hf⟩

namespace ScopeInv

theorem inv_mono {funcs vars vars1 : List String} {chain : List ScopeNode}
    (h : ScopeInv funcs vars chain) (hs : ∀ n ∈ vars, n ∈ vars1) : ScopeInv funcs vars1 chain :=
  fun sc hsc name info hf => ⟨fun hi => hs _ ((h sc hsc name info hf).1 hi),
    (h sc hsc name info hf).2⟩

theorem var_mem {funcs vars : List String} {s : ScopeStack} (h : ScopeInv funcs vars s.chain)
    {name : String} {info : SymbolInfo} (hl : s.lookup name false = some info) : name ∈ vars := by
  obtain ⟨sc, hm, hf, hi⟩ := lookupIn_sound name false s.chain info hl
  exact (h sc hm name info hf).1 hi

theorem func_mem {funcs vars : List String} {s : ScopeStack} (h : ScopeInv funcs vars s.chain)
    {name : String} {info : SymbolInfo} (hl : s.lookup name true = some info) : name ∈ funcs := by
  obtain ⟨sc, hm, hf, hi⟩ := lookupIn_sound name true s.chain info hl
  exact (h sc hm name info hf).2 hi

theorem enterScope {funcs vars : List String} {s : ScopeStack}
    (h : ScopeInv funcs vars s.chain) : ScopeInv funcs vars s.enterScope.chain := by
  intro sc hsc name info hf
  simp only [ScopeStack.enterScope, ScopeStack.chain, List.cons_append, List.mem_cons] at hsc
  rcases hsc with rfl | hsc
  · simp [ScopeNode.find] at hf
  · exact h sc hsc name info hf

end ScopeInv

namespace ScopeStack

theorem requireSymbol_ok (s : ScopeStack) (name : String) (info : SymbolInfo)
    (h : s.requireSymbol name = .ok info) : s.lookup name false = some info := by
  unfold requireSymbol at h
  split at h
  · exact absurd h (by simp)
  · rename_i i hi
    simp only [Except.ok.injEq] at h
    rw [hi, h]

theorem requireFunction_ok (s : ScopeStack) (name : String) (info : SymbolInfo)
    (h : s.requireFunction name = .ok info) : s.lookup name true = some info := by
  unfold requireFunction at h
  split at h
  · exact absurd h (by simp)
  · rename_i i hi
    simp only [Except.ok.injEq] at h
    rw [hi, h]

/-- A successful `addSymbol` of a variable changes the current scope only, and the
new symbol is the variable. -/
theorem addSymbol_sound {funcs vars : List String} (s s1 : ScopeStack) (name type : String)
    (h : s.addSymbol name type false = .ok s1) (hinv : ScopeInv funcs vars s.chain) :
    ScopeInv funcs (name :: vars) s1.chain ∧ SameOuter s s1 := by
  unfold addSymbol at h
  split at h
  · exact absurd h (by simp)
  · cases hin : s.inner with
    | nil =>
      simp only [hin, Except.ok.injEq] at h
      subst h
      refine ⟨?_, by simp [SameOuter, hin]⟩
      intro sc hsc n info hf
      simp only [chain, hin, List.nil_append, List.mem_singleton] at hsc
      subst hsc
      rw [ScopeNode.find_insert] at hf
      split at hf
      · rename_i hn
        simp only [Option.some.injEq] at hf
        subst hf
        exact ⟨fun _ => by simp [hn], fun hc => by simp at hc⟩
      · have := hinv s.globalScope (by simp [chain]) n info hf
        exact ⟨fun hi => List.mem_cons_of_mem _ (this.1 hi), this.2⟩
    | cons sc0 parents =>
      simp only [hin, Except.ok.injEq] at h
      subst h
      refine ⟨?_, by simp [SameOuter, hin]⟩
      intro sc hsc n info hf
      simp only [chain, List.cons_append, List.mem_cons] at hsc
      rcases hsc with rfl | hsc
      · rw [ScopeNode.find_insert] at hf
        split at hf
        · rename_i hn
          simp only [Option.some.injEq] at hf
          subst hf
          exact ⟨fun _ => by simp [hn], fun hc => by simp at hc⟩
        · have := hinv sc0 (by simp [chain, hin]) n info hf
          exact ⟨fun hi => List.mem_cons_of_mem _ (this.1 hi), this.2⟩
      · have := hinv sc (by simp only [chain, hin, List.cons_append, List.mem_cons]
                            exact Or.inr hsc) n info hf
        exact ⟨fun hi => List.mem_cons_of_mem _ (this.1 hi), this.2⟩

end ScopeStack

namespace SameOuter

theorem outer_refl (s : ScopeStack) : SameOuter s s := ⟨rfl, rfl, fun _ => rfl⟩

theorem outer_trans {a b c : ScopeStack} (h1 : SameOuter a b) (h2 : SameOuter b c) : SameOuter a c := by
  refine ⟨h2.1.trans h1.1, h2.2.1.trans h1.2.1, fun hne => ?_⟩
  have hb : b.inner ≠ [] := by
    intro hb
    have := h1.1
    rw [hb] at this
    exact hne (List.length_eq_zero.mp this.symm)
  exact (h2.2.2 hb).trans (h1.2.2 hne)

/-- Leaving the scope that was entered gives back the chain of scopes. -/
theorem exit_chain {s s1 : ScopeStack} (h : SameOuter s.enterScope s1) :
    s1.exitScope.chain = s.chain ∧ SameOuter s s1.exitScope := by
  obtain ⟨h1, h2, h3⟩ := h
  simp only [ScopeStack.enterScope, List.length_cons, List.tail_cons, ne_eq,
    not_false_eq_true, forall_const, reduceCtorEq] at h1 h2 h3
  cases hin : s1.inner with
  | nil => simp [hin] at h1
  | cons sc parents =>
    rw [hin] at h2
    simp only [List.tail_cons] at h2
    subst h2
    constructor
    · simp [ScopeStack.exitScope, hin, ScopeStack.chain, h3]
    · refine ⟨?_, ?_, fun _ => ?_⟩ <;> simp [ScopeStack.exitScope, hin, h3]

end SameOuter

namespace ScopeAnalyzer

mutual

/-- An expression that the analyzer accepts is well scoped. -/
theorem analyzeExpr_sound (funcs vars : List String) : ∀ (e : Expr) (s : ScopeStack),
    analyzeExpr e s = .ok () → ScopeInv funcs vars s.chain → e.wellScoped funcs vars = true
  | .BinaryOpNode _ left right, s, h, hinv => by
    simp only [analyzeExpr, bind_eq_ok] at h
    obtain ⟨u, hl, hr⟩ := h
    simp [Expr.wellScoped, analyzeExpr_sound funcs vars left s hl hinv,
      analyzeExpr_sound funcs vars right s hr hinv]
  | .UnaryOpNode _ operand _, s, h, hinv => by
    simp only [analyzeExpr] at h
    simp [Expr.wellScoped, analyzeExpr_sound funcs vars operand s h hinv]
  | .LiteralNode _ _, _, _, _ => by simp [Expr.wellScoped]
  | .IdentifierNode name, s, h, hinv => by
    simp only [analyzeExpr, bind_eq_ok] at h
    obtain ⟨info, hi, -⟩ := h
    simpa [Expr.wellScoped] using hinv.var_mem (ScopeStack.requireSymbol_ok s name info hi)
  | .CallNode (.IdentifierNode name) args, s, h, hinv => by
    simp only [analyzeExpr, bind_eq_ok, pure_bind] at h
    obtain ⟨info, hi, ha⟩ := h
    have h1 := hinv.func_mem (ScopeStack.requireFunction_ok s name info hi)
    simp [Expr.wellScoped, h1, analyzeExprs_sound funcs vars args s ha hinv]
  | .CallNode (.BinaryOpNode op l r) args, s, h, hinv => by
    simp only [analyzeExpr, bind_eq_ok] at h
    obtain ⟨u, ⟨u1, hl, hr⟩, ha⟩ := h
    have h1 := analyzeExpr_sound funcs vars l s hl hinv
    have h2 := analyzeExpr_sound funcs vars r s hr hinv
    simp [Expr.wellScoped, h1, h2, analyzeExprs_sound funcs vars args s ha hinv]
  | .CallNode (.UnaryOpNode op e p) args, s, h, hinv => by
    simp only [analyzeExpr, bind_eq_ok] at h
    obtain ⟨u, hc, ha⟩ := h
    have h1 := analyzeExpr_sound funcs vars e s hc hinv
    simp [Expr.wellScoped, h1, analyzeExprs_sound funcs vars args s ha hinv]
  | .CallNode (.LiteralNode k v) args, s, h, hinv => by
    simp only [analyzeExpr, bind_eq_ok, pure_bind] at h
    simp [Expr.wellScoped, analyzeExprs_sound funcs vars args s h hinv]
  | .CallNode (.CallNode c a) args, s, h, hinv => by
    rw [analyzeExpr] at h
    case x_3 => exact fun name hn => Expr.noConfusion hn
    simp only [bind_eq_ok] at h
    obtain ⟨u, hc, ha⟩ := h
    have h1 := analyzeExpr_sound funcs vars (.CallNode c a) s hc hinv
    simp only [Expr.wellScoped] at h1 ⊢
    simp [h1, analyzeExprs_sound funcs vars args s ha hinv]
  | .CallNode (.AssignmentNode l op r) args, s, h, hinv => by
    rw [analyzeExpr] at h
    case x_3 => exact fun name hn => Expr.noConfusion hn
    simp only [bind_eq_ok] at h
    obtain ⟨u, hc, ha⟩ := h
    have h1 := analyzeExpr_sound funcs vars (.AssignmentNode l op r) s hc hinv
    simp only [Expr.wellScoped] at h1 ⊢
    simp [h1, analyzeExprs_sound funcs vars args s ha hinv]
  | .AssignmentNode (.IdentifierNode name) _ right, s, h, hinv => by
    simp only [analyzeExpr, bind_eq_ok, pure_bind] at h
    obtain ⟨info, hi, hr⟩ := h
    have h1 := hinv.var_mem (ScopeStack.requireSymbol_ok s name info hi)
    simp [Expr.wellScoped, h1, analyzeExpr_sound funcs vars right s hr hinv]
  | .AssignmentNode (.BinaryOpNode op l r) _ right, s, h, hinv => by
    simp only [analyzeExpr, bind_eq_ok] at h
    obtain ⟨u, ⟨u1, hl, hr⟩, ha⟩ := h
    have h1 := analyzeExpr_sound funcs vars l s hl hinv
    have h2 := analyzeExpr_sound funcs vars r s hr hinv
    simp [Expr.wellScoped, h1, h2, analyzeExpr_sound funcs vars right s ha hinv]
  | .AssignmentNode (.UnaryOpNode op e p) _ right, s, h, hinv => by
    simp only [analyzeExpr, bind_eq_ok] at h
    obtain ⟨u, hc, ha⟩ := h
    have h1 := analyzeExpr_sound funcs vars e s hc hinv
    simp [Expr.wellScoped, h1, analyzeExpr_sound funcs vars right s ha hinv]
  | .AssignmentNode (.LiteralNode k v) _ right, s, h, hinv => by
    simp only [analyzeExpr, bind_eq_ok, pure_bind] at h
    simp [Expr.wellScoped, analyzeExpr_sound funcs vars right s h hinv]
  | .AssignmentNode (.CallNode c a) _ right, s, h, hinv => by
    rw [analyzeExpr] at h
    case x_3 => exact fun name hn => Expr.noConfusion hn
    simp only [bind_eq_ok] at h
    obtain ⟨u, hc, ha⟩ := h
    have h1 := analyzeExpr_sound funcs vars (.CallNode c a) s hc hinv
    simp only [Expr.wellScoped] at h1 ⊢
    simp [h1, analyzeExpr_sound funcs vars right s ha hinv]
  | .AssignmentNode (.AssignmentNode l op r) _ right, s, h, hinv => by
    rw [analyzeExpr] at h
    case x_3 => exact fun name hn => Expr.noConfusion hn
    simp only [bind_eq_ok] at h
    obtain ⟨u, hc, ha⟩ := h
    have h1 := analyzeExpr_sound funcs vars (.AssignmentNode l op r) s hc hinv
    simp only [Expr.wellScoped] at h1 ⊢
    simp [h1, analyzeExpr_sound funcs vars right s ha hinv]

theorem analyzeExprs_sound (funcs vars : List String) : ∀ (es : List Expr) (s : ScopeStack),
    analyzeExprs es s = .ok () → ScopeInv funcs vars s.chain →
    Expr.allWellScoped funcs vars es = true
  | [], _, _, _ => by simp [Expr.allWellScoped]
  | e :: es, s, h, hinv => by
    simp only [analyzeExprs, bind_eq_ok] at h
    obtain ⟨u, he, hes⟩ := h
    simp [Expr.allWellScoped, analyzeExpr_sound funcs vars e s he hinv,
      analyzeExprs_sound funcs vars es s hes hinv]

end

end ScopeAnalyzer

namespace ScopeAnalyzer

mutual

/-- A statement that the analyzer accepts is well scoped; afterwards the scope
stack differs in its current scope at most, where the name declared by the
statement has been added. -/
theorem analyzeStmt_sound (funcs : List String) : ∀ (st : Stmt) (s s1 : ScopeStack)
    (vars : List String), analyzeStmt st s = .ok s1 → ScopeInv funcs vars s.chain →
    st.wellScoped funcs vars = true ∧ ScopeInv funcs (st.declared ++ vars) s1.chain ∧
      SameOuter s s1
  | .BlockNode stmts, s, s1, vars, h, hinv => by
    simp only [analyzeStmt, bind_eq_ok, pure_eq_ok] at h
    obtain ⟨s2, h2, rfl⟩ := h
    obtain ⟨hw, hso⟩ := analyzeStmts_sound funcs stmts _ s2 vars h2 hinv.enterScope
    obtain ⟨hch, hso2⟩ := hso.exit_chain
    refine ⟨by simpa [Stmt.wellScoped] using hw, ?_, hso2⟩
    rw [hch]
    simpa [Stmt.declared] using hinv
  | .VarDeclNode typeName name none, s, s1, vars, h, hinv => by
    simp only [analyzeStmt, pure_bind] at h
    obtain ⟨h1, h2⟩ := ScopeStack.addSymbol_sound s s1 name typeName h hinv
    exact ⟨by simp [Stmt.wellScoped, holdsForOptional], by simpa [Stmt.declared] using h1, h2⟩
  | .VarDeclNode typeName name (some e), s, s1, vars, h, hinv => by
    simp only [analyzeStmt, bind_eq_ok] at h
    obtain ⟨u, hi, ha⟩ := h
    obtain ⟨h1, h2⟩ := ScopeStack.addSymbol_sound s s1 name typeName ha hinv
    exact ⟨by simpa [Stmt.wellScoped, holdsForOptional] using
        analyzeExpr_sound funcs vars e s hi hinv,
      by simpa [Stmt.declared] using h1, h2⟩
  | .ReturnNode none, s, s1, vars, h, hinv => by
    simp only [analyzeStmt, pure_bind, pure_eq_ok] at h
    subst h
    exact ⟨by simp [Stmt.wellScoped, holdsForOptional], by simpa [Stmt.declared] using hinv,
      SameOuter.outer_refl _⟩
  | .ReturnNode (some e), s, s1, vars, h, hinv => by
    simp only [analyzeStmt, bind_eq_ok, pure_eq_ok] at h
    obtain ⟨u, hi, rfl⟩ := h
    exact ⟨by simpa [Stmt.wellScoped, holdsForOptional] using
        analyzeExpr_sound funcs vars e s hi hinv,
      by simpa [Stmt.declared] using hinv, SameOuter.outer_refl _⟩
  | .IfNode cond thenBlock none, s, s1, vars, h, hinv => by
    simp only [analyzeStmt, bind_eq_ok, pure_eq_ok] at h
    obtain ⟨u, hc, s2, h2, rfl⟩ := h
    have hcw := analyzeExpr_sound funcs vars cond s hc hinv
    obtain ⟨hw, hso⟩ := analyzeStmts_sound funcs thenBlock _ s2 vars h2 hinv.enterScope
    obtain ⟨hch, hso2⟩ := hso.exit_chain
    refine ⟨by simp [Stmt.wellScoped, hcw, hw], ?_, hso2⟩
    rw [hch]
    simpa [Stmt.declared] using hinv
  | .IfNode cond thenBlock (some stmts), s, s1, vars, h, hinv => by
    simp only [analyzeStmt, bind_eq_ok, pure_eq_ok] at h
    obtain ⟨u, hc, s2, h2, s3, h3, rfl⟩ := h
    have hcw := analyzeExpr_sound funcs vars cond s hc hinv
    obtain ⟨hw, hso⟩ := analyzeStmts_sound funcs thenBlock _ s2 vars h2 hinv.enterScope
    obtain ⟨hch, hso2⟩ := hso.exit_chain
    have hinv2 : ScopeInv funcs vars s2.exitScope.chain := by
      rw [hch]
      exact hinv
    obtain ⟨hw3, hso3⟩ := analyzeStmts_sound funcs stmts _ s3 vars h3 hinv2.enterScope
    obtain ⟨hch3, hso4⟩ := hso3.exit_chain
    refine ⟨by simp [Stmt.wellScoped, hcw, hw, hw3], ?_, hso2.outer_trans hso4⟩
    rw [hch3, hch]
    simpa [Stmt.declared] using hinv
  | .WhileNode cond body, s, s1, vars, h, hinv => by
    simp only [analyzeStmt, bind_eq_ok, pure_eq_ok] at h
    obtain ⟨u, hc, s2, h2, rfl⟩ := h
    have hcw := analyzeExpr_sound funcs vars cond s hc hinv
    obtain ⟨hw, hso⟩ := analyzeStmts_sound funcs body _ s2 vars h2 hinv.enterScope
    obtain ⟨hch, hso2⟩ := hso.exit_chain
    refine ⟨by simp [Stmt.wellScoped, hcw, hw], ?_, hso2⟩
    rw [hch]
    simpa [Stmt.declared] using hinv
  | .ExprStmtNode expr, s, s1, vars, h, hinv => by
    simp only [analyzeStmt, bind_eq_ok, pure_eq_ok] at h
    obtain ⟨u, he, rfl⟩ := h
    exact ⟨by simpa [Stmt.wellScoped] using analyzeExpr_sound funcs vars expr s he hinv,
      by simpa [Stmt.declared] using hinv, SameOuter.outer_refl _⟩

theorem analyzeStmts_sound (funcs : List String) : ∀ (stmts : List Stmt) (s s1 : ScopeStack)
    (vars : List String), analyzeStmts stmts s = .ok s1 → ScopeInv funcs vars s.chain →
    Stmt.allWellScoped funcs vars stmts = true ∧ SameOuter s s1
  | [], s, s1, vars, h, _ => by
    simp only [analyzeStmts, pure_eq_ok] at h
    subst h
    exact ⟨rfl, SameOuter.outer_refl _⟩
  | st :: stmts, s, s1, vars, h, hinv => by
    simp only [analyzeStmts, bind_eq_ok] at h
    obtain ⟨s2, h2, h3⟩ := h
    obtain ⟨hw, hinv2, hso⟩ := analyzeStmt_sound funcs st s s2 vars h2 hinv
    obtain ⟨hw3, hso3⟩ := analyzeStmts_sound funcs stmts s2 s1 _ h3 hinv2
    exact ⟨by simp [Stmt.allWellScoped, hw, hw3], hso.outer_trans hso3⟩

end

/-- The parameters of a function are added to the scope of the function. -/
theorem addParams_sound (funcs : List String) : ∀ (params : List (String × String))
    (s s1 : ScopeStack) (vars : List String), s.addParams params = .ok s1 →
    ScopeInv funcs vars s.chain →
    ScopeInv funcs (params.map (·.2) ++ vars) s1.chain ∧ SameOuter s s1
  | [], s, s1, vars, h, hinv => by
    simp only [ScopeStack.addParams, Except.ok.injEq] at h
    subst h
    exact ⟨by simpa using hinv, SameOuter.outer_refl _⟩
  | p :: params, s, s1, vars, h, hinv => by
    simp only [ScopeStack.addParams, bind_eq_ok] at h
    obtain ⟨s2, h2, h3⟩ := h
    obtain ⟨hinv2, hso⟩ := ScopeStack.addSymbol_sound s s2 p.2 p.1 h2 hinv
    obtain ⟨hinv3, hso3⟩ := addParams_sound funcs params s2 s1 _ h3 hinv2
    refine ⟨hinv3.inv_mono ?_, hso.outer_trans hso3⟩
    intro n hn
    simp only [List.map_cons, List.mem_append, List.mem_cons] at hn ⊢
    rcases hn with hn | hn | hn
    · exact Or.inl (Or.inr hn)
    · exact Or.inl (Or.inl hn)
    · exact Or.inr hn

/-- The functions that `analyzeProgram` hoists are the functions of the program. -/
theorem hoistFunctions_sound : ∀ (items : List Item) (s s1 : ScopeStack) (funcs : List String),
    hoistFunctions items s = .ok s1 → s.inner = [] →
    (∀ (name : String) (info : SymbolInfo), s.globalScope.find name = some info →
      info.isFunction = true ∧ name ∈ funcs) →
    s1.inner = [] ∧
    ∀ (name : String) (info : SymbolInfo), s1.globalScope.find name = some info →
      info.isFunction = true ∧ (name ∈ funcs ∨ name ∈ declaredFunctions items)
  | [], s, s1, funcs, h, hin, hg => by
    simp only [hoistFunctions, pure_eq_ok] at h
    subst h
    exact ⟨hin, fun name info hf => ⟨(hg name info hf).1, Or.inl (hg name info hf).2⟩⟩
  | .FunctionNode retType fname params _ :: items, s, s1, funcs, h, hin, hg => by
    simp only [hoistFunctions, bind_eq_ok] at h
    obtain ⟨s2, h2, h3⟩ := h
    unfold ScopeStack.addFunction at h2
    split at h2
    · exact absurd h2 (by simp)
    · simp only [Except.ok.injEq] at h2
      subst h2
      have := hoistFunctions_sound items _ s1 (fname :: funcs) h3 hin (by
        intro name info hf
        simp only at hf
        rw [ScopeNode.find_insert] at hf
        split at hf
        · rename_i hn
          simp only [Option.some.injEq] at hf
          subst hf
          exact ⟨rfl, by simp [hn]⟩
        · exact ⟨(hg name info hf).1, List.mem_cons_of_mem _ (hg name info hf).2⟩)
      refine ⟨this.1, fun name info hf => ⟨(this.2 name info hf).1, ?_⟩⟩
      have h4 := (this.2 name info hf).2
      simp only [List.mem_cons, declaredFunctions] at h4 ⊢
      tauto
  | .Statement _ :: items, s, s1, funcs, h, hin, hg => by
    simp only [hoistFunctions] at h
    simpa [declaredFunctions] using hoistFunctions_sound items s s1 funcs h hin hg

/-- The items that the analyzer accepts are well scoped. -/
theorem analyzeItems_sound (funcs : List String) : ∀ (items : List Item) (s s1 : ScopeStack)
    (vars : List String), analyzeItems items s = .ok s1 → ScopeInv funcs vars s.chain →
    Item.allWellScoped funcs vars items = true
  | [], _, _, _, _, _ => rfl
  | .FunctionNode _ _ params body :: items, s, s1, vars, h, hinv => by
    simp only [analyzeItems, analyzeFunction, bind_eq_ok, pure_eq_ok] at h
    obtain ⟨s2, ⟨s3, h3, s4, h4, rfl⟩, h5⟩ := h
    obtain ⟨hinv3, hso3⟩ := addParams_sound funcs params _ s3 vars h3 hinv.enterScope
    obtain ⟨hw, hso4⟩ := analyzeStmts_sound funcs body s3 s4 _ h4 hinv3
    obtain ⟨hch, -⟩ := (hso3.outer_trans hso4).exit_chain
    have hinv5 : ScopeInv funcs vars s4.exitScope.chain := by
      rw [hch]
      exact hinv
    have hw5 := analyzeItems_sound funcs items _ s1 vars h5 hinv5
    simp [Item.allWellScoped, hw, hw5]
  | .Statement st :: items, s, s1, vars, h, hinv => by
    simp only [analyzeItems, bind_eq_ok] at h
    obtain ⟨s2, h2, h3⟩ := h
    obtain ⟨hw, hinv2, -⟩ := analyzeStmt_sound funcs st s s2 vars h2 hinv
    have hw3 := analyzeItems_sound funcs items s2 s1 _ h3 hinv2
    simp [Item.allWellScoped, hw, hw3]

end ScopeAnalyzer

/-- C3 (scope soundness).  Whenever `ScopeAnalyzer.analyze` accepts a program, the
program is well scoped: every identifier used as a value or as an assignment
target is the name of a parameter or variable whose declaration precedes the use
in the same scope, in an enclosing scope or in the global scope, and every call
whose callee is an identifier names a top-level function of the program. -/
theorem scope_soundness (prog : ProgramNode) (stack : ScopeStack)
    (h : ScopeAnalyzer.analyze prog = .ok stack) : prog.wellScoped = true := by
  simp only [ScopeAnalyzer.analyze, ScopeAnalyzer.analyzeProgram, bind_eq_ok] at h
  obtain ⟨s1, h1, h2⟩ := h
  obtain ⟨hin, hg⟩ := ScopeAnalyzer.hoistFunctions_sound prog.items ScopeStack.new s1 [] h1 rfl
    (by intro name info hf; simp [ScopeStack.new, ScopeNode.find] at hf)
  refine ScopeAnalyzer.analyzeItems_sound _ prog.items s1 stack [] h2 ?_
  intro sc hsc name info hf
  simp only [ScopeStack.chain, hin, List.nil_append, List.mem_singleton] at hsc
  subst hsc
  obtain ⟨hfun, hmem⟩ := hg name info hf
  refine ⟨fun hc => ?_, fun _ => ?_⟩
  · rw [hfun] at hc
    exact absurd hc (by simp)
  · simpa using hmem

/-- Witness for C3: the program
`int g; fn int f(int a) { int b = a + g; if (b < a) { int c = f(b); b = c; } return b; }`. -/
theorem scope_soundness_witness :
    ProgramNode.wellScoped
      ⟨[.Statement (.VarDeclNode "int" "g" none),
        .FunctionNode "int" "f" [("int", "a")]
          [.VarDeclNode "int" "b"
            (some (.BinaryOpNode "+" (.IdentifierNode "a") (.IdentifierNode "g"))),
           .IfNode (.BinaryOpNode "<" (.IdentifierNode "b") (.IdentifierNode "a"))
            [.VarDeclNode "int" "c" (some (.CallNode (.IdentifierNode "f") [.IdentifierNode "b"])),
             .ExprStmtNode (.AssignmentNode (.IdentifierNode "b") "=" (.IdentifierNode "c"))]
            none,
           .ReturnNode (some (.IdentifierNode "b"))]]⟩ = true :=
  scope_soundness _
    ⟨[], ⟨0, [("g", ⟨"g", "int", false, [], 0⟩), ("f", ⟨"f", "int", true, ["int"], 0⟩)]⟩, 3⟩
    rfl

/-! ## Theorems about the IR generator -/

theorem digitChar_value (d : Nat) (h : d < 10) : (Nat.digitChar d).toNat - 48 = d := by
  interval_cases d <;> rfl

theorem foldl_toDigitsCore : ∀ (fuel n : Nat) (ds : List Char), n < fuel →
    (Nat.toDigitsCore 10 fuel n ds).foldl (fun acc c => acc * 10 + (c.toNat - 48)) 0 =
      ds.foldl (fun acc c => acc * 10 + (c.toNat - 48)) n
  | 0, _, _, h => absurd h (Nat.not_lt_zero _)
  | fuel + 1, n, ds, h => by
    simp only [Nat.toDigitsCore]
    split
    · rename_i h0
      have hn : n < 10 := by
        by_contra hc
        have : 1 ≤ n / 10 := (Nat.le_div_iff_mul_le (by decide)).mpr (by omega)
        omega
      simp only [List.foldl_cons, Nat.zero_mul, Nat.zero_add]
      rw [digitChar_value _ (Nat.mod_lt _ (by decide)), Nat.mod_eq_of_lt hn]
    · rename_i h0
      have hlt : n / 10 < fuel := by
        have : n / 10 < n := Nat.div_lt_self (by
          by_contra hc
          have : n = 0 := by omega
          subst this
          simp at h0) (by decide)
        omega
      rw [foldl_toDigitsCore fuel (n / 10) _ hlt]
      simp only [List.foldl_cons]
      rw [digitChar_value _ (Nat.mod_lt _ (by decide)), Nat.div_add_mod' n 10]

/-- The function `to_string` on the counters reads back as the number it was given. -/
theorem decimalValue_toString (n : Nat) : decimalValue (toString n).data = n := by
  show decimalValue (Nat.repr n).data = n
  simp only [decimalValue, Nat.repr, Nat.toDigits, List.asString]
  rw [foldl_toDigitsCore (n + 1) n [] (Nat.lt_succ_self n)]
  rfl

theorem toString_injective (a b : Nat) (h : toString a = toString b) : a = b := by
  have := congrArg (fun s : String => decimalValue s.data) h
  simpa [decimalValue_toString] using this

theorem labelName_injective (a b : Nat) (h : "L" ++ toString a = "L" ++ toString b) : a = b := by
  apply toString_injective
  have := congrArg String.data h
  simp only [String.data_append, List.append_cancel_left_eq] at this
  exact String.ext this
theorem labelDefinitions_append (a b : List IRInstruction) :
    labelDefinitions (a ++ b) = labelDefinitions a ++ labelDefinitions b := by
  simp [labelDefinitions]

theorem jumpTargets_append (a b : List IRInstruction) :
    jumpTargets (a ++ b) = jumpTargets a ++ jumpTargets b := by
  simp [jumpTargets]

theorem labelDefinitions_nil : labelDefinitions [] = [] := rfl

theorem jumpTargets_nil : jumpTargets [] = [] := rfl

namespace IRGenerator

theorem newTemp_eq_ok (g : IRGenerator) (t : String) (g1 : IRGenerator) :
    g.newTemp = .ok (t, g1) ↔ g.tempCounter < INT_MAX ∧ t = "t" ++ toString g.tempCounter ∧
      g1 = { g with tempCounter := g.tempCounter + 1 } := by
  unfold newTemp
  split
  · simp
    omega
  · simp only [Except.ok.injEq, Prod.mk.injEq]
    constructor
    · rintro ⟨rfl, rfl⟩
      exact ⟨by omega, rfl, rfl⟩
    · rintro ⟨-, rfl, rfl⟩
      exact ⟨rfl, rfl⟩

theorem newLabel_eq_ok (g : IRGenerator) (l : String) (g1 : IRGenerator) :
    g.newLabel = .ok (l, g1) ↔ g.labelCounter < INT_MAX ∧ l = labelName g.labelCounter ∧
      g1 = { g with labelCounter := g.labelCounter + 1 } := by
  unfold newLabel labelName
  split
  · simp
    omega
  · simp only [Except.ok.injEq, Prod.mk.injEq]
    constructor
    · rintro ⟨rfl, rfl⟩
      exact ⟨by omega, rfl, rfl⟩
    · rintro ⟨-, rfl, rfl⟩
      exact ⟨rfl, rfl⟩

theorem Plain.plain_refl (g : IRGenerator) : Plain g g :=
  ⟨rfl, [], by simp, rfl, rfl⟩

theorem Plain.plain_trans {a b c : IRGenerator} (h1 : Plain a b) (h2 : Plain b c) : Plain a c := by
  obtain ⟨e1, s1, i1, d1, t1⟩ := h1
  obtain ⟨e2, s2, i2, d2, t2⟩ := h2
  refine ⟨e2.trans e1, s1 ++ s2, by rw [i2, i1, List.append_assoc], ?_, ?_⟩
  · rw [labelDefinitions_append, d1, d2]
    rfl
  · rw [jumpTargets_append, t1, t2]
    rfl

/-- The opcode is neither `LABEL` nor a jump. -/
theorem Plain.emit (g : IRGenerator) (op : IROpcode) (r a1 a2 : String)
    (h : (op = .LABEL || op.isJump) = false) : Plain g (g.emit op r a1 a2) := by
  simp only [Bool.or_eq_false_iff, decide_eq_false_iff_not] at h
  refine ⟨rfl, [⟨op, r, a1, a2⟩], rfl, ?_, ?_⟩
  · simp [labelDefinitions, h.1]
  · simp [jumpTargets, h.2]

theorem Plain.newTemp {g g1 : IRGenerator} {t : String} (h : g.newTemp = .ok (t, g1)) :
    Plain g g1 := by
  obtain ⟨-, -, rfl⟩ := (newTemp_eq_ok g t g1).mp h
  exact ⟨rfl, [], by simp, rfl, rfl⟩

theorem ite_plain_opcode (c : Prop) [Decidable c] (a b : IROpcode)
    (ha : (a = .LABEL || a.isJump) = false) (hb : (b = .LABEL || b.isJump) = false) :
    ((if c then a else b) = IROpcode.LABEL || (if c then a else b).isJump) = false := by
  split <;> assumption

theorem binaryOpcode_plain (op : String) :
    (binaryOpcode op = .LABEL || (binaryOpcode op).isJump) = false := by
  unfold binaryOpcode
  repeat' apply ite_plain_opcode
  all_goals rfl

theorem compoundOpcode_plain (op : String) :
    (compoundOpcode op = .LABEL || (compoundOpcode op).isJump) = false := by
  unfold compoundOpcode
  repeat' apply ite_plain_opcode
  all_goals rfl

mutual

/-- The code of an expression contains no `LABEL` and no jump. -/
theorem genExpression_plain : ∀ (e : Expr) (g : IRGenerator) (v : String) (g1 : IRGenerator),
    genExpression e g = .ok (v, g1) → Plain g g1
  | .BinaryOpNode op left right, g, v, g1, h => by
    simp only [genExpression, bind_eq_ok, Prod.exists, pure_eq_ok, Prod.mk.injEq] at h
    obtain ⟨l, ga, hl, r, gb, hr, t, gc, ht, -, rfl⟩ := h
    exact (((genExpression_plain left g l ga hl).plain_trans
      (genExpression_plain right ga r gb hr)).plain_trans (Plain.newTemp ht)).plain_trans
      (Plain.emit _ _ _ _ _ (binaryOpcode_plain op))
  | .UnaryOpNode op operand isPostfix, g, v, g1, h => by
    simp only [genExpression, bind_eq_ok, Prod.exists] at h
    obtain ⟨o, ga, ho, h⟩ := h
    have h0 := genExpression_plain operand g o ga ho
    split at h
    · split at h
      · simp only [bind_eq_ok, Prod.exists, pure_eq_ok, Prod.mk.injEq] at h
        obtain ⟨t, gb, ht, r, gc, hr, -, rfl⟩ := h
        refine ((((h0.plain_trans (Plain.newTemp ht)).plain_trans (Plain.emit _ .COPY _ _ _ rfl)).plain_trans
          (Plain.newTemp hr)).plain_trans (Plain.emit _ _ _ _ _ ?_)).plain_trans
          (Plain.emit _ .COPY _ _ _ rfl)
        split <;> rfl
      · simp only [bind_eq_ok, Prod.exists, pure_eq_ok, Prod.mk.injEq] at h
        obtain ⟨r, gc, hr, -, rfl⟩ := h
        refine ((h0.plain_trans (Plain.newTemp hr)).plain_trans (Plain.emit _ _ _ _ _ ?_)).plain_trans
          (Plain.emit _ .COPY _ _ _ rfl)
        split <;> rfl
    · split at h
      · simp only [bind_eq_ok, Prod.exists, pure_eq_ok, Prod.mk.injEq] at h
        obtain ⟨r, gc, hr, -, rfl⟩ := h
        exact (h0.plain_trans (Plain.newTemp hr)).plain_trans (Plain.emit _ .NEG _ _ _ rfl)
      · split at h
        · simp only [bind_eq_ok, Prod.exists, pure_eq_ok, Prod.mk.injEq] at h
          obtain ⟨r, gc, hr, -, rfl⟩ := h
          exact (h0.plain_trans (Plain.newTemp hr)).plain_trans (Plain.emit _ .NOT _ _ _ rfl)
        · simp only [pure_eq_ok, Prod.mk.injEq] at h
          obtain ⟨-, rfl⟩ := h
          exact h0
  | .LiteralNode _ value, g, v, g1, h => by
    simp only [genExpression, pure_eq_ok, Prod.mk.injEq] at h
    obtain ⟨-, rfl⟩ := h
    exact Plain.plain_refl g
  | .IdentifierNode name, g, v, g1, h => by
    simp only [genExpression, pure_eq_ok, Prod.mk.injEq] at h
    obtain ⟨-, rfl⟩ := h
    exact Plain.plain_refl g
  | .CallNode (.IdentifierNode name) args, g, v, g1, h => by
    simp only [genExpression, bind_eq_ok, Prod.exists, pure_eq_ok, Prod.mk.injEq] at h
    obtain ⟨ga, ha, t, gb, ht, -, rfl⟩ := h
    exact ((genArgs_plain args g ga ha).plain_trans (Plain.newTemp ht)).plain_trans
      (Plain.emit _ .CALL _ _ _ rfl)
  | .CallNode (.BinaryOpNode _ _ _) args, g, v, g1, h
  | .CallNode (.UnaryOpNode _ _ _) args, g, v, g1, h
  | .CallNode (.LiteralNode _ _) args, g, v, g1, h
  | .CallNode (.CallNode _ _) args, g, v, g1, h
  | .CallNode (.AssignmentNode _ _ _) args, g, v, g1, h => by
    simp only [genExpression, pure_eq_ok, Prod.mk.injEq] at h
    obtain ⟨-, rfl⟩ := h
    exact Plain.plain_refl g
  | .AssignmentNode (.IdentifierNode name) op right, g, v, g1, h => by
    simp only [genExpression, bind_eq_ok, Prod.exists] at h
    obtain ⟨r, ga, hr, h⟩ := h
    have h0 := genExpression_plain right g r ga hr
    split at h
    · simp only [pure_eq_ok, Prod.mk.injEq] at h
      obtain ⟨-, rfl⟩ := h
      exact h0.plain_trans (Plain.emit _ .COPY _ _ _ rfl)
    · simp only [bind_eq_ok, Prod.exists, pure_eq_ok, Prod.mk.injEq] at h
      obtain ⟨t, gb, ht, -, rfl⟩ := h
      exact ((h0.plain_trans (Plain.newTemp ht)).plain_trans
        (Plain.emit _ _ _ _ _ (compoundOpcode_plain op))).plain_trans (Plain.emit _ .COPY _ _ _ rfl)
  | .AssignmentNode (.BinaryOpNode _ _ _) op right, g, v, g1, h
  | .AssignmentNode (.UnaryOpNode _ _ _) op right, g, v, g1, h
  | .AssignmentNode (.LiteralNode _ _) op right, g, v, g1, h
  | .AssignmentNode (.CallNode _ _) op right, g, v, g1, h
  | .AssignmentNode (.AssignmentNode _ _ _) op right, g, v, g1, h => by
    simp only [genExpression, pure_eq_ok, Prod.mk.injEq] at h
    obtain ⟨-, rfl⟩ := h
    exact Plain.plain_refl g

theorem genArgs_plain : ∀ (args : List Expr) (g g1 : IRGenerator),
    genArgs args g = .ok g1 → Plain g g1
  | [], g, g1, h => by
    simp only [genArgs, pure_eq_ok] at h
    subst h
    exact Plain.plain_refl g
  | arg :: args, g, g1, h => by
    simp only [genArgs, bind_eq_ok, Prod.exists] at h
    obtain ⟨v, ga, ha, h⟩ := h
    exact ((genExpression_plain arg g v ga ha).plain_trans (Plain.emit _ .PARAM _ _ _ rfl)).plain_trans
      (genArgs_plain args _ g1 h)

end

end IRGenerator
theorem labelName_inj {a b : Nat} (h : labelName a = labelName b) : a = b :=
  labelName_injective a b h

theorem labelDefinitions_cons (i : IRInstruction) (rest : List IRInstruction) :
    labelDefinitions (i :: rest) =
      if i.op = .LABEL then i.result :: labelDefinitions rest else labelDefinitions rest := by
  unfold labelDefinitions
  by_cases h : i.op = .LABEL <;> simp [List.filter_cons, h]

theorem jumpTargets_cons (i : IRInstruction) (rest : List IRInstruction) :
    jumpTargets (i :: rest) =
      if i.op.isJump then i.result :: jumpTargets rest else jumpTargets rest := by
  unfold jumpTargets
  by_cases h : i.op.isJump = true <;> simp [List.filter_cons, h]

namespace LabelsSound

theorem of_plain (lo hi : Nat) (seg : List IRInstruction) (hd : labelDefinitions seg = [])
    (ht : jumpTargets seg = []) : LabelsSound lo hi seg := by
  refine ⟨by rw [hd]; exact List.nodup_nil, ?_, ?_⟩
  · rw [hd]
    intro l hl
    cases hl
  · rw [ht]
    intro l hl
    cases hl

theorem sound_mono {lo hi lo1 hi1 : Nat} {seg : List IRInstruction} (h : LabelsSound lo hi seg)
    (h1 : lo1 ≤ lo) (h2 : hi ≤ hi1) : LabelsSound lo1 hi1 seg := by
  refine ⟨h.1, fun l hl => ?_, h.2.2⟩
  obtain ⟨k, hk1, hk2, rfl⟩ := h.2.1 l hl
  exact ⟨k, by omega, by omega, rfl⟩

theorem not_mem_of_lt {lo hi j : Nat} {seg : List IRInstruction} (h : LabelsSound lo hi seg)
    (hj : j < lo ∨ hi ≤ j) : labelName j ∉ labelDefinitions seg := by
  intro hm
  obtain ⟨k, hk1, hk2, hk⟩ := h.2.1 _ hm
  have := labelName_inj hk
  omega

theorem append {a b c : Nat} {s1 s2 : List IRInstruction} (h1 : LabelsSound a b s1)
    (h2 : LabelsSound b c s2) (hab : a ≤ b) (hbc : b ≤ c) : LabelsSound a c (s1 ++ s2) := by
  refine ⟨?_, ?_, ?_⟩
  · rw [labelDefinitions_append]
    refine List.Nodup.append h1.1 h2.1 ?_
    intro l hl1 hl2
    obtain ⟨k, hk1, hk2, rfl⟩ := h1.2.1 l hl1
    exact h2.not_mem_of_lt (Or.inl hk2) hl2
  · rw [labelDefinitions_append]
    intro l hl
    rcases List.mem_append.mp hl with hl | hl
    · obtain ⟨k, hk1, hk2, rfl⟩ := h1.2.1 l hl
      exact ⟨k, hk1, by omega, rfl⟩
    · obtain ⟨k, hk1, hk2, rfl⟩ := h2.2.1 l hl
      exact ⟨k, by omega, hk2, rfl⟩
  · rw [jumpTargets_append, labelDefinitions_append]
    intro l hl
    rcases List.mem_append.mp hl with hl | hl
    · exact List.mem_append.mpr (Or.inl (h1.2.2 l hl))
    · exact List.mem_append.mpr (Or.inr (h2.2.2 l hl))

/-- The instruction pattern of `genIf` for an `if` with an `else` arm. -/
theorem ifElse {k m n : Nat} {segT segE : List IRInstruction} (cond : String)
    (hT : LabelsSound (k + 2) m segT) (hE : LabelsSound m n segE) (h1 : k + 2 ≤ m)
    (h2 : m ≤ n) :
    LabelsSound k n ([⟨.IF_FALSE, labelName k, cond, ""⟩] ++ segT ++
      [⟨.GOTO, labelName (k + 1), "", ""⟩, ⟨.LABEL, labelName k, "", ""⟩] ++ segE ++
      [⟨.LABEL, labelName (k + 1), "", ""⟩]) := by
  have nT0 := hT.not_mem_of_lt (j := k) (Or.inl (by omega))
  have nT1 := hT.not_mem_of_lt (j := k + 1) (Or.inl (by omega))
  have nE0 := hE.not_mem_of_lt (j := k) (Or.inl (by omega))
  have nE1 := hE.not_mem_of_lt (j := k + 1) (Or.inl (by omega))
  have hne : labelName k ≠ labelName (k + 1) := fun h => by
    have := labelName_inj h
    omega
  have hTE : ∀ l, l ∈ labelDefinitions segT → l ∉ labelDefinitions segE := by
    intro l hl1 hl2
    obtain ⟨j, hj1, hj2, rfl⟩ := hT.2.1 l hl1
    exact hE.not_mem_of_lt (Or.inl hj2) hl2
  refine ⟨?_, ?_, ?_⟩
  · simp only [labelDefinitions_append, labelDefinitions_cons, labelDefinitions_nil,
      reduceCtorEq, if_false, if_true, List.nil_append, List.append_assoc, List.cons_append]
    rw [List.nodup_append]
    refine ⟨hT.1, ?_, ?_⟩
    · rw [List.nodup_cons]
      refine ⟨?_, ?_⟩
      · simp only [List.mem_append, List.mem_singleton, not_or]
        exact ⟨nE0, hne⟩
      · rw [List.nodup_append]
        refine ⟨hE.1, List.nodup_singleton _, ?_⟩
        intro l hl1 hl2
        rw [List.mem_singleton] at hl2
        subst hl2
        exact nE1 hl1
    · intro l hl1 hl2
      simp only [List.mem_cons, List.mem_append, List.mem_singleton, List.not_mem_nil,
        or_false] at hl2
      rcases hl2 with rfl | hl2 | rfl
      · exact nT0 hl1
      · exact hTE l hl1 hl2
      · exact nT1 hl1
  · simp only [labelDefinitions_append, labelDefinitions_cons, labelDefinitions_nil,
      reduceCtorEq, if_false, if_true, List.nil_append, List.append_assoc, List.cons_append]
    intro l hl
    simp only [List.mem_cons, List.mem_append, List.mem_singleton, List.not_mem_nil,
      or_false] at hl
    rcases hl with hl | rfl | hl | rfl
    · obtain ⟨j, hj1, hj2, rfl⟩ := hT.2.1 l hl
      exact ⟨j, by omega, by omega, rfl⟩
    · exact ⟨k, by omega, by omega, rfl⟩
    · obtain ⟨j, hj1, hj2, rfl⟩ := hE.2.1 l hl
      exact ⟨j, by omega, by omega, rfl⟩
    · exact ⟨k + 1, by omega, by omega, rfl⟩
  · simp only [labelDefinitions_append, labelDefinitions_cons, labelDefinitions_nil,
      jumpTargets_append, jumpTargets_cons, jumpTargets_nil, IROpcode.isJump,
      reduceCtorEq, if_false, if_true, List.nil_append, List.append_assoc, List.cons_append,
      decide_True, decide_False, Bool.or_false, Bool.or_true, Bool.false_or, Bool.true_or]
    intro l hl
    simp only [List.mem_cons, List.mem_append, List.mem_singleton, List.not_mem_nil,
      or_false] at hl ⊢
    rcases hl with rfl | hl | rfl | hl
    · exact Or.inr (Or.inl rfl)
    · exact Or.inl (hT.2.2 l hl)
    · exact Or.inr (Or.inr (Or.inr rfl))
    · exact Or.inr (Or.inr (Or.inl (hE.2.2 l hl)))

/-- The instruction pattern of `genIf` for an `if` without an `else` arm. -/
theorem ifOnly {k m : Nat} {segT : List IRInstruction} (cond : String)
    (hT : LabelsSound (k + 2) m segT) (h1 : k + 2 ≤ m) :
    LabelsSound k m ([⟨.IF_FALSE, labelName (k + 1), cond, ""⟩] ++ segT ++
      [⟨.LABEL, labelName (k + 1), "", ""⟩]) := by
  have nT1 := hT.not_mem_of_lt (j := k + 1) (Or.inl (by omega))
  refine ⟨?_, ?_, ?_⟩
  · simp only [labelDefinitions_append, labelDefinitions_cons, labelDefinitions_nil,
      reduceCtorEq, if_false, if_true, List.nil_append, List.append_assoc, List.cons_append]
    rw [List.nodup_append]
    refine ⟨hT.1, List.nodup_singleton _, ?_⟩
    intro l hl1 hl2
    rw [List.mem_singleton] at hl2
    subst hl2
    exact nT1 hl1
  · simp only [labelDefinitions_append, labelDefinitions_cons, labelDefinitions_nil,
      reduceCtorEq, if_false, if_true, List.nil_append, List.append_assoc, List.cons_append]
    intro l hl
    simp only [List.mem_cons, List.mem_append, List.mem_singleton, List.not_mem_nil,
      or_false] at hl
    rcases hl with hl | rfl
    · obtain ⟨j, hj1, hj2, rfl⟩ := hT.2.1 l hl
      exact ⟨j, by omega, by omega, rfl⟩
    · exact ⟨k + 1, by omega, by omega, rfl⟩
  · simp only [labelDefinitions_append, labelDefinitions_cons, labelDefinitions_nil,
      jumpTargets_append, jumpTargets_cons, jumpTargets_nil, IROpcode.isJump,
      reduceCtorEq, if_false, if_true, List.nil_append, List.append_assoc, List.cons_append,
      decide_True, decide_False, Bool.or_false, Bool.or_true, Bool.false_or, Bool.true_or]
    intro l hl
    simp only [List.mem_cons, List.mem_append, List.mem_singleton, List.not_mem_nil,
      or_false] at hl ⊢
    rcases hl with rfl | hl
    · exact Or.inr rfl
    · exact Or.inl (hT.2.2 l hl)

/-- The instruction pattern of `genWhile`. -/
theorem whileLoop {k n : Nat} {segC segB : List IRInstruction} (cond : String)
    (hC : labelDefinitions segC = []) (hCt : jumpTargets segC = [])
    (hB : LabelsSound (k + 2) n segB) (h1 : k + 2 ≤ n) :
    LabelsSound k n ([⟨.LABEL, labelName k, "", ""⟩] ++ segC ++
      [⟨.IF_FALSE, labelName (k + 1), cond, ""⟩] ++ segB ++
      [⟨.GOTO, labelName k, "", ""⟩, ⟨.LABEL, labelName (k + 1), "", ""⟩]) := by
  have nB0 := hB.not_mem_of_lt (j := k) (Or.inl (by omega))
  have nB1 := hB.not_mem_of_lt (j := k + 1) (Or.inl (by omega))
  have hne : labelName k ≠ labelName (k + 1) := fun h => by
    have := labelName_inj h
    omega
  refine ⟨?_, ?_, ?_⟩
  · simp only [labelDefinitions_append, labelDefinitions_cons, labelDefinitions_nil, hC,
      reduceCtorEq, if_false, if_true, List.nil_append, List.append_assoc, List.cons_append,
      List.append_nil]
    rw [List.nodup_cons]
    refine ⟨?_, ?_⟩
    · simp only [List.mem_append, List.mem_singleton, not_or]
      exact ⟨nB0, hne⟩
    · rw [List.nodup_append]
      refine ⟨hB.1, List.nodup_singleton _, ?_⟩
      intro l hl1 hl2
      rw [List.mem_singleton] at hl2
      subst hl2
      exact nB1 hl1
  · simp only [labelDefinitions_append, labelDefinitions_cons, labelDefinitions_nil, hC,
      reduceCtorEq, if_false, if_true, List.nil_append, List.append_assoc, List.cons_append,
      List.append_nil]
    intro l hl
    simp only [List.mem_cons, List.mem_append, List.mem_singleton, List.not_mem_nil,
      or_false] at hl
    rcases hl with rfl | hl | rfl
    · exact ⟨k, by omega, by omega, rfl⟩
    · obtain ⟨j, hj1, hj2, rfl⟩ := hB.2.1 l hl
      exact ⟨j, by omega, by omega, rfl⟩
    · exact ⟨k + 1, by omega, by omega, rfl⟩
  · simp only [labelDefinitions_append, labelDefinitions_cons, labelDefinitions_nil, hC, hCt,
      jumpTargets_append, jumpTargets_cons, jumpTargets_nil, IROpcode.isJump,
      reduceCtorEq, if_false, if_true, List.nil_append, List.append_assoc, List.cons_append,
      decide_True, decide_False, Bool.or_false, Bool.or_true, Bool.false_or, Bool.true_or,
      List.append_nil]
    intro l hl
    simp only [List.mem_cons, List.mem_append, List.mem_singleton, List.not_mem_nil,
      or_false] at hl ⊢
    rcases hl with rfl | hl | rfl
    · exact Or.inr (Or.inr rfl)
    · exact Or.inr (Or.inl (hB.2.2 l hl))
    · exact Or.inl rfl

end LabelsSound
namespace IRGenerator

theorem LabelStep.step_refl (g : IRGenerator) : LabelStep g g :=
  ⟨Nat.le_refl _, [], by simp, LabelsSound.of_plain _ _ [] rfl rfl⟩

theorem LabelStep.step_trans {a b c : IRGenerator} (h1 : LabelStep a b) (h2 : LabelStep b c) :
    LabelStep a c := by
  obtain ⟨e1, s1, i1, d1⟩ := h1
  obtain ⟨e2, s2, i2, d2⟩ := h2
  exact ⟨Nat.le_trans e1 e2, s1 ++ s2, by rw [i2, i1, List.append_assoc], d1.append d2 e1 e2⟩

theorem Plain.labelStep {a b : IRGenerator} (h : Plain a b) : LabelStep a b := by
  obtain ⟨e1, s1, i1, d1, t1⟩ := h
  exact ⟨Nat.le_of_eq e1.symm, s1, i1, LabelsSound.of_plain _ _ s1 d1 t1⟩

/-- A change of the scope stack alone appends nothing. -/
theorem Plain.setScope (g : IRGenerator) (s : ScopeStack) :
    Plain g { g with scopeStack := s } :=
  ⟨rfl, [], by simp, rfl, rfl⟩

mutual

/-- The code of a statement defines no label twice, defines only labels that were
allocated for the statement, and jumps only to labels that it defines. -/
theorem genStmt_labelStep : ∀ (st : Stmt) (g g1 : IRGenerator),
    genStmt st g = .ok g1 → LabelStep g g1
  | .VarDeclNode typeName name none, g, gz, h => by
    simp only [genStmt, bind_eq_ok, pure_eq_ok, pure_bind] at h
    obtain ⟨s1, -, rfl⟩ := h
    exact (Plain.setScope g s1).labelStep
  | .VarDeclNode typeName name (some e), g, gz, h => by
    simp only [genStmt, bind_eq_ok, pure_eq_ok, Prod.exists] at h
    obtain ⟨ga, ⟨v, gb, he, rfl⟩, s1, -, rfl⟩ := h
    exact (((genExpression_plain e g v gb he).plain_trans (Plain.emit _ .COPY _ _ _ rfl)).plain_trans
      (Plain.setScope _ s1)).labelStep
  | .ReturnNode none, g, gz, h => by
    simp only [genStmt, pure_eq_ok] at h
    subst h
    exact (Plain.emit _ .RETURN _ _ _ rfl).labelStep
  | .ReturnNode (some e), g, gz, h => by
    simp only [genStmt, bind_eq_ok, pure_eq_ok, Prod.exists] at h
    obtain ⟨v, gb, he, rfl⟩ := h
    exact ((genExpression_plain e g v gb he).plain_trans (Plain.emit _ .RETURN _ _ _ rfl)).labelStep
  | .IfNode cond thenBlock (some stmts), g, gz, h => by
    simp only [genStmt, bind_eq_ok, Prod.exists, pure_eq_ok] at h
    obtain ⟨cr, g1, hc, l1, g2, hl1, l2, g3, hl2, g5, hT, g9, hE, rfl⟩ := h
    obtain ⟨-, rfl, rfl⟩ := (newLabel_eq_ok _ _ _).mp hl1
    obtain ⟨-, rfl, rfl⟩ := (newLabel_eq_ok _ _ _).mp hl2
    obtain ⟨hk, segC, hiC, hdC, htC⟩ := genExpression_plain cond g cr g1 hc
    obtain ⟨hm, segT, hiT, hsT⟩ := genStmts_labelStep thenBlock _ g5 hT
    obtain ⟨hn, segE, hiE, hsE⟩ := genStmts_labelStep stmts _ g9 hE
    simp only [emit] at hm hiT hsT hn hiE hsE
    refine ⟨by simp only [emit]; omega, segC ++ ([⟨.IF_FALSE, labelName g1.labelCounter, cr, ""⟩]
      ++ segT ++ [⟨.GOTO, labelName (g1.labelCounter + 1), "", ""⟩,
        ⟨.LABEL, labelName g1.labelCounter, "", ""⟩] ++ segE ++
      [⟨.LABEL, labelName (g1.labelCounter + 1), "", ""⟩]), ?_, ?_⟩
    · simp only [emit, hiE, hiT, hiC, List.append_assoc, List.cons_append, List.nil_append]
    · simp only [emit]
      rw [← hk]
      exact (LabelsSound.of_plain _ _ segC hdC htC).append
        (LabelsSound.ifElse cr hsT hsE hm hn) (Nat.le_refl _) (by omega)
  | .IfNode cond thenBlock none, g, gz, h => by
    simp only [genStmt, bind_eq_ok, Prod.exists, pure_eq_ok] at h
    obtain ⟨cr, g1, hc, l1, g2, hl1, l2, g3, hl2, g5, hT, rfl⟩ := h
    obtain ⟨-, rfl, rfl⟩ := (newLabel_eq_ok _ _ _).mp hl1
    obtain ⟨-, rfl, rfl⟩ := (newLabel_eq_ok _ _ _).mp hl2
    obtain ⟨hk, segC, hiC, hdC, htC⟩ := genExpression_plain cond g cr g1 hc
    obtain ⟨hm, segT, hiT, hsT⟩ := genStmts_labelStep thenBlock _ g5 hT
    simp only [emit] at hm hiT hsT
    refine ⟨by simp only [emit]; omega,
      segC ++ ([⟨.IF_FALSE, labelName (g1.labelCounter + 1), cr, ""⟩]
      ++ segT ++ [⟨.LABEL, labelName (g1.labelCounter + 1), "", ""⟩]), ?_, ?_⟩
    · simp only [emit, hiT, hiC, List.append_assoc, List.cons_append, List.nil_append]
    · simp only [emit]
      rw [← hk]
      exact (LabelsSound.of_plain _ _ segC hdC htC).append
        (LabelsSound.ifOnly cr hsT hm) (Nat.le_refl _) (by omega)
  | .WhileNode cond body, g, gz, h => by
    simp only [genStmt, bind_eq_ok, Prod.exists, pure_eq_ok] at h
    obtain ⟨l1, g1, hl1, l2, g2, hl2, cr, g4, hc, g6, hB, rfl⟩ := h
    obtain ⟨-, rfl, rfl⟩ := (newLabel_eq_ok _ _ _).mp hl1
    obtain ⟨-, rfl, rfl⟩ := (newLabel_eq_ok _ _ _).mp hl2
    obtain ⟨hk, segC, hiC, hdC, htC⟩ := genExpression_plain cond _ cr g4 hc
    obtain ⟨hm, segB, hiB, hsB⟩ := genStmts_labelStep body _ g6 hB
    simp only [emit] at hk hiC hm hiB hsB
    refine ⟨by simp only [emit]; omega,
      [⟨.LABEL, labelName g.labelCounter, "", ""⟩] ++ segC ++
      [⟨.IF_FALSE, labelName (g.labelCounter + 1), cr, ""⟩] ++ segB ++
      [⟨.GOTO, labelName g.labelCounter, "", ""⟩,
        ⟨.LABEL, labelName (g.labelCounter + 1), "", ""⟩], ?_, ?_⟩
    · simp only [emit, hiB, hiC, List.append_assoc, List.cons_append, List.nil_append]
    · simp only [emit]
      rw [hk] at hsB hm
      exact LabelsSound.whileLoop cr hdC htC hsB hm
  | .ExprStmtNode expr, g, gz, h => by
    simp only [genStmt, bind_eq_ok, pure_eq_ok, Prod.exists] at h
    obtain ⟨v, gb, he, rfl⟩ := h
    exact (genExpression_plain expr g v gb he).labelStep
  | .BlockNode stmts, g, gz, h => by
    simp only [genStmt, bind_eq_ok, pure_eq_ok] at h
    obtain ⟨ga, ha, rfl⟩ := h
    exact (((Plain.setScope g _).labelStep).step_trans (genStmts_labelStep stmts _ ga ha)).step_trans
      (Plain.setScope ga _).labelStep

theorem genStmts_labelStep : ∀ (stmts : List Stmt) (g g1 : IRGenerator),
    genStmts stmts g = .ok g1 → LabelStep g g1
  | [], g, g1, h => by
    simp only [genStmts, pure_eq_ok] at h
    subst h
    exact LabelStep.step_refl g
  | st :: stmts, g, g1, h => by
    simp only [genStmts, bind_eq_ok] at h
    obtain ⟨ga, ha, h⟩ := h
    exact (genStmt_labelStep st g ga ha).step_trans (genStmts_labelStep stmts ga g1 h)

end

theorem genFunction_labelStep (name : String) (params : List (String × String))
    (body : List Stmt) (g g1 : IRGenerator) (h : genFunction name params body g = .ok g1) :
    LabelStep g g1 := by
  simp only [genFunction, bind_eq_ok, pure_eq_ok] at h
  obtain ⟨s1, -, g2, hb, rfl⟩ := h
  have h1 : Plain g ({ g with currentFunction := name }.emit .FUNC_BEGIN name "" "") :=
    ⟨rfl, [⟨.FUNC_BEGIN, name, "", ""⟩], rfl, rfl, rfl⟩
  exact ((((h1.plain_trans (Plain.setScope _ s1)).labelStep).step_trans
    (genStmts_labelStep body _ g2 hb)).step_trans (Plain.setScope g2 _).labelStep).step_trans
    (Plain.emit _ .FUNC_END _ _ _ rfl).labelStep

theorem genItems_labelStep : ∀ (items : List Item) (g g1 : IRGenerator),
    genItems items g = .ok g1 → LabelStep g g1
  | [], g, g1, h => by
    simp only [genItems, pure_eq_ok] at h
    subst h
    exact LabelStep.step_refl g
  | .FunctionNode _ name params body :: items, g, g1, h => by
    simp only [genItems, bind_eq_ok] at h
    obtain ⟨ga, ha, h⟩ := h
    exact (genFunction_labelStep name params body g ga ha).step_trans
      (genItems_labelStep items ga g1 h)
  | .Statement (.VarDeclNode typeName name init) :: items, g, g1, h => by
    simp only [genItems, bind_eq_ok] at h
    obtain ⟨ga, ha, h⟩ := h
    exact (genStmt_labelStep _ g ga ha).step_trans (genItems_labelStep items ga g1 h)
  | .Statement (.BlockNode _) :: items, g, g1, h
  | .Statement (.ReturnNode _) :: items, g, g1, h
  | .Statement (.IfNode _ _ _) :: items, g, g1, h
  | .Statement (.WhileNode _ _) :: items, g, g1, h
  | .Statement (.ExprStmtNode _) :: items, g, g1, h => by
    simp only [genItems] at h
    exact genItems_labelStep items g g1 h

end IRGenerator

/-- C4 (control-flow shape).  In the instruction list that `IRGenerator.generate`
produces for a program, every label that is the target of a `GOTO`, `IF_FALSE` or
`IF_TRUE` instruction is the result of exactly one `LABEL` instruction. -/
theorem jump_targets_defined_once (prog : ProgramNode) (g : IRGenerator)
    (h : IRGenerator.generate prog = .ok g) :
    ∀ l ∈ jumpTargets g.instructions, (labelDefinitions g.instructions).count l = 1 := by
  simp only [IRGenerator.generate, IRGenerator.genProgram, bind_eq_ok] at h
  obtain ⟨s1, -, h⟩ := h
  obtain ⟨-, seg, hi, hs⟩ := IRGenerator.genItems_labelStep prog.items _ g h
  simp only [IRGenerator.new, List.nil_append] at hi
  rw [hi]
  intro l hl
  exact List.count_eq_one_of_mem hs.1 (hs.2.2 l hl)

/-- Witness for C4: in the instructions of
`fn int f(){ if(true){ return 1; } else { return 2; } }` the two jump targets
`L0` and `L1` are each defined by one `LABEL`. -/
theorem jump_targets_defined_once_witness :
    IRGenerator.generate
      ⟨[.FunctionNode "int" "f" []
        [.IfNode (.LiteralNode "bool" "true") [.ReturnNode (some (.LiteralNode "int" "1"))]
          (some [.ReturnNode (some (.LiteralNode "int" "2"))])]]⟩ =
      .ok ⟨[⟨.FUNC_BEGIN, "f", "", ""⟩, ⟨.IF_FALSE, "L0", "true", ""⟩, ⟨.RETURN, "", "1", ""⟩,
         ⟨.GOTO, "L1", "", ""⟩, ⟨.LABEL, "L0", "", ""⟩, ⟨.RETURN, "", "2", ""⟩,
         ⟨.LABEL, "L1", "", ""⟩, ⟨.FUNC_END, "f", "", ""⟩],
        ⟨[], ⟨0, [("f", ⟨"f", "int", true, [], 0⟩)]⟩, 4⟩, 0, 2, "f"⟩ ∧
    (labelDefinitions
      [⟨.FUNC_BEGIN, "f", "", ""⟩, ⟨.IF_FALSE, "L0", "true", ""⟩, ⟨.RETURN, "", "1", ""⟩,
       ⟨.GOTO, "L1", "", ""⟩, ⟨.LABEL, "L0", "", ""⟩, ⟨.RETURN, "", "2", ""⟩,
       ⟨.LABEL, "L1", "", ""⟩, ⟨.FUNC_END, "f", "", ""⟩]).count "L0" = 1 ∧
    (labelDefinitions
      [⟨.FUNC_BEGIN, "f", "", ""⟩, ⟨.IF_FALSE, "L0", "true", ""⟩, ⟨.RETURN, "", "1", ""⟩,
       ⟨.GOTO, "L1", "", ""⟩, ⟨.LABEL, "L0", "", ""⟩, ⟨.RETURN, "", "2", ""⟩,
       ⟨.LABEL, "L1", "", ""⟩, ⟨.FUNC_END, "f", "", ""⟩]).count "L1" = 1 :=
  ⟨rfl,
   jump_targets_defined_once
    ⟨[.FunctionNode "int" "f" []
      [.IfNode (.LiteralNode "bool" "true") [.ReturnNode (some (.LiteralNode "int" "1"))]
        (some [.ReturnNode (some (.LiteralNode "int" "2"))])]]⟩
    ⟨[⟨.FUNC_BEGIN, "f", "", ""⟩, ⟨.IF_FALSE, "L0", "true", ""⟩, ⟨.RETURN, "", "1", ""⟩,
         ⟨.GOTO, "L1", "", ""⟩, ⟨.LABEL, "L0", "", ""⟩, ⟨.RETURN, "", "2", ""⟩,
         ⟨.LABEL, "L1", "", ""⟩, ⟨.FUNC_END, "f", "", ""⟩],
      ⟨[], ⟨0, [("f", ⟨"f", "int", true, [], 0⟩)]⟩, 4⟩, 0, 2, "f"⟩
    rfl "L0" (by decide),
   jump_targets_defined_once
    ⟨[.FunctionNode "int" "f" []
      [.IfNode (.LiteralNode "bool" "true") [.ReturnNode (some (.LiteralNode "int" "1"))]
        (some [.ReturnNode (some (.LiteralNode "int" "2"))])]]⟩
    ⟨[⟨.FUNC_BEGIN, "f", "", ""⟩, ⟨.IF_FALSE, "L0", "true", ""⟩, ⟨.RETURN, "", "1", ""⟩,
         ⟨.GOTO, "L1", "", ""⟩, ⟨.LABEL, "L0", "", ""⟩, ⟨.RETURN, "", "2", ""⟩,
         ⟨.LABEL, "L1", "", ""⟩, ⟨.FUNC_END, "f", "", ""⟩],
      ⟨[], ⟨0, [("f", ⟨"f", "int", true, [], 0⟩)]⟩, 4⟩, 0, 2, "f"⟩
    rfl "L1" (by decide)⟩

namespace IRGenerator

theorem genExpression_atom (a : Expr) (g : IRGenerator) (h : a.isAtom = true) :
    genExpression a g = .ok (a.atomValue, g) := by
  cases a <;> first | rfl | exact absurd h (by simp [Expr.isAtom])

/-- The loop of `genCall` on identifiers and literals emits the `PARAM`s only. -/
theorem genArgs_atoms : ∀ (args : List Expr) (g : IRGenerator),
    (∀ a ∈ args, a.isAtom = true) →
    genArgs args g = .ok { g with instructions :=
      (g.instructions ++ args.map (fun a => (⟨.PARAM, "", a.atomValue, ""⟩ : IRInstruction))) }
  | [], g, _ => by simp [genArgs, pure, Except.pure]
  | a :: args, g, h => by
    have ha := genExpression_atom a g (h a (List.mem_cons_self _ _))
    have ih := genArgs_atoms args (g.emit .PARAM "" a.atomValue "")
      (fun b hb => h b (List.mem_cons_of_mem _ hb))
    simp only [emit] at ih
    simp only [genArgs, ha, bind, Except.bind, ih, emit, List.map_cons, List.append_assoc,
      List.singleton_append]

end IRGenerator

/-- C5, as stated, fails: for the call `f(1, a + b)` the code is
`PARAM 1`, `ADD t0, a, b`, `PARAM t0`, `CALL t1, f, 2`; the computation of the
second argument stands between the first `PARAM` of the call and its `CALL`. -/
theorem call_params_not_contiguous :
    (IRGenerator.genExpression
      (.CallNode (.IdentifierNode "f")
        [.LiteralNode "int" "1", .BinaryOpNode "+" (.IdentifierNode "a") (.IdentifierNode "b")])
      IRGenerator.new).map (fun r => (r.1, r.2.instructions)) =
      .ok ("t1", [⟨.PARAM, "", "1", ""⟩, ⟨.ADD, "t0", "a", "b"⟩, ⟨.PARAM, "", "t0", ""⟩,
        ⟨.CALL, "t1", "f", "2"⟩]) ∧
    endsWithParamsAndCall 2 [⟨.PARAM, "", "1", ""⟩, ⟨.ADD, "t0", "a", "b"⟩,
      ⟨.PARAM, "", "t0", ""⟩, ⟨.CALL, "t1", "f", "2"⟩] = false :=
  ⟨rfl, rfl⟩


/-! ## Theorems about the type rules -/

namespace TypeChecker

theorem isNumericType_iff (type : String) : isNumericType type = true ↔ IsIntOrFloat type := by
  simp [isNumericType, IsIntOrFloat]

theorem isBooleanType_iff (type : String) : isBooleanType type = true ↔ type = "bool" := by
  simp [isBooleanType]

theorem areTypesCompatible_iff (type1 type2 : String) :
    areTypesCompatible type1 type2 = true ↔ Compatible type1 type2 := by
  unfold areTypesCompatible Compatible IsIntOrFloat
  by_cases h : type1 = type2
  · simp [h]
  · simp only [h, if_false, false_or]
    constructor
    · intro hc
      split at hc
      · rename_i hp
        simp only [Bool.or_eq_true, Bool.and_eq_true, decide_eq_true_eq] at hp
        rcases hp with ⟨h1, h2⟩ | ⟨h1, h2⟩ <;> simp [h1, h2]
      · exact absurd hc (by simp)
    · rintro ⟨h1 | h1, h2 | h2⟩ <;> subst h1 <;> subst h2 <;> first | exact absurd rfl h | simp

/-- The type `promoteTypes` returns for two numeric types. -/
theorem promoteTypes_numeric (type1 type2 : String) (h1 : IsIntOrFloat type1)
    (h2 : IsIntOrFloat type2) :
    promoteTypes type1 type2 = if type1 = "float" ∨ type2 = "float" then "float" else "int" := by
  rcases h1 with rfl | rfl <;> rcases h2 with rfl | rfl <;> decide

/-- The body of `checkBinaryOp` once both operands have a type. -/
theorem checkExpr_binaryOp (op : String) (left right : Expr) (s : ScopeStack)
    (leftType rightType : String) (hl : checkExpr left s = .ok leftType)
    (hr : checkExpr right s = .ok rightType) :
    checkExpr (.BinaryOpNode op left right) s = binaryOpType op leftType rightType := by
  simp only [checkExpr, hl, hr, bind, Except.bind]

end TypeChecker

namespace TypeChecker

/-- The branch of `checkBinaryOp` for `&&` and `||`. -/
theorem binaryOpType_boolean (op leftType rightType : String) (hop : op ∈ booleanOperators) :
    binaryOpType op leftType rightType =
      if leftType = "bool" ∧ rightType = "bool" then .ok "bool"
      else fail .AttemptedBoolOpOnNonBools ("Operator '" ++ op ++
        "' requires boolean operands, got '" ++ leftType ++ "' and '" ++ rightType ++ "'") := by
  have hb : (op = "&&" || op = "||") = true := by
    simpa [booleanOperators] using hop
  simp only [binaryOpType, hb, if_true]
  by_cases h : leftType = "bool" ∧ rightType = "bool"
  · simp [h, isBooleanType, pure, Except.pure]
  · rw [if_neg h, if_pos]
    by_contra hc
    simp only [Bool.or_eq_true, Bool.not_eq_true', not_or, Bool.not_eq_false,
      isBooleanType_iff] at hc
    exact h hc

/-- The branch of `checkBinaryOp` for the equality and relational operators. -/
theorem binaryOpType_comparison (op leftType rightType : String)
    (hop : op ∈ comparisonOperators) :
    binaryOpType op leftType rightType =
      if Compatible leftType rightType then .ok "bool"
      else fail .ExpressionTypeMismatch ("Cannot compare '" ++ leftType ++ "' with '" ++
        rightType ++ "'") := by
  have hb : (op = "&&" || op = "||") = false := by
    simp only [comparisonOperators, List.mem_cons, List.mem_singleton, List.not_mem_nil,
      or_false] at hop
    rcases hop with rfl | rfl | rfl | rfl | rfl | rfl <;> decide
  have hc : (op = "==" || op = "!=" || op = "<" || op = ">" || op = "<=" || op = ">=") = true := by
    simp only [comparisonOperators, List.mem_cons, List.mem_singleton, List.not_mem_nil,
      or_false] at hop
    rcases hop with rfl | rfl | rfl | rfl | rfl | rfl <;> decide
  simp only [binaryOpType, hb, hc, if_true, Bool.false_eq_true, if_false]
  by_cases h : Compatible leftType rightType
  · simp [h, (areTypesCompatible_iff leftType rightType).2 h, pure, Except.pure]
  · rw [if_neg h, if_pos]
    by_contra hn
    simp only [Bool.not_eq_true', Bool.not_eq_false, areTypesCompatible_iff] at hn
    exact h hn

/-- The branch of `checkBinaryOp` for the arithmetic operators. -/
theorem binaryOpType_arithmetic (op leftType rightType : String)
    (hop : op ∈ arithmeticOperators) :
    binaryOpType op leftType rightType =
      if IsIntOrFloat leftType ∧ IsIntOrFloat rightType then
        .ok (if leftType = "float" ∨ rightType = "float" then "float" else "int")
      else fail .AttemptedAddOpOnNonNumeric ("Operator '" ++ op ++
        "' requires numeric operands, got '" ++ leftType ++ "' and '" ++ rightType ++ "'") := by
  have hop1 := hop
  simp only [arithmeticOperators, List.mem_cons, List.mem_singleton, List.not_mem_nil,
    or_false] at hop1
  have hb : (op = "&&" || op = "||") = false := by
    rcases hop1 with rfl | rfl | rfl | rfl <;> decide
  have hc : (op = "==" || op = "!=" || op = "<" || op = ">" || op = "<=" || op = ">=") = false := by
    rcases hop1 with rfl | rfl | rfl | rfl <;> decide
  have ha : (op = "+" || op = "-" || op = "*" || op = "/") = true := by
    rcases hop1 with rfl | rfl | rfl | rfl <;> decide
  simp only [binaryOpType, hb, hc, ha, if_true, Bool.false_eq_true, if_false]
  by_cases h : IsIntOrFloat leftType ∧ IsIntOrFloat rightType
  · rw [if_pos h, if_neg, promoteTypes_numeric _ _ h.1 h.2]
    · rfl
    · simp [(isNumericType_iff leftType).2 h.1, (isNumericType_iff rightType).2 h.2]
  · rw [if_neg h, if_pos]
    by_contra hn
    simp only [Bool.or_eq_true, Bool.not_eq_true', not_or, Bool.not_eq_false,
      isNumericType_iff] at hn
    exact h hn

end TypeChecker

namespace TypeChecker

/-- The body of `checkUnaryOp` for `+ - ++ --` once the operand has a type. -/
theorem checkExpr_signOrStep (op : String) (operand : Expr) (isPostfix : Bool) (s : ScopeStack)
    (operandType : String) (hop : op ∈ signAndStepOperators)
    (h : checkExpr operand s = .ok operandType) :
    checkExpr (.UnaryOpNode op operand isPostfix) s =
      if IsIntOrFloat operandType then .ok operandType
      else fail .AttemptedAddOpOnNonNumeric
        ((if op = "-" ∨ op = "+" then "Unary '" else "Operator '") ++ op ++
          "' requires numeric operand, got '" ++ operandType ++ "'") := by
  simp only [checkExpr, h, bind, Except.bind, unaryOpType]
  simp only [signAndStepOperators, List.mem_cons, List.mem_singleton, List.not_mem_nil,
    or_false] at hop
  by_cases hn : IsIntOrFloat operandType
  · have hb := (isNumericType_iff operandType).2 hn
    rcases hop with rfl | rfl | rfl | rfl <;> simp [hn, hb, pure, Except.pure]
  · have hb : isNumericType operandType = false := by
      rw [← Bool.not_eq_true, isNumericType_iff]; exact hn
    rcases hop with rfl | rfl | rfl | rfl <;> simp [hn, hb]

/-- The body of `checkAssignment` once the variable and the right side have a
type. -/
theorem checkExpr_assignment (name op : String) (right : Expr) (s : ScopeStack)
    (symbol : SymbolInfo) (rightType : String) (hx : s.lookup name false = some symbol)
    (hr : checkExpr right s = .ok rightType) :
    checkExpr (.AssignmentNode (.IdentifierNode name) op right) s =
      assignmentType op symbol.type rightType := by
  simp only [checkExpr, checkIdentifier, hx, hr, bind, Except.bind, pure, Except.pure]

end TypeChecker

/-- C12 (arithmetic).  For an arithmetic operator `+ - * /` whose operands have the
types `leftType` and `rightType`: `checkBinaryOp` throws
`AttemptedAddOpOnNonNumeric` unless both types are `int` or `float`, and when
both are it returns the promotion, `float` if either type is `float` and `int`
if both are `int`. -/
theorem arithmetic_requires_numeric_and_promotes (op : String) (left right : Expr)
    (s : ScopeStack) (leftType rightType : String)
    (hop : op ∈ arithmeticOperators)
    (hl : TypeChecker.checkExpr left s = .ok leftType)
    (hr : TypeChecker.checkExpr right s = .ok rightType) :
    (¬ (IsIntOrFloat leftType ∧ IsIntOrFloat rightType) →
      ∃ detail, TypeChecker.checkExpr (.BinaryOpNode op left right) s =
        .error (.typeCheckException ⟨.AttemptedAddOpOnNonNumeric, detail⟩)) ∧
    (IsIntOrFloat leftType ∧ IsIntOrFloat rightType →
      TypeChecker.checkExpr (.BinaryOpNode op left right) s =
        .ok (if leftType = "float" ∨ rightType = "float" then "float" else "int")) := by
  rw [TypeChecker.checkExpr_binaryOp op left right s leftType rightType hl hr,
    TypeChecker.binaryOpType_arithmetic op leftType rightType hop]
  constructor
  · intro hn
    rw [if_neg hn]
    exact ⟨_, rfl⟩
  · intro h
    rw [if_pos h]

/-- Witness for C12: `true + 1` is rejected and `1 + 2.5` has the type `float`; the
tree of the program `fn int f(){ bool b = true + 1; return 0; }` is rejected by
the type checker with `AttemptedAddOpOnNonNumeric`. -/
theorem arithmetic_requires_numeric_and_promotes_witness :
    (∃ detail, TypeChecker.checkExpr
        (.BinaryOpNode "+" (.LiteralNode "bool" "true") (.LiteralNode "int" "1")) ScopeStack.new =
        .error (.typeCheckException ⟨.AttemptedAddOpOnNonNumeric, detail⟩)) ∧
    TypeChecker.checkExpr
        (.BinaryOpNode "+" (.LiteralNode "int" "1") (.LiteralNode "float" "2.5")) ScopeStack.new =
      .ok "float" ∧
    analyzeAndCheck ⟨[.FunctionNode "int" "f" []
        [.VarDeclNode "bool" "b"
          (some (.BinaryOpNode "+" (.LiteralNode "bool" "true") (.LiteralNode "int" "1"))),
         .ReturnNode (some (.LiteralNode "int" "0"))]]⟩ =
      .typeCheckError ⟨.AttemptedAddOpOnNonNumeric,
        "Operator '+' requires numeric operands, got 'bool' and 'int'"⟩ :=
  ⟨(arithmetic_requires_numeric_and_promotes "+" (.LiteralNode "bool" "true")
      (.LiteralNode "int" "1") ScopeStack.new "bool" "int" (by decide) rfl rfl).1 (by decide),
   (arithmetic_requires_numeric_and_promotes "+" (.LiteralNode "int" "1")
      (.LiteralNode "float" "2.5") ScopeStack.new "int" "float" (by decide) rfl rfl).2 (by decide),
   by decide⟩

/-- C13 (comparison).  For an equality or relational operator
`== != < > <= >=` whose operands have the types `leftType` and `rightType`:
`checkBinaryOp` returns `bool` when both types are `int` or `float`, in any mix,
and throws `ExpressionTypeMismatch` when the types differ and are not both among
`int` and `float`. -/
theorem comparison_of_numeric_is_bool (op : String) (left right : Expr)
    (s : ScopeStack) (leftType rightType : String)
    (hop : op ∈ comparisonOperators)
    (hl : TypeChecker.checkExpr left s = .ok leftType)
    (hr : TypeChecker.checkExpr right s = .ok rightType) :
    (IsIntOrFloat leftType ∧ IsIntOrFloat rightType →
      TypeChecker.checkExpr (.BinaryOpNode op left right) s = .ok "bool") ∧
    (leftType ≠ rightType ∧ ¬ (IsIntOrFloat leftType ∧ IsIntOrFloat rightType) →
      ∃ detail, TypeChecker.checkExpr (.BinaryOpNode op left right) s =
        .error (.typeCheckException ⟨.ExpressionTypeMismatch, detail⟩)) := by
  rw [TypeChecker.checkExpr_binaryOp op left right s leftType rightType hl hr,
    TypeChecker.binaryOpType_comparison op leftType rightType hop]
  constructor
  · intro h
    rw [if_pos (show Compatible leftType rightType from Or.inr h)]
  · rintro ⟨hne, hn⟩
    rw [if_neg (fun hc => hc.elim hne hn)]
    exact ⟨_, rfl⟩

/-- Witness for C13: `1 < 2.5` has the type `bool`, and `true == 1` is rejected. -/
theorem comparison_of_numeric_is_bool_witness :
    TypeChecker.checkExpr
        (.BinaryOpNode "<" (.LiteralNode "int" "1") (.LiteralNode "float" "2.5")) ScopeStack.new =
      .ok "bool" ∧
    ∃ detail, TypeChecker.checkExpr
        (.BinaryOpNode "==" (.LiteralNode "bool" "true") (.LiteralNode "int" "1")) ScopeStack.new =
        .error (.typeCheckException ⟨.ExpressionTypeMismatch, detail⟩) :=
  ⟨(comparison_of_numeric_is_bool "<" (.LiteralNode "int" "1") (.LiteralNode "float" "2.5")
      ScopeStack.new "int" "float" (by decide) rfl rfl).1 (by decide),
   (comparison_of_numeric_is_bool "==" (.LiteralNode "bool" "true") (.LiteralNode "int" "1")
      ScopeStack.new "bool" "int" (by decide) rfl rfl).2 (by decide)⟩

/-- C15 (boolean operators).  For `&&` and `||` whose operands have the types
`leftType` and `rightType`: `checkBinaryOp` returns `bool` when both types are
`bool` and throws `AttemptedBoolOpOnNonBools` when either is anything else. -/
theorem boolean_operators_require_bool (op : String) (left right : Expr)
    (s : ScopeStack) (leftType rightType : String)
    (hop : op ∈ booleanOperators)
    (hl : TypeChecker.checkExpr left s = .ok leftType)
    (hr : TypeChecker.checkExpr right s = .ok rightType) :
    (leftType = "bool" ∧ rightType = "bool" →
      TypeChecker.checkExpr (.BinaryOpNode op left right) s = .ok "bool") ∧
    (leftType ≠ "bool" ∨ rightType ≠ "bool" →
      ∃ detail, TypeChecker.checkExpr (.BinaryOpNode op left right) s =
        .error (.typeCheckException ⟨.AttemptedBoolOpOnNonBools, detail⟩)) := by
  rw [TypeChecker.checkExpr_binaryOp op left right s leftType rightType hl hr,
    TypeChecker.binaryOpType_boolean op leftType rightType hop]
  constructor
  · intro h
    rw [if_pos h]
  · intro h
    rw [if_neg (fun hc => h.elim (fun h1 => h1 hc.1) (fun h2 => h2 hc.2))]
    exact ⟨_, rfl⟩

/-- Witness for C15: `true && false` has the type `bool`, and `1 || true` is
rejected. -/
theorem boolean_operators_require_bool_witness :
    TypeChecker.checkExpr
        (.BinaryOpNode "&&" (.LiteralNode "bool" "true") (.LiteralNode "bool" "false"))
        ScopeStack.new = .ok "bool" ∧
    ∃ detail, TypeChecker.checkExpr
        (.BinaryOpNode "||" (.LiteralNode "int" "1") (.LiteralNode "bool" "true")) ScopeStack.new =
        .error (.typeCheckException ⟨.AttemptedBoolOpOnNonBools, detail⟩) :=
  ⟨(boolean_operators_require_bool "&&" (.LiteralNode "bool" "true")
      (.LiteralNode "bool" "false") ScopeStack.new "bool" "bool" (by decide) rfl rfl).1
      (by decide),
   (boolean_operators_require_bool "||" (.LiteralNode "int" "1") (.LiteralNode "bool" "true")
      ScopeStack.new "int" "bool" (by decide) rfl rfl).2 (by decide)⟩

/-- C14, as stated, fails: the comparison `"a" == "b"` of two string literals is
parsed, has the type `bool` for `checkBinaryOp`, and the program that consists of
it passes the scope analyzer and the type checker. -/
theorem string_comparison_accepted :
    parseSource 40 (TokenStream.ofSource "\"a\" == \"b\";") =
      .ok ⟨[.Statement (.ExprStmtNode
        (.BinaryOpNode "==" (.LiteralNode "string" "a") (.LiteralNode "string" "b")))]⟩ ∧
    TypeChecker.checkExpr
        (.BinaryOpNode "==" (.LiteralNode "string" "a") (.LiteralNode "string" "b"))
        ScopeStack.new = .ok "bool" ∧
    analyzeAndCheck ⟨[.Statement (.ExprStmtNode
        (.BinaryOpNode "==" (.LiteralNode "string" "a") (.LiteralNode "string" "b")))]⟩ =
      .accepted :=
  ⟨rfl, rfl, by decide⟩

/-- C14, amended.  With operand types of which at least one is `string`:
`checkBinaryOp` returns `bool` for an equality or relational operator applied to
two `string` operands, and throws a type-check exception for every other binary
operator and every other pair of types; `checkUnaryOp` throws
`AttemptedAddOpOnNonNumeric` for `+ - ++ --` applied to a `string` operand. -/
theorem string_operands_rejected_except_comparison (s : ScopeStack) :
    (∀ (op : String) (left right : Expr) (leftType rightType : String),
      op ∈ booleanOperators ++ comparisonOperators ++ arithmeticOperators →
      TypeChecker.checkExpr left s = .ok leftType →
      TypeChecker.checkExpr right s = .ok rightType →
      leftType = "string" ∨ rightType = "string" →
      (op ∈ comparisonOperators ∧ leftType = "string" ∧ rightType = "string" →
        TypeChecker.checkExpr (.BinaryOpNode op left right) s = .ok "bool") ∧
      (¬ (op ∈ comparisonOperators ∧ leftType = "string" ∧ rightType = "string") →
        ∃ e, TypeChecker.checkExpr (.BinaryOpNode op left right) s =
          .error (.typeCheckException e))) ∧
    (∀ (op : String) (operand : Expr) (isPostfix : Bool),
      op ∈ signAndStepOperators →
      TypeChecker.checkExpr operand s = .ok "string" →
      ∃ detail, TypeChecker.checkExpr (.UnaryOpNode op operand isPostfix) s =
        .error (.typeCheckException ⟨.AttemptedAddOpOnNonNumeric, detail⟩)) := by
  constructor
  · intro op left right leftType rightType hop hl hr hstr
    rw [TypeChecker.checkExpr_binaryOp op left right s leftType rightType hl hr]
    have hnum : ¬ (IsIntOrFloat leftType ∧ IsIntOrFloat rightType) := by
      rintro ⟨h1, h2⟩
      rcases hstr with rfl | rfl
      · exact absurd h1 (by decide)
      · exact absurd h2 (by decide)
    have hbool : ¬ (leftType = "bool" ∧ rightType = "bool") := by
      rintro ⟨h1, h2⟩
      rcases hstr with rfl | rfl
      · exact absurd h1 (by decide)
      · exact absurd h2 (by decide)
    have hcompat : Compatible leftType rightType ↔ leftType = "string" ∧ rightType = "string" := by
      constructor
      · rintro (h | h)
        · rcases hstr with rfl | rfl
          · exact ⟨rfl, h.symm⟩
          · exact ⟨h, rfl⟩
        · exact absurd h hnum
      · rintro ⟨rfl, rfl⟩
        exact Or.inl rfl
    simp only [List.mem_append] at hop
    rcases hop with (hop | hop) | hop
    · have hnc : op ∉ comparisonOperators := by
        simp only [booleanOperators, List.mem_cons, List.mem_singleton, List.not_mem_nil,
          or_false] at hop
        rcases hop with rfl | rfl <;> decide
      rw [TypeChecker.binaryOpType_boolean op leftType rightType hop, if_neg hbool]
      exact ⟨fun h => absurd h.1 hnc, fun _ => ⟨_, rfl⟩⟩
    · rw [TypeChecker.binaryOpType_comparison op leftType rightType hop]
      constructor
      · intro h
        rw [if_pos (hcompat.2 h.2)]
      · intro h
        rw [if_neg (fun hc => h ⟨hop, hcompat.1 hc⟩)]
        exact ⟨_, rfl⟩
    · have hnc : op ∉ comparisonOperators := by
        simp only [arithmeticOperators, List.mem_cons, List.mem_singleton, List.not_mem_nil,
          or_false] at hop
        rcases hop with rfl | rfl | rfl | rfl <;> decide
      rw [TypeChecker.binaryOpType_arithmetic op leftType rightType hop, if_neg hnum]
      exact ⟨fun h => absurd h.1 hnc, fun _ => ⟨_, rfl⟩⟩
  · intro op operand isPostfix hop h
    rw [TypeChecker.checkExpr_signOrStep op operand isPostfix s "string" hop h,
      if_neg (by decide)]
    exact ⟨_, rfl⟩

/-- Witness for C14, amended: `"a" + 1` and `"a" && true` are rejected, `"a" < "b"`
has the type `bool`, and `-"a"` is rejected. -/
theorem string_operands_rejected_except_comparison_witness :
    (∃ e, TypeChecker.checkExpr
        (.BinaryOpNode "+" (.LiteralNode "string" "a") (.LiteralNode "int" "1")) ScopeStack.new =
        .error (.typeCheckException e)) ∧
    (∃ e, TypeChecker.checkExpr
        (.BinaryOpNode "&&" (.LiteralNode "string" "a") (.LiteralNode "bool" "true"))
        ScopeStack.new = .error (.typeCheckException e)) ∧
    TypeChecker.checkExpr
        (.BinaryOpNode "<" (.LiteralNode "string" "a") (.LiteralNode "string" "b"))
        ScopeStack.new = .ok "bool" ∧
    ∃ detail, TypeChecker.checkExpr
        (.UnaryOpNode "-" (.LiteralNode "string" "a") false) ScopeStack.new =
        .error (.typeCheckException ⟨.AttemptedAddOpOnNonNumeric, detail⟩) :=
  ⟨((string_operands_rejected_except_comparison ScopeStack.new).1 "+"
      (.LiteralNode "string" "a") (.LiteralNode "int" "1") "string" "int" (by decide) rfl rfl
      (by decide)).2 (by decide),
   ((string_operands_rejected_except_comparison ScopeStack.new).1 "&&"
      (.LiteralNode "string" "a") (.LiteralNode "bool" "true") "string" "bool" (by decide) rfl rfl
      (by decide)).2 (by decide),
   ((string_operands_rejected_except_comparison ScopeStack.new).1 "<"
      (.LiteralNode "string" "a") (.LiteralNode "string" "b") "string" "string" (by decide) rfl
      rfl (by decide)).1 (by decide),
   (string_operands_rejected_except_comparison ScopeStack.new).2 "-"
      (.LiteralNode "string" "a") false (by decide) rfl⟩

/-- C16 (assignment).  For `x op e` where `x` is a declared variable of type `L`
and `e` has the type `R`: with a compound operator `+= -= *= /=`,
`checkAssignment` returns `L` when `L` and `R` are both `int` or `float` and
throws `AttemptedAddOpOnNonNumeric` otherwise; with `=` it returns `L` when `R` is
compatible with `L` (equal, or both among `int` and `float`) and throws
`ExpressionTypeMismatch` otherwise. -/
theorem assignment_type_rule (x op : String) (e : Expr) (s : ScopeStack)
    (symbol : SymbolInfo) (R : String)
    (hx : s.lookup x false = some symbol)
    (he : TypeChecker.checkExpr e s = .ok R) :
    (op ∈ compoundAssignmentOperators →
      (IsIntOrFloat symbol.type ∧ IsIntOrFloat R →
        TypeChecker.checkExpr (.AssignmentNode (.IdentifierNode x) op e) s = .ok symbol.type) ∧
      (¬ (IsIntOrFloat symbol.type ∧ IsIntOrFloat R) →
        ∃ detail, TypeChecker.checkExpr (.AssignmentNode (.IdentifierNode x) op e) s =
          .error (.typeCheckException ⟨.AttemptedAddOpOnNonNumeric, detail⟩))) ∧
    (op = "=" →
      (Compatible symbol.type R →
        TypeChecker.checkExpr (.AssignmentNode (.IdentifierNode x) op e) s = .ok symbol.type) ∧
      (¬ Compatible symbol.type R →
        ∃ detail, TypeChecker.checkExpr (.AssignmentNode (.IdentifierNode x) op e) s =
          .error (.typeCheckException ⟨.ExpressionTypeMismatch, detail⟩))) := by
  rw [TypeChecker.checkExpr_assignment x op e s symbol R hx he]
  constructor
  · intro hop
    have hne : op ≠ "=" := by
      simp only [compoundAssignmentOperators, List.mem_cons, List.mem_singleton,
        List.not_mem_nil, or_false] at hop
      rcases hop with rfl | rfl | rfl | rfl <;> decide
    simp only [TypeChecker.assignmentType, hne, ne_eq, not_false_eq_true, if_true]
    constructor
    · rintro ⟨h1, h2⟩
      simp [(TypeChecker.isNumericType_iff _).2 h1, (TypeChecker.isNumericType_iff _).2 h2,
        pure, Except.pure]
    · intro hn
      rw [if_pos]
      · exact ⟨_, rfl⟩
      · by_contra hc
        simp only [Bool.or_eq_true, Bool.not_eq_true', not_or, Bool.not_eq_false,
          TypeChecker.isNumericType_iff] at hc
        exact hn hc
  · rintro rfl
    simp only [TypeChecker.assignmentType, ne_eq, not_true_eq_false, if_false]
    constructor
    · intro h
      simp [(TypeChecker.areTypesCompatible_iff _ _).2 h, pure, Except.pure]
    · intro hn
      rw [if_pos]
      · exact ⟨_, rfl⟩
      · by_contra hc
        simp only [Bool.not_eq_true', Bool.not_eq_false,
          TypeChecker.areTypesCompatible_iff] at hc
        exact hn hc

/-- Witness for C16, with `x` a variable of type `int` in the global scope:
`x += 1.5` and `x = 1.5` have the type `int`; `x += true` and `x = true` are
rejected. -/
theorem assignment_type_rule_witness :
    TypeChecker.checkExpr (.AssignmentNode (.IdentifierNode "x") "+=" (.LiteralNode "float" "1.5"))
        ⟨[], ⟨0, [("x", ⟨"x", "int", false, [], 0⟩)]⟩, 1⟩ = .ok "int" ∧
    (∃ detail, TypeChecker.checkExpr
        (.AssignmentNode (.IdentifierNode "x") "+=" (.LiteralNode "bool" "true"))
        ⟨[], ⟨0, [("x", ⟨"x", "int", false, [], 0⟩)]⟩, 1⟩ =
        .error (.typeCheckException ⟨.AttemptedAddOpOnNonNumeric, detail⟩)) ∧
    TypeChecker.checkExpr (.AssignmentNode (.IdentifierNode "x") "=" (.LiteralNode "float" "1.5"))
        ⟨[], ⟨0, [("x", ⟨"x", "int", false, [], 0⟩)]⟩, 1⟩ = .ok "int" ∧
    ∃ detail, TypeChecker.checkExpr
        (.AssignmentNode (.IdentifierNode "x") "=" (.LiteralNode "bool" "true"))
        ⟨[], ⟨0, [("x", ⟨"x", "int", false, [], 0⟩)]⟩, 1⟩ =
        .error (.typeCheckException ⟨.ExpressionTypeMismatch, detail⟩) :=
  ⟨((assignment_type_rule "x" "+=" (.LiteralNode "float" "1.5")
      ⟨[], ⟨0, [("x", ⟨"x", "int", false, [], 0⟩)]⟩, 1⟩ ⟨"x", "int", false, [], 0⟩ "float"
      rfl rfl).1 (by decide)).1 (by decide),
   ((assignment_type_rule "x" "+=" (.LiteralNode "bool" "true")
      ⟨[], ⟨0, [("x", ⟨"x", "int", false, [], 0⟩)]⟩, 1⟩ ⟨"x", "int", false, [], 0⟩ "bool"
      rfl rfl).1 (by decide)).2 (by decide),
   ((assignment_type_rule "x" "=" (.LiteralNode "float" "1.5")
      ⟨[], ⟨0, [("x", ⟨"x", "int", false, [], 0⟩)]⟩, 1⟩ ⟨"x", "int", false, [], 0⟩ "float"
      rfl rfl).2 rfl).1 (by decide),
   ((assignment_type_rule "x" "=" (.LiteralNode "bool" "true")
      ⟨[], ⟨0, [("x", ⟨"x", "int", false, [], 0⟩)]⟩, 1⟩ ⟨"x", "int", false, [], 0⟩ "bool"
      rfl rfl).2 rfl).2 (by decide)⟩

/-- C18 (return).  With `retType` the return type of the enclosing function:
`return e;`, where `e` has the type `exprType`, is accepted by `checkReturn` when
`retType` is not `void` and `exprType` is compatible with it, and throws
`ErroneousReturnType` otherwise; `return;` is accepted when `retType` is `void`
and throws `ErroneousReturnType` otherwise.  An accepted return statement sets
`hasReturnStmt` and changes nothing else. -/
theorem return_type_rule (e : Expr) (c : TypeChecker) (exprType : String)
    (he : TypeChecker.checkExpr e c.scopeStack = .ok exprType) :
    (c.currentFunctionRetType ≠ "void" ∧ Compatible c.currentFunctionRetType exprType →
      TypeChecker.checkStmt (.ReturnNode (some e)) c = .ok { c with hasReturnStmt := true }) ∧
    (¬ (c.currentFunctionRetType ≠ "void" ∧ Compatible c.currentFunctionRetType exprType) →
      ∃ detail, TypeChecker.checkStmt (.ReturnNode (some e)) c =
        .error (.typeCheckException ⟨.ErroneousReturnType, detail⟩)) ∧
    (c.currentFunctionRetType = "void" →
      TypeChecker.checkStmt (.ReturnNode none) c = .ok { c with hasReturnStmt := true }) ∧
    (c.currentFunctionRetType ≠ "void" →
      ∃ detail, TypeChecker.checkStmt (.ReturnNode none) c =
        .error (.typeCheckException ⟨.ErroneousReturnType, detail⟩)) := by
  refine ⟨?_, ?_, ?_, ?_⟩
  · rintro ⟨hv, hc⟩
    simp [TypeChecker.checkStmt, he, bind, Except.bind, pure, Except.pure, hv,
      (TypeChecker.areTypesCompatible_iff _ _).2 hc]
  · intro hn
    by_cases hv : c.currentFunctionRetType = "void"
    · exact ⟨_, by simp [TypeChecker.checkStmt, he, bind, Except.bind, hv, TypeChecker.fail]; rfl⟩
    · have hc : TypeChecker.areTypesCompatible c.currentFunctionRetType exprType = false := by
        rw [← Bool.not_eq_true, TypeChecker.areTypesCompatible_iff]
        exact fun h => hn ⟨hv, h⟩
      exact ⟨_, by
        simp [TypeChecker.checkStmt, he, bind, Except.bind, pure, Except.pure, hv, hc,
          TypeChecker.fail]; rfl⟩
  · intro hv
    simp [TypeChecker.checkStmt, hv, pure, Except.pure]
  · intro hv
    exact ⟨_, by simp [TypeChecker.checkStmt, hv, TypeChecker.fail]; rfl⟩

/-- Witness for C18: in a function of return type `int`, `return 1.5;` is accepted
and `return;` is rejected; in a function of return type `void`, `return;` is
accepted and `return 1;` is rejected. -/
theorem return_type_rule_witness :
    TypeChecker.checkStmt (.ReturnNode (some (.LiteralNode "float" "1.5")))
        ⟨ScopeStack.new, "int", false⟩ = .ok ⟨ScopeStack.new, "int", true⟩ ∧
    (∃ detail, TypeChecker.checkStmt (.ReturnNode none) ⟨ScopeStack.new, "int", false⟩ =
        .error (.typeCheckException ⟨.ErroneousReturnType, detail⟩)) ∧
    TypeChecker.checkStmt (.ReturnNode none) ⟨ScopeStack.new, "void", false⟩ =
      .ok ⟨ScopeStack.new, "void", true⟩ ∧
    ∃ detail, TypeChecker.checkStmt (.ReturnNode (some (.LiteralNode "int" "1")))
        ⟨ScopeStack.new, "void", false⟩ =
        .error (.typeCheckException ⟨.ErroneousReturnType, detail⟩) :=
  ⟨(return_type_rule (.LiteralNode "float" "1.5") ⟨ScopeStack.new, "int", false⟩ "float" rfl).1
      (by decide),
   (return_type_rule (.LiteralNode "float" "1.5") ⟨ScopeStack.new, "int", false⟩ "float"
      rfl).2.2.2 (by decide),
   (return_type_rule (.LiteralNode "int" "1") ⟨ScopeStack.new, "void", false⟩ "int" rfl).2.2.1
      rfl,
   (return_type_rule (.LiteralNode "int" "1") ⟨ScopeStack.new, "void", false⟩ "int" rfl).2.1
      (by decide)⟩

namespace TypeChecker

/-- The loop of `checkCall` runs to its end when every argument has a type that is
compatible with its parameter type. -/
theorem checkArgs_ok (fname : String) (s : ScopeStack) :
    ∀ (args : List Expr) (types expected : List String) (i : Nat),
      List.Forall₂ (fun a t => checkExpr a s = .ok t) args types →
      List.Forall₂ Compatible expected types →
      checkArgs fname args expected i s = .ok ()
  | [], _, _, _, _, _ => by simp [checkArgs, pure, Except.pure]
  | arg :: args, types, expected, i, ha, he => by
    cases ha with
    | cons h1 hrest =>
      cases he with
      | cons c1 crest =>
        have hb := (areTypesCompatible_iff _ _).2 c1
        simp only [checkArgs, h1, bind, Except.bind, List.headD_cons, hb, Bool.not_true,
          Bool.false_eq_true, if_false, List.tail_cons]
        exact checkArgs_ok fname s args _ _ (i + 1) hrest crest

/-- The loop of `checkCall` stops at the first argument whose type is not
compatible with its parameter type. -/
theorem checkArgs_mismatch (fname : String) (s : ScopeStack) (arg : Expr) (after : List Expr)
    (p : String) (pafter : List String) (t : String) (harg : checkExpr arg s = .ok t)
    (hp : ¬ Compatible p t) :
    ∀ (before : List Expr) (typesBefore pbefore : List String) (i : Nat),
      List.Forall₂ (fun a t => checkExpr a s = .ok t) before typesBefore →
      List.Forall₂ Compatible pbefore typesBefore →
      checkArgs fname (before ++ arg :: after) (pbefore ++ p :: pafter) i s =
        fail .FnCallParamType ("Parameter " ++ toString (i + before.length + 1) ++
          " of function '" ++ fname ++ "' expects type '" ++ p ++ "' but got '" ++ t ++ "'")
  | [], _, _, i, ha, he => by
    cases ha
    cases he
    have hb : areTypesCompatible p t = false := by
      rw [← Bool.not_eq_true, areTypesCompatible_iff]; exact hp
    simp [checkArgs, harg, bind, Except.bind, hb]
  | a :: before, _, _, i, ha, he => by
    cases ha with
    | cons h1 hrest =>
      cases he with
      | cons c1 crest =>
        have hb := (areTypesCompatible_iff _ _).2 c1
        simp only [List.cons_append, checkArgs, h1, bind, Except.bind, List.headD_cons, hb,
          Bool.not_true, Bool.false_eq_true, if_false, List.tail_cons]
        have ih := checkArgs_mismatch fname s arg after p pafter t harg hp before _ _ (i + 1)
          hrest crest
        have hi : i + (a :: before).length + 1 = i + 1 + before.length + 1 := by
          simp only [List.length_cons]; omega
        rw [hi]
        exact ih

/-- The body of `checkCall` for a callee that names a function. -/
theorem checkExpr_call (name : String) (args : List Expr) (s : ScopeStack)
    (funcSymbol : SymbolInfo) (h : s.lookup name true = some funcSymbol) :
    checkExpr (.CallNode (.IdentifierNode name) args) s =
      if args.length ≠ funcSymbol.paramTypes.length then
        fail .FnCallParamCount ("Function '" ++ name ++ "' expects " ++
          toString funcSymbol.paramTypes.length ++ " parameters but got " ++
          toString args.length)
      else (checkArgs name args funcSymbol.paramTypes 0 s).bind
        (fun _ => .ok funcSymbol.type) := by
  simp only [checkExpr, h, bind, pure, Except.pure]

end TypeChecker

/-- C11 (calls).  For a call `f(a1, ..., an)` where `f` is a declared function:
`checkCall` throws `FnCallParamCount` when `n` differs from the number of declared
parameters; when the numbers agree and an argument has a type that is not
compatible with its parameter type, all arguments before it having compatible
types, `checkCall` throws `FnCallParamType` for that argument; when the numbers
agree and every argument has a compatible type, `checkCall` returns the declared
return type of `f`. -/
theorem call_arity_then_argument_types (name : String) (args : List Expr) (s : ScopeStack)
    (funcSymbol : SymbolInfo) (h : s.lookup name true = some funcSymbol) :
    (args.length ≠ funcSymbol.paramTypes.length →
      ∃ detail, TypeChecker.checkExpr (.CallNode (.IdentifierNode name) args) s =
        .error (.typeCheckException ⟨.FnCallParamCount, detail⟩)) ∧
    (∀ (before : List Expr) (arg : Expr) (after : List Expr) (pbefore : List String)
        (p : String) (pafter typesBefore : List String) (t : String),
      args = before ++ arg :: after → funcSymbol.paramTypes = pbefore ++ p :: pafter →
      after.length = pafter.length →
      List.Forall₂ (fun a t => TypeChecker.checkExpr a s = .ok t) before typesBefore →
      List.Forall₂ Compatible pbefore typesBefore →
      TypeChecker.checkExpr arg s = .ok t → ¬ Compatible p t →
      TypeChecker.checkExpr (.CallNode (.IdentifierNode name) args) s =
        .error (.typeCheckException ⟨.FnCallParamType,
          "Parameter " ++ toString (before.length + 1) ++ " of function '" ++ name ++
            "' expects type '" ++ p ++ "' but got '" ++ t ++ "'"⟩)) ∧
    (∀ types : List String,
      List.Forall₂ (fun a t => TypeChecker.checkExpr a s = .ok t) args types →
      List.Forall₂ Compatible funcSymbol.paramTypes types →
      TypeChecker.checkExpr (.CallNode (.IdentifierNode name) args) s = .ok funcSymbol.type) := by
  rw [TypeChecker.checkExpr_call name args s funcSymbol h]
  refine ⟨?_, ?_, ?_⟩
  · intro hne
    rw [if_pos hne]
    exact ⟨_, rfl⟩
  · intro before arg after pbefore p pafter typesBefore t hargs hparams hlen hb hc harg hp
    have hl1 := hb.length_eq
    have hl2 := hc.length_eq
    have hlen2 : args.length = funcSymbol.paramTypes.length := by
      rw [hargs, hparams]
      simp only [List.length_append, List.length_cons]
      omega
    rw [if_neg (not_not.2 hlen2), hargs, hparams,
      TypeChecker.checkArgs_mismatch name s arg after p pafter t harg hp before typesBefore
        pbefore 0 hb hc]
    simp only [Nat.zero_add]
    rfl
  · intro types ha hc
    have hlen2 : args.length = funcSymbol.paramTypes.length := by
      rw [ha.length_eq, hc.length_eq]
    rw [if_neg (not_not.2 hlen2), TypeChecker.checkArgs_ok name s args types _ 0 ha hc]
    rfl

/-- Witness for C11, with `fn int f(int a, int b)` declared: `f(1)` is rejected
with `FnCallParamCount`, `f(1, true)` with `FnCallParamType` for the second
argument, and `f(1, 2.5)` has the type `int`; the tree of the program
`fn int f(int a, int b){ return 0; } fn int g(){ return f(1); }` is rejected by
the type checker with `FnCallParamCount`. -/
theorem call_arity_then_argument_types_witness :
    (∃ detail, TypeChecker.checkExpr (.CallNode (.IdentifierNode "f") [.LiteralNode "int" "1"])
        ⟨[], ⟨0, [("f", ⟨"f", "int", true, ["int", "int"], 0⟩)]⟩, 1⟩ =
        .error (.typeCheckException ⟨.FnCallParamCount, detail⟩)) ∧
    TypeChecker.checkExpr
        (.CallNode (.IdentifierNode "f") [.LiteralNode "int" "1", .LiteralNode "bool" "true"])
        ⟨[], ⟨0, [("f", ⟨"f", "int", true, ["int", "int"], 0⟩)]⟩, 1⟩ =
      .error (.typeCheckException ⟨.FnCallParamType,
        "Parameter 2 of function 'f' expects type 'int' but got 'bool'"⟩) ∧
    TypeChecker.checkExpr
        (.CallNode (.IdentifierNode "f") [.LiteralNode "int" "1", .LiteralNode "float" "2.5"])
        ⟨[], ⟨0, [("f", ⟨"f", "int", true, ["int", "int"], 0⟩)]⟩, 1⟩ = .ok "int" ∧
    analyzeAndCheck ⟨[.FunctionNode "int" "f" [("int", "a"), ("int", "b")]
          [.ReturnNode (some (.LiteralNode "int" "0"))],
        .FunctionNode "int" "g" []
          [.ReturnNode (some (.CallNode (.IdentifierNode "f") [.LiteralNode "int" "1"]))]]⟩ =
      .typeCheckError ⟨.FnCallParamCount, "Function 'f' expects 2 parameters but got 1"⟩ :=
  ⟨(call_arity_then_argument_types "f" [.LiteralNode "int" "1"]
      ⟨[], ⟨0, [("f", ⟨"f", "int", true, ["int", "int"], 0⟩)]⟩, 1⟩
      ⟨"f", "int", true, ["int", "int"], 0⟩ rfl).1 (by decide),
   (call_arity_then_argument_types "f" [.LiteralNode "int" "1", .LiteralNode "bool" "true"]
      ⟨[], ⟨0, [("f", ⟨"f", "int", true, ["int", "int"], 0⟩)]⟩, 1⟩
      ⟨"f", "int", true, ["int", "int"], 0⟩ rfl).2.1
      [.LiteralNode "int" "1"] (.LiteralNode "bool" "true") [] ["int"] "int" [] ["int"] "bool"
      rfl rfl rfl (.cons rfl .nil) (.cons (by decide) .nil) rfl (by decide),
   (call_arity_then_argument_types "f" [.LiteralNode "int" "1", .LiteralNode "float" "2.5"]
      ⟨[], ⟨0, [("f", ⟨"f", "int", true, ["int", "int"], 0⟩)]⟩, 1⟩
      ⟨"f", "int", true, ["int", "int"], 0⟩ rfl).2.2
      ["int", "float"] (.cons rfl (.cons rfl .nil))
      (.cons (by decide) (.cons (by decide) .nil)),
   by decide⟩

/-! ## Undeclared identifiers, redefinition and shadowing -/

/-- The search of `lookup` for a variable misses exactly when no scope of the chain
binds the name to a symbol that is not a function. -/
theorem lookupIn_variable_eq_none (name : String) : ∀ chain : List ScopeNode,
    lookupIn name false chain = none ↔
      ∀ scope ∈ chain, ∀ info, scope.find name = some info → info.isFunction = true
  | [] => by simp [lookupIn]
  | sc :: parents => by
    have ih := lookupIn_variable_eq_none name parents
    simp only [lookupIn, List.mem_cons, forall_eq_or_imp]
    cases hf : sc.find name with
    | none => simp [ih]
    | some info =>
      cases hi : info.isFunction with
      | true => simp [hi, ih]
      | false => simp [hi]

/-- C19 (undeclared identifiers).  `analyzeIdentifier` throws
`UndeclaredVariableAccessed` with the name of the identifier exactly when neither
the current scope nor any enclosing scope binds the name to a variable or
parameter, a binding of the name to a function not counting; in every other case
it accepts the identifier. -/
theorem undeclared_identifier_rejected (name : String) (s : ScopeStack) :
    (ScopeAnalyzer.analyzeExpr (.IdentifierNode name) s =
        .error ⟨.UndeclaredVariableAccessed, name⟩ ↔
      ∀ scope ∈ s.chain, ∀ info, scope.find name = some info → info.isFunction = true) ∧
    (ScopeAnalyzer.analyzeExpr (.IdentifierNode name) s = .ok () ↔
      ∃ scope ∈ s.chain, ∃ info, scope.find name = some info ∧ info.isFunction = false) := by
  have hkey := lookupIn_variable_eq_none name s.chain
  cases hl : lookupIn name false s.chain with
  | none =>
    have hall := hkey.1 hl
    have hrun : ScopeAnalyzer.analyzeExpr (.IdentifierNode name) s =
        .error ⟨.UndeclaredVariableAccessed, name⟩ := by
      simp [ScopeAnalyzer.analyzeExpr, ScopeStack.requireSymbol, ScopeStack.lookup, hl, bind,
        Except.bind]
    rw [hrun]
    refine ⟨⟨fun _ => hall, fun _ => rfl⟩, ⟨fun h => Except.noConfusion h, ?_⟩⟩
    rintro ⟨scope, hm, info, hf, hi⟩
    rw [hall scope hm info hf] at hi
    cases hi
  | some info =>
    have hrun : ScopeAnalyzer.analyzeExpr (.IdentifierNode name) s = .ok () := by
      simp [ScopeAnalyzer.analyzeExpr, ScopeStack.requireSymbol, ScopeStack.lookup, hl, bind,
        Except.bind, pure, Except.pure]
    obtain ⟨sc, hm, hf, hi⟩ := lookupIn_sound name false s.chain info hl
    rw [hrun]
    refine ⟨⟨fun h => Except.noConfusion h, fun hall => ?_⟩, ⟨fun _ => ⟨sc, hm, info, hf, hi⟩, fun _ => rfl⟩⟩
    rw [hall sc hm info hf] at hi
    cases hi

/-- Examples for C19: the trees of `fn int f(){ return undeclared; }` and of
`int x = undeclared_var + 5;` are rejected with `UndeclaredVariableAccessed`, and
so is `fn int f(){ return f; }`, where the only `f` in scope is a function. -/
theorem undeclared_identifier_rejected_witness :
    ScopeAnalyzer.analyzeExpr (.IdentifierNode "f")
        ⟨[⟨1, []⟩], ⟨0, [("f", ⟨"f", "int", true, [], 0⟩)]⟩, 2⟩ =
      .error ⟨.UndeclaredVariableAccessed, "f"⟩ ∧
    ScopeAnalyzer.analyze
        ⟨[.FunctionNode "int" "f" [] [.ReturnNode (some (.IdentifierNode "undeclared"))]]⟩ =
      .error ⟨.UndeclaredVariableAccessed, "undeclared"⟩ ∧
    ScopeAnalyzer.analyze
        ⟨[.Statement (.VarDeclNode "int" "x"
          (some (.BinaryOpNode "+" (.IdentifierNode "undeclared_var") (.LiteralNode "int" "5"))))]⟩ =
      .error ⟨.UndeclaredVariableAccessed, "undeclared_var"⟩ ∧
    ScopeAnalyzer.analyze
        ⟨[.FunctionNode "int" "f" [] [.ReturnNode (some (.IdentifierNode "f"))]]⟩ =
      .error ⟨.UndeclaredVariableAccessed, "f"⟩ :=
  ⟨(undeclared_identifier_rejected "f"
      ⟨[⟨1, []⟩], ⟨0, [("f", ⟨"f", "int", true, [], 0⟩)]⟩, 2⟩).1.2 (by decide),
   rfl, rfl, rfl⟩

/-- The search of `lookup` ends at a binding of the name in the first scope when
that binding is of the kind asked for. -/
theorem lookupIn_head (name : String) (fl : Bool) (sc : ScopeNode) (parents : List ScopeNode)
    (info : SymbolInfo) (hf : sc.find name = some info) (hi : info.isFunction = fl) :
    lookupIn name fl (sc :: parents) = some info := by
  cases fl <;> simp [lookupIn, hf, hi]

/-- C20 (redefinition and shadowing).  For a declaration of `name` whose
initializer, if any, passes the analysis: `analyzeVarDecl` throws
`VariableRedefinition` with the name when the current scope already binds the
name; otherwise it accepts the declaration, whatever the enclosing scopes bind,
a lookup of the name then resolves to the new symbol of the current scope, and
after the current scope has been left the scope stack is the one that leaving it
before the declaration gives, so that lookups resolve as in the enclosing
scopes. -/
theorem varDecl_redefinition_and_shadowing (typeName name : String) (init : Option Expr)
    (s : ScopeStack)
    (hinit : ∀ e, init = some e → ScopeAnalyzer.analyzeExpr e s = .ok ()) :
    ((s.currentScope.find name).isSome = true →
      ScopeAnalyzer.analyzeStmt (.VarDeclNode typeName name init) s =
        .error ⟨.VariableRedefinition, name⟩) ∧
    (s.currentScope.find name = none →
      ∃ s1, ScopeAnalyzer.analyzeStmt (.VarDeclNode typeName name init) s = .ok s1 ∧
        s1.lookup name false = some ⟨name, typeName, false, [], s.currentScope.id⟩ ∧
        (s.inner ≠ [] → s1.exitScope = s.exitScope)) := by
  have hstep : ScopeAnalyzer.analyzeStmt (.VarDeclNode typeName name init) s =
      s.addSymbol name typeName false := by
    cases init with
    | none => simp [ScopeAnalyzer.analyzeStmt, bind, Except.bind, pure, Except.pure]
    | some e => simp [ScopeAnalyzer.analyzeStmt, hinit e rfl, bind, Except.bind]
  rw [hstep]
  constructor
  · intro hb
    simp [ScopeStack.addSymbol, hb]
  · intro hfresh
    cases hi : s.inner with
    | nil =>
      refine ⟨{ s with globalScope :=
        (s.globalScope.insert name ⟨name, typeName, false, [], s.currentScope.id⟩) },
        ?_, ?_, fun h => absurd rfl h⟩
      · simp [ScopeStack.addSymbol, hfresh, hi]
      · simp only [ScopeStack.lookup, ScopeStack.chain, hi, List.nil_append]
        exact lookupIn_head name false _ _ _ (by simp [ScopeNode.find_insert]) rfl
    | cons sc parents =>
      refine ⟨{ s with inner :=
        (sc.insert name ⟨name, typeName, false, [], s.currentScope.id⟩ :: parents) },
        ?_, ?_, fun _ => ?_⟩
      · simp [ScopeStack.addSymbol, hfresh, hi]
      · simp only [ScopeStack.lookup, ScopeStack.chain, List.cons_append]
        exact lookupIn_head name false _ _ _ (by simp [ScopeNode.find_insert]) rfl
      · simp [ScopeStack.exitScope, hi]

/-- Witness for C20, in the scope of a block inside a program that declares the
global variable `x` of type `int`: `float x;` is accepted, `x` then resolves to
the `float` symbol of the block, and after the block to the `int` symbol again; a
second `float x;` in the block is rejected. -/
theorem varDecl_redefinition_and_shadowing_witness :
    (∃ s1, ScopeAnalyzer.analyzeStmt (.VarDeclNode "float" "x" none)
        ⟨[⟨1, []⟩], ⟨0, [("x", ⟨"x", "int", false, [], 0⟩)]⟩, 2⟩ = .ok s1 ∧
      s1.lookup "x" false = some ⟨"x", "float", false, [], 1⟩ ∧
      s1.exitScope = ⟨[], ⟨0, [("x", ⟨"x", "int", false, [], 0⟩)]⟩, 2⟩) ∧
    ScopeStack.lookup ⟨[], ⟨0, [("x", ⟨"x", "int", false, [], 0⟩)]⟩, 2⟩ "x" false =
      some ⟨"x", "int", false, [], 0⟩ ∧
    ScopeAnalyzer.analyzeStmt (.VarDeclNode "float" "x" none)
        ⟨[⟨1, [("x", ⟨"x", "float", false, [], 1⟩)]⟩],
          ⟨0, [("x", ⟨"x", "int", false, [], 0⟩)]⟩, 2⟩ =
      .error ⟨.VariableRedefinition, "x"⟩ :=
  ⟨by
    obtain ⟨s1, h1, h2, h3⟩ := (varDecl_redefinition_and_shadowing "float" "x" none
      ⟨[⟨1, []⟩], ⟨0, [("x", ⟨"x", "int", false, [], 0⟩)]⟩, 2⟩ (fun _ h => nomatch h)).2 rfl
    exact ⟨s1, h1, h2, h3 (by decide)⟩,
   by decide,
   (varDecl_redefinition_and_shadowing "float" "x" none
      ⟨[⟨1, [("x", ⟨"x", "float", false, [], 1⟩)]⟩],
        ⟨0, [("x", ⟨"x", "int", false, [], 0⟩)]⟩, 2⟩ (fun _ h => nomatch h)).1 rfl⟩

/-! ## Function scope, hoisting and call resolution -/

namespace ScopeAnalyzer

/-- The body of `analyzeCall` for a callee that is an identifier. -/
theorem analyzeExpr_call_identifier (name : String) (args : List Expr) (s : ScopeStack) :
    analyzeExpr (.CallNode (.IdentifierNode name) args) s =
      (s.requireFunction name).bind (fun _ => analyzeExprs args s) := by
  simp only [analyzeExpr, bind, pure, Except.pure]
  cases s.requireFunction name <;> rfl

/-- The body of `analyzeCall` for a callee that is no identifier. -/
theorem analyzeExpr_call_other (callee : Expr) (args : List Expr) (s : ScopeStack)
    (h : ∀ name, callee ≠ .IdentifierNode name) :
    analyzeExpr (.CallNode callee args) s =
      (analyzeExpr callee s).bind (fun _ => analyzeExprs args s) := by
  rw [analyzeExpr]
  · rfl
  · exact h

/-- The body of `analyzeAssignment` for a left side that is an identifier. -/
theorem analyzeExpr_assignment_identifier (name op : String) (right : Expr) (s : ScopeStack) :
    analyzeExpr (.AssignmentNode (.IdentifierNode name) op right) s =
      (s.requireSymbol name).bind (fun _ => analyzeExpr right s) := by
  simp only [analyzeExpr, bind, pure, Except.pure]
  cases s.requireSymbol name <;> rfl

/-- The body of `analyzeAssignment` for a left side that is no identifier. -/
theorem analyzeExpr_assignment_other (left : Expr) (op : String) (right : Expr)
    (s : ScopeStack) (h : ∀ name, left ≠ .IdentifierNode name) :
    analyzeExpr (.AssignmentNode left op right) s =
      (analyzeExpr left s).bind (fun _ => analyzeExpr right s) := by
  rw [analyzeExpr]
  · rfl
  · exact h

end ScopeAnalyzer

/-- The search of `lookup` for a function misses exactly when no scope of the chain
binds the name to a function. -/
theorem lookupIn_function_eq_none (name : String) : ∀ chain : List ScopeNode,
    lookupIn name true chain = none ↔
      ∀ scope ∈ chain, ∀ info, scope.find name = some info → info.isFunction = false
  | [] => by simp [lookupIn]
  | sc :: parents => by
    have ih := lookupIn_function_eq_none name parents
    simp only [lookupIn, List.mem_cons, forall_eq_or_imp]
    cases hf : sc.find name with
    | none => simp [ih]
    | some info =>
      cases hi : info.isFunction with
      | true => simp [hi]
      | false => simp [hi, ih]

/-- C24 (call resolution).  When some scope from the current one outward binds
`f` to a function, whatever variables and parameters named `f` the scopes in
between bind, `analyzeCall` accepts the call `f(...)` if it accepts the
arguments; when every binding of `f` from the current scope outward is a variable
or parameter, or there is none, `analyzeCall` throws `UndefinedFunctionCalled`
with the name `f`. -/
theorem call_resolution_skips_variables (f : String) (args : List Expr) (s : ScopeStack) :
    ((∃ scope ∈ s.chain, ∃ info, scope.find f = some info ∧ info.isFunction = true) →
      ScopeAnalyzer.analyzeExpr (.CallNode (.IdentifierNode f) args) s =
        ScopeAnalyzer.analyzeExprs args s) ∧
    ((∀ scope ∈ s.chain, ∀ info, scope.find f = some info → info.isFunction = false) →
      ScopeAnalyzer.analyzeExpr (.CallNode (.IdentifierNode f) args) s =
        .error ⟨.UndefinedFunctionCalled, f⟩) := by
  have hkey := lookupIn_function_eq_none f s.chain
  constructor
  · rintro ⟨scope, hm, info, hf, hi⟩
    cases hl : lookupIn f true s.chain with
    | none =>
      have := hkey.1 hl scope hm info hf
      rw [hi] at this
      cases this
    | some found =>
      simp [ScopeAnalyzer.analyzeExpr, ScopeStack.requireFunction, ScopeStack.lookup, hl, bind,
        Except.bind, pure, Except.pure]
  · intro hall
    have hl := hkey.2 hall
    simp [ScopeAnalyzer.analyzeExpr, ScopeStack.requireFunction, ScopeStack.lookup, hl, bind,
      Except.bind]

/-- Witness for C24: inside `fn int f(int f)`, where the parameter `f` shadows the
function `f`, the call `f(f)` is accepted; inside `fn int g(int x)` the call
`x(1)` is rejected with `UndefinedFunctionCalled`; so are the trees of the two
programs `fn int f(int f){ return f(f); }` and `fn int g(int x){ return x(1); }`
treated by the analyzer. -/
theorem call_resolution_skips_variables_witness :
    ScopeAnalyzer.analyzeExpr (.CallNode (.IdentifierNode "f") [.IdentifierNode "f"])
        ⟨[⟨1, [("f", ⟨"f", "int", false, [], 1⟩)]⟩],
          ⟨0, [("f", ⟨"f", "int", true, ["int"], 0⟩)]⟩, 2⟩ = .ok () ∧
    ScopeAnalyzer.analyzeExpr (.CallNode (.IdentifierNode "x") [.LiteralNode "int" "1"])
        ⟨[⟨1, [("x", ⟨"x", "int", false, [], 1⟩)]⟩],
          ⟨0, [("g", ⟨"g", "int", true, ["int"], 0⟩)]⟩, 2⟩ =
      .error ⟨.UndefinedFunctionCalled, "x"⟩ ∧
    ScopeAnalyzer.analyze ⟨[.FunctionNode "int" "f" [("int", "f")]
        [.ReturnNode (some (.CallNode (.IdentifierNode "f") [.IdentifierNode "f"]))]]⟩ =
      .ok ⟨[], ⟨0, [("f", ⟨"f", "int", true, ["int"], 0⟩)]⟩, 2⟩ ∧
    ScopeAnalyzer.analyze ⟨[.FunctionNode "int" "g" [("int", "x")]
        [.ReturnNode (some (.CallNode (.IdentifierNode "x") [.LiteralNode "int" "1"]))]]⟩ =
      .error ⟨.UndefinedFunctionCalled, "x"⟩ :=
  ⟨((call_resolution_skips_variables "f" [.IdentifierNode "f"]
      ⟨[⟨1, [("f", ⟨"f", "int", false, [], 1⟩)]⟩],
        ⟨0, [("f", ⟨"f", "int", true, ["int"], 0⟩)]⟩, 2⟩).1 (by decide)).trans rfl,
   (call_resolution_skips_variables "x" [.LiteralNode "int" "1"]
      ⟨[⟨1, [("x", ⟨"x", "int", false, [], 1⟩)]⟩],
        ⟨0, [("g", ⟨"g", "int", true, ["int"], 0⟩)]⟩, 2⟩).2 (by decide),
   rfl, rfl⟩

theorem bind_eq_error {ε α β : Type} (x : Except ε α) (f : α → Except ε β) (e : ε) :
    (x >>= f) = .error e ↔ x = .error e ∨ ∃ a, x = .ok a ∧ f a = .error e := by
  cases x with
  | error e1 => simp [bind, Except.bind]
  | ok a => simp [bind, Except.bind]

theorem except_bind_eq_error {ε α β : Type} (x : Except ε α) (f : α → Except ε β) (e : ε) :
    x.bind f = .error e ↔ x = .error e ∨ ∃ a, x = .ok a ∧ f a = .error e :=
  bind_eq_error x f e

theorem firstRepeated_eq_none : ∀ (names seen : List String),
    firstRepeated seen names = none ↔ names.Nodup ∧ ∀ n ∈ names, n ∉ seen
  | [], seen => by simp [firstRepeated]
  | name :: names, seen => by
    simp only [firstRepeated, List.nodup_cons, List.mem_cons, forall_eq_or_imp]
    by_cases h : name ∈ seen
    · simp [h]
    · simp only [h, if_false, not_false_eq_true, true_and,
        firstRepeated_eq_none names (name :: seen), List.mem_cons, not_or]
      constructor
      · rintro ⟨hn, hall⟩
        exact ⟨⟨fun hm => (hall name hm).1 rfl, hn⟩, fun n hm => (hall n hm).2⟩
      · rintro ⟨⟨hnm, hn⟩, hall⟩
        exact ⟨hn, fun n hm => ⟨fun he => hnm (he ▸ hm), hall n hm⟩⟩

theorem firstRepeated_eq_some : ∀ (names seen : List String) (name : String),
    firstRepeated seen names = some name →
      name ∈ names ∧ (name ∈ seen ∨ 2 ≤ names.count name)
  | [], _, _, h => by simp [firstRepeated] at h
  | n :: names, seen, name, h => by
    simp only [firstRepeated] at h
    by_cases hm : n ∈ seen
    · simp only [hm, if_true, Option.some.injEq] at h
      subst h
      exact ⟨List.mem_cons_self _ _, Or.inl hm⟩
    · simp only [hm, if_false] at h
      obtain ⟨h1, h2⟩ := firstRepeated_eq_some names (n :: seen) name h
      refine ⟨List.mem_cons_of_mem _ h1, ?_⟩
      rcases h2 with h2 | h2
      · rcases List.mem_cons.1 h2 with rfl | h3
        · right
          rw [List.count_cons_self]
          have := List.count_pos_iff.2 h1
          omega
        · exact Or.inl h3
      · right
        have := List.count_le_count_cons (a := name) (b := n) (l := names)
        omega

namespace ScopeAnalyzer

/-- The first loop of `analyzeProgram` stops at the first function whose name is
already in the global scope. -/
theorem hoistFunctions_firstRepeated : ∀ (items : List Item) (s : ScopeStack)
    (seen : List String), (∀ n, (s.globalScope.find n).isSome = true ↔ n ∈ seen) →
    (∀ name, firstRepeated seen (declaredFunctions items) = some name →
      hoistFunctions items s = .error ⟨.FunctionPrototypeRedefinition, name⟩) ∧
    (firstRepeated seen (declaredFunctions items) = none →
      ∃ s1, hoistFunctions items s = .ok s1 ∧ s1.inner = s.inner)
  | [], s, seen, _ => by
    simp [hoistFunctions, declaredFunctions, firstRepeated, pure, Except.pure]
  | .Statement _ :: items, s, seen, hs => by
    simpa [hoistFunctions, declaredFunctions] using hoistFunctions_firstRepeated items s seen hs
  | .FunctionNode retType fname params _ :: items, s, seen, hs => by
    simp only [hoistFunctions, declaredFunctions, firstRepeated]
    by_cases hm : fname ∈ seen
    · have hb := (hs fname).2 hm
      simp [hm, ScopeStack.addFunction, hb, bind, Except.bind]
    · have hb : (s.globalScope.find fname).isSome = false := by
        rw [← Bool.not_eq_true, hs fname]; exact hm
      have hs2 : ∀ n, ((s.globalScope.insert fname
          ⟨fname, retType, true, params.map (·.1), s.globalScope.id⟩).find n).isSome = true ↔
            n ∈ fname :: seen := by
        intro n
        simp only [ScopeNode.find_insert, List.mem_cons]
        by_cases hn : n = fname
        · simp [hn]
        · simp [hn, hs n]
      have ih := hoistFunctions_firstRepeated items
        { s with globalScope := (s.globalScope.insert fname
          ⟨fname, retType, true, params.map (·.1), s.globalScope.id⟩) } (fname :: seen) hs2
      simpa [hm, ScopeStack.addFunction, hb, bind, Except.bind] using ih

/-- The exceptions of `requireSymbol`. -/
theorem requireSymbol_error (s : ScopeStack) (name : String) (err : ScopeException)
    (h : s.requireSymbol name = .error err) :
    err = ⟨.UndeclaredVariableAccessed, name⟩ ∧ s.lookup name false = none := by
  unfold ScopeStack.requireSymbol at h
  cases hl : s.lookup name false with
  | none => simp only [hl, Except.error.injEq] at h; exact ⟨h.symm, rfl⟩
  | some info => simp [hl] at h

/-- The exceptions of `requireFunction`. -/
theorem requireFunction_error (s : ScopeStack) (name : String) (err : ScopeException)
    (h : s.requireFunction name = .error err) :
    err = ⟨.UndefinedFunctionCalled, name⟩ ∧ s.lookup name true = none := by
  unfold ScopeStack.requireFunction at h
  cases hl : s.lookup name true with
  | none => simp only [hl, Except.error.injEq] at h; exact ⟨h.symm, rfl⟩
  | some info => simp [hl] at h

mutual

/-- An exception of the analysis of an expression reports a name that `lookup`
has missed, as a variable or as a function. -/
theorem analyzeExpr_error : ∀ (e : Expr) (s : ScopeStack) (err : ScopeException),
    analyzeExpr e s = .error err →
      err.errorType = .UndeclaredVariableAccessed ∨ err.errorType = .UndefinedFunctionCalled
  | .BinaryOpNode _ left right, s, err, h => by
    simp only [analyzeExpr, bind_eq_error] at h
    rcases h with h | ⟨_, _, h⟩
    · exact analyzeExpr_error left s err h
    · exact analyzeExpr_error right s err h
  | .UnaryOpNode _ operand _, s, err, h => by
    simp only [analyzeExpr] at h
    exact analyzeExpr_error operand s err h
  | .LiteralNode _ _, s, err, h => by simp [analyzeExpr, pure, Except.pure] at h
  | .IdentifierNode name, s, err, h => by
    simp only [analyzeExpr, bind_eq_error] at h
    rcases h with h | ⟨_, _, h⟩
    · exact Or.inl (by rw [(requireSymbol_error s name err h).1])
    · simp [pure, Except.pure] at h
  | .CallNode callee args, s, err, h => by
    by_cases hc : ∃ name, callee = .IdentifierNode name
    · obtain ⟨name, rfl⟩ := hc
      rw [analyzeExpr_call_identifier, except_bind_eq_error] at h
      rcases h with h | ⟨_, _, h⟩
      · exact Or.inr (by rw [(requireFunction_error s name err h).1])
      · exact analyzeExprs_error args s err h
    · rw [analyzeExpr_call_other callee args s (fun name hn => hc ⟨name, hn⟩),
        except_bind_eq_error] at h
      rcases h with h | ⟨_, _, h⟩
      · exact analyzeExpr_error callee s err h
      · exact analyzeExprs_error args s err h
  | .AssignmentNode left op right, s, err, h => by
    by_cases hc : ∃ name, left = .IdentifierNode name
    · obtain ⟨name, rfl⟩ := hc
      rw [analyzeExpr_assignment_identifier, except_bind_eq_error] at h
      rcases h with h | ⟨_, _, h⟩
      · exact Or.inl (by rw [(requireSymbol_error s name err h).1])
      · exact analyzeExpr_error right s err h
    · rw [analyzeExpr_assignment_other left op right s (fun name hn => hc ⟨name, hn⟩),
        except_bind_eq_error] at h
      rcases h with h | ⟨_, _, h⟩
      · exact analyzeExpr_error left s err h
      · exact analyzeExpr_error right s err h

theorem analyzeExprs_error : ∀ (es : List Expr) (s : ScopeStack) (err : ScopeException),
    analyzeExprs es s = .error err →
      err.errorType = .UndeclaredVariableAccessed ∨ err.errorType = .UndefinedFunctionCalled
  | [], s, err, h => by simp [analyzeExprs, pure, Except.pure] at h
  | e :: es, s, err, h => by
    simp only [analyzeExprs, bind_eq_error] at h
    rcases h with h | ⟨_, _, h⟩
    · exact analyzeExpr_error e s err h
    · exact analyzeExprs_error es s err h

end

end ScopeAnalyzer

namespace ScopeAnalyzer

theorem addSymbol_variable_error (s : ScopeStack) (name type : String) (err : ScopeException)
    (h : s.addSymbol name type false = .error err) :
    err.errorType ≠ .FunctionPrototypeRedefinition := by
  unfold ScopeStack.addSymbol at h
  split at h
  · simp only [Bool.false_eq_true, if_false, Except.error.injEq] at h
    subst h
    simp
  · cases hi : s.inner <;> simp [hi] at h

theorem analyzeExpr_error_kind (e : Expr) (s : ScopeStack) (err : ScopeException)
    (h : analyzeExpr e s = .error err) : err.errorType ≠ .FunctionPrototypeRedefinition := by
  rcases analyzeExpr_error e s err h with h1 | h1 <;> simp [h1]

mutual

/-- The analysis of a statement throws no `FunctionPrototypeRedefinition`. -/
theorem analyzeStmt_error : ∀ (st : Stmt) (s : ScopeStack) (err : ScopeException),
    analyzeStmt st s = .error err → err.errorType ≠ .FunctionPrototypeRedefinition
  | .BlockNode stmts, s, err, h => by
    simp only [analyzeStmt, bind_eq_error] at h
    rcases h with h | ⟨_, _, h⟩
    · exact analyzeStmts_error stmts _ err h
    · simp [pure, Except.pure] at h
  | .VarDeclNode typeName name none, s, err, h => by
    simp only [analyzeStmt, pure_bind] at h
    exact addSymbol_variable_error s name typeName err h
  | .VarDeclNode typeName name (some e), s, err, h => by
    simp only [analyzeStmt, bind_eq_error] at h
    rcases h with h | ⟨_, _, h⟩
    · exact analyzeExpr_error_kind e s err h
    · exact addSymbol_variable_error s name typeName err h
  | .ReturnNode none, s, err, h => by
    simp [analyzeStmt, pure, Except.pure, bind, Except.bind] at h
  | .ReturnNode (some e), s, err, h => by
    simp only [analyzeStmt, bind_eq_error] at h
    rcases h with h | ⟨_, _, h⟩
    · exact analyzeExpr_error_kind e s err h
    · simp [pure, Except.pure] at h
  | .IfNode cond thenBlock none, s, err, h => by
    simp only [analyzeStmt, bind_eq_error] at h
    rcases h with h | ⟨_, _, h | ⟨_, _, h⟩⟩
    · exact analyzeExpr_error_kind cond s err h
    · exact analyzeStmts_error thenBlock _ err h
    · simp [pure, Except.pure] at h
  | .IfNode cond thenBlock (some stmts), s, err, h => by
    simp only [analyzeStmt, bind_eq_error] at h
    rcases h with h | ⟨_, _, h | ⟨_, _, h | ⟨_, _, h⟩⟩⟩
    · exact analyzeExpr_error_kind cond s err h
    · exact analyzeStmts_error thenBlock _ err h
    · exact analyzeStmts_error stmts _ err h
    · simp [pure, Except.pure] at h
  | .WhileNode cond body, s, err, h => by
    simp only [analyzeStmt, bind_eq_error] at h
    rcases h with h | ⟨_, _, h | ⟨_, _, h⟩⟩
    · exact analyzeExpr_error_kind cond s err h
    · exact analyzeStmts_error body _ err h
    · simp [pure, Except.pure] at h
  | .ExprStmtNode e, s, err, h => by
    simp only [analyzeStmt, bind_eq_error] at h
    rcases h with h | ⟨_, _, h⟩
    · exact analyzeExpr_error_kind e s err h
    · simp [pure, Except.pure] at h

theorem analyzeStmts_error : ∀ (stmts : List Stmt) (s : ScopeStack) (err : ScopeException),
    analyzeStmts stmts s = .error err → err.errorType ≠ .FunctionPrototypeRedefinition
  | [], s, err, h => by simp [analyzeStmts, pure, Except.pure] at h
  | st :: stmts, s, err, h => by
    simp only [analyzeStmts, bind_eq_error] at h
    rcases h with h | ⟨_, _, h⟩
    · exact analyzeStmt_error st s err h
    · exact analyzeStmts_error stmts _ err h

end

theorem addParams_error : ∀ (params : List (String × String)) (s : ScopeStack)
    (err : ScopeException), s.addParams params = .error err →
    err.errorType ≠ .FunctionPrototypeRedefinition
  | [], s, err, h => by simp [ScopeStack.addParams] at h
  | p :: params, s, err, h => by
    simp only [ScopeStack.addParams, bind_eq_error] at h
    rcases h with h | ⟨_, _, h⟩
    · exact addSymbol_variable_error s _ _ err h
    · exact addParams_error params _ err h

/-- The second loop of `analyzeProgram` throws no `FunctionPrototypeRedefinition`. -/
theorem analyzeItems_error : ∀ (items : List Item) (s : ScopeStack) (err : ScopeException),
    analyzeItems items s = .error err → err.errorType ≠ .FunctionPrototypeRedefinition
  | [], s, err, h => by simp [analyzeItems, pure, Except.pure] at h
  | .FunctionNode _ _ params body :: items, s, err, h => by
    simp only [analyzeItems, analyzeFunction, bind_eq_error] at h
    rcases h with (h | ⟨_, _, h | ⟨_, _, h⟩⟩) | ⟨_, _, h⟩
    · exact addParams_error params _ err h
    · exact analyzeStmts_error body _ err h
    · simp [pure, Except.pure] at h
    · exact analyzeItems_error items _ err h
  | .Statement st :: items, s, err, h => by
    simp only [analyzeItems, bind_eq_error] at h
    rcases h with h | ⟨_, _, h⟩
    · exact analyzeStmt_error st s err h
    · exact analyzeItems_error items _ err h

end ScopeAnalyzer

/-- C23 (function redefinition).  `ScopeAnalyzer.analyze` throws
`FunctionPrototypeRedefinition` if and only if two top-level functions of the
program share a name; the name it carries is the name of the first function,
in source order, whose name is that of an earlier function, and it occurs at
least twice among the function names.  The exception comes from the hoisting
loop, before any function body is walked. -/
theorem function_redefinition_iff_duplicate (prog : ProgramNode) :
    ((∃ name, ScopeAnalyzer.analyze prog =
        .error ⟨.FunctionPrototypeRedefinition, name⟩) ↔
      ¬ (declaredFunctions prog.items).Nodup) ∧
    (∀ name, ScopeAnalyzer.analyze prog = .error ⟨.FunctionPrototypeRedefinition, name⟩ ↔
      firstRepeated [] (declaredFunctions prog.items) = some name) ∧
    (∀ name, ScopeAnalyzer.analyze prog = .error ⟨.FunctionPrototypeRedefinition, name⟩ →
      2 ≤ (declaredFunctions prog.items).count name ∧
      ScopeAnalyzer.hoistFunctions prog.items ScopeStack.new =
        .error ⟨.FunctionPrototypeRedefinition, name⟩) := by
  have hnew : ∀ n, (ScopeStack.new.globalScope.find n).isSome = true ↔ n ∈ ([] : List String) := by
    intro n
    simp [ScopeStack.new, ScopeNode.find]
  obtain ⟨hsome, hnone⟩ :=
    ScopeAnalyzer.hoistFunctions_firstRepeated prog.items ScopeStack.new [] hnew
  have hexact : ∀ name, ScopeAnalyzer.analyze prog =
      .error ⟨.FunctionPrototypeRedefinition, name⟩ ↔
      firstRepeated [] (declaredFunctions prog.items) = some name := by
    intro name
    cases hf : firstRepeated [] (declaredFunctions prog.items) with
    | some n =>
      have hrun : ScopeAnalyzer.analyze prog = .error ⟨.FunctionPrototypeRedefinition, n⟩ := by
        simp [ScopeAnalyzer.analyze, ScopeAnalyzer.analyzeProgram, hsome n hf, bind, Except.bind]
      rw [hrun]
      simp
    | none =>
      obtain ⟨s1, h1, -⟩ := hnone hf
      have hrun : ScopeAnalyzer.analyze prog = ScopeAnalyzer.analyzeItems prog.items s1 := by
        simp [ScopeAnalyzer.analyze, ScopeAnalyzer.analyzeProgram, h1, bind, Except.bind]
      rw [hrun]
      constructor
      · intro h
        exact absurd rfl (ScopeAnalyzer.analyzeItems_error prog.items s1 _ h)
      · intro h
        cases h
  refine ⟨?_, hexact, ?_⟩
  · constructor
    · rintro ⟨name, h⟩ hnd
      have hn := (firstRepeated_eq_none (declaredFunctions prog.items) []).2 ⟨hnd, by simp⟩
      rw [(hexact name).1 h] at hn
      cases hn
    · intro hnd
      cases hf : firstRepeated [] (declaredFunctions prog.items) with
      | some n => exact ⟨n, (hexact n).2 hf⟩
      | none => exact absurd ((firstRepeated_eq_none _ _).1 hf).1 hnd
  · intro name h
    have hf := (hexact name).1 h
    obtain ⟨-, h2⟩ := firstRepeated_eq_some _ _ _ hf
    refine ⟨?_, hsome name hf⟩
    rcases h2 with h2 | h2
    · simp at h2
    · exact h2

/-- Examples for C23: the tree of
`fn int f(){ return undeclared; } fn int g(){ } fn int g(){ }` is rejected with
`FunctionPrototypeRedefinition` for `g`, although the body of `f` uses an
undeclared variable; without the second `g` the program is rejected for that
variable. -/
theorem function_redefinition_iff_duplicate_witness :
    ScopeAnalyzer.analyze ⟨[.FunctionNode "int" "f" []
          [.ReturnNode (some (.IdentifierNode "undeclared"))],
        .FunctionNode "int" "g" [] [], .FunctionNode "int" "g" [] []]⟩ =
      .error ⟨.FunctionPrototypeRedefinition, "g"⟩ ∧
    ScopeAnalyzer.analyze ⟨[.FunctionNode "int" "f" []
          [.ReturnNode (some (.IdentifierNode "undeclared"))],
        .FunctionNode "int" "g" [] []]⟩ =
      .error ⟨.UndeclaredVariableAccessed, "undeclared"⟩ :=
  ⟨((function_redefinition_iff_duplicate ⟨[.FunctionNode "int" "f" []
          [.ReturnNode (some (.IdentifierNode "undeclared"))],
        .FunctionNode "int" "g" [] [], .FunctionNode "int" "g" [] []]⟩).2.1 "g").2 (by decide),
   rfl⟩

namespace ScopeAnalyzer

/-- After the hoisting loop the global scope binds to a function the names it
bound to a function before and the names of the functions of the items. -/
theorem hoistFunctions_hasFunction : ∀ (items : List Item) (s s1 : ScopeStack),
    hoistFunctions items s = .ok s1 →
    s1.inner = s.inner ∧
    ∀ f, s1.hasFunction f ↔ s.hasFunction f ∨ f ∈ declaredFunctions items
  | [], s, s1, h => by
    simp only [hoistFunctions, pure_eq_ok] at h
    subst h
    simp [declaredFunctions]
  | .Statement _ :: items, s, s1, h => by
    simp only [hoistFunctions] at h
    simpa [declaredFunctions] using hoistFunctions_hasFunction items s s1 h
  | .FunctionNode retType fname params _ :: items, s, s1, h => by
    simp only [hoistFunctions, bind_eq_ok] at h
    obtain ⟨s2, h2, h3⟩ := h
    obtain ⟨hin, hfun⟩ := hoistFunctions_hasFunction items s2 s1 h3
    unfold ScopeStack.addFunction at h2
    split at h2
    · exact absurd h2 (by simp)
    · rename_i hfresh
      simp only [Except.ok.injEq] at h2
      subst h2
      refine ⟨hin, fun f => ?_⟩
      rw [hfun f]
      simp only [ScopeStack.hasFunction, ScopeNode.find_insert, declaredFunctions,
        List.mem_cons]
      by_cases hf : f = fname
      · subst hf
        simp
      · simp [hf]

end ScopeAnalyzer

/-- What the walk keeps true: the scopes above the global scope bind no function,
and the global scope binds to a function the names it bound after hoisting. -/
theorem WalkedFrom.functions_kept {s0 s : ScopeStack} (h : WalkedFrom s0 s)
    (h0 : s0.inner = []) :
    (∀ sc ∈ s.inner, ∀ (name : String) (info : SymbolInfo), sc.find name = some info →
      info.isFunction = false) ∧
    ∀ f, s.hasFunction f ↔ s0.hasFunction f := by
  induction h with
  | start => simp [h0]
  | enter _ ih =>
    refine ⟨fun sc hsc name info hf => ?_, ih.2⟩
    simp only [ScopeStack.enterScope, List.mem_cons] at hsc
    rcases hsc with rfl | hsc
    · simp [ScopeNode.find] at hf
    · exact ih.1 sc hsc name info hf
  | @leave s _ ih =>
    cases hi : s.inner with
    | nil =>
      have : s.exitScope = s := by simp [ScopeStack.exitScope, hi]
      rw [this]
      exact ih
    | cons sc parents =>
      have hx : s.exitScope = { s with inner := parents } := by simp [ScopeStack.exitScope, hi]
      rw [hx]
      refine ⟨fun sc1 hsc name info hf => ih.1 sc1 ?_ name info hf, ih.2⟩
      rw [hi]
      exact List.mem_cons_of_mem _ hsc
  | @declare s s1 name type _ hadd ih =>
    unfold ScopeStack.addSymbol at hadd
    split at hadd
    · exact absurd hadd (by simp)
    · rename_i hfresh
      cases hi : s.inner with
      | nil =>
        simp only [hi, Except.ok.injEq] at hadd
        subst hadd
        refine ⟨by simp [hi], fun f => ?_⟩
        rw [← ih.2 f]
        simp only [ScopeStack.hasFunction, ScopeNode.find_insert]
        by_cases hf : f = name
        · subst hf
          have hnone : s.globalScope.find f = none := by
            simpa [ScopeStack.currentScope, hi] using hfresh
          simp [hnone]
        · simp [hf]
      | cons sc parents =>
        simp only [hi, Except.ok.injEq] at hadd
        subst hadd
        refine ⟨fun sc1 hsc n info hf => ?_, ih.2⟩
        simp only [List.mem_cons] at hsc
        rcases hsc with rfl | hsc
        · rw [ScopeNode.find_insert] at hf
          by_cases hn : n = name
          · simp only [hn, if_true, Option.some.injEq] at hf
            subst hf
            rfl
          · simp only [hn, if_false] at hf
            exact ih.1 sc (by simp [hi]) n info hf
        · exact ih.1 sc1 (by simp [hi, hsc]) n info hf

/-- The search for a function finds one exactly when the global scope binds the
name to a function, provided the scopes above bind no function. -/
theorem lookup_function_isSome (s : ScopeStack) (f : String)
    (hinner : ∀ sc ∈ s.inner, ∀ (name : String) (info : SymbolInfo), sc.find name = some info →
      info.isFunction = false) :
    (s.lookup f true).isSome = true ↔ s.hasFunction f := by
  rw [← Option.ne_none_iff_isSome, ne_eq, ScopeStack.lookup, lookupIn_function_eq_none]
  simp only [ScopeStack.chain, List.mem_append, List.mem_singleton, ScopeStack.hasFunction]
  constructor
  · intro h
    by_contra hc
    apply h
    rintro scope (hsc | rfl) info hf
    · exact hinner scope hsc f info hf
    · cases hi : info.isFunction with
      | false => rfl
      | true => exact absurd ⟨info, hf, hi⟩ hc
  · rintro ⟨info, hf, hi⟩ hall
    have := hall s.globalScope (Or.inr rfl) info hf
    rw [hi] at this
    cases this

namespace ScopeAnalyzer

mutual

/-- The analysis of a statement leaves the scope stack among those of the walk. -/
theorem analyzeStmt_walk (s0 : ScopeStack) : ∀ (st : Stmt) (s s1 : ScopeStack),
    analyzeStmt st s = .ok s1 → WalkedFrom s0 s → WalkedFrom s0 s1
  | .BlockNode stmts, s, s1, h, hw => by
    simp only [analyzeStmt, bind_eq_ok, pure_eq_ok] at h
    obtain ⟨s2, h2, rfl⟩ := h
    exact (analyzeStmts_walk s0 stmts _ s2 h2 hw.enter).leave
  | .VarDeclNode typeName name none, s, s1, h, hw => by
    simp only [analyzeStmt, pure_bind] at h
    exact hw.declare name typeName h
  | .VarDeclNode typeName name (some e), s, s1, h, hw => by
    simp only [analyzeStmt, bind_eq_ok] at h
    obtain ⟨_, _, h2⟩ := h
    exact hw.declare name typeName h2
  | .ReturnNode none, s, s1, h, hw => by
    simp only [analyzeStmt, pure_bind, pure_eq_ok] at h
    exact h ▸ hw
  | .ReturnNode (some e), s, s1, h, hw => by
    simp only [analyzeStmt, bind_eq_ok, pure_eq_ok] at h
    obtain ⟨_, _, h2⟩ := h
    exact h2 ▸ hw
  | .IfNode cond thenBlock none, s, s1, h, hw => by
    simp only [analyzeStmt, bind_eq_ok, pure_eq_ok] at h
    obtain ⟨_, _, s2, h2, rfl⟩ := h
    exact (analyzeStmts_walk s0 thenBlock _ s2 h2 hw.enter).leave
  | .IfNode cond thenBlock (some stmts), s, s1, h, hw => by
    simp only [analyzeStmt, bind_eq_ok, pure_eq_ok] at h
    obtain ⟨_, _, s2, h2, s3, h3, rfl⟩ := h
    exact (analyzeStmts_walk s0 stmts _ s3 h3
      (analyzeStmts_walk s0 thenBlock _ s2 h2 hw.enter).leave.enter).leave
  | .WhileNode cond body, s, s1, h, hw => by
    simp only [analyzeStmt, bind_eq_ok, pure_eq_ok] at h
    obtain ⟨_, _, s2, h2, rfl⟩ := h
    exact (analyzeStmts_walk s0 body _ s2 h2 hw.enter).leave
  | .ExprStmtNode e, s, s1, h, hw => by
    simp only [analyzeStmt, bind_eq_ok, pure_eq_ok] at h
    obtain ⟨_, _, h2⟩ := h
    exact h2 ▸ hw

theorem analyzeStmts_walk (s0 : ScopeStack) : ∀ (stmts : List Stmt) (s s1 : ScopeStack),
    analyzeStmts stmts s = .ok s1 → WalkedFrom s0 s → WalkedFrom s0 s1
  | [], s, s1, h, hw => by
    simp only [analyzeStmts, pure_eq_ok] at h
    exact h ▸ hw
  | st :: stmts, s, s1, h, hw => by
    simp only [analyzeStmts, bind_eq_ok] at h
    obtain ⟨s2, h2, h3⟩ := h
    exact analyzeStmts_walk s0 stmts s2 s1 h3 (analyzeStmt_walk s0 st s s2 h2 hw)

end

theorem addParams_walk (s0 : ScopeStack) : ∀ (params : List (String × String))
    (s s1 : ScopeStack), s.addParams params = .ok s1 → WalkedFrom s0 s → WalkedFrom s0 s1
  | [], s, s1, h, hw => by
    simp only [ScopeStack.addParams, Except.ok.injEq] at h
    exact h ▸ hw
  | p :: params, s, s1, h, hw => by
    simp only [ScopeStack.addParams, bind_eq_ok] at h
    obtain ⟨s2, h2, h3⟩ := h
    exact addParams_walk s0 params s2 s1 h3 (hw.declare p.2 p.1 h2)

end ScopeAnalyzer

/-- C22 (hoisting).  Let hoisting the functions of a program into a new scope
stack give `s0`.  At every scope stack `s` of the analyzer's walk over the
program, a call `f(...)` whose arguments the analyzer accepts is accepted if and
only if the program has a top-level function named `f`, wherever in the program
it stands; otherwise the call is rejected with `UndefinedFunctionCalled`.  The
walk stays among these scope stacks: the analysis of a parameter list and of a
statement leads from one of them to one of them. -/
theorem call_accepted_iff_function_hoisted (items : List Item) (s0 s : ScopeStack)
    (hhoist : ScopeAnalyzer.hoistFunctions items ScopeStack.new = .ok s0)
    (hwalk : WalkedFrom s0 s) :
    (∀ (f : String) (args : List Expr), ScopeAnalyzer.analyzeExprs args s = .ok () →
      ((ScopeAnalyzer.analyzeExpr (.CallNode (.IdentifierNode f) args) s = .ok () ↔
          f ∈ declaredFunctions items) ∧
        (f ∉ declaredFunctions items →
          ScopeAnalyzer.analyzeExpr (.CallNode (.IdentifierNode f) args) s =
            .error ⟨.UndefinedFunctionCalled, f⟩))) ∧
    (∀ (params : List (String × String)) (s1 : ScopeStack),
      s.enterScope.addParams params = .ok s1 → WalkedFrom s0 s1) ∧
    (∀ (st : Stmt) (s1 : ScopeStack),
      ScopeAnalyzer.analyzeStmt st s = .ok s1 → WalkedFrom s0 s1) := by
  obtain ⟨hin0, hfun0⟩ := ScopeAnalyzer.hoistFunctions_hasFunction items _ s0 hhoist
  have h0 : s0.inner = [] := by rw [hin0]; rfl
  obtain ⟨hinner, hkept⟩ := hwalk.functions_kept h0
  have hvisible : ∀ f, (s.lookup f true).isSome = true ↔ f ∈ declaredFunctions items := by
    intro f
    rw [lookup_function_isSome s f hinner, hkept f, hfun0 f]
    simp [ScopeStack.hasFunction, ScopeStack.new, ScopeNode.find]
  refine ⟨fun f args hargs => ?_, fun params s1 h => ScopeAnalyzer.addParams_walk s0 params _ s1 h
    hwalk.enter, fun st s1 h => ScopeAnalyzer.analyzeStmt_walk s0 st s s1 h hwalk⟩
  rw [ScopeAnalyzer.analyzeExpr_call_identifier, hargs]
  cases hl : s.lookup f true with
  | none =>
    have hnot : f ∉ declaredFunctions items := by
      intro hm
      have := (hvisible f).2 hm
      rw [hl] at this
      cases this
    simp [ScopeStack.requireFunction, hl, Except.bind, hnot]
  | some info =>
    have hm : f ∈ declaredFunctions items := (hvisible f).1 (by rw [hl]; rfl)
    simp [ScopeStack.requireFunction, hl, Except.bind, hm]

/-- Witness for C22, on the tree of
`fn int f(){ return g(); } fn int g(){ return f(); }`: inside the body of `f` the
call `g()` of the function defined later is accepted, and the analyzer accepts
the program; the tree of `fn int f(){ return h(); }` is rejected with
`UndefinedFunctionCalled`. -/
theorem call_accepted_iff_function_hoisted_witness :
    ScopeAnalyzer.analyzeExpr (.CallNode (.IdentifierNode "g") [])
        ⟨[⟨1, []⟩], ⟨0, [("g", ⟨"g", "int", true, [], 0⟩), ("f", ⟨"f", "int", true, [], 0⟩)]⟩,
          2⟩ = .ok () ∧
    ScopeAnalyzer.analyze
        ⟨[.FunctionNode "int" "f" [] [.ReturnNode (some (.CallNode (.IdentifierNode "g") []))],
          .FunctionNode "int" "g" [] [.ReturnNode (some (.CallNode (.IdentifierNode "f") []))]]⟩ =
      .ok ⟨[], ⟨0, [("g", ⟨"g", "int", true, [], 0⟩), ("f", ⟨"f", "int", true, [], 0⟩)]⟩, 3⟩ ∧
    ScopeAnalyzer.analyze
        ⟨[.FunctionNode "int" "f" [] [.ReturnNode (some (.CallNode (.IdentifierNode "h") []))]]⟩ =
      .error ⟨.UndefinedFunctionCalled, "h"⟩ :=
  ⟨(((call_accepted_iff_function_hoisted
      [.FunctionNode "int" "f" [] [.ReturnNode (some (.CallNode (.IdentifierNode "g") []))],
       .FunctionNode "int" "g" [] [.ReturnNode (some (.CallNode (.IdentifierNode "f") []))]]
      ⟨[], ⟨0, [("g", ⟨"g", "int", true, [], 0⟩), ("f", ⟨"f", "int", true, [], 0⟩)]⟩, 1⟩
      ⟨[⟨1, []⟩], ⟨0, [("g", ⟨"g", "int", true, [], 0⟩), ("f", ⟨"f", "int", true, [], 0⟩)]⟩, 2⟩
      rfl WalkedFrom.start.enter).1 "g" [] rfl).1).2 (by decide),
   rfl, rfl⟩

theorem lookupIn_enterScope (name : String) (fl : Bool) (id : Nat) (chain : List ScopeNode) :
    lookupIn name fl (⟨id, []⟩ :: chain) = lookupIn name fl chain := by
  simp [lookupIn, ScopeNode.find]

theorem ScopeStack.lookup_enterScope (s : ScopeStack) (name : String) (fl : Bool) :
    s.enterScope.lookup name fl = s.lookup name fl := by
  simp only [ScopeStack.lookup, ScopeStack.enterScope, ScopeStack.chain, List.cons_append]
  exact lookupIn_enterScope name fl _ _

namespace ScopeAnalyzer

mutual

/-- The analysis of an expression depends on the scope stack through `lookup`
only. -/
theorem analyzeExpr_congr (s s1 : ScopeStack)
    (hl : ∀ name fl, s1.lookup name fl = s.lookup name fl) :
    ∀ e : Expr, analyzeExpr e s1 = analyzeExpr e s
  | .BinaryOpNode _ left right => by
    simp only [analyzeExpr, analyzeExpr_congr s s1 hl left, analyzeExpr_congr s s1 hl right]
  | .UnaryOpNode _ operand _ => by
    simp only [analyzeExpr, analyzeExpr_congr s s1 hl operand]
  | .LiteralNode _ _ => by simp only [analyzeExpr]
  | .IdentifierNode name => by
    simp only [analyzeExpr, ScopeStack.requireSymbol, hl]
  | .CallNode callee args => by
    by_cases hc : ∃ name, callee = .IdentifierNode name
    · obtain ⟨name, rfl⟩ := hc
      simp only [analyzeExpr_call_identifier, ScopeStack.requireFunction, hl,
        analyzeExprs_congr s s1 hl args]
    · rw [analyzeExpr_call_other callee args s (fun name hn => hc ⟨name, hn⟩),
        analyzeExpr_call_other callee args s1 (fun name hn => hc ⟨name, hn⟩),
        analyzeExpr_congr s s1 hl callee, analyzeExprs_congr s s1 hl args]
  | .AssignmentNode left op right => by
    by_cases hc : ∃ name, left = .IdentifierNode name
    · obtain ⟨name, rfl⟩ := hc
      simp only [analyzeExpr_assignment_identifier, ScopeStack.requireSymbol, hl,
        analyzeExpr_congr s s1 hl right]
    · rw [analyzeExpr_assignment_other left op right s (fun name hn => hc ⟨name, hn⟩),
        analyzeExpr_assignment_other left op right s1 (fun name hn => hc ⟨name, hn⟩),
        analyzeExpr_congr s s1 hl left, analyzeExpr_congr s s1 hl right]

theorem analyzeExprs_congr (s s1 : ScopeStack)
    (hl : ∀ name fl, s1.lookup name fl = s.lookup name fl) :
    ∀ es : List Expr, analyzeExprs es s1 = analyzeExprs es s
  | [] => by simp only [analyzeExprs]
  | e :: es => by
    simp only [analyzeExprs, analyzeExpr_congr s s1 hl e, analyzeExprs_congr s s1 hl es]

end

/-- Entering a scope does not change the analysis of an expression. -/
theorem analyzeExpr_enterScope (e : Expr) (s : ScopeStack) :
    analyzeExpr e s.enterScope = analyzeExpr e s :=
  analyzeExpr_congr s s.enterScope (fun name fl => s.lookup_enterScope name fl) e

theorem analyzeStmts_append : ∀ (a b : List Stmt) (s : ScopeStack),
    analyzeStmts (a ++ b) s = (analyzeStmts a s).bind (fun s1 => analyzeStmts b s1)
  | [], b, s => by simp [analyzeStmts, pure, Except.pure, Except.bind]
  | st :: a, b, s => by
    simp only [List.cons_append, analyzeStmts, bind]
    cases analyzeStmt st s with
    | error e => rfl
    | ok s1 => simpa [Except.bind] using analyzeStmts_append a b s1

end ScopeAnalyzer

theorem ScopeStack.chain_head (s : ScopeStack) : s.chain.head? = some s.currentScope := by
  cases hi : s.inner <;> simp [ScopeStack.chain, ScopeStack.currentScope, hi]

theorem ScopeStack.currentScope_of_chain {s s1 : ScopeStack} (h : s1.chain = s.chain) :
    s1.currentScope = s.currentScope := by
  have := s1.chain_head
  rw [h, s.chain_head] at this
  exact (Option.some.inj this).symm

/-- A successful `addSymbol` changes the current scope only, where it keeps the
names bound and binds the new name. -/
theorem ScopeStack.addSymbol_keeps (s s1 : ScopeStack) (name type : String)
    (h : s.addSymbol name type false = .ok s1) :
    SameOuter s s1 ∧ (s1.currentScope.find name).isSome = true ∧
      ∀ n, (s.currentScope.find n).isSome = true → (s1.currentScope.find n).isSome = true := by
  unfold ScopeStack.addSymbol at h
  split at h
  · exact absurd h (by simp)
  · cases hi : s.inner with
    | nil =>
      simp only [hi, Except.ok.injEq] at h
      subst h
      refine ⟨by simp [SameOuter, hi], ?_, ?_⟩
      · simp [ScopeStack.currentScope, hi, ScopeNode.find_insert]
      · intro n hn
        simp only [ScopeStack.currentScope, hi, ScopeNode.find_insert] at hn ⊢
        by_cases hnn : n = name <;> simp [hnn, hn]
    | cons sc parents =>
      simp only [hi, Except.ok.injEq] at h
      subst h
      refine ⟨by simp [SameOuter, hi], ?_, ?_⟩
      · simp [ScopeStack.currentScope, ScopeNode.find_insert]
      · intro n hn
        simp only [ScopeStack.currentScope, hi, ScopeNode.find_insert] at hn ⊢
        by_cases hnn : n = name <;> simp [hnn, hn]

theorem ScopeStack.addParams_keeps : ∀ (params : List (String × String)) (s s1 : ScopeStack),
    s.addParams params = .ok s1 →
    (∀ p ∈ params, (s1.currentScope.find p.2).isSome = true) ∧
      ∀ n, (s.currentScope.find n).isSome = true → (s1.currentScope.find n).isSome = true
  | [], s, s1, h => by
    simp only [ScopeStack.addParams, Except.ok.injEq] at h
    subst h
    simp
  | p :: params, s, s1, h => by
    simp only [ScopeStack.addParams, bind_eq_ok] at h
    obtain ⟨s2, h2, h3⟩ := h
    obtain ⟨-, hnew, hkeep⟩ := s.addSymbol_keeps s2 p.2 p.1 h2
    obtain ⟨hall, hkeep2⟩ := ScopeStack.addParams_keeps params s2 s1 h3
    refine ⟨fun q hq => ?_, fun n hn => hkeep2 n (hkeep n hn)⟩
    rcases List.mem_cons.1 hq with rfl | hq
    · exact hkeep2 _ hnew
    · exact hall q hq

namespace ScopeAnalyzer

mutual

/-- The analysis of a statement changes the current scope only, and keeps the
names bound there. -/
theorem analyzeStmt_keeps : ∀ (st : Stmt) (s s1 : ScopeStack), analyzeStmt st s = .ok s1 →
    SameOuter s s1 ∧
      ∀ n, (s.currentScope.find n).isSome = true → (s1.currentScope.find n).isSome = true
  | .BlockNode stmts, s, s1, h => by
    simp only [analyzeStmt, bind_eq_ok, pure_eq_ok] at h
    obtain ⟨s2, h2, rfl⟩ := h
    obtain ⟨hso, -⟩ := analyzeStmts_keeps stmts _ s2 h2
    obtain ⟨hch, hso2⟩ := hso.exit_chain
    exact ⟨hso2, fun n hn => by rw [ScopeStack.currentScope_of_chain hch]; exact hn⟩
  | .VarDeclNode typeName name none, s, s1, h => by
    simp only [analyzeStmt, pure_bind] at h
    obtain ⟨h1, -, h3⟩ := s.addSymbol_keeps s1 name typeName h
    exact ⟨h1, h3⟩
  | .VarDeclNode typeName name (some e), s, s1, h => by
    simp only [analyzeStmt, bind_eq_ok] at h
    obtain ⟨_, _, h2⟩ := h
    obtain ⟨h1, -, h3⟩ := s.addSymbol_keeps s1 name typeName h2
    exact ⟨h1, h3⟩
  | .ReturnNode none, s, s1, h => by
    simp only [analyzeStmt, pure_bind, pure_eq_ok] at h
    subst h
    exact ⟨SameOuter.outer_refl _, fun _ hn => hn⟩
  | .ReturnNode (some e), s, s1, h => by
    simp only [analyzeStmt, bind_eq_ok, pure_eq_ok] at h
    obtain ⟨_, _, rfl⟩ := h
    exact ⟨SameOuter.outer_refl _, fun _ hn => hn⟩
  | .IfNode cond thenBlock none, s, s1, h => by
    simp only [analyzeStmt, bind_eq_ok, pure_eq_ok] at h
    obtain ⟨_, _, s2, h2, rfl⟩ := h
    obtain ⟨hso, -⟩ := analyzeStmts_keeps thenBlock _ s2 h2
    obtain ⟨hch, hso2⟩ := hso.exit_chain
    exact ⟨hso2, fun n hn => by rw [ScopeStack.currentScope_of_chain hch]; exact hn⟩
  | .IfNode cond thenBlock (some stmts), s, s1, h => by
    simp only [analyzeStmt, bind_eq_ok, pure_eq_ok] at h
    obtain ⟨_, _, s2, h2, s3, h3, rfl⟩ := h
    obtain ⟨hso, -⟩ := analyzeStmts_keeps thenBlock _ s2 h2
    obtain ⟨hch, hso2⟩ := hso.exit_chain
    obtain ⟨hso3, -⟩ := analyzeStmts_keeps stmts _ s3 h3
    obtain ⟨hch3, hso4⟩ := hso3.exit_chain
    exact ⟨hso2.outer_trans hso4, fun n hn => by
      rw [ScopeStack.currentScope_of_chain hch3, ScopeStack.currentScope_of_chain hch]
      exact hn⟩
  | .WhileNode cond body, s, s1, h => by
    simp only [analyzeStmt, bind_eq_ok, pure_eq_ok] at h
    obtain ⟨_, _, s2, h2, rfl⟩ := h
    obtain ⟨hso, -⟩ := analyzeStmts_keeps body _ s2 h2
    obtain ⟨hch, hso2⟩ := hso.exit_chain
    exact ⟨hso2, fun n hn => by rw [ScopeStack.currentScope_of_chain hch]; exact hn⟩
  | .ExprStmtNode e, s, s1, h => by
    simp only [analyzeStmt, bind_eq_ok, pure_eq_ok] at h
    obtain ⟨_, _, rfl⟩ := h
    exact ⟨SameOuter.outer_refl _, fun _ hn => hn⟩

theorem analyzeStmts_keeps : ∀ (stmts : List Stmt) (s s1 : ScopeStack),
    analyzeStmts stmts s = .ok s1 →
    SameOuter s s1 ∧
      ∀ n, (s.currentScope.find n).isSome = true → (s1.currentScope.find n).isSome = true
  | [], s, s1, h => by
    simp only [analyzeStmts, pure_eq_ok] at h
    subst h
    exact ⟨SameOuter.outer_refl _, fun _ hn => hn⟩
  | st :: stmts, s, s1, h => by
    simp only [analyzeStmts, bind_eq_ok] at h
    obtain ⟨s2, h2, h3⟩ := h
    obtain ⟨hso, hk⟩ := analyzeStmt_keeps st s s2 h2
    obtain ⟨hso3, hk3⟩ := analyzeStmts_keeps stmts s2 s1 h3
    exact ⟨hso.outer_trans hso3, fun n hn => hk3 n (hk n hn)⟩

end

/-- A declaration that stands alone in a new scope is accepted, and leaving the
scope gives back the scope stack but for the number of the next scope. -/
theorem declaration_in_new_scope (typeName name : String) (init : Option Expr) (s : ScopeStack)
    (hinit : ∀ e, init = some e → analyzeExpr e s = .ok ()) :
    (analyzeStmts [.VarDeclNode typeName name init] s.enterScope).bind
        (fun s1 => .ok s1.exitScope) =
      .ok { s with nextScopeId := s.nextScopeId + 1 } := by
  have hstep : analyzeStmt (.VarDeclNode typeName name init) s.enterScope =
      s.enterScope.addSymbol name typeName false := by
    cases init with
    | none => simp [analyzeStmt, bind, Except.bind, pure, Except.pure]
    | some e =>
      simp [analyzeStmt, analyzeExpr_enterScope, hinit e rfl, bind, Except.bind]
  simp only [analyzeStmts, hstep, bind, pure, Except.pure]
  simp [ScopeStack.addSymbol, ScopeStack.enterScope, ScopeStack.currentScope, ScopeNode.find,
    ScopeStack.exitScope, Except.bind]

end ScopeAnalyzer

/-- C21 (function scope).  The statements of a function body are analysed in the
scope that holds the parameters: when the statements before it are accepted, a
declaration in the body of a variable with the name of a parameter is rejected
with `VariableRedefinition`; placed alone in a nested block, in an arm of an `if`
or in the body of a `while`, the same declaration is accepted, and so is the
function whose body ends with that block. -/
theorem function_body_shares_parameter_scope (params : List (String × String))
    (before after : List Stmt) (typeName name : String) (init : Option Expr)
    (s s1 s2 : ScopeStack)
    (hparams : s.enterScope.addParams params = .ok s1)
    (hname : name ∈ params.map (·.2))
    (hbefore : ScopeAnalyzer.analyzeStmts before s1 = .ok s2)
    (hinit : ∀ e, init = some e → ScopeAnalyzer.analyzeExpr e s2 = .ok ()) :
    ScopeAnalyzer.analyzeFunction params
        (before ++ .VarDeclNode typeName name init :: after) s =
      .error ⟨.VariableRedefinition, name⟩ ∧
    ScopeAnalyzer.analyzeStmt (.BlockNode [.VarDeclNode typeName name init]) s2 =
      .ok { s2 with nextScopeId := s2.nextScopeId + 1 } ∧
    (∀ cond, ScopeAnalyzer.analyzeExpr cond s2 = .ok () →
      ScopeAnalyzer.analyzeStmt (.IfNode cond [.VarDeclNode typeName name init] none) s2 =
        .ok { s2 with nextScopeId := s2.nextScopeId + 1 } ∧
      ScopeAnalyzer.analyzeStmt (.IfNode cond [] (some [.VarDeclNode typeName name init])) s2 =
        .ok { s2 with nextScopeId := s2.nextScopeId + 2 } ∧
      ScopeAnalyzer.analyzeStmt (.WhileNode cond [.VarDeclNode typeName name init]) s2 =
        .ok { s2 with nextScopeId := s2.nextScopeId + 1 }) ∧
    ScopeAnalyzer.analyzeFunction params
        (before ++ [.BlockNode [.VarDeclNode typeName name init]]) s =
      .ok (ScopeStack.exitScope { s2 with nextScopeId := s2.nextScopeId + 1 }) := by
  have hnested := ScopeAnalyzer.declaration_in_new_scope typeName name init s2 hinit
  have hblock : ScopeAnalyzer.analyzeStmt (.BlockNode [.VarDeclNode typeName name init]) s2 =
      .ok { s2 with nextScopeId := s2.nextScopeId + 1 } := by
    rw [← hnested]
    simp only [ScopeAnalyzer.analyzeStmt, bind, pure, Except.pure]
  refine ⟨?_, hblock, fun cond hcond => ⟨?_, ?_, ?_⟩, ?_⟩
  · obtain ⟨p, hp, rfl⟩ := List.mem_map.1 hname
    have hbound1 := (ScopeStack.addParams_keeps params _ s1 hparams).1 p hp
    have hbound2 := (ScopeAnalyzer.analyzeStmts_keeps before s1 s2 hbefore).2 p.2 hbound1
    have hdecl : ScopeAnalyzer.analyzeStmt (.VarDeclNode typeName p.2 init) s2 =
        .error ⟨.VariableRedefinition, p.2⟩ := by
      cases init with
      | none =>
        simp [ScopeAnalyzer.analyzeStmt, ScopeStack.addSymbol, hbound2, bind, Except.bind, pure,
          Except.pure]
      | some e =>
        simp [ScopeAnalyzer.analyzeStmt, hinit e rfl, ScopeStack.addSymbol, hbound2, bind,
          Except.bind]
    simp [ScopeAnalyzer.analyzeFunction, hparams, ScopeAnalyzer.analyzeStmts_append, hbefore,
      ScopeAnalyzer.analyzeStmts, hdecl, bind, Except.bind]
  · rw [← hnested]
    simp only [ScopeAnalyzer.analyzeStmt, hcond, bind, Except.bind, pure, Except.pure]
  · have h2 := ScopeAnalyzer.declaration_in_new_scope typeName name init
      { s2 with nextScopeId := s2.nextScopeId + 1 }
      (fun e he => by
        rw [← hinit e he]
        exact ScopeAnalyzer.analyzeExpr_congr s2 { s2 with nextScopeId := s2.nextScopeId + 1 }
          (fun _ _ => rfl) e)
    have hempty : ScopeAnalyzer.analyzeStmts [] s2.enterScope = .ok s2.enterScope := rfl
    have hexit : ScopeStack.exitScope s2.enterScope =
        { s2 with nextScopeId := s2.nextScopeId + 1 } := by
      simp [ScopeStack.exitScope, ScopeStack.enterScope]
    simp only [ScopeAnalyzer.analyzeStmt, hcond, hempty, hexit, bind, Except.bind, pure,
      Except.pure]
    exact h2
  · rw [← hnested]
    simp only [ScopeAnalyzer.analyzeStmt, hcond, bind, Except.bind, pure, Except.pure]
  · simp [ScopeAnalyzer.analyzeFunction, hparams, ScopeAnalyzer.analyzeStmts_append, hbefore,
      ScopeAnalyzer.analyzeStmts, hblock, bind, Except.bind, pure, Except.pure]

/-- Witness for C21, for `fn int f(int a)`: with the body `int a;` the function is
rejected with `VariableRedefinition` for `a`, with the body `{ int a; }` it is
accepted; the analyzer treats the trees of the programs
`fn int f(int a){ int a; }` and `fn int f(int a){ while(true){ int a; } }` so. -/
theorem function_body_shares_parameter_scope_witness :
    ScopeAnalyzer.analyzeFunction [("int", "a")] [.VarDeclNode "int" "a" none]
        ⟨[], ⟨0, [("f", ⟨"f", "int", true, ["int"], 0⟩)]⟩, 1⟩ =
      .error ⟨.VariableRedefinition, "a"⟩ ∧
    ScopeAnalyzer.analyzeFunction [("int", "a")] [.BlockNode [.VarDeclNode "int" "a" none]]
        ⟨[], ⟨0, [("f", ⟨"f", "int", true, ["int"], 0⟩)]⟩, 1⟩ =
      .ok ⟨[], ⟨0, [("f", ⟨"f", "int", true, ["int"], 0⟩)]⟩, 3⟩ ∧
    ScopeAnalyzer.analyze ⟨[.FunctionNode "int" "f" [("int", "a")]
        [.VarDeclNode "int" "a" none]]⟩ = .error ⟨.VariableRedefinition, "a"⟩ ∧
    ScopeAnalyzer.analyze ⟨[.FunctionNode "int" "f" [("int", "a")]
        [.WhileNode (.LiteralNode "bool" "true") [.VarDeclNode "int" "a" none]]]⟩ =
      .ok ⟨[], ⟨0, [("f", ⟨"f", "int", true, ["int"], 0⟩)]⟩, 3⟩ :=
  ⟨(function_body_shares_parameter_scope [("int", "a")] [] [] "int" "a" none
      ⟨[], ⟨0, [("f", ⟨"f", "int", true, ["int"], 0⟩)]⟩, 1⟩
      ⟨[⟨1, [("a", ⟨"a", "int", false, [], 1⟩)]⟩],
        ⟨0, [("f", ⟨"f", "int", true, ["int"], 0⟩)]⟩, 2⟩
      ⟨[⟨1, [("a", ⟨"a", "int", false, [], 1⟩)]⟩],
        ⟨0, [("f", ⟨"f", "int", true, ["int"], 0⟩)]⟩, 2⟩
      rfl (by decide) rfl (fun _ h => nomatch h)).1,
   (function_body_shares_parameter_scope [("int", "a")] [] [] "int" "a" none
      ⟨[], ⟨0, [("f", ⟨"f", "int", true, ["int"], 0⟩)]⟩, 1⟩
      ⟨[⟨1, [("a", ⟨"a", "int", false, [], 1⟩)]⟩],
        ⟨0, [("f", ⟨"f", "int", true, ["int"], 0⟩)]⟩, 2⟩
      ⟨[⟨1, [("a", ⟨"a", "int", false, [], 1⟩)]⟩],
        ⟨0, [("f", ⟨"f", "int", true, ["int"], 0⟩)]⟩, 2⟩
      rfl (by decide) rfl (fun _ h => nomatch h)).2.2.2,
   rfl, rfl⟩


/-! ## Lowering of expressions and of control flow -/

theorem tempName_injective {a b : Nat} (h : tempName a = tempName b) : a = b := by
  apply toString_injective
  have := congrArg String.data h
  simp only [tempName, String.data_append, List.append_cancel_left_eq] at this
  exact String.ext this

namespace IRGenerator

theorem newTemp_tempCounter {g g1 : IRGenerator} {t : String} (h : g.newTemp = .ok (t, g1)) :
    g1.tempCounter = g.tempCounter + 1 := by
  obtain ⟨-, -, rfl⟩ := (newTemp_eq_ok g t g1).mp h
  rfl

mutual

/-- The counter of temporaries never decreases in the code of an expression. -/
theorem genExpression_tempCounter : ∀ (e : Expr) (g : IRGenerator) (v : String)
    (g1 : IRGenerator), genExpression e g = .ok (v, g1) → g.tempCounter ≤ g1.tempCounter
  | .BinaryOpNode op left right, g, v, g1, h => by
    simp only [genExpression, bind_eq_ok, Prod.exists, pure_eq_ok, Prod.mk.injEq] at h
    obtain ⟨l, ga, hl, r, gb, hr, t, gc, ht, -, rfl⟩ := h
    have h1 := genExpression_tempCounter left g l ga hl
    have h2 := genExpression_tempCounter right ga r gb hr
    have h3 := newTemp_tempCounter ht
    simp only [emit]
    omega
  | .UnaryOpNode op operand isPostfix, g, v, g1, h => by
    simp only [genExpression, bind_eq_ok, Prod.exists] at h
    obtain ⟨o, ga, ho, h⟩ := h
    have h0 := genExpression_tempCounter operand g o ga ho
    split at h
    · split at h
      · simp only [bind_eq_ok, Prod.exists, pure_eq_ok, Prod.mk.injEq] at h
        obtain ⟨t, gb, ht, r, gc, hr, -, rfl⟩ := h
        have h3 := newTemp_tempCounter ht
        have h4 := newTemp_tempCounter hr
        simp only [emit] at h4 ⊢
        omega
      · simp only [bind_eq_ok, Prod.exists, pure_eq_ok, Prod.mk.injEq] at h
        obtain ⟨r, gc, hr, -, rfl⟩ := h
        have h3 := newTemp_tempCounter hr
        simp only [emit]
        omega
    · split at h
      · simp only [bind_eq_ok, Prod.exists, pure_eq_ok, Prod.mk.injEq] at h
        obtain ⟨r, gc, hr, -, rfl⟩ := h
        have h3 := newTemp_tempCounter hr
        simp only [emit]
        omega
      · split at h
        · simp only [bind_eq_ok, Prod.exists, pure_eq_ok, Prod.mk.injEq] at h
          obtain ⟨r, gc, hr, -, rfl⟩ := h
          have h3 := newTemp_tempCounter hr
          simp only [emit]
          omega
        · simp only [pure_eq_ok, Prod.mk.injEq] at h
          obtain ⟨-, rfl⟩ := h
          exact h0
  | .LiteralNode _ value, g, v, g1, h => by
    simp only [genExpression, pure_eq_ok, Prod.mk.injEq] at h
    obtain ⟨-, rfl⟩ := h
    exact Nat.le_refl _
  | .IdentifierNode name, g, v, g1, h => by
    simp only [genExpression, pure_eq_ok, Prod.mk.injEq] at h
    obtain ⟨-, rfl⟩ := h
    exact Nat.le_refl _
  | .CallNode (.IdentifierNode name) args, g, v, g1, h => by
    simp only [genExpression, bind_eq_ok, Prod.exists, pure_eq_ok, Prod.mk.injEq] at h
    obtain ⟨ga, ha, t, gb, ht, -, rfl⟩ := h
    have h1 := genArgs_tempCounter args g ga ha
    have h3 := newTemp_tempCounter ht
    simp only [emit]
    omega
  | .CallNode (.BinaryOpNode _ _ _) args, g, v, g1, h
  | .CallNode (.UnaryOpNode _ _ _) args, g, v, g1, h
  | .CallNode (.LiteralNode _ _) args, g, v, g1, h
  | .CallNode (.CallNode _ _) args, g, v, g1, h
  | .CallNode (.AssignmentNode _ _ _) args, g, v, g1, h => by
    simp only [genExpression, pure_eq_ok, Prod.mk.injEq] at h
    obtain ⟨-, rfl⟩ := h
    exact Nat.le_refl _
  | .AssignmentNode (.IdentifierNode name) op right, g, v, g1, h => by
    simp only [genExpression, bind_eq_ok, Prod.exists] at h
    obtain ⟨r, ga, hr, h⟩ := h
    have h0 := genExpression_tempCounter right g r ga hr
    split at h
    · simp only [pure_eq_ok, Prod.mk.injEq] at h
      obtain ⟨-, rfl⟩ := h
      exact h0
    · simp only [bind_eq_ok, Prod.exists, pure_eq_ok, Prod.mk.injEq] at h
      obtain ⟨t, gb, ht, -, rfl⟩ := h
      have h3 := newTemp_tempCounter ht
      simp only [emit]
      omega
  | .AssignmentNode (.BinaryOpNode _ _ _) op right, g, v, g1, h
  | .AssignmentNode (.UnaryOpNode _ _ _) op right, g, v, g1, h
  | .AssignmentNode (.LiteralNode _ _) op right, g, v, g1, h
  | .AssignmentNode (.CallNode _ _) op right, g, v, g1, h
  | .AssignmentNode (.AssignmentNode _ _ _) op right, g, v, g1, h => by
    simp only [genExpression, pure_eq_ok, Prod.mk.injEq] at h
    obtain ⟨-, rfl⟩ := h
    exact Nat.le_refl _

theorem genArgs_tempCounter : ∀ (args : List Expr) (g g1 : IRGenerator),
    genArgs args g = .ok g1 → g.tempCounter ≤ g1.tempCounter
  | [], g, g1, h => by
    simp only [genArgs, pure_eq_ok] at h
    subst h
    exact Nat.le_refl _
  | arg :: args, g, g1, h => by
    simp only [genArgs, bind_eq_ok, Prod.exists] at h
    obtain ⟨v, ga, ha, h⟩ := h
    have h1 := genExpression_tempCounter arg g v ga ha
    have h2 := genArgs_tempCounter args _ g1 h
    simp only [emit] at h2
    omega

end

end IRGenerator

theorem labelsIn_nil (lo hi : Nat) : LabelsIn lo hi [] :=
  ⟨List.nodup_nil, fun _ h => nomatch h⟩

theorem labelsIn_single (k : Nat) : LabelsIn k (k + 1) [labelName k] :=
  ⟨List.nodup_singleton _, fun _ hl => ⟨k, Nat.le_refl _, Nat.lt_succ_self _,
    List.mem_singleton.1 hl⟩⟩

theorem labelsIn_widen {lo hi lo1 hi1 : Nat} {names : List String} (h : LabelsIn lo hi names)
    (h1 : lo1 ≤ lo) (h2 : hi ≤ hi1) : LabelsIn lo1 hi1 names := by
  refine ⟨h.1, fun l hl => ?_⟩
  obtain ⟨k, hk1, hk2, he⟩ := h.2 l hl
  exact ⟨k, by omega, by omega, he⟩

theorem labelsIn_append {a b c : Nat} {l1 l2 : List String} (h1 : LabelsIn a b l1)
    (h2 : LabelsIn b c l2) (hab : a ≤ b) (hbc : b ≤ c) : LabelsIn a c (l1 ++ l2) := by
  refine ⟨List.Nodup.append h1.1 h2.1 ?_, fun l hl => ?_⟩
  · intro l hl1 hl2
    obtain ⟨k, -, hk2, he⟩ := h1.2 l hl1
    obtain ⟨j, hj1, -, he2⟩ := h2.2 l hl2
    have := labelName_inj (he.symm.trans he2)
    omega
  · rcases List.mem_append.1 hl with hl | hl
    · obtain ⟨k, hk1, hk2, he⟩ := h1.2 l hl
      exact ⟨k, hk1, by omega, he⟩
    · obtain ⟨k, hk1, hk2, he⟩ := h2.2 l hl
      exact ⟨k, by omega, hk2, he⟩

theorem labelsIn_of_perm {lo hi : Nat} {l1 l2 : List String} (h : LabelsIn lo hi l1)
    (hp : l2.Perm l1) : LabelsIn lo hi l2 :=
  ⟨hp.nodup_iff.2 h.1, fun l hl => h.2 l (hp.mem_iff.1 hl)⟩

/-- A label outside the range of the numbers is not among the names. -/
theorem labelsIn_not_mem {lo hi j : Nat} {names : List String} (h : LabelsIn lo hi names)
    (hj : j < lo ∨ hi ≤ j) : labelName j ∉ names := by
  intro hm
  obtain ⟨k, hk1, hk2, he⟩ := h.2 _ hm
  have := labelName_inj he
  omega

namespace IRGenerator

theorem JumpStep.jump_refl (g : IRGenerator) : JumpStep g g :=
  ⟨Nat.le_refl _, [], by simp, labelsIn_nil _ _⟩

theorem JumpStep.jump_trans {a b c : IRGenerator} (h1 : JumpStep a b) (h2 : JumpStep b c) :
    JumpStep a c := by
  obtain ⟨e1, s1, i1, d1⟩ := h1
  obtain ⟨e2, s2, i2, d2⟩ := h2
  refine ⟨Nat.le_trans e1 e2, s1 ++ s2, by rw [i2, i1, List.append_assoc], ?_⟩
  rw [jumpTargets_append]
  exact labelsIn_append d1 d2 e1 e2

theorem Plain.jumpStep {a b : IRGenerator} (h : Plain a b) : JumpStep a b := by
  obtain ⟨e1, s1, i1, -, t1⟩ := h
  exact ⟨Nat.le_of_eq e1.symm, s1, i1, by rw [t1]; exact labelsIn_nil _ _⟩

mutual

/-- The code of a statement jumps only to labels that were allocated for the
statement, and to none of them twice. -/
theorem genStmt_jumpStep : ∀ (st : Stmt) (g g1 : IRGenerator),
    genStmt st g = .ok g1 → JumpStep g g1
  | .VarDeclNode typeName name none, g, gz, h => by
    simp only [genStmt, bind_eq_ok, pure_eq_ok, pure_bind] at h
    obtain ⟨s1, -, rfl⟩ := h
    exact (Plain.setScope g s1).jumpStep
  | .VarDeclNode typeName name (some e), g, gz, h => by
    simp only [genStmt, bind_eq_ok, pure_eq_ok, Prod.exists] at h
    obtain ⟨ga, ⟨v, gb, he, rfl⟩, s1, -, rfl⟩ := h
    exact (((genExpression_plain e g v gb he).plain_trans (Plain.emit _ .COPY _ _ _ rfl)).plain_trans
      (Plain.setScope _ s1)).jumpStep
  | .ReturnNode none, g, gz, h => by
    simp only [genStmt, pure_eq_ok] at h
    subst h
    exact (Plain.emit _ .RETURN _ _ _ rfl).jumpStep
  | .ReturnNode (some e), g, gz, h => by
    simp only [genStmt, bind_eq_ok, pure_eq_ok, Prod.exists] at h
    obtain ⟨v, gb, he, rfl⟩ := h
    exact ((genExpression_plain e g v gb he).plain_trans (Plain.emit _ .RETURN _ _ _ rfl)).jumpStep
  | .IfNode cond thenBlock (some stmts), g, gz, h => by
    simp only [genStmt, bind_eq_ok, Prod.exists, pure_eq_ok] at h
    obtain ⟨cr, g1, hc, l1, g2, hl1, l2, g3, hl2, g5, hT, g9, hE, rfl⟩ := h
    obtain ⟨-, rfl, rfl⟩ := (newLabel_eq_ok _ _ _).mp hl1
    obtain ⟨-, rfl, rfl⟩ := (newLabel_eq_ok _ _ _).mp hl2
    obtain ⟨hk, segC, hiC, hdC, htC⟩ := genExpression_plain cond g cr g1 hc
    obtain ⟨hm, segT, hiT, hsT⟩ := genStmts_jumpStep thenBlock _ g5 hT
    obtain ⟨hn, segE, hiE, hsE⟩ := genStmts_jumpStep stmts _ g9 hE
    simp only [emit, hk] at hm hiT hsT hn hiE hsE
    refine ⟨by simp only [emit]; omega, segC ++ ([⟨.IF_FALSE, labelName g.labelCounter, cr, ""⟩]
      ++ segT ++ [⟨.GOTO, labelName (g.labelCounter + 1), "", ""⟩,
        ⟨.LABEL, labelName g.labelCounter, "", ""⟩] ++ segE ++
      [⟨.LABEL, labelName (g.labelCounter + 1), "", ""⟩]), ?_, ?_⟩
    · simp only [emit, hiE, hiT, hiC, hk, List.append_assoc, List.cons_append, List.nil_append]
    · have hlist : jumpTargets (segC ++ ([⟨.IF_FALSE, labelName g.labelCounter, cr, ""⟩]
          ++ segT ++ [⟨.GOTO, labelName (g.labelCounter + 1), "", ""⟩,
            ⟨.LABEL, labelName g.labelCounter, "", ""⟩] ++ segE ++
          [⟨.LABEL, labelName (g.labelCounter + 1), "", ""⟩])) =
          [labelName g.labelCounter] ++ jumpTargets segT ++
            [labelName (g.labelCounter + 1)] ++ jumpTargets segE := by
        simp only [jumpTargets_append, htC, jumpTargets_cons, jumpTargets_nil]
        simp [IROpcode.isJump]
      rw [hlist]
      simp only [emit]
      have hbase := labelsIn_append
        (labelsIn_append (labelsIn_append (labelsIn_single g.labelCounter)
          (labelsIn_single (g.labelCounter + 1)) (by omega) (by omega)) hsT (by omega) hm)
        hsE (by omega) hn
      refine labelsIn_of_perm hbase ?_
      simp only [List.append_assoc, List.singleton_append]
      refine List.Perm.cons _ ?_
      exact @List.perm_middle _ (labelName (g.labelCounter + 1)) (jumpTargets segT)
        (jumpTargets segE)
  | .IfNode cond thenBlock none, g, gz, h => by
    simp only [genStmt, bind_eq_ok, Prod.exists, pure_eq_ok] at h
    obtain ⟨cr, g1, hc, l1, g2, hl1, l2, g3, hl2, g5, hT, rfl⟩ := h
    obtain ⟨-, rfl, rfl⟩ := (newLabel_eq_ok _ _ _).mp hl1
    obtain ⟨-, rfl, rfl⟩ := (newLabel_eq_ok _ _ _).mp hl2
    obtain ⟨hk, segC, hiC, hdC, htC⟩ := genExpression_plain cond g cr g1 hc
    obtain ⟨hm, segT, hiT, hsT⟩ := genStmts_jumpStep thenBlock _ g5 hT
    simp only [emit, hk] at hm hiT hsT
    refine ⟨by simp only [emit]; omega,
      segC ++ ([⟨.IF_FALSE, labelName (g.labelCounter + 1), cr, ""⟩]
      ++ segT ++ [⟨.LABEL, labelName (g.labelCounter + 1), "", ""⟩]), ?_, ?_⟩
    · simp only [emit, hiT, hiC, hk, List.append_assoc, List.cons_append, List.nil_append]
    · have hlist : jumpTargets (segC ++ ([⟨.IF_FALSE, labelName (g.labelCounter + 1), cr, ""⟩]
          ++ segT ++ [⟨.LABEL, labelName (g.labelCounter + 1), "", ""⟩])) =
          [labelName (g.labelCounter + 1)] ++ jumpTargets segT := by
        simp only [jumpTargets_append, htC, jumpTargets_cons, jumpTargets_nil]
        simp [IROpcode.isJump]
      rw [hlist]
      simp only [emit]
      exact labelsIn_widen (labelsIn_append (labelsIn_single (g.labelCounter + 1)) hsT
        (by omega) hm) (by omega) (Nat.le_refl _)
  | .WhileNode cond body, g, gz, h => by
    simp only [genStmt, bind_eq_ok, Prod.exists, pure_eq_ok] at h
    obtain ⟨l1, g1, hl1, l2, g2, hl2, cr, g4, hc, g6, hB, rfl⟩ := h
    obtain ⟨-, rfl, rfl⟩ := (newLabel_eq_ok _ _ _).mp hl1
    obtain ⟨-, rfl, rfl⟩ := (newLabel_eq_ok _ _ _).mp hl2
    obtain ⟨hk, segC, hiC, hdC, htC⟩ := genExpression_plain cond _ cr g4 hc
    obtain ⟨hm, segB, hiB, hsB⟩ := genStmts_jumpStep body _ g6 hB
    simp only [emit] at hk hiC hm hiB hsB
    simp only [hk] at hm hsB
    refine ⟨by simp only [emit]; omega,
      [⟨.LABEL, labelName g.labelCounter, "", ""⟩] ++ segC ++
      [⟨.IF_FALSE, labelName (g.labelCounter + 1), cr, ""⟩] ++ segB ++
      [⟨.GOTO, labelName g.labelCounter, "", ""⟩,
        ⟨.LABEL, labelName (g.labelCounter + 1), "", ""⟩], ?_, ?_⟩
    · simp only [emit, hiB, hiC, List.append_assoc, List.cons_append, List.nil_append]
    · have hlist : jumpTargets ([⟨.LABEL, labelName g.labelCounter, "", ""⟩] ++ segC ++
          [⟨.IF_FALSE, labelName (g.labelCounter + 1), cr, ""⟩] ++ segB ++
          [⟨.GOTO, labelName g.labelCounter, "", ""⟩,
            ⟨.LABEL, labelName (g.labelCounter + 1), "", ""⟩]) =
          [labelName (g.labelCounter + 1)] ++ jumpTargets segB ++ [labelName g.labelCounter] := by
        simp only [jumpTargets_append, htC, jumpTargets_cons, jumpTargets_nil]
        simp [IROpcode.isJump]
      rw [hlist]
      simp only [emit]
      have hbase := labelsIn_append (labelsIn_append (labelsIn_single g.labelCounter)
        (labelsIn_single (g.labelCounter + 1)) (by omega) (by omega)) hsB (by omega) hm
      refine labelsIn_of_perm hbase ?_
      simp only [List.append_assoc, List.singleton_append]
      exact (List.perm_append_singleton _ _)
  | .ExprStmtNode expr, g, gz, h => by
    simp only [genStmt, bind_eq_ok, pure_eq_ok, Prod.exists] at h
    obtain ⟨v, gb, he, rfl⟩ := h
    exact (genExpression_plain expr g v gb he).jumpStep
  | .BlockNode stmts, g, gz, h => by
    simp only [genStmt, bind_eq_ok, pure_eq_ok] at h
    obtain ⟨ga, ha, rfl⟩ := h
    exact (((Plain.setScope g _).jumpStep).jump_trans (genStmts_jumpStep stmts _ ga ha)).jump_trans
      (Plain.setScope ga _).jumpStep

theorem genStmts_jumpStep : ∀ (stmts : List Stmt) (g g1 : IRGenerator),
    genStmts stmts g = .ok g1 → JumpStep g g1
  | [], g, g1, h => by
    simp only [genStmts, pure_eq_ok] at h
    subst h
    exact JumpStep.jump_refl g
  | st :: stmts, g, g1, h => by
    simp only [genStmts, bind_eq_ok] at h
    obtain ⟨ga, ha, h⟩ := h
    exact (genStmt_jumpStep st g ga ha).jump_trans (genStmts_jumpStep stmts ga g1 h)

end

theorem genFunction_jumpStep (name : String) (params : List (String × String))
    (body : List Stmt) (g g1 : IRGenerator) (h : genFunction name params body g = .ok g1) :
    JumpStep g g1 := by
  simp only [genFunction, bind_eq_ok, pure_eq_ok] at h
  obtain ⟨s1, -, g2, hb, rfl⟩ := h
  have h1 : Plain g ({ g with currentFunction := name }.emit .FUNC_BEGIN name "" "") :=
    ⟨rfl, [⟨.FUNC_BEGIN, name, "", ""⟩], rfl, rfl, rfl⟩
  exact ((((h1.plain_trans (Plain.setScope _ s1)).jumpStep).jump_trans
    (genStmts_jumpStep body _ g2 hb)).jump_trans (Plain.setScope g2 _).jumpStep).jump_trans
    (Plain.emit _ .FUNC_END _ _ _ rfl).jumpStep

theorem genItems_jumpStep : ∀ (items : List Item) (g g1 : IRGenerator),
    genItems items g = .ok g1 → JumpStep g g1
  | [], g, g1, h => by
    simp only [genItems, pure_eq_ok] at h
    subst h
    exact JumpStep.jump_refl g
  | .FunctionNode _ name params body :: items, g, g1, h => by
    simp only [genItems, bind_eq_ok] at h
    obtain ⟨ga, ha, h⟩ := h
    exact (genFunction_jumpStep name params body g ga ha).jump_trans
      (genItems_jumpStep items ga g1 h)
  | .Statement (.VarDeclNode typeName name init) :: items, g, g1, h => by
    simp only [genItems, bind_eq_ok] at h
    obtain ⟨ga, ha, h⟩ := h
    exact (genStmt_jumpStep _ g ga ha).jump_trans (genItems_jumpStep items ga g1 h)
  | .Statement (.BlockNode _) :: items, g, g1, h
  | .Statement (.ReturnNode _) :: items, g, g1, h
  | .Statement (.IfNode _ _ _) :: items, g, g1, h
  | .Statement (.WhileNode _ _) :: items, g, g1, h
  | .Statement (.ExprStmtNode _) :: items, g, g1, h => by
    simp only [genItems] at h
    exact genItems_jumpStep items g g1 h

/-- In the code of a program no label is defined twice and none is the target of
two jumps. -/
theorem generate_labels_once (prog : ProgramNode) (g : IRGenerator)
    (h : generate prog = .ok g) :
    (labelDefinitions g.instructions).Nodup ∧ (jumpTargets g.instructions).Nodup := by
  simp only [generate, genProgram, bind_eq_ok] at h
  obtain ⟨s1, -, h⟩ := h
  obtain ⟨-, seg, hi, hs⟩ := genItems_labelStep prog.items _ g h
  obtain ⟨-, seg2, hi2, hs2⟩ := genItems_jumpStep prog.items _ g h
  simp only [IRGenerator.new, List.nil_append] at hi hi2
  exact ⟨by rw [hi]; exact hs.1, by rw [hi2]; exact hs2.1⟩

end IRGenerator

theorem labelsMentioned_append (a b : List IRInstruction) (l : String) :
    l ∈ labelsMentioned (a ++ b) ↔ l ∈ labelsMentioned a ∨ l ∈ labelsMentioned b := by
  simp only [labelsMentioned, labelDefinitions_append, jumpTargets_append, List.mem_append]
  tauto

theorem labelsMentioned_of_plain {seg : List IRInstruction} (hd : labelDefinitions seg = [])
    (ht : jumpTargets seg = []) : labelsMentioned seg = [] := by
  simp [labelsMentioned, hd, ht]

theorem labelDefinitions_label (l : String) (rest : List IRInstruction) :
    labelDefinitions (⟨.LABEL, l, "", ""⟩ :: rest) = l :: labelDefinitions rest := by
  rw [labelDefinitions_cons]; rfl

theorem labelDefinitions_goto (l : String) (rest : List IRInstruction) :
    labelDefinitions (⟨.GOTO, l, "", ""⟩ :: rest) = labelDefinitions rest := by
  rw [labelDefinitions_cons]; rfl

theorem labelDefinitions_ifFalse (l c : String) (rest : List IRInstruction) :
    labelDefinitions (⟨.IF_FALSE, l, c, ""⟩ :: rest) = labelDefinitions rest := by
  rw [labelDefinitions_cons]; rfl

theorem jumpTargets_label (l : String) (rest : List IRInstruction) :
    jumpTargets (⟨.LABEL, l, "", ""⟩ :: rest) = jumpTargets rest := by
  rw [jumpTargets_cons]; rfl

theorem jumpTargets_goto (l : String) (rest : List IRInstruction) :
    jumpTargets (⟨.GOTO, l, "", ""⟩ :: rest) = l :: jumpTargets rest := by
  rw [jumpTargets_cons]; rfl

theorem jumpTargets_ifFalse (l c : String) (rest : List IRInstruction) :
    jumpTargets (⟨.IF_FALSE, l, c, ""⟩ :: rest) = l :: jumpTargets rest := by
  rw [jumpTargets_cons]; rfl

theorem not_mem_of_nodup_middle {α : Type} (xs ys : List α) (a : α)
    (h : (xs ++ a :: ys).Nodup) : a ∉ xs ∧ a ∉ ys := by
  rw [List.nodup_middle, List.nodup_cons, List.mem_append, not_or] at h
  exact h.1

/-- C25 (lowering of `if`).  Let `genIf` succeed from the generator `g` while the
code of a program is generated, `after` being the instructions of the program
that follow the statement.  Then `genIf` has appended the instructions of the
condition and, without an `else` arm, `IF_FALSE Lend, cond`, the instructions of
the then-block and `LABEL Lend`; with an `else` arm, `IF_FALSE Lelse, cond`, the
instructions of the then-block, `GOTO Lend`, `LABEL Lelse`, the instructions of
the else-block and `LABEL Lend`.  `Lelse` and `Lend` are the next two labels;
they are distinct, and the labels of the pattern are mentioned nowhere else in
the code of the program: not before the statement, not in the instructions of
the condition and of the blocks, and not after the statement. -/
theorem if_lowering (prog : ProgramNode) (gfinal : IRGenerator) (after : List IRInstruction)
    (cond : Expr) (thenBlock : List Stmt) (elseBlock : Option (List Stmt))
    (g g1 : IRGenerator)
    (hprog : IRGenerator.generate prog = .ok gfinal)
    (hafter : gfinal.instructions = g1.instructions ++ after)
    (h : IRGenerator.genStmt (.IfNode cond thenBlock elseBlock) g = .ok g1) :
    ∃ (condResult : String) (gc gt0 gt : IRGenerator) (condCode thenCode : List IRInstruction),
      IRGenerator.genExpression cond g = .ok (condResult, gc) ∧
      gc.instructions = g.instructions ++ condCode ∧
      IRGenerator.genStmts thenBlock gt0 = .ok gt ∧
      gt.instructions = gt0.instructions ++ thenCode ∧
      labelName g.labelCounter ≠ labelName (g.labelCounter + 1) ∧
      (elseBlock = none →
        gt0.instructions = g.instructions ++ condCode ++
          [⟨.IF_FALSE, labelName (g.labelCounter + 1), condResult, ""⟩] ∧
        g1.instructions = g.instructions ++ condCode ++
          [⟨.IF_FALSE, labelName (g.labelCounter + 1), condResult, ""⟩] ++ thenCode ++
          [⟨.LABEL, labelName (g.labelCounter + 1), "", ""⟩] ∧
        labelName (g.labelCounter + 1) ∉
          labelsMentioned (g.instructions ++ condCode ++ thenCode ++ after)) ∧
      (∀ elseStmts, elseBlock = some elseStmts →
        gt0.instructions = g.instructions ++ condCode ++
          [⟨.IF_FALSE, labelName g.labelCounter, condResult, ""⟩] ∧
        ∃ (ge0 ge : IRGenerator) (elseCode : List IRInstruction),
          IRGenerator.genStmts elseStmts ge0 = .ok ge ∧
          ge0.instructions = gt.instructions ++
            [⟨.GOTO, labelName (g.labelCounter + 1), "", ""⟩,
             ⟨.LABEL, labelName g.labelCounter, "", ""⟩] ∧
          ge.instructions = ge0.instructions ++ elseCode ∧
          g1.instructions = g.instructions ++ condCode ++
            [⟨.IF_FALSE, labelName g.labelCounter, condResult, ""⟩] ++ thenCode ++
            [⟨.GOTO, labelName (g.labelCounter + 1), "", ""⟩,
             ⟨.LABEL, labelName g.labelCounter, "", ""⟩] ++ elseCode ++
            [⟨.LABEL, labelName (g.labelCounter + 1), "", ""⟩] ∧
          labelName g.labelCounter ∉
            labelsMentioned (g.instructions ++ condCode ++ thenCode ++ elseCode ++ after) ∧
          labelName (g.labelCounter + 1) ∉
            labelsMentioned (g.instructions ++ condCode ++ thenCode ++ elseCode ++ after)) := by
  have hne : labelName g.labelCounter ≠ labelName (g.labelCounter + 1) := by
    intro he
    have := labelName_inj he
    omega
  obtain ⟨hdefs, hjumps⟩ := IRGenerator.generate_labels_once prog gfinal hprog
  rw [hafter] at hdefs hjumps
  cases elseBlock with
  | none =>
    simp only [IRGenerator.genStmt, bind_eq_ok, Prod.exists, pure_eq_ok] at h
    obtain ⟨cr, gc, hc, l1, g2, hl1, l2, g3, hl2, g5, hT, rfl⟩ := h
    obtain ⟨-, rfl, rfl⟩ := (IRGenerator.newLabel_eq_ok _ _ _).mp hl1
    obtain ⟨-, rfl, rfl⟩ := (IRGenerator.newLabel_eq_ok _ _ _).mp hl2
    obtain ⟨hk, segC, hiC, hdC, htC⟩ := IRGenerator.genExpression_plain cond g cr gc hc
    obtain ⟨-, segT, hiT, -⟩ := IRGenerator.genStmts_labelStep thenBlock _ g5 hT
    simp only [IRGenerator.emit, hk] at hT hiT hdefs hjumps ⊢
    refine ⟨cr, gc, _, g5, segC, segT, hc, hiC, hT, hiT, hne, fun _ => ⟨?_, ?_, ?_⟩,
      fun _ he => Option.noConfusion he⟩
    · simp only [hiC]
    · simp only [hiT, hiC, List.append_assoc]
    · have hD : labelDefinitions (g.instructions ++ segC ++
          [⟨.IF_FALSE, labelName (g.labelCounter + 1), cr, ""⟩] ++ segT ++
          [⟨.LABEL, labelName (g.labelCounter + 1), "", ""⟩] ++ after) =
          (labelDefinitions g.instructions ++ labelDefinitions segT) ++
            labelName (g.labelCounter + 1) :: labelDefinitions after := by
        simp only [labelDefinitions_append, hdC, labelDefinitions_label,
          labelDefinitions_ifFalse, labelDefinitions_nil, List.append_nil, List.append_assoc,
          List.singleton_append, List.nil_append]
      have hJ : jumpTargets (g.instructions ++ segC ++
          [⟨.IF_FALSE, labelName (g.labelCounter + 1), cr, ""⟩] ++ segT ++
          [⟨.LABEL, labelName (g.labelCounter + 1), "", ""⟩] ++ after) =
          jumpTargets g.instructions ++
            labelName (g.labelCounter + 1) :: (jumpTargets segT ++ jumpTargets after) := by
        simp only [jumpTargets_append, htC, jumpTargets_label, jumpTargets_ifFalse,
          jumpTargets_nil, List.append_nil, List.append_assoc, List.singleton_append,
          List.nil_append, List.cons_append]
      simp only [hiT, hiC] at hdefs hjumps
      rw [hD] at hdefs
      rw [hJ] at hjumps
      obtain ⟨d1, d2⟩ := not_mem_of_nodup_middle _ _ _ hdefs
      obtain ⟨j1, j2⟩ := not_mem_of_nodup_middle _ _ _ hjumps
      simp only [labelsMentioned, labelDefinitions_append, jumpTargets_append, hdC, htC,
        List.mem_append, List.append_nil, List.not_mem_nil, or_false] at d1 d2 j1 j2 ⊢
      tauto
  | some stmts =>
    simp only [IRGenerator.genStmt, bind_eq_ok, Prod.exists, pure_eq_ok] at h
    obtain ⟨cr, gc, hc, l1, g2, hl1, l2, g3, hl2, g5, hT, g9, hE, rfl⟩ := h
    obtain ⟨-, rfl, rfl⟩ := (IRGenerator.newLabel_eq_ok _ _ _).mp hl1
    obtain ⟨-, rfl, rfl⟩ := (IRGenerator.newLabel_eq_ok _ _ _).mp hl2
    obtain ⟨hk, segC, hiC, hdC, htC⟩ := IRGenerator.genExpression_plain cond g cr gc hc
    obtain ⟨-, segT, hiT, -⟩ := IRGenerator.genStmts_labelStep thenBlock _ g5 hT
    obtain ⟨-, segE, hiE, -⟩ := IRGenerator.genStmts_labelStep stmts _ g9 hE
    simp only [IRGenerator.emit, hk] at hT hE hiT hiE hdefs hjumps ⊢
    refine ⟨cr, gc, _, g5, segC, segT, hc, hiC, hT, hiT, hne,
      fun he => Option.noConfusion he, fun elseStmts he => ?_⟩
    cases he
    refine ⟨by simp only [hiC], _, g9, segE, hE, ?_, hiE, ?_, ?_⟩
    · simp only [List.append_assoc, List.cons_append, List.nil_append]
    · simp only [hiE, hiT, hiC, List.append_assoc, List.cons_append, List.nil_append]
    · simp only [hiE, hiT, hiC, labelDefinitions_append, jumpTargets_append, hdC, htC,
        labelDefinitions_label, labelDefinitions_ifFalse, labelDefinitions_goto,
        jumpTargets_label, jumpTargets_ifFalse, jumpTargets_goto, labelDefinitions_nil,
        jumpTargets_nil, List.append_nil, List.nil_append, List.append_assoc,
        List.cons_append] at hdefs hjumps
      have r1 : ((labelDefinitions g.instructions ++ labelDefinitions segT) ++
          labelName g.labelCounter ::
            (labelDefinitions segE ++ labelName (g.labelCounter + 1) ::
              labelDefinitions after)).Nodup := by
        simpa only [List.append_assoc, List.cons_append] using hdefs
      have r2 : ((labelDefinitions g.instructions ++ labelDefinitions segT ++
          labelName g.labelCounter :: labelDefinitions segE) ++
          labelName (g.labelCounter + 1) :: labelDefinitions after).Nodup := by
        simpa only [List.append_assoc, List.cons_append] using hdefs
      have r3 : (jumpTargets g.instructions ++ labelName g.labelCounter ::
          (jumpTargets segT ++ labelName (g.labelCounter + 1) ::
            (jumpTargets segE ++ jumpTargets after))).Nodup := by
        simpa only [List.append_assoc, List.cons_append] using hjumps
      have r4 : ((jumpTargets g.instructions ++ labelName g.labelCounter ::
          jumpTargets segT) ++ labelName (g.labelCounter + 1) ::
            (jumpTargets segE ++ jumpTargets after)).Nodup := by
        simpa only [List.append_assoc, List.cons_append] using hjumps
      obtain ⟨d1, d2⟩ := not_mem_of_nodup_middle _ _ _ r1
      obtain ⟨d3, d4⟩ := not_mem_of_nodup_middle _ _ _ r2
      obtain ⟨j1, j2⟩ := not_mem_of_nodup_middle _ _ _ r3
      obtain ⟨j3, j4⟩ := not_mem_of_nodup_middle _ _ _ r4
      simp only [labelsMentioned, labelDefinitions_append, jumpTargets_append, hdC, htC,
        List.mem_append, List.mem_cons, List.append_nil, List.not_mem_nil, or_false, not_or]
        at d1 d2 j1 j2 d3 d4 j3 j4 ⊢
      tauto

/-- Witness for C25: the code of the tree of
`fn int f(){ if(true){ return 1; } else { return 2; } }` is `FUNC_BEGIN f`,
`IF_FALSE L0, true`, `RETURN _, 1`, `GOTO L1`, `LABEL L0`, `RETURN _, 2`,
`LABEL L1`, `FUNC_END f`, and the labels `L0` and `L1` of its `if` are distinct. -/
theorem if_lowering_witness :
    (IRGenerator.generate ⟨[.FunctionNode "int" "f" []
        [.IfNode (.LiteralNode "bool" "true") [.ReturnNode (some (.LiteralNode "int" "1"))]
          (some [.ReturnNode (some (.LiteralNode "int" "2"))])]]⟩).map (·.instructions) =
      .ok [⟨.FUNC_BEGIN, "f", "", ""⟩, ⟨.IF_FALSE, "L0", "true", ""⟩, ⟨.RETURN, "", "1", ""⟩,
        ⟨.GOTO, "L1", "", ""⟩, ⟨.LABEL, "L0", "", ""⟩, ⟨.RETURN, "", "2", ""⟩,
        ⟨.LABEL, "L1", "", ""⟩, ⟨.FUNC_END, "f", "", ""⟩] ∧
    labelName 0 ≠ labelName (0 + 1) :=
  ⟨rfl, by
    obtain ⟨_, _, _, _, _, _, _, _, _, _, hne, _⟩ :=
      if_lowering
        ⟨[.FunctionNode "int" "f" []
          [.IfNode (.LiteralNode "bool" "true") [.ReturnNode (some (.LiteralNode "int" "1"))]
            (some [.ReturnNode (some (.LiteralNode "int" "2"))])]]⟩
        ⟨[⟨.FUNC_BEGIN, "f", "", ""⟩, ⟨.IF_FALSE, "L0", "true", ""⟩, ⟨.RETURN, "", "1", ""⟩,
            ⟨.GOTO, "L1", "", ""⟩, ⟨.LABEL, "L0", "", ""⟩, ⟨.RETURN, "", "2", ""⟩,
            ⟨.LABEL, "L1", "", ""⟩, ⟨.FUNC_END, "f", "", ""⟩],
          ⟨[], ⟨0, [("f", ⟨"f", "int", true, [], 0⟩)]⟩, 4⟩, 0, 2, "f"⟩
        [⟨.FUNC_END, "f", "", ""⟩]
        (.LiteralNode "bool" "true") [.ReturnNode (some (.LiteralNode "int" "1"))]
        (some [.ReturnNode (some (.LiteralNode "int" "2"))])
        ⟨[⟨.FUNC_BEGIN, "f", "", ""⟩],
          ⟨[⟨1, []⟩], ⟨0, [("f", ⟨"f", "int", true, [], 0⟩)]⟩, 2⟩, 0, 0, "f"⟩
        ⟨[⟨.FUNC_BEGIN, "f", "", ""⟩, ⟨.IF_FALSE, "L0", "true", ""⟩, ⟨.RETURN, "", "1", ""⟩,
            ⟨.GOTO, "L1", "", ""⟩, ⟨.LABEL, "L0", "", ""⟩, ⟨.RETURN, "", "2", ""⟩,
            ⟨.LABEL, "L1", "", ""⟩],
          ⟨[⟨1, []⟩], ⟨0, [("f", ⟨"f", "int", true, [], 0⟩)]⟩, 4⟩, 0, 2, "f"⟩
        rfl rfl rfl
    exact hne⟩

/-- C26 (lowering of `while`).  Let `genWhile` succeed from the generator `g`
while the code of a program is generated, `after` being the instructions of the
program that follow the statement.  Then `genWhile` has appended `LABEL Ls`, the
instructions of the condition, `IF_FALSE Le, cond`, the instructions of the body,
`GOTO Ls` and `LABEL Le`, where the condition is lowered right after `LABEL Ls`
has been emitted, so that the back edge `GOTO Ls` leads to the instructions of
the condition.  `Ls` and `Le` are the next two labels; they are distinct and
mentioned nowhere else in the code of the program: not before the statement, not
in the instructions of the condition and of the body, and not after the
statement. -/
theorem while_lowering (prog : ProgramNode) (gfinal : IRGenerator) (after : List IRInstruction)
    (cond : Expr) (body : List Stmt) (g g1 : IRGenerator)
    (hprog : IRGenerator.generate prog = .ok gfinal)
    (hafter : gfinal.instructions = g1.instructions ++ after)
    (h : IRGenerator.genStmt (.WhileNode cond body) g = .ok g1) :
    ∃ (condResult : String) (gc0 gc gb0 gb : IRGenerator) (condCode bodyCode : List IRInstruction),
      gc0.instructions = g.instructions ++ [⟨.LABEL, labelName g.labelCounter, "", ""⟩] ∧
      IRGenerator.genExpression cond gc0 = .ok (condResult, gc) ∧
      gc.instructions = gc0.instructions ++ condCode ∧
      gb0.instructions = gc.instructions ++
        [⟨.IF_FALSE, labelName (g.labelCounter + 1), condResult, ""⟩] ∧
      IRGenerator.genStmts body gb0 = .ok gb ∧
      gb.instructions = gb0.instructions ++ bodyCode ∧
      g1.instructions = g.instructions ++ [⟨.LABEL, labelName g.labelCounter, "", ""⟩] ++
        condCode ++ [⟨.IF_FALSE, labelName (g.labelCounter + 1), condResult, ""⟩] ++ bodyCode ++
        [⟨.GOTO, labelName g.labelCounter, "", ""⟩,
         ⟨.LABEL, labelName (g.labelCounter + 1), "", ""⟩] ∧
      labelName g.labelCounter ≠ labelName (g.labelCounter + 1) ∧
      labelName g.labelCounter ∉
        labelsMentioned (g.instructions ++ condCode ++ bodyCode ++ after) ∧
      labelName (g.labelCounter + 1) ∉
        labelsMentioned (g.instructions ++ condCode ++ bodyCode ++ after) := by
  have hne : labelName g.labelCounter ≠ labelName (g.labelCounter + 1) := by
    intro he
    have := labelName_inj he
    omega
  obtain ⟨hdefs, hjumps⟩ := IRGenerator.generate_labels_once prog gfinal hprog
  rw [hafter] at hdefs hjumps
  simp only [IRGenerator.genStmt, bind_eq_ok, Prod.exists, pure_eq_ok] at h
  obtain ⟨l1, g2, hl1, l2, g3, hl2, cr, gc, hc, g6, hB, rfl⟩ := h
  obtain ⟨-, rfl, rfl⟩ := (IRGenerator.newLabel_eq_ok _ _ _).mp hl1
  obtain ⟨-, rfl, rfl⟩ := (IRGenerator.newLabel_eq_ok _ _ _).mp hl2
  obtain ⟨-, segC, hiC, hdC, htC⟩ := IRGenerator.genExpression_plain cond _ cr gc hc
  obtain ⟨-, segB, hiB, -⟩ := IRGenerator.genStmts_labelStep body _ g6 hB
  simp only [IRGenerator.emit] at hc hB hiC hiB hdefs hjumps ⊢
  refine ⟨cr, _, gc, _, g6, segC, segB, rfl, hc, hiC, rfl, hB, hiB, ?_, hne, ?_⟩
  · simp only [hiB, hiC, List.append_assoc, List.cons_append, List.nil_append]
  · simp only [hiB, hiC, labelDefinitions_append, jumpTargets_append, hdC, htC,
      labelDefinitions_label, labelDefinitions_ifFalse, labelDefinitions_goto,
      jumpTargets_label, jumpTargets_ifFalse, jumpTargets_goto, labelDefinitions_nil,
      jumpTargets_nil, List.append_nil, List.nil_append, List.append_assoc,
      List.cons_append] at hdefs hjumps
    have r1 : (labelDefinitions g.instructions ++ labelName g.labelCounter ::
        (labelDefinitions segB ++ labelName (g.labelCounter + 1) ::
          labelDefinitions after)).Nodup := by
      simpa only [List.append_assoc, List.cons_append] using hdefs
    have r2 : ((labelDefinitions g.instructions ++ labelName g.labelCounter ::
        labelDefinitions segB) ++ labelName (g.labelCounter + 1) ::
          labelDefinitions after).Nodup := by
      simpa only [List.append_assoc, List.cons_append] using hdefs
    have r3 : (jumpTargets g.instructions ++ labelName (g.labelCounter + 1) ::
        (jumpTargets segB ++ labelName g.labelCounter :: jumpTargets after)).Nodup := by
      simpa only [List.append_assoc, List.cons_append] using hjumps
    have r4 : ((jumpTargets g.instructions ++ labelName (g.labelCounter + 1) ::
        jumpTargets segB) ++ labelName g.labelCounter :: jumpTargets after).Nodup := by
      simpa only [List.append_assoc, List.cons_append] using hjumps
    obtain ⟨d1, d2⟩ := not_mem_of_nodup_middle _ _ _ r1
    obtain ⟨d3, d4⟩ := not_mem_of_nodup_middle _ _ _ r2
    obtain ⟨j1, j2⟩ := not_mem_of_nodup_middle _ _ _ r3
    obtain ⟨j3, j4⟩ := not_mem_of_nodup_middle _ _ _ r4
    simp only [labelsMentioned, labelDefinitions_append, jumpTargets_append, hdC, htC,
      List.mem_append, List.mem_cons, List.append_nil, List.not_mem_nil, or_false, not_or]
      at d1 d2 j1 j2 d3 d4 j3 j4 ⊢
    tauto

/-- Witness for C26: the code of the tree of
`fn int f(int n){ int s = 0; while(n > 0){ s += n; n -= 1; } return s; }` has a
single `LABEL L0` before the guard `IF_FALSE L1, t0`, and `GOTO L0` closes the
loop before `LABEL L1`; the labels `L0` and `L1` of the loop are distinct. -/
theorem while_lowering_witness :
    (IRGenerator.generate ⟨[.FunctionNode "int" "f" [("int", "n")]
        [.VarDeclNode "int" "s" (some (.LiteralNode "int" "0")),
         .WhileNode (.BinaryOpNode ">" (.IdentifierNode "n") (.LiteralNode "int" "0"))
           [.ExprStmtNode (.AssignmentNode (.IdentifierNode "s") "+=" (.IdentifierNode "n")),
            .ExprStmtNode (.AssignmentNode (.IdentifierNode "n") "-=" (.LiteralNode "int" "1"))],
         .ReturnNode (some (.IdentifierNode "s"))]]⟩).map (·.instructions) =
      .ok [⟨.FUNC_BEGIN, "f", "", ""⟩, ⟨.COPY, "s", "0", ""⟩, ⟨.LABEL, "L0", "", ""⟩,
        ⟨.GT, "t0", "n", "0"⟩, ⟨.IF_FALSE, "L1", "t0", ""⟩, ⟨.ADD, "t1", "s", "n"⟩,
        ⟨.COPY, "s", "t1", ""⟩, ⟨.SUB, "t2", "n", "1"⟩, ⟨.COPY, "n", "t2", ""⟩,
        ⟨.GOTO, "L0", "", ""⟩, ⟨.LABEL, "L1", "", ""⟩, ⟨.RETURN, "", "s", ""⟩,
        ⟨.FUNC_END, "f", "", ""⟩] ∧
    labelName 0 ≠ labelName (0 + 1) :=
  ⟨by decide!, by
    obtain ⟨_, _, _, _, _, _, _, _, _, _, _, _, _, _, hne, _⟩ :=
      while_lowering
        ⟨[.FunctionNode "int" "f" [("int", "n")]
          [.VarDeclNode "int" "s" (some (.LiteralNode "int" "0")),
           .WhileNode (.BinaryOpNode ">" (.IdentifierNode "n") (.LiteralNode "int" "0"))
             [.ExprStmtNode (.AssignmentNode (.IdentifierNode "s") "+=" (.IdentifierNode "n")),
              .ExprStmtNode
                (.AssignmentNode (.IdentifierNode "n") "-=" (.LiteralNode "int" "1"))],
           .ReturnNode (some (.IdentifierNode "s"))]]⟩
        ⟨[⟨.FUNC_BEGIN, "f", "", ""⟩, ⟨.COPY, "s", "0", ""⟩, ⟨.LABEL, "L0", "", ""⟩,
            ⟨.GT, "t0", "n", "0"⟩, ⟨.IF_FALSE, "L1", "t0", ""⟩, ⟨.ADD, "t1", "s", "n"⟩,
            ⟨.COPY, "s", "t1", ""⟩, ⟨.SUB, "t2", "n", "1"⟩, ⟨.COPY, "n", "t2", ""⟩,
            ⟨.GOTO, "L0", "", ""⟩, ⟨.LABEL, "L1", "", ""⟩, ⟨.RETURN, "", "s", ""⟩,
            ⟨.FUNC_END, "f", "", ""⟩],
          ⟨[], ⟨0, [("f", ⟨"f", "int", true, ["int"], 0⟩)]⟩, 3⟩, 3, 2, "f"⟩
        [⟨.RETURN, "", "s", ""⟩, ⟨.FUNC_END, "f", "", ""⟩]
        (.BinaryOpNode ">" (.IdentifierNode "n") (.LiteralNode "int" "0"))
        [.ExprStmtNode (.AssignmentNode (.IdentifierNode "s") "+=" (.IdentifierNode "n")),
         .ExprStmtNode (.AssignmentNode (.IdentifierNode "n") "-=" (.LiteralNode "int" "1"))]
        ⟨[⟨.FUNC_BEGIN, "f", "", ""⟩, ⟨.COPY, "s", "0", ""⟩],
          ⟨[⟨1, [("s", ⟨"s", "int", false, [], 1⟩), ("n", ⟨"n", "int", false, [], 1⟩)]⟩],
            ⟨0, [("f", ⟨"f", "int", true, ["int"], 0⟩)]⟩, 2⟩, 0, 0, "f"⟩
        ⟨[⟨.FUNC_BEGIN, "f", "", ""⟩, ⟨.COPY, "s", "0", ""⟩, ⟨.LABEL, "L0", "", ""⟩,
            ⟨.GT, "t0", "n", "0"⟩, ⟨.IF_FALSE, "L1", "t0", ""⟩, ⟨.ADD, "t1", "s", "n"⟩,
            ⟨.COPY, "s", "t1", ""⟩, ⟨.SUB, "t2", "n", "1"⟩, ⟨.COPY, "n", "t2", ""⟩,
            ⟨.GOTO, "L0", "", ""⟩, ⟨.LABEL, "L1", "", ""⟩],
          ⟨[⟨1, [("s", ⟨"s", "int", false, [], 1⟩), ("n", ⟨"n", "int", false, [], 1⟩)]⟩],
            ⟨0, [("f", ⟨"f", "int", true, ["int"], 0⟩)]⟩, 3⟩, 3, 2, "f"⟩
        (by decide!) (by decide!) (by decide!)
    exact hne⟩

/-! ## Numbering of the temporaries -/

theorem firstOccurrences_concat (xs : List String) (x : String) :
    firstOccurrences (xs ++ [x]) =
      if x ∈ firstOccurrences xs then firstOccurrences xs else firstOccurrences xs ++ [x] := by
  simp [firstOccurrences, List.foldl_append]

theorem mem_firstOccurrences (xs : List String) (a : String) :
    a ∈ firstOccurrences xs ↔ a ∈ xs := by
  induction xs using List.reverseRecOn with
  | nil => simp [firstOccurrences]
  | append_singleton xs x ih =>
    rw [firstOccurrences_concat]
    by_cases hx : x ∈ firstOccurrences xs
    · rw [if_pos hx, List.mem_append, List.mem_singleton, ih]
      constructor
      · exact Or.inl
      · rintro (h | rfl)
        · exact h
        · exact ih.mp hx
    · rw [if_neg hx, List.mem_append, List.mem_append, ih]

theorem temporariesInOrder_concat (instrs : List IRInstruction) (i : IRInstruction) :
    temporariesInOrder (instrs ++ [i]) =
      if isTempName i.result = true ∧ i.result ∉ instrs.map (·.result) then
        temporariesInOrder instrs ++ [i.result]
      else temporariesInOrder instrs := by
  unfold temporariesInOrder
  rw [List.map_append, List.filter_append]
  by_cases ht : isTempName i.result = true
  · have hf : List.filter isTempName (List.map (·.result) [i]) = [i.result] := by
      simp [List.filter, ht]
    rw [hf, firstOccurrences_concat]
    by_cases hm : i.result ∈ instrs.map (·.result)
    · rw [if_pos ((mem_firstOccurrences _ _).mpr (List.mem_filter.mpr ⟨hm, ht⟩)),
        if_neg (fun h => h.2 hm)]
    · rw [if_neg (fun h => hm (List.mem_filter.mp ((mem_firstOccurrences _ _).mp h)).1),
        if_pos ⟨ht, hm⟩]
  · have hf : List.filter isTempName (List.map (·.result) [i]) = [] := by
      simp [List.filter, ht]
    rw [hf, List.append_nil, if_neg (fun h => ht h.1)]

theorem operandsDefinedFrom_concat : ∀ (instrs : List IRInstruction) (defined : List String)
    (i : IRInstruction),
    operandsDefinedFrom defined (instrs ++ [i]) =
      (operandsDefinedFrom defined instrs &&
        i.operands.all (fun o => !isTempName o || decide (o ∈ defined ++ instrs.map (·.result))))
  | [], defined, i => by
    simp [operandsDefinedFrom]
  | j :: instrs, defined, i => by
    have ih := operandsDefinedFrom_concat instrs (defined ++ [j.result]) i
    rw [List.cons_append, operandsDefinedFrom, ih, operandsDefinedFrom, List.map_cons,
      List.append_assoc, List.singleton_append, Bool.and_assoc]

theorem isTempName_eq_true {s : String} (h : isTempName s = true) : ∃ k, s = tempName k :=
  ⟨_, of_decide_eq_true h⟩

theorem isTempName_tempName (k : Nat) : isTempName (tempName k) = true := by
  unfold isTempName
  apply decide_eq_true
  have : (tempName k).data.drop 1 = (toString k).data := by
    simp [tempName, String.data_append]
  rw [this, decimalValue_toString]

theorem tempName_data (k : Nat) : (tempName k).data = 't' :: (toString k).data := by
  simp [tempName, String.data_append]

theorem isTempName_labelName (k : Nat) : isTempName (labelName k) = false := by
  cases h : isTempName (labelName k) with
  | false => rfl
  | true =>
    obtain ⟨j, hj⟩ := isTempName_eq_true h
    have := congrArg String.data hj
    rw [tempName_data] at this
    simp [labelName, String.data_append] at this

theorem digitChar_ne_t (d : Nat) (h : d < 10) : Nat.digitChar d ≠ 't' := by
  interval_cases d <;> decide

theorem toDigitsCore_ne_t : ∀ (fuel n : Nat) (ds : List Char), (∀ c ∈ ds, c ≠ 't') →
    ∀ c ∈ Nat.toDigitsCore 10 fuel n ds, c ≠ 't'
  | 0, _, ds, h => by
    simpa [Nat.toDigitsCore] using h
  | fuel + 1, n, ds, h => by
    have hds : ∀ c ∈ Nat.digitChar (n % 10) :: ds, c ≠ 't' := by
      intro c hc
      rcases List.mem_cons.mp hc with rfl | hc
      · exact digitChar_ne_t _ (Nat.mod_lt _ (by decide))
      · exact h c hc
    simp only [Nat.toDigitsCore]
    split
    · exact hds
    · exact toDigitsCore_ne_t fuel (n / 10) _ hds

theorem isTempName_toString (n : Nat) : isTempName (toString n) = false := by
  cases h : isTempName (toString n) with
  | false => rfl
  | true =>
    obtain ⟨j, hj⟩ := isTempName_eq_true h
    have hd := congrArg String.data hj
    rw [tempName_data] at hd
    have hmem : 't' ∈ (toString n).data := by rw [hd]; exact List.mem_cons_self _ _
    have : ∀ c ∈ (toString n).data, c ≠ 't' := by
      show ∀ c ∈ (Nat.repr n).data, c ≠ 't'
      simp only [Nat.repr, Nat.toDigits, List.asString]
      exact toDigitsCore_ne_t _ _ [] (fun _ hc => nomatch hc)
    exact absurd rfl (this _ hmem)

namespace IRGenerator

theorem Defined.of_not_temp (g : IRGenerator) {v : String} (h : isTempName v = false) :
    g.Defined v := by
  intro ht
  rw [h] at ht
  exact Bool.noConfusion ht

theorem Defined.later {g g1 : IRGenerator} {v : String} (h : g.Defined v)
    (hext : ∃ seg, g1.instructions = g.instructions ++ seg) : g1.Defined v := by
  obtain ⟨seg, hseg⟩ := hext
  intro ht
  rw [hseg, List.map_append, List.mem_append]
  exact Or.inl (h ht)

theorem Defined.emit_self (g : IRGenerator) (op : IROpcode) (r a1 a2 : String) :
    (g.emit op r a1 a2).Defined r := by
  intro _
  simp [emit]

theorem emit_ext (g : IRGenerator) (op : IROpcode) (r a1 a2 : String) :
    ∃ seg, (g.emit op r a1 a2).instructions = g.instructions ++ seg :=
  ⟨_, rfl⟩

theorem operands_ok (g : IRGenerator) {a1 a2 : String} (h1 : g.Defined a1) (h2 : g.Defined a2)
    (op : IROpcode) (r : String) :
    (IRInstruction.operands ⟨op, r, a1, a2⟩).all
      (fun o => !isTempName o || decide (o ∈ [] ++ g.instructions.map (·.result))) = true := by
  simp only [IRInstruction.operands, List.all_cons, List.all_nil, Bool.and_true, List.nil_append,
    Bool.and_eq_true, Bool.or_eq_true, Bool.not_eq_true', decide_eq_true_eq]
  constructor
  · cases h : isTempName a1 with
    | false => exact Or.inl rfl
    | true => exact Or.inr (h1 h)
  · cases h : isTempName a2 with
    | false => exact Or.inl rfl
    | true => exact Or.inr (h2 h)

/-- An instruction whose result is no new temporary keeps the numbering. -/
theorem TempsInOrder.emit_old {g : IRGenerator} (h : g.TempsInOrder) (op : IROpcode)
    {r a1 a2 : String} (hr : g.Defined r) (h1 : g.Defined a1) (h2 : g.Defined a2) :
    (g.emit op r a1 a2).TempsInOrder := by
  obtain ⟨hT, hO⟩ := h
  refine ⟨?_, ?_⟩
  · simp only [emit]
    rw [temporariesInOrder_concat, if_neg (fun hh => hh.2 (hr hh.1))]
    exact hT
  · simp only [emit, operandsDefinedBefore] at hO ⊢
    rw [operandsDefinedFrom_concat, hO, Bool.true_and]
    exact operands_ok g h1 h2 op r

/-- An instruction whose result is the temporary that `newTemp` has just handed
out extends the numbering by one. -/
theorem TempsInOrder.emit_fresh {g g1 : IRGenerator} {t : String} (h : g.TempsInOrder)
    (ht : g.newTemp = .ok (t, g1)) (op : IROpcode) {a1 a2 : String}
    (h1 : g.Defined a1) (h2 : g.Defined a2) :
    (g1.emit op t a1 a2).TempsInOrder := by
  obtain ⟨-, rfl, rfl⟩ := (newTemp_eq_ok g t g1).mp ht
  obtain ⟨hT, hO⟩ := h
  have hnew : ("t" ++ toString g.tempCounter) ∉ g.instructions.map (·.result) := by
    intro hm
    have : tempName g.tempCounter ∈ temporariesInOrder g.instructions :=
      (mem_firstOccurrences _ _).mpr
        (List.mem_filter.mpr ⟨hm, isTempName_tempName g.tempCounter⟩)
    rw [hT, List.mem_map] at this
    obtain ⟨j, hj, he⟩ := this
    have := tempName_injective he
    rw [List.mem_range] at hj
    omega
  refine ⟨?_, ?_⟩
  · simp only [emit]
    rw [temporariesInOrder_concat, if_pos ⟨isTempName_tempName g.tempCounter, hnew⟩, hT,
      List.range_succ, List.map_append]
    rfl
  · simp only [emit, operandsDefinedBefore] at hO ⊢
    rw [operandsDefinedFrom_concat, hO, Bool.true_and]
    exact operands_ok g h1 h2 op _

theorem newTemp_ext {g g1 : IRGenerator} {t : String} (ht : g.newTemp = .ok (t, g1)) :
    g1.instructions = g.instructions := by
  obtain ⟨-, -, rfl⟩ := (newTemp_eq_ok g t g1).mp ht
  rfl

end IRGenerator

theorem isTempName_empty : isTempName "" = false := by decide

theorem isTempName_one : isTempName "1" = false := by decide

namespace IRGenerator

theorem Defined.defined_newTemp {g g1 : IRGenerator} {v t : String} (h : g.Defined v)
    (ht : g.newTemp = .ok (t, g1)) : g1.Defined v := by
  intro hv
  rw [newTemp_ext ht]
  exact h hv

theorem Defined.defined_emit {g : IRGenerator} {v : String} (h : g.Defined v) (op : IROpcode)
    (r a1 a2 : String) : (g.emit op r a1 a2).Defined v :=
  h.later (emit_ext g op r a1 a2)

theorem Defined.defined_plain {g g1 : IRGenerator} {v : String} (h : g.Defined v) (hp : Plain g g1) :
    g1.Defined v := by
  obtain ⟨-, seg, hseg, -⟩ := hp
  exact h.later ⟨seg, hseg⟩

mutual

/-- The code of an expression without names of the form of a temporary keeps the
numbering of the temporaries, and its value is defined when it is a temporary. -/
theorem genExpression_temps : ∀ (e : Expr) (g : IRGenerator) (v : String) (g1 : IRGenerator),
    (∀ s ∈ e.names, isTempName s = false) → g.TempsInOrder →
    genExpression e g = .ok (v, g1) → g1.TempsInOrder ∧ g1.Defined v
  | .BinaryOpNode op left right, g, v, g1, hn, hinv, h => by
    simp only [genExpression, bind_eq_ok, Prod.exists, pure_eq_ok, Prod.mk.injEq] at h
    obtain ⟨l, ga, hl, r, gb, hr, t, gc, ht, rfl, rfl⟩ := h
    simp only [Expr.names, List.mem_append] at hn
    obtain ⟨Ia, Dl⟩ := genExpression_temps left g l ga (fun s hs => hn s (Or.inl hs)) hinv hl
    obtain ⟨Ib, Dr⟩ := genExpression_temps right ga r gb (fun s hs => hn s (Or.inr hs)) Ia hr
    exact ⟨Ib.emit_fresh ht _ (Dl.defined_plain (genExpression_plain right ga r gb hr)) Dr,
      Defined.emit_self _ _ _ _ _⟩
  | .UnaryOpNode op operand isPostfix, g, v, g1, hn, hinv, h => by
    simp only [genExpression, bind_eq_ok, Prod.exists] at h
    obtain ⟨o, ga, ho, h⟩ := h
    simp only [Expr.names] at hn
    obtain ⟨Ia, Do⟩ := genExpression_temps operand g o ga hn hinv ho
    split at h
    · split at h
      · simp only [bind_eq_ok, Prod.exists, pure_eq_ok, Prod.mk.injEq] at h
        obtain ⟨t, gb, ht, r, gc, hr, rfl, rfl⟩ := h
        have I3 := Ia.emit_fresh ht .COPY Do (Defined.of_not_temp ga isTempName_empty)
        have D3 : (gb.emit .COPY t o "").Defined o := (Do.defined_newTemp ht).defined_emit _ _ _ _
        have I5 := I3.emit_fresh hr (if op = "++" then IROpcode.ADD else IROpcode.SUB) D3
          (Defined.of_not_temp _ isTempName_one)
        exact ⟨I5.emit_old .COPY ((D3.defined_newTemp hr).defined_emit _ _ _ _) (Defined.emit_self _ _ _ _ _)
            (Defined.of_not_temp _ isTempName_empty),
          ((((Defined.emit_self gb .COPY t o "").defined_newTemp hr).defined_emit _ _ _ _).defined_emit _ _ _ _)⟩
      · simp only [bind_eq_ok, Prod.exists, pure_eq_ok, Prod.mk.injEq] at h
        obtain ⟨r, gc, hr, rfl, rfl⟩ := h
        have I3 := Ia.emit_fresh hr (if op = "++" then IROpcode.ADD else IROpcode.SUB) Do
          (Defined.of_not_temp ga isTempName_one)
        exact ⟨I3.emit_old .COPY ((Do.defined_newTemp hr).defined_emit _ _ _ _) (Defined.emit_self _ _ _ _ _)
            (Defined.of_not_temp _ isTempName_empty),
          (Defined.emit_self _ _ _ _ _).defined_emit _ _ _ _⟩
    · split at h
      · simp only [bind_eq_ok, Prod.exists, pure_eq_ok, Prod.mk.injEq] at h
        obtain ⟨r, gc, hr, rfl, rfl⟩ := h
        exact ⟨Ia.emit_fresh hr .NEG Do (Defined.of_not_temp ga isTempName_empty),
          Defined.emit_self _ _ _ _ _⟩
      · split at h
        · simp only [bind_eq_ok, Prod.exists, pure_eq_ok, Prod.mk.injEq] at h
          obtain ⟨r, gc, hr, rfl, rfl⟩ := h
          exact ⟨Ia.emit_fresh hr .NOT Do (Defined.of_not_temp ga isTempName_empty),
            Defined.emit_self _ _ _ _ _⟩
        · simp only [pure_eq_ok, Prod.mk.injEq] at h
          obtain ⟨rfl, rfl⟩ := h
          exact ⟨Ia, Do⟩
  | .LiteralNode _ value, g, v, g1, hn, hinv, h => by
    simp only [genExpression, pure_eq_ok, Prod.mk.injEq] at h
    obtain ⟨rfl, rfl⟩ := h
    exact ⟨hinv, Defined.of_not_temp _ (hn _ (by simp [Expr.names]))⟩
  | .IdentifierNode name, g, v, g1, hn, hinv, h => by
    simp only [genExpression, pure_eq_ok, Prod.mk.injEq] at h
    obtain ⟨rfl, rfl⟩ := h
    exact ⟨hinv, Defined.of_not_temp _ (hn _ (by simp [Expr.names]))⟩
  | .CallNode (.IdentifierNode name) args, g, v, g1, hn, hinv, h => by
    simp only [genExpression, bind_eq_ok, Prod.exists, pure_eq_ok, Prod.mk.injEq] at h
    obtain ⟨ga, ha, t, gb, ht, rfl, rfl⟩ := h
    simp only [Expr.names, List.mem_append, List.mem_singleton] at hn
    have Ia := genArgs_temps args g ga (fun s hs => hn s (Or.inr hs)) hinv ha
    exact ⟨Ia.emit_fresh ht .CALL (Defined.of_not_temp ga (hn name (Or.inl rfl)))
        (Defined.of_not_temp ga (isTempName_toString _)),
      Defined.emit_self _ _ _ _ _⟩
  | .CallNode (.BinaryOpNode _ _ _) args, g, v, g1, hn, hinv, h
  | .CallNode (.UnaryOpNode _ _ _) args, g, v, g1, hn, hinv, h
  | .CallNode (.LiteralNode _ _) args, g, v, g1, hn, hinv, h
  | .CallNode (.CallNode _ _) args, g, v, g1, hn, hinv, h
  | .CallNode (.AssignmentNode _ _ _) args, g, v, g1, hn, hinv, h => by
    simp only [genExpression, pure_eq_ok, Prod.mk.injEq] at h
    obtain ⟨rfl, rfl⟩ := h
    exact ⟨hinv, Defined.of_not_temp _ isTempName_empty⟩
  | .AssignmentNode (.IdentifierNode name) op right, g, v, g1, hn, hinv, h => by
    simp only [genExpression, bind_eq_ok, Prod.exists] at h
    obtain ⟨r, ga, hr, h⟩ := h
    simp only [Expr.names, List.mem_append, List.mem_singleton] at hn
    obtain ⟨Ia, Dr⟩ := genExpression_temps right g r ga (fun s hs => hn s (Or.inr hs)) hinv hr
    have hname : isTempName name = false := hn name (Or.inl rfl)
    split at h
    · simp only [pure_eq_ok, Prod.mk.injEq] at h
      obtain ⟨rfl, rfl⟩ := h
      exact ⟨Ia.emit_old .COPY (Defined.of_not_temp ga hname) Dr
          (Defined.of_not_temp ga isTempName_empty),
        Defined.of_not_temp _ hname⟩
    · simp only [bind_eq_ok, Prod.exists, pure_eq_ok, Prod.mk.injEq] at h
      obtain ⟨t, gb, ht, rfl, rfl⟩ := h
      have I3 := Ia.emit_fresh ht (compoundOpcode op) (Defined.of_not_temp ga hname) Dr
      exact ⟨I3.emit_old .COPY (Defined.of_not_temp _ hname) (Defined.emit_self _ _ _ _ _)
          (Defined.of_not_temp _ isTempName_empty),
        Defined.of_not_temp _ hname⟩
  | .AssignmentNode (.BinaryOpNode _ _ _) op right, g, v, g1, hn, hinv, h
  | .AssignmentNode (.UnaryOpNode _ _ _) op right, g, v, g1, hn, hinv, h
  | .AssignmentNode (.LiteralNode _ _) op right, g, v, g1, hn, hinv, h
  | .AssignmentNode (.CallNode _ _) op right, g, v, g1, hn, hinv, h
  | .AssignmentNode (.AssignmentNode _ _ _) op right, g, v, g1, hn, hinv, h => by
    simp only [genExpression, pure_eq_ok, Prod.mk.injEq] at h
    obtain ⟨rfl, rfl⟩ := h
    exact ⟨hinv, Defined.of_not_temp _ isTempName_empty⟩

theorem genArgs_temps : ∀ (args : List Expr) (g g1 : IRGenerator),
    (∀ s ∈ Expr.allNames args, isTempName s = false) → g.TempsInOrder →
    genArgs args g = .ok g1 → g1.TempsInOrder
  | [], g, g1, _, hinv, h => by
    simp only [genArgs, pure_eq_ok] at h
    subst h
    exact hinv
  | arg :: args, g, g1, hn, hinv, h => by
    simp only [genArgs, bind_eq_ok, Prod.exists] at h
    obtain ⟨v, ga, ha, h⟩ := h
    simp only [Expr.allNames, List.mem_append] at hn
    obtain ⟨Ia, Dv⟩ := genExpression_temps arg g v ga (fun s hs => hn s (Or.inl hs)) hinv ha
    exact genArgs_temps args _ g1 (fun s hs => hn s (Or.inr hs))
      (Ia.emit_old .PARAM (Defined.of_not_temp ga isTempName_empty) Dv
        (Defined.of_not_temp ga isTempName_empty)) h

end

end IRGenerator

namespace IRGenerator

theorem TempsInOrder.temps_setScope {g : IRGenerator} (h : g.TempsInOrder) (s : ScopeStack) :
    TempsInOrder { g with scopeStack := s } := h

theorem TempsInOrder.temps_newLabel {g g1 : IRGenerator} {l : String} (h : g.TempsInOrder)
    (hl : g.newLabel = .ok (l, g1)) : g1.TempsInOrder := by
  obtain ⟨-, -, rfl⟩ := (newLabel_eq_ok g l g1).mp hl
  exact h

theorem Defined.defined_newLabel {g g1 : IRGenerator} {v l : String} (h : g.Defined v)
    (hl : g.newLabel = .ok (l, g1)) : g1.Defined v := by
  obtain ⟨-, -, rfl⟩ := (newLabel_eq_ok g l g1).mp hl
  exact h

theorem newLabel_not_temp {g g1 : IRGenerator} {l : String} (hl : g.newLabel = .ok (l, g1)) :
    isTempName l = false := by
  obtain ⟨-, rfl, -⟩ := (newLabel_eq_ok g l g1).mp hl
  exact isTempName_labelName _

mutual

/-- The code of a statement without names of the form of a temporary keeps the
numbering of the temporaries. -/
theorem genStmt_temps : ∀ (st : Stmt) (g g1 : IRGenerator),
    (∀ s ∈ st.names, isTempName s = false) → g.TempsInOrder →
    genStmt st g = .ok g1 → g1.TempsInOrder
  | .VarDeclNode typeName name none, g, gz, _, hinv, h => by
    simp only [genStmt, bind_eq_ok, pure_eq_ok, pure_bind] at h
    obtain ⟨s1, -, rfl⟩ := h
    exact hinv.temps_setScope s1
  | .VarDeclNode typeName name (some e), g, gz, hn, hinv, h => by
    simp only [genStmt, bind_eq_ok, pure_eq_ok, Prod.exists] at h
    obtain ⟨ga, ⟨v, gb, he, rfl⟩, s1, -, rfl⟩ := h
    simp only [Stmt.names, Expr.optionalNames, List.mem_cons] at hn
    obtain ⟨Ia, Dv⟩ := genExpression_temps e g v gb (fun s hs => hn s (Or.inr hs)) hinv he
    exact (Ia.emit_old .COPY (Defined.of_not_temp gb (hn name (Or.inl rfl))) Dv
      (Defined.of_not_temp gb isTempName_empty)).temps_setScope s1
  | .ReturnNode none, g, gz, _, hinv, h => by
    simp only [genStmt, pure_eq_ok] at h
    subst h
    exact hinv.emit_old .RETURN (Defined.of_not_temp g isTempName_empty)
      (Defined.of_not_temp g isTempName_empty) (Defined.of_not_temp g isTempName_empty)
  | .ReturnNode (some e), g, gz, hn, hinv, h => by
    simp only [genStmt, bind_eq_ok, pure_eq_ok, Prod.exists] at h
    obtain ⟨v, gb, he, rfl⟩ := h
    simp only [Stmt.names, Expr.optionalNames] at hn
    obtain ⟨Ia, Dv⟩ := genExpression_temps e g v gb hn hinv he
    exact Ia.emit_old .RETURN (Defined.of_not_temp gb isTempName_empty) Dv
      (Defined.of_not_temp gb isTempName_empty)
  | .IfNode cond thenBlock (some stmts), g, gz, hn, hinv, h => by
    simp only [genStmt, bind_eq_ok, Prod.exists, pure_eq_ok] at h
    obtain ⟨cr, g1, hc, l1, g2, hl1, l2, g3, hl2, g5, hT, g9, hE, rfl⟩ := h
    simp only [Stmt.names, List.mem_append] at hn
    obtain ⟨Ic, Dc⟩ := genExpression_temps cond g cr g1
      (fun s hs => hn s (Or.inl (Or.inl hs))) hinv hc
    have hL1 := newLabel_not_temp hl1
    have hL2 := newLabel_not_temp hl2
    have I4 := ((Ic.temps_newLabel hl1).temps_newLabel hl2).emit_old .IF_FALSE
      (Defined.of_not_temp g3 hL1) ((Dc.defined_newLabel hl1).defined_newLabel hl2)
      (Defined.of_not_temp g3 isTempName_empty)
    have I5 := genStmts_temps thenBlock _ g5 (fun s hs => hn s (Or.inl (Or.inr hs)))
      (I4.temps_setScope _) hT
    have I7 := (I5.temps_setScope g5.scopeStack.exitScope).emit_old .GOTO
      (Defined.of_not_temp _ hL2) (Defined.of_not_temp _ isTempName_empty)
      (Defined.of_not_temp _ isTempName_empty)
    have I8 := I7.emit_old .LABEL (Defined.of_not_temp _ hL1)
      (Defined.of_not_temp _ isTempName_empty) (Defined.of_not_temp _ isTempName_empty)
    have I9 := genStmts_temps stmts _ g9 (fun s hs => hn s (Or.inr hs)) (I8.temps_setScope _) hE
    exact (I9.temps_setScope g9.scopeStack.exitScope).emit_old .LABEL (Defined.of_not_temp _ hL2)
      (Defined.of_not_temp _ isTempName_empty) (Defined.of_not_temp _ isTempName_empty)
  | .IfNode cond thenBlock none, g, gz, hn, hinv, h => by
    simp only [genStmt, bind_eq_ok, Prod.exists, pure_eq_ok] at h
    obtain ⟨cr, g1, hc, l1, g2, hl1, l2, g3, hl2, g5, hT, rfl⟩ := h
    simp only [Stmt.names, List.mem_append, List.append_nil] at hn
    obtain ⟨Ic, Dc⟩ := genExpression_temps cond g cr g1
      (fun s hs => hn s (Or.inl hs)) hinv hc
    have hL2 := newLabel_not_temp hl2
    have I4 := ((Ic.temps_newLabel hl1).temps_newLabel hl2).emit_old .IF_FALSE
      (Defined.of_not_temp g3 hL2) ((Dc.defined_newLabel hl1).defined_newLabel hl2)
      (Defined.of_not_temp g3 isTempName_empty)
    have I5 := genStmts_temps thenBlock _ g5 (fun s hs => hn s (Or.inr hs))
      (I4.temps_setScope _) hT
    exact (I5.temps_setScope g5.scopeStack.exitScope).emit_old .LABEL (Defined.of_not_temp _ hL2)
      (Defined.of_not_temp _ isTempName_empty) (Defined.of_not_temp _ isTempName_empty)
  | .WhileNode cond body, g, gz, hn, hinv, h => by
    simp only [genStmt, bind_eq_ok, Prod.exists, pure_eq_ok] at h
    obtain ⟨l1, g1, hl1, l2, g2, hl2, cr, g4, hc, g6, hB, rfl⟩ := h
    simp only [Stmt.names, List.mem_append] at hn
    have hL1 := newLabel_not_temp hl1
    have hL2 := newLabel_not_temp hl2
    have I3 := ((hinv.temps_newLabel hl1).temps_newLabel hl2).emit_old .LABEL (Defined.of_not_temp g2 hL1)
      (Defined.of_not_temp g2 isTempName_empty) (Defined.of_not_temp g2 isTempName_empty)
    obtain ⟨Ic, Dc⟩ := genExpression_temps cond _ cr g4 (fun s hs => hn s (Or.inl hs)) I3 hc
    have I5 := Ic.emit_old .IF_FALSE (Defined.of_not_temp g4 hL2) Dc
      (Defined.of_not_temp g4 isTempName_empty)
    have I6 := genStmts_temps body _ g6 (fun s hs => hn s (Or.inr hs)) (I5.temps_setScope _) hB
    have I8 := (I6.temps_setScope g6.scopeStack.exitScope).emit_old .GOTO
      (Defined.of_not_temp _ hL1) (Defined.of_not_temp _ isTempName_empty)
      (Defined.of_not_temp _ isTempName_empty)
    exact I8.emit_old .LABEL (Defined.of_not_temp _ hL2)
      (Defined.of_not_temp _ isTempName_empty) (Defined.of_not_temp _ isTempName_empty)
  | .ExprStmtNode expr, g, gz, hn, hinv, h => by
    simp only [genStmt, bind_eq_ok, pure_eq_ok, Prod.exists] at h
    obtain ⟨v, gb, he, rfl⟩ := h
    simp only [Stmt.names] at hn
    exact (genExpression_temps expr g v gb hn hinv he).1
  | .BlockNode stmts, g, gz, hn, hinv, h => by
    simp only [genStmt, bind_eq_ok, pure_eq_ok] at h
    obtain ⟨ga, ha, rfl⟩ := h
    simp only [Stmt.names] at hn
    exact (genStmts_temps stmts _ ga hn (hinv.temps_setScope _) ha).temps_setScope _

theorem genStmts_temps : ∀ (stmts : List Stmt) (g g1 : IRGenerator),
    (∀ s ∈ Stmt.allNames stmts, isTempName s = false) → g.TempsInOrder →
    genStmts stmts g = .ok g1 → g1.TempsInOrder
  | [], g, g1, _, hinv, h => by
    simp only [genStmts, pure_eq_ok] at h
    subst h
    exact hinv
  | st :: stmts, g, g1, hn, hinv, h => by
    simp only [genStmts, bind_eq_ok] at h
    obtain ⟨ga, ha, h⟩ := h
    simp only [Stmt.allNames, List.mem_append] at hn
    exact genStmts_temps stmts ga g1 (fun s hs => hn s (Or.inr hs))
      (genStmt_temps st g ga (fun s hs => hn s (Or.inl hs)) hinv ha) h

end

theorem genFunction_temps (name : String) (params : List (String × String))
    (body : List Stmt) (g g1 : IRGenerator) (hname : isTempName name = false)
    (hn : ∀ s ∈ Stmt.allNames body, isTempName s = false) (hinv : g.TempsInOrder)
    (h : genFunction name params body g = .ok g1) : g1.TempsInOrder := by
  simp only [genFunction, bind_eq_ok, pure_eq_ok] at h
  obtain ⟨s1, -, g2, hb, rfl⟩ := h
  have I0 : TempsInOrder { g with currentFunction := name } := hinv
  have I1 := I0.emit_old .FUNC_BEGIN (Defined.of_not_temp _ hname)
    (Defined.of_not_temp _ isTempName_empty) (Defined.of_not_temp _ isTempName_empty)
  have I2 := genStmts_temps body _ g2 hn (I1.temps_setScope s1) hb
  exact (I2.temps_setScope g2.scopeStack.exitScope).emit_old .FUNC_END (Defined.of_not_temp _ hname)
    (Defined.of_not_temp _ isTempName_empty) (Defined.of_not_temp _ isTempName_empty)

theorem genItems_temps : ∀ (items : List Item) (g g1 : IRGenerator),
    (∀ s ∈ Item.allNames items, isTempName s = false) → g.TempsInOrder →
    genItems items g = .ok g1 → g1.TempsInOrder
  | [], g, g1, _, hinv, h => by
    simp only [genItems, pure_eq_ok] at h
    subst h
    exact hinv
  | .FunctionNode _ name params body :: items, g, g1, hn, hinv, h => by
    simp only [genItems, bind_eq_ok] at h
    obtain ⟨ga, ha, h⟩ := h
    simp only [Item.allNames, List.mem_cons, List.mem_append] at hn
    exact genItems_temps items ga g1 (fun s hs => hn s (Or.inr (Or.inr hs)))
      (genFunction_temps name params body g ga (hn name (Or.inl rfl))
        (fun s hs => hn s (Or.inr (Or.inl hs))) hinv ha) h
  | .Statement (.VarDeclNode typeName name init) :: items, g, g1, hn, hinv, h => by
    simp only [genItems, bind_eq_ok] at h
    obtain ⟨ga, ha, h⟩ := h
    simp only [Item.allNames, List.mem_append] at hn
    exact genItems_temps items ga g1 (fun s hs => hn s (Or.inr hs))
      (genStmt_temps _ g ga (fun s hs => hn s (Or.inl hs)) hinv ha) h
  | .Statement (.BlockNode _) :: items, g, g1, hn, hinv, h
  | .Statement (.ReturnNode _) :: items, g, g1, hn, hinv, h
  | .Statement (.IfNode _ _ _) :: items, g, g1, hn, hinv, h
  | .Statement (.WhileNode _ _) :: items, g, g1, hn, hinv, h
  | .Statement (.ExprStmtNode _) :: items, g, g1, hn, hinv, h => by
    simp only [genItems] at h
    simp only [Item.allNames, List.mem_append] at hn
    exact genItems_temps items g g1 (fun s hs => hn s (Or.inr hs)) hinv h

end IRGenerator

/-- C29, as the code has it.  Let no function name, no declared variable, no
identifier and no literal of the program have the form `t<n>` of a temporary.
Then in the code that `IRGenerator.generate` produces, the temporaries in the
order of their first occurrence as the result of an instruction are exactly
`t0`, `t1`, ..., `t(k-1)`, `k` being the final value of the counter of
temporaries, and every operand that is a temporary is the result of an earlier
instruction. -/
theorem temporaries_numbered_in_order (prog : ProgramNode) (g : IRGenerator)
    (hnames : ∀ s ∈ prog.names, isTempName s = false)
    (h : IRGenerator.generate prog = .ok g) :
    temporariesInOrder g.instructions = (List.range g.tempCounter).map tempName ∧
    operandsDefinedBefore g.instructions = true := by
  simp only [IRGenerator.generate, IRGenerator.genProgram, bind_eq_ok] at h
  obtain ⟨s1, -, h⟩ := h
  have hnew : IRGenerator.TempsInOrder { IRGenerator.new with scopeStack := s1 } := ⟨rfl, rfl⟩
  exact IRGenerator.genItems_temps prog.items _ g hnames hnew h

/-- C29 fails for programs that use a name of the form `t<n>`.  In the code of
`fn int f(){ int t1 = 5; return (1 + 2) + (3 + 4); }`, a program that passes the
scope analysis and the type check, the first results of that form are `t1`
(the copy into the variable), `t0` and `t2`: they are not `t0`, `t1`, ... in
order, for any count.  In the code of
`fn int f(int t1){ int y = t1; return (1 + 2) + (3 + 4); }` the operand `t1` of
the first `COPY` precedes the instruction `ADD t1, 3, 4` that first has `t1` as
its result. -/
theorem temporary_named_by_user :
    analyzeAndCheck ⟨[.FunctionNode "int" "f" []
        [.VarDeclNode "int" "t1" (some (.LiteralNode "int" "5")),
         .ReturnNode (some (.BinaryOpNode "+"
           (.BinaryOpNode "+" (.LiteralNode "int" "1") (.LiteralNode "int" "2"))
           (.BinaryOpNode "+" (.LiteralNode "int" "3") (.LiteralNode "int" "4"))))]]⟩ =
      .accepted ∧
    (IRGenerator.generate ⟨[.FunctionNode "int" "f" []
        [.VarDeclNode "int" "t1" (some (.LiteralNode "int" "5")),
         .ReturnNode (some (.BinaryOpNode "+"
           (.BinaryOpNode "+" (.LiteralNode "int" "1") (.LiteralNode "int" "2"))
           (.BinaryOpNode "+" (.LiteralNode "int" "3") (.LiteralNode "int" "4"))))]]⟩).map
        (·.instructions) =
      .ok [⟨.FUNC_BEGIN, "f", "", ""⟩, ⟨.COPY, "t1", "5", ""⟩, ⟨.ADD, "t0", "1", "2"⟩,
        ⟨.ADD, "t1", "3", "4"⟩, ⟨.ADD, "t2", "t0", "t1"⟩, ⟨.RETURN, "", "t2", ""⟩,
        ⟨.FUNC_END, "f", "", ""⟩] ∧
    temporariesInOrder [⟨.FUNC_BEGIN, "f", "", ""⟩, ⟨.COPY, "t1", "5", ""⟩,
        ⟨.ADD, "t0", "1", "2"⟩, ⟨.ADD, "t1", "3", "4"⟩, ⟨.ADD, "t2", "t0", "t1"⟩,
        ⟨.RETURN, "", "t2", ""⟩, ⟨.FUNC_END, "f", "", ""⟩] = ["t1", "t0", "t2"] ∧
    (∀ k, ["t1", "t0", "t2"] ≠ (List.range k).map tempName) ∧
    (IRGenerator.generate ⟨[.FunctionNode "int" "f" [("int", "t1")]
        [.VarDeclNode "int" "y" (some (.IdentifierNode "t1")),
         .ReturnNode (some (.BinaryOpNode "+"
           (.BinaryOpNode "+" (.LiteralNode "int" "1") (.LiteralNode "int" "2"))
           (.BinaryOpNode "+" (.LiteralNode "int" "3") (.LiteralNode "int" "4"))))]]⟩).map
        (·.instructions) =
      .ok [⟨.FUNC_BEGIN, "f", "", ""⟩, ⟨.COPY, "y", "t1", ""⟩, ⟨.ADD, "t0", "1", "2"⟩,
        ⟨.ADD, "t1", "3", "4"⟩, ⟨.ADD, "t2", "t0", "t1"⟩, ⟨.RETURN, "", "t2", ""⟩,
        ⟨.FUNC_END, "f", "", ""⟩] ∧
    operandsDefinedBefore [⟨.FUNC_BEGIN, "f", "", ""⟩, ⟨.COPY, "y", "t1", ""⟩,
        ⟨.ADD, "t0", "1", "2"⟩, ⟨.ADD, "t1", "3", "4"⟩, ⟨.ADD, "t2", "t0", "t1"⟩,
        ⟨.RETURN, "", "t2", ""⟩, ⟨.FUNC_END, "f", "", ""⟩] = false := by
  refine ⟨by decide!, by decide!, by decide!, ?_, by decide!, by decide!⟩
  intro k hk
  cases k with
  | zero => exact List.noConfusion hk
  | succ n =>
    rw [List.range_succ_eq_map, List.map_cons] at hk
    exact absurd (List.cons.inj hk).1 (by decide!)

/-- Witness for the amended C29: the code of the tree of
`fn int f(int a, int b){ return (a + b) * (a - b); }` defines `t0`, `t1` and `t2`
in this order, and the operands `t0` and `t1` of the `MUL` are results of the two
instructions before it. -/
theorem temporaries_numbered_in_order_witness :
    ∃ g : IRGenerator,
      IRGenerator.generate ⟨[.FunctionNode "int" "f" [("int", "a"), ("int", "b")]
        [.ReturnNode (some (.BinaryOpNode "*"
          (.BinaryOpNode "+" (.IdentifierNode "a") (.IdentifierNode "b"))
          (.BinaryOpNode "-" (.IdentifierNode "a") (.IdentifierNode "b"))))]]⟩ = .ok g ∧
      g.instructions = [⟨.FUNC_BEGIN, "f", "", ""⟩, ⟨.ADD, "t0", "a", "b"⟩,
        ⟨.SUB, "t1", "a", "b"⟩, ⟨.MUL, "t2", "t0", "t1"⟩, ⟨.RETURN, "", "t2", ""⟩,
        ⟨.FUNC_END, "f", "", ""⟩] ∧
      g.tempCounter = 3 ∧
      temporariesInOrder g.instructions = (List.range g.tempCounter).map tempName ∧
      operandsDefinedBefore g.instructions = true :=
  ⟨⟨[⟨.FUNC_BEGIN, "f", "", ""⟩, ⟨.ADD, "t0", "a", "b"⟩, ⟨.SUB, "t1", "a", "b"⟩,
      ⟨.MUL, "t2", "t0", "t1"⟩, ⟨.RETURN, "", "t2", ""⟩, ⟨.FUNC_END, "f", "", ""⟩],
    ⟨[], ⟨0, [("f", ⟨"f", "int", true, ["int", "int"], 0⟩)]⟩, 2⟩, 3, 0, "f"⟩,
   by decide!, rfl, rfl,
   temporaries_numbered_in_order
     ⟨[.FunctionNode "int" "f" [("int", "a"), ("int", "b")]
       [.ReturnNode (some (.BinaryOpNode "*"
         (.BinaryOpNode "+" (.IdentifierNode "a") (.IdentifierNode "b"))
         (.BinaryOpNode "-" (.IdentifierNode "a") (.IdentifierNode "b"))))]]⟩
     _ (by decide!) (by decide!)⟩


/-! ## Comments in the hand-written lexer -/

theorem scanWhile_eq_takeWhile (p : Char → Bool) (l : List Char) (pos : Nat) :
    scanWhile p l pos = pos + (l.takeWhile p).length := by
  induction l generalizing pos with
  | nil => simp [scanWhile]
  | cons c r ih =>
    simp only [scanWhile, List.takeWhile]
    cases hp : p c with
    | true =>
      simp only [if_true, List.length_cons, ih]
      omega
    | false => simp

theorem scanBlockComment_cons_cons (c d : Char) (r : List Char) (pos : Nat) :
    scanBlockComment (c :: d :: r) pos =
      if c = '*' && d = '/' then some (pos + 2) else scanBlockComment (d :: r) (pos + 1) := by
  rw [scanBlockComment]

theorem scanBlockComment_first : ∀ (body tail : List Char) (pos : Nat),
    ¬ ['*', '/'] <:+: body →
    scanBlockComment (body ++ '*' :: '/' :: tail) pos = some (pos + body.length + 2)
  | [], tail, pos, _ => by
    rw [List.nil_append, scanBlockComment_cons_cons, if_pos (by decide)]
    rfl
  | c :: b, tail, pos, h => by
    have hb : ¬ ['*', '/'] <:+: b := fun hi => h (hi.trans (List.suffix_cons c b).isInfix)
    have ih := scanBlockComment_first b tail (pos + 1) hb
    have hlen : pos + 1 + b.length + 2 = pos + (c :: b).length + 2 := by
      simp only [List.length_cons]
      omega
    rw [hlen] at ih
    cases b with
    | nil =>
      rw [List.cons_append, List.nil_append, scanBlockComment_cons_cons, if_neg (by simp)]
      exact ih
    | cons d b1 =>
      have hcd : ¬ ((c = '*' && d = '/') = true) := by
        intro hcd
        simp only [Bool.and_eq_true, decide_eq_true_eq] at hcd
        obtain ⟨rfl, rfl⟩ := hcd
        exact h ((List.prefix_append ['*', '/'] b1).isInfix)
      rw [List.cons_append, List.cons_append, scanBlockComment_cons_cons, if_neg hcd]
      exact ih

theorem advanceLoop_skips : ∀ (comments rest : List token) (f : Option LexerError),
    (∀ t ∈ comments, t.type = T_COMMENT) →
    advanceLoop (comments ++ rest) f = advanceLoop rest f
  | [], _, _, _ => rfl
  | t :: ts, rest, f, h => by
    rw [List.cons_append, advanceLoop, if_pos (h t (List.mem_cons_self _ _))]
    exact advanceLoop_skips ts rest f (fun u hu => h u (List.mem_cons_of_mem _ hu))

theorem advanceLoop_cur : ∀ (ts : List token) (f : Option LexerError) (p : Parser),
    advanceLoop ts f = .ok p → p.cur.type ≠ T_COMMENT
  | [], none, p, h => by
    simp only [advanceLoop, Except.ok.injEq] at h
    subst h
    exact fun hc => tokenType.noConfusion hc
  | [], some e, p, h => by
    simp [advanceLoop] at h
  | t :: r, f, p, h => by
    rw [advanceLoop] at h
    split at h
    · exact advanceLoop_cur r f p h
    · rename_i hne
      simp only [Except.ok.injEq] at h
      subst h
      exact hne

namespace lexer

theorem of_rest_cons (lx : lexer) (c : Char) (r : List Char) (h : lx.rest = c :: r) :
    lx.isEOF = false ∧ lx.peek = c ∧ lx.advance = { lx with pos := lx.pos + 1 } ∧
      lx.advance.rest = r := by
  have hE : lx.isEOF = false := by
    cases hE : lx.isEOF with
    | false => rfl
    | true =>
      rw [rest_eq_nil lx hE] at h
      exact List.noConfusion h
  have hr := rest_eq_cons lx hE
  rw [h] at hr
  obtain ⟨h1, h2⟩ := List.cons.inj hr
  have ha : lx.advance = { lx with pos := lx.pos + 1 } := by
    simp [advance, hE]
  refine ⟨hE, h1.symm, ha, ?_⟩
  rw [ha, h2]
  rfl

theorem tokenAt_slash (lx : lexer) : lx.tokenAt '/' = lx.comment := by
  unfold tokenAt
  rw [if_neg (by decide), if_neg (by decide), if_neg (by decide), if_pos rfl]

theorem getNextToken_line_comment (lx : lexer) (text : List Char)
    (h : lx.skipWhitespace.rest = '/' :: '/' :: text) :
    lx.getNextToken = .ok (⟨T_COMMENT, ""⟩, { lx.skipWhitespace with
      pos := lx.skipWhitespace.pos + 2 + (text.takeWhile (fun c => c != '\n')).length }) := by
  obtain ⟨hE, hp, ha, hr⟩ := of_rest_cons _ _ _ h
  obtain ⟨-, hp1, -, -⟩ := of_rest_cons _ _ _ hr
  have ht : (List.takeWhile (fun c => c != '\n') ('/' :: text)).length =
      (text.takeWhile (fun c => c != '\n')).length + 1 := by
    rw [List.takeWhile_cons_of_pos (by decide), List.length_cons]
  have hpos : lx.skipWhitespace.advance.pos = lx.skipWhitespace.pos + 1 := by rw [ha]
  have hsrc : lx.skipWhitespace.advance.src = lx.skipWhitespace.src := by rw [ha]
  unfold getNextToken
  simp only [hE, hp, tokenAt_slash, comment, hp1, if_true, hr, scanWhile_eq_takeWhile, ht,
    hpos, hsrc, Bool.false_eq_true, if_false]
  congr 3
  omega

theorem getNextToken_block_comment (lx : lexer) (body tail : List Char)
    (hbody : ¬ ['*', '/'] <:+: body)
    (h : lx.skipWhitespace.rest = '/' :: '*' :: (body ++ '*' :: '/' :: tail)) :
    lx.getNextToken = .ok (⟨T_COMMENT, ""⟩, { lx.skipWhitespace with
      pos := lx.skipWhitespace.pos + 2 + body.length + 2 }) := by
  obtain ⟨hE, hp, ha, hr⟩ := of_rest_cons _ _ _ h
  obtain ⟨-, hp1, ha1, hr1⟩ := of_rest_cons _ _ _ hr
  have hpos : lx.skipWhitespace.advance.advance.pos = lx.skipWhitespace.pos + 2 := by
    rw [ha1, ha]
  have hsrc : lx.skipWhitespace.advance.advance.src = lx.skipWhitespace.src := by
    rw [ha1, ha]
  have hne : ¬ ('*' = '/') := by decide
  unfold getNextToken
  simp only [hE, hp, tokenAt_slash, comment, hp1, hr1, scanBlockComment_first _ _ _ hbody,
    hpos, hsrc, Bool.false_eq_true, if_false, hne, if_true]

end lexer

/-- C30 fails: the hand-written lexer returns comments as tokens.  On the source
`// c`, newline, `x` the first call of `getNextToken` returns `(T_COMMENT, "")`
and stops before the newline; on `/* c */ x` it returns `(T_COMMENT, "")` and
stops after the `*/`; the loop of `main` prints the token `T_COMMENT` before the
identifier. -/
theorem lexer_returns_comment_token :
    lexer.getNextToken ⟨"// c\nx".toList, 0⟩ =
      .ok (⟨T_COMMENT, ""⟩, ⟨"// c\nx".toList, 4⟩) ∧
    lexer.getNextToken ⟨"/* c */ x".toList, 0⟩ =
      .ok (⟨T_COMMENT, ""⟩, ⟨"/* c */ x".toList, 7⟩) ∧
    tokenize 10 ⟨"// c\nx".toList, 0⟩ = .eof [⟨T_COMMENT, ""⟩, ⟨T_IDENTIFIER, "x"⟩] :=
  ⟨by decide!, by decide!, by decide!⟩

/-- C30, as the code has it.  When the input that remains after the whitespace
starts with a `//` line comment, `getNextToken` returns `(T_COMMENT, "")` and
stops before the end of the line (or at the end of the source); when it starts
with a block comment whose first `*/` comes after `body`, `getNextToken` returns
`(T_COMMENT, "")` and stops after that `*/`.  The comment tokens are discarded by
`Parser::advance`: after the comments that the lexer returns next, the current
token of the parser is the first token that is not a comment, or `T_EOF` when
the lexer has no other token, and it is never a `T_COMMENT`. -/
theorem comments_returned_as_tokens (lx : lexer) (text body tail : List Char)
    (hbody : ¬ ['*', '/'] <:+: body) :
    (lx.skipWhitespace.rest = '/' :: '/' :: text →
      lx.getNextToken = .ok (⟨T_COMMENT, ""⟩, { lx.skipWhitespace with
        pos := lx.skipWhitespace.pos + 2 + (text.takeWhile (fun c => c != '\n')).length })) ∧
    (lx.skipWhitespace.rest = '/' :: '*' :: (body ++ '*' :: '/' :: tail) →
      lx.getNextToken = .ok (⟨T_COMMENT, ""⟩, { lx.skipWhitespace with
        pos := lx.skipWhitespace.pos + 2 + body.length + 2 })) ∧
    (∀ (p : Parser) (comments : List token) (t : token) (rest : List token),
      (∀ c ∈ comments, c.type = T_COMMENT) → t.type ≠ T_COMMENT →
      p.lx.pending = comments ++ t :: rest →
      p.advance = .ok ⟨⟨rest, p.lx.failure⟩, t⟩) ∧
    (∀ (p : Parser) (comments : List token),
      (∀ c ∈ comments, c.type = T_COMMENT) → p.lx.pending = comments → p.lx.failure = none →
      p.advance = .ok ⟨⟨[], none⟩, ⟨T_EOF, ""⟩⟩) ∧
    (∀ p p1 : Parser, p.advance = .ok p1 → p1.cur.type ≠ T_COMMENT) := by
  refine ⟨lexer.getNextToken_line_comment lx text,
    lexer.getNextToken_block_comment lx body tail hbody, ?_, ?_, ?_⟩
  · intro p comments t rest hc ht hp
    rw [Parser.advance, hp, advanceLoop_skips comments _ _ hc, advanceLoop, if_neg ht]
  · intro p comments hc hp hf
    have := advanceLoop_skips comments [] p.lx.failure hc
    rw [List.append_nil] at this
    rw [Parser.advance, hp, this, hf]
    rfl
  · intro p p1 h
    exact advanceLoop_cur _ _ p1 h

/-- Witness for the amended C30: on `/* a */ x` the lexer returns the comment
token and stops at position 7; the parser that reads this source starts with
the identifier `x` as its current token. -/
theorem comments_returned_as_tokens_witness :
    lexer.getNextToken ⟨"/* a */ x".toList, 0⟩ =
      .ok (⟨T_COMMENT, ""⟩, ⟨"/* a */ x".toList, 7⟩) ∧
    Parser.new (TokenStream.ofSource "/* a */ x") = .ok ⟨⟨[], none⟩, ⟨T_IDENTIFIER, "x"⟩⟩ :=
  ⟨(comments_returned_as_tokens ⟨"/* a */ x".toList, 0⟩ [] " a ".toList " x".toList
      (by decide!)).2.1 rfl,
   by decide!⟩

theorem takeWhile_append_stop (p : Char → Bool) (a b : List Char) (ha : ∀ c ∈ a, p c = true)
    (hb : ∀ c ∈ b.head?, p c = false) : (a ++ b).takeWhile p = a := by
  induction a with
  | nil =>
    cases b with
    | nil => rfl
    | cons c r =>
      have := hb c (by simp)
      simp [List.takeWhile, this]
  | cons c r ih =>
    have hc := ha c (List.mem_cons_self _ _)
    rw [List.cons_append, List.takeWhile_cons_of_pos hc,
      ih (fun d hd => ha d (List.mem_cons_of_mem _ hd))]

theorem isalpha_not_isdigit (c : Char) (h : isalpha c = true) : isdigit c = false := by
  simp only [isalpha, Char.isAlpha, Char.isUpper, Char.isLower, Bool.or_eq_true,
    Bool.and_eq_true, decide_eq_true_eq] at h
  simp only [isdigit, Char.isDigit, Bool.and_eq_false_imp, decide_eq_true_eq,
    decide_eq_false_iff_not]
  intro h1 h2
  have h3 : c.val.toNat ≥ 48 := by exact h1
  have h4 : c.val.toNat ≤ 57 := by exact h2
  rcases h with ⟨h5, h6⟩ | ⟨h5, h6⟩
  · have : c.val.toNat ≥ 65 := by exact h5
    omega
  · have : c.val.toNat ≥ 97 := by exact h5
    omega

theorem isalnum_of_isdigit (c : Char) (h : isdigit c = true) : isalnum c = true := by
  simp only [isdigit] at h
  simp [isalnum, Char.isAlphanum, h]

namespace lexer

theorem rest_move (w : lexer) (a b : List Char) (h : w.rest = a ++ b) :
    ({ w with pos := w.pos + a.length } : lexer).rest = b := by
  simp only [rest] at h ⊢
  rw [← List.drop_drop, h, List.drop_left]

theorem substr_rest (w : lexer) (a b : List Char) (h : w.rest = a ++ b) :
    substr w.src w.pos a.length = String.mk a := by
  simp only [rest] at h
  simp only [substr, h, List.take_left]

theorem isEOF_of_rest_nil (w : lexer) (h : w.rest = []) : w.isEOF = true := by
  cases hE : w.isEOF with
  | true => rfl
  | false =>
    rw [rest_eq_cons w hE] at h
    exact List.noConfusion h

end lexer

namespace lexer

/-- The position after the digit run at the start of the rest. -/
theorem scan_digits (w : lexer) (ds after : List Char) (hds : ∀ c ∈ ds, isdigit c = true)
    (hafter : ∀ c ∈ after.head?, isdigit c = false) (h : w.rest = ds ++ after) :
    scanWhile isdigit w.rest w.pos = w.pos + ds.length := by
  rw [scanWhile_eq_takeWhile, h, takeWhile_append_stop isdigit ds after hds hafter]

theorem number_of_rest_nil (w : lexer) (ds : List Char) (hds : ∀ c ∈ ds, isdigit c = true)
    (h : w.rest = ds) :
    w.number = .ok (⟨T_INTLIT, String.mk ds⟩, { w with pos := w.pos + ds.length }) := by
  have h0 : w.rest = ds ++ [] := by rw [h, List.append_nil]
  have hs := scan_digits w ds [] hds (fun c hc => nomatch hc) h0
  have hE := isEOF_of_rest_nil _ (rest_move w ds [] h0)
  have hv := substr_rest w ds [] h0
  unfold number
  simp only [hs, hE, Bool.not_true, Bool.false_and, Bool.false_eq_true, if_false,
    Nat.add_sub_cancel_left, hv]

theorem number_of_rest_other (w : lexer) (ds : List Char) (c : Char) (r : List Char)
    (hds : ∀ c ∈ ds, isdigit c = true) (hc1 : isdigit c = false) (hc2 : c ≠ '.')
    (hc3 : isalpha c = false) (hc4 : c ≠ '_') (h : w.rest = ds ++ c :: r) :
    w.number = .ok (⟨T_INTLIT, String.mk ds⟩, { w with pos := w.pos + ds.length }) := by
  have hs := scan_digits w ds (c :: r) hds (by simpa using hc1) h
  obtain ⟨hE, hP, -, -⟩ := of_rest_cons _ _ _ (rest_move w ds (c :: r) h)
  have hv := substr_rest w ds (c :: r) h
  unfold number
  simp only [hs, hE, hP, hc2, hc3, hc4, Bool.not_false, Bool.true_and, decide_False,
    Bool.false_eq_true, if_false, Bool.or_self, Nat.add_sub_cancel_left, hv]

end lexer

namespace lexer

theorem number_of_rest_dot (w : lexer) (ds ds2 after : List Char)
    (hds : ∀ c ∈ ds, isdigit c = true) (hds2 : ∀ c ∈ ds2, isdigit c = true)
    (hafter : ∀ c ∈ after.head?, isdigit c = false)
    (h : w.rest = ds ++ '.' :: (ds2 ++ after)) :
    w.number =
      match after with
      | [] => .ok (⟨T_FLOATLIT, String.mk (ds ++ '.' :: ds2)⟩,
          { w with pos := w.pos + ds.length + 1 + ds2.length })
      | c :: r =>
        if isalpha c || c = '_' then
          .error (.invalidIdentifier (String.mk (ds ++ '.' :: ds2 ++
            (c :: r).takeWhile (fun c => isalnum c || c = '_'))))
        else .ok (⟨T_FLOATLIT, String.mk (ds ++ '.' :: ds2)⟩,
          { w with pos := w.pos + ds.length + 1 + ds2.length }) := by
  have hs := scan_digits w ds ('.' :: (ds2 ++ after)) hds (fun c hc => by
    simp only [List.head?_cons, Option.mem_def, Option.some.injEq] at hc
    subst hc
    decide) h
  have hr1 := rest_move w ds _ h
  obtain ⟨hE1, hP1, hA1, hR1⟩ := of_rest_cons _ _ _ hr1
  have hs2 := scan_digits _ ds2 after hds2 hafter hR1
  have hr2 := rest_move _ ds2 after hR1
  rw [hA1] at hs2 hr2
  simp only at hs2 hr2
  have hw : w.rest = (ds ++ '.' :: ds2) ++ after := by
    rw [h, List.append_assoc, List.cons_append]
  have hlen : (ds ++ '.' :: ds2).length = ds.length + 1 + ds2.length := by
    simp only [List.length_append, List.length_cons]
    omega
  have hv := substr_rest w _ _ hw
  rw [hlen] at hv
  have hfloat : (!({ w with pos := w.pos + ds.length } : lexer).isEOF &&
      decide (({ w with pos := w.pos + ds.length } : lexer).peek = '.')) = true := by
    rw [hE1, hP1]
    rfl
  have e1 : w.pos + ds.length + 1 + ds2.length - w.pos = ds.length + 1 + ds2.length := by
    omega
  unfold number
  simp only [hs, hfloat, if_true, hA1, hs2, e1, hv]
  cases after with
  | nil =>
    have hE2 := isEOF_of_rest_nil _ hr2
    simp only [hE2, Bool.not_true, Bool.false_and, Bool.false_eq_true, if_false]
  | cons c r =>
    obtain ⟨hE2, hP2, -, -⟩ := of_rest_cons _ _ _ hr2
    simp only [hE2, hP2, Bool.not_false, Bool.true_and]
    by_cases hc : (isalpha c || decide (c = '_')) = true
    · rw [if_pos hc, if_pos hc]
      have hsplit : w.rest = (ds ++ '.' :: ds2 ++
          (c :: r).takeWhile (fun c => isalnum c || c = '_')) ++
          (c :: r).dropWhile (fun c => isalnum c || c = '_') := by
        rw [List.append_assoc, List.takeWhile_append_dropWhile, hw]
      have hv2 := substr_rest w _ _ hsplit
      simp only [hr2, scanWhile_eq_takeWhile]
      rw [← hv2]
      congr 2
      rw [List.length_append, hlen, Nat.add_assoc, Nat.add_assoc, Nat.add_assoc,
        Nat.add_sub_cancel_left, Nat.add_assoc]
      simp only [Nat.add_assoc]
    · rw [if_neg hc, if_neg hc]

end lexer

namespace lexer

theorem getNextToken_digit (lx : lexer) (d : Char) (r : List Char) (hd : isdigit d = true)
    (h : lx.skipWhitespace.rest = d :: r) : lx.getNextToken = lx.skipWhitespace.number := by
  obtain ⟨hE, hP, -, -⟩ := of_rest_cons _ _ _ h
  have ha : isalpha d = false := by
    cases ha : isalpha d with
    | false => rfl
    | true =>
      rw [isalpha_not_isdigit d ha] at hd
      exact Bool.noConfusion hd
  have hu : d ≠ '_' := by
    rintro rfl
    exact absurd hd (by decide)
  unfold getNextToken
  simp only [hE, hP, Bool.false_eq_true, if_false]
  unfold tokenAt
  rw [if_neg (by simp [ha, hu]), if_pos hd]

theorem getNextToken_digits (lx : lexer) (ds after : List Char) (hne : ds ≠ [])
    (hds : ∀ d ∈ ds, isdigit d = true) (h : lx.skipWhitespace.rest = ds ++ after) :
    lx.getNextToken = lx.skipWhitespace.number := by
  cases ds with
  | nil => exact absurd rfl hne
  | cons d ds1 => exact getNextToken_digit lx d (ds1 ++ after) (hds d (List.mem_cons_self _ _)) h

end lexer

/-- C32 (number tokens).  On `1.` the hand-written lexer returns the token
`(T_FLOATLIT, "1.")`, and on `1.;` it returns `(T_FLOATLIT, "1.")` before the
`;`: `number` sets `isFloat` as soon as it sees the `.`, whether or not a digit
follows.  In general a digit run `ds` followed by `.` and a digit run `ds2`,
which may be empty, gives a `T_FLOATLIT` whose lexeme is the text `ds.ds2`, when
no letter and no underscore follows; a digit run that is followed by neither
`.` nor a letter nor an underscore gives a `T_INTLIT` whose lexeme is the digit
run. -/
theorem float_literal_without_fraction :
    lexer.getNextToken ⟨"1.".toList, 0⟩ = .ok (⟨T_FLOATLIT, "1."⟩, ⟨"1.".toList, 2⟩) ∧
    tokenize 4 ⟨"1.;".toList, 0⟩ = .eof [⟨T_FLOATLIT, "1."⟩, ⟨T_SEMICOLON, ";"⟩] ∧
    tokenize 4 ⟨"1.5 12".toList, 0⟩ = .eof [⟨T_FLOATLIT, "1.5"⟩, ⟨T_INTLIT, "12"⟩] ∧
    (∀ (lx : lexer) (ds ds2 after : List Char), ds ≠ [] →
      (∀ d ∈ ds, isdigit d = true) → (∀ d ∈ ds2, isdigit d = true) →
      (∀ x ∈ after.head?, isdigit x = false ∧ isalpha x = false ∧ x ≠ '_') →
      lx.skipWhitespace.rest = ds ++ '.' :: (ds2 ++ after) →
      lx.getNextToken = .ok (⟨T_FLOATLIT, String.mk (ds ++ '.' :: ds2)⟩,
        { lx.skipWhitespace with
          pos := lx.skipWhitespace.pos + ds.length + 1 + ds2.length })) ∧
    (∀ (lx : lexer) (ds after : List Char), ds ≠ [] →
      (∀ d ∈ ds, isdigit d = true) →
      (∀ x ∈ after.head?, isdigit x = false ∧ isalpha x = false ∧ x ≠ '_' ∧ x ≠ '.') →
      lx.skipWhitespace.rest = ds ++ after →
      lx.getNextToken = .ok (⟨T_INTLIT, String.mk ds⟩,
        { lx.skipWhitespace with pos := lx.skipWhitespace.pos + ds.length })) := by
  refine ⟨by decide!, by decide!, by decide!, ?_, ?_⟩
  · intro lx ds ds2 after hne hds hds2 ha h
    rw [lexer.getNextToken_digits lx ds _ hne hds h,
      lexer.number_of_rest_dot _ ds ds2 after hds hds2 (fun x hx => (ha x hx).1) h]
    cases after with
    | nil => rfl
    | cons x r1 =>
      obtain ⟨-, h2, h3⟩ := ha x (by simp)
      have hx : ¬ ((isalpha x || decide (x = '_')) = true) := by simp [h2, h3]
      simp only [hx, if_false]
      rfl
  · intro lx ds after hne hds ha h
    rw [lexer.getNextToken_digits lx ds _ hne hds h]
    cases after with
    | nil =>
      rw [List.append_nil] at h
      exact lexer.number_of_rest_nil _ ds hds h
    | cons x r1 =>
      obtain ⟨h1, h2, h3, h4⟩ := ha x (by simp)
      exact lexer.number_of_rest_other _ ds x r1 hds h1 h4 h2 h3 h

theorem scanString_quote (rest : List Char) (pos : Nat) :
    scanString ('"' :: rest) pos = pos := by
  rw [scanString.eq_def]
  simp

theorem scanString_backslash_nil (pos : Nat) : scanString ['\\'] pos = pos + 1 := by
  rw [scanString.eq_def]
  simp

theorem scanString_backslash_cons (d : Char) (rest : List Char) (pos : Nat) :
    scanString ('\\' :: d :: rest) pos = scanString rest (pos + 2) := by
  rw [scanString.eq_def]
  simp

theorem scanString_other (c : Char) (rest : List Char) (pos : Nat) (hq : c ≠ '"')
    (hb : c ≠ '\\') : scanString (c :: rest) pos = scanString rest (pos + 1) := by
  rw [scanString.eq_def]
  simp [hq, hb]

theorem escapedText_quote (rest : List Char) : escapedText ('"' :: rest) = false := by
  rw [escapedText.eq_def]
  simp

theorem escapedText_backslash_nil : escapedText ['\\'] = false := by
  rw [escapedText.eq_def]
  simp

theorem escapedText_backslash_cons (d : Char) (rest : List Char) :
    escapedText ('\\' :: d :: rest) = escapedText rest := by
  rw [escapedText.eq_def]
  simp

theorem escapedText_other (c : Char) (rest : List Char) (hq : c ≠ '"') (hb : c ≠ '\\') :
    escapedText (c :: rest) = escapedText rest := by
  rw [escapedText.eq_def]
  simp [hq, hb]

theorem scanString_closing : ∀ (n : Nat) (body tail : List Char) (pos : Nat),
    body.length ≤ n → escapedText body = true →
    scanString (body ++ '"' :: tail) pos = pos + body.length
  | _, [], tail, pos, _, _ => by
    rw [List.nil_append, scanString_quote]
    rfl
  | 0, c :: rest, _, _, hn, _ => by
    simp at hn
  | n + 1, c :: rest, tail, pos, hn, he => by
    by_cases hq : c = '"'
    · rw [hq, escapedText_quote] at he
      exact Bool.noConfusion he
    · by_cases hb : c = '\\'
      · subst hb
        cases rest with
        | nil =>
          rw [escapedText_backslash_nil] at he
          exact Bool.noConfusion he
        | cons d rest2 =>
          rw [escapedText_backslash_cons] at he
          have ih := scanString_closing n rest2 tail (pos + 2)
            (by simp only [List.length_cons] at hn; omega) he
          rw [List.cons_append, List.cons_append, scanString_backslash_cons, ih]
          simp only [List.length_cons]
          omega
      · rw [escapedText_other c rest hq hb] at he
        have ih := scanString_closing n rest tail (pos + 1)
          (by simp only [List.length_cons] at hn; omega) he
        rw [List.cons_append, scanString_other c _ pos hq hb, ih, List.length_cons]
        omega

theorem scanString_cases : ∀ (n : Nat) (text : List Char) (pos : Nat), text.length ≤ n →
    scanString text pos = pos + text.length ∨
      ∃ body tail, text = body ++ '"' :: tail ∧ escapedText body = true
  | _, [], pos, _ => Or.inl (by simp [scanString])
  | 0, c :: rest, _, hn => by
    simp at hn
  | n + 1, c :: rest, pos, hn => by
    by_cases hq : c = '"'
    · exact Or.inr ⟨[], rest, by rw [hq]; rfl, rfl⟩
    · by_cases hb : c = '\\'
      · subst hb
        cases rest with
        | nil =>
          left
          rw [scanString_backslash_nil]
          rfl
        | cons d rest2 =>
          rcases scanString_cases n rest2 (pos + 2)
            (by simp only [List.length_cons] at hn; omega) with ih | ⟨body, tail, hbt, he⟩
          · left
            rw [scanString_backslash_cons, ih]
            simp only [List.length_cons]
            omega
          · right
            refine ⟨'\\' :: d :: body, tail, by rw [hbt]; rfl, ?_⟩
            rw [escapedText_backslash_cons]
            exact he
      · rcases scanString_cases n rest (pos + 1)
          (by simp only [List.length_cons] at hn; omega) with ih | ⟨body, tail, hbt, he⟩
        · left
          rw [scanString_other c rest pos hq hb, ih, List.length_cons]
          omega
        · right
          refine ⟨c :: body, tail, by rw [hbt]; rfl, ?_⟩
          rw [escapedText_other c body hq hb]
          exact he

namespace lexer

theorem tokenAt_quote (lx : lexer) : lx.tokenAt '"' = lx.stringLiteral := by
  unfold tokenAt
  rw [if_neg (by decide), if_neg (by decide), if_pos rfl]

theorem isEOF_of_pos (w : lexer) (k : Nat) (h : k = w.src.length) :
    ({ w with pos := k } : lexer).isEOF = true := by
  simp [isEOF, h]

end lexer

namespace lexer

theorem stringLiteral_closed (w : lexer) (body tail : List Char)
    (h : w.rest = '"' :: (body ++ '"' :: tail)) (he : escapedText body = true) :
    w.stringLiteral = .ok (⟨T_STRINGLIT, String.mk body⟩,
      { w with pos := w.pos + 1 + body.length + 1 }) := by
  obtain ⟨-, -, hA, hR⟩ := of_rest_cons _ _ _ h
  have hs := scanString_closing body.length body tail (w.pos + 1) (Nat.le_refl _) he
  rw [hA] at hR
  have hr2 := rest_move _ body ('"' :: tail) hR
  simp only at hr2
  obtain ⟨hE2, -, hA2, -⟩ := of_rest_cons _ _ _ hr2
  have hv := substr_rest _ body ('"' :: tail) hR
  simp only at hv
  have e1 : w.pos + 1 + body.length - (w.pos + 1) = body.length := by omega
  unfold stringLiteral
  simp only [hA, hR, hs, hE2, Bool.false_eq_true, if_false, e1, hv, hA2]

theorem stringLiteral_open (w : lexer) (text : List Char) (h : w.rest = '"' :: text)
    (hno : ¬ ∃ body tail, text = body ++ '"' :: tail ∧ escapedText body = true) :
    w.stringLiteral = .error .unterminatedString := by
  obtain ⟨hE, -, hA, hR⟩ := of_rest_cons _ _ _ h
  rw [hA] at hR
  have hs : scanString text (w.pos + 1) = w.pos + 1 + text.length := by
    rcases scanString_cases text.length text (w.pos + 1) (Nat.le_refl _) with hs | hs
    · exact hs
    · exact absurd hs hno
  have hlen : w.pos + 1 + text.length = w.src.length := by
    have h1 := rest_length ({ w with pos := w.pos + 1 } : lexer)
    rw [hR] at h1
    have h2 := pos_lt_of_not_isEOF w hE
    simp only at h1
    omega
  have hE2 := isEOF_of_pos w (w.pos + 1 + text.length) hlen
  unfold stringLiteral
  simp only [hA, hR, hs, hE2, if_true]

end lexer

/-- C33 (string literals).  Let the input that remains after the whitespace begin
with a double quote, followed by `text`.  `getNextToken` then runs
`stringLiteral`.  When `text` is `body`, a double quote and `tail`, where `body`
contains no double quote outside an escape and does not end inside an escape (a
backslash escapes exactly the one character after it), the token
`(T_STRINGLIT, body)` is returned and the position is just past that closing
quote.  `stringLiteral` throws the unterminated-string error exactly when `text`
has no such closing quote, and it throws no other error. -/
theorem string_literal_closing_quote (lx : lexer) (text : List Char)
    (h : lx.skipWhitespace.rest = '"' :: text) :
    lx.getNextToken = lx.skipWhitespace.stringLiteral ∧
    (∀ body tail, text = body ++ '"' :: tail → escapedText body = true →
      lx.getNextToken = .ok (⟨T_STRINGLIT, String.mk body⟩,
        { lx.skipWhitespace with pos := lx.skipWhitespace.pos + 1 + body.length + 1 })) ∧
    (lx.getNextToken = .error .unterminatedString ↔
      ¬ ∃ body tail, text = body ++ '"' :: tail ∧ escapedText body = true) ∧
    (∀ e, lx.getNextToken = .error e → e = .unterminatedString) := by
  obtain ⟨hE, hP, -, -⟩ := lexer.of_rest_cons _ _ _ h
  have hg : lx.getNextToken = lx.skipWhitespace.stringLiteral := by
    unfold lexer.getNextToken
    simp only [hE, hP, Bool.false_eq_true, if_false, lexer.tokenAt_quote]
  have hclosed : ∀ body tail, text = body ++ '"' :: tail → escapedText body = true →
      lx.getNextToken = .ok (⟨T_STRINGLIT, String.mk body⟩,
        { lx.skipWhitespace with pos := lx.skipWhitespace.pos + 1 + body.length + 1 }) := by
    intro body tail ht he
    rw [hg]
    exact lexer.stringLiteral_closed _ body tail (by rw [h, ht]) he
  refine ⟨hg, hclosed, ⟨fun herr hex => ?_, fun hno => ?_⟩, fun e herr => ?_⟩
  · obtain ⟨body, tail, ht, he⟩ := hex
    rw [hclosed body tail ht he] at herr
    exact Except.noConfusion herr
  · rw [hg]
    exact lexer.stringLiteral_open _ text h hno
  · by_cases hex : ∃ body tail, text = body ++ '"' :: tail ∧ escapedText body = true
    · obtain ⟨body, tail, ht, he⟩ := hex
      rw [hclosed body tail ht he] at herr
      exact Except.noConfusion herr
    · rw [hg, lexer.stringLiteral_open _ text h hex] at herr
      exact (Except.error.inj herr).symm

/-- Witness for C33: on `"a\"b" c` the literal ends at the second unescaped
quote, with the lexeme `a\"b`; `"ab`, `"a\"` and `"ab\` are unterminated. -/
theorem string_literal_closing_quote_witness :
    lexer.getNextToken ⟨"\"a\\\"b\" c".toList, 0⟩ =
      .ok (⟨T_STRINGLIT, "a\\\"b"⟩, ⟨"\"a\\\"b\" c".toList, 6⟩) ∧
    lexer.getNextToken ⟨"\"ab".toList, 0⟩ = .error .unterminatedString ∧
    lexer.getNextToken ⟨"\"a\\\"".toList, 0⟩ = .error .unterminatedString ∧
    lexer.getNextToken ⟨"\"ab\\".toList, 0⟩ = .error .unterminatedString :=
  ⟨(string_literal_closing_quote ⟨"\"a\\\"b\" c".toList, 0⟩ "a\\\"b\" c".toList rfl).2.1
      "a\\\"b".toList " c".toList rfl rfl,
   by decide!, by decide!, by decide!⟩

set_option maxRecDepth 4000 in
/-- C35 (assignment).  For identifiers `a`, `b`, `c`, assignment operators `A1`,
`A2` among `=`, `+=`, `-=`, `*=`, `/=` and a binary operator `OP` of the
precedence table, `parseExpression` returns, with any call-depth budget of at
least 20, the tree `Assignment(a, A1, Assignment(b, A2, c))` on `a A1 b A2 c` and
the tree `Assignment(a, A1, BinaryOp(OP, b, c))` on `a A1 b OP c`, and has then
consumed all five tokens. -/
theorem assignment_right_associative (a b c : String) (A1 A2 op : token) (l : Nat)
    (h1 : A1 ∈ assignmentOperators) (h2 : A2 ∈ assignmentOperators)
    (hop : (op, l) ∈ binaryOperators) (k : Nat) :
    Parser.parseExpression (k + 20) (threeOperands a b c A1 A2) =
      .ok (.AssignmentNode (.IdentifierNode a) A1.value
          (.AssignmentNode (.IdentifierNode b) A2.value (.IdentifierNode c)), Parser.atEnd) ∧
    Parser.parseExpression (k + 20) (threeOperands a b c A1 op) =
      .ok (.AssignmentNode (.IdentifierNode a) A1.value
          (.BinaryOpNode op.value (.IdentifierNode b) (.IdentifierNode c)), Parser.atEnd) := by
  simp only [assignmentOperators, binaryOperators, List.mem_cons, Prod.mk.injEq,
    List.mem_singleton, List.not_mem_nil, or_false] at h1 h2 hop
  constructor
  · clear hop
    repeat' (rcases h1 with rfl | h1)
    all_goals repeat' (rcases h2 with rfl | h2)
    all_goals rfl
  · clear h2
    repeat' (rcases h1 with rfl | h1)
    all_goals repeat' (rcases hop with ⟨rfl, rfl⟩ | hop)
    all_goals subst_vars
    all_goals rfl

/-- Witness for C35: `x = y += z` and `x = y + z` with a budget of 20. -/
theorem assignment_right_associative_witness :
    Parser.parseExpression 20
        (threeOperands "x" "y" "z" ⟨T_ASSIGNOP, "="⟩ ⟨T_PLUS_ASSIGN, "+="⟩) =
      .ok (.AssignmentNode (.IdentifierNode "x") "="
          (.AssignmentNode (.IdentifierNode "y") "+=" (.IdentifierNode "z")), Parser.atEnd) ∧
    Parser.parseExpression 20 (threeOperands "x" "y" "z" ⟨T_ASSIGNOP, "="⟩ ⟨T_PLUS, "+"⟩) =
      .ok (.AssignmentNode (.IdentifierNode "x") "="
          (.BinaryOpNode "+" (.IdentifierNode "y") (.IdentifierNode "z")), Parser.atEnd) :=
  assignment_right_associative "x" "y" "z" ⟨T_ASSIGNOP, "="⟩ ⟨T_PLUS_ASSIGN, "+="⟩
    ⟨T_PLUS, "+"⟩ 4 (by decide) (by decide) (by decide) 0

/-- C36 (`expect`).  When the kind of the current token is not `t`,
`expect(t, kind)` throws a `ParseError` that carries the current token, of kind
`UnexpectedEOF` when that token is `T_EOF` and of the kind `kind` otherwise; no
parser state is returned.  Hence a statement that is not followed by `;` is
rejected: when the token `q.cur` after the expression of a `return` statement,
after an expression statement, or after the name or the initializer of a
declaration is not `T_SEMICOLON`, `parseStatementOrDecl` throws the `ParseError`
with that token, of kind `UnexpectedEOF` at the end of the input and
`FailedToFindToken` otherwise. -/
theorem expect_mismatch_aborts (t : tokenType) (kind : ParseErrorKind) (p : Parser)
    (h : p.cur.type ≠ t) :
    Parser.expect t kind p =
      .error (.parseError ⟨if p.cur.type = T_EOF then .UnexpectedEOF else kind, p.cur⟩) ∧
    (∀ (n : Nat) (start p1 q : Parser) (e : Expr),
      start.cur.type = T_RETURN → start.advance = .ok p1 → p1.cur.type ≠ T_SEMICOLON →
      Parser.parseExpression n p1 = .ok (e, q) → q.cur.type ≠ T_SEMICOLON →
      Parser.parseStatementOrDecl (n + 1) start =
        .error (.parseError
          ⟨if q.cur.type = T_EOF then .UnexpectedEOF else .FailedToFindToken, q.cur⟩)) ∧
    (∀ (n : Nat) (start q : Parser) (e : Expr),
      start.cur.type ∉ [T_INT, T_FLOAT, T_BOOL, T_STRING, T_IF, T_WHILE, T_RETURN, T_BRACEL] →
      Parser.parseExpression n start = .ok (e, q) → q.cur.type ≠ T_SEMICOLON →
      Parser.parseStatementOrDecl (n + 1) start =
        .error (.parseError
          ⟨if q.cur.type = T_EOF then .UnexpectedEOF else .FailedToFindToken, q.cur⟩)) ∧
    (∀ (n : Nat) (start p1 q : Parser) (typeName : String),
      start.cur.type ∈ [T_INT, T_FLOAT, T_BOOL, T_STRING] →
      Parser.parseTypeName start = .ok (typeName, p1) → p1.cur.type = T_IDENTIFIER →
      p1.advance = .ok q → q.cur.type ≠ T_ASSIGNOP → q.cur.type ≠ T_SEMICOLON →
      Parser.parseStatementOrDecl (n + 1) start =
        .error (.parseError
          ⟨if q.cur.type = T_EOF then .UnexpectedEOF else .FailedToFindToken, q.cur⟩)) ∧
    (∀ (n : Nat) (start p1 p2 p3 q : Parser) (typeName : String) (e : Expr),
      start.cur.type ∈ [T_INT, T_FLOAT, T_BOOL, T_STRING] →
      Parser.parseTypeName start = .ok (typeName, p1) → p1.cur.type = T_IDENTIFIER →
      p1.advance = .ok p2 → p2.cur.type = T_ASSIGNOP → p2.advance = .ok p3 →
      Parser.parseExpression n p3 = .ok (e, q) → q.cur.type ≠ T_SEMICOLON →
      Parser.parseStatementOrDecl (n + 1) start =
        .error (.parseError
          ⟨if q.cur.type = T_EOF then .UnexpectedEOF else .FailedToFindToken, q.cur⟩)) := by
  have hexp : ∀ (k : ParseErrorKind) (q : Parser), q.cur.type ≠ T_SEMICOLON →
      Parser.expect T_SEMICOLON k q =
        .error (.parseError ⟨if q.cur.type = T_EOF then .UnexpectedEOF else k, q.cur⟩) := by
    intro k q hq
    unfold Parser.expect
    rw [if_pos hq]
    split <;> rfl
  refine ⟨?_, ?_, ?_, ?_, ?_⟩
  · unfold Parser.expect
    rw [if_pos h]
    split <;> rfl
  · intro n start p1 q e hs ha hp1 he hq
    have hcond : (start.cur.type = T_INT || start.cur.type = T_FLOAT ||
        start.cur.type = T_BOOL || start.cur.type = T_STRING) = false := by
      rw [hs]; rfl
    simp [Parser.parseStatementOrDecl, hcond, hs, ha, hp1, he, hexp _ q hq, bind,
      Except.bind, pure, Except.pure, Bool.false_eq_true, if_false, if_true, ne_eq,
      not_false_eq_true, reduceCtorEq]
  · intro n start q e hs he hq
    simp only [List.mem_cons, List.mem_singleton, List.not_mem_nil, or_false, not_or] at hs
    obtain ⟨h1, h2, h3, h4, h5, h6, h7, h8⟩ := hs
    simp [Parser.parseStatementOrDecl, h1, h2, h3, h4, h5, h6, h7, h8, he, hexp _ q hq,
      bind, Except.bind, decide_False, Bool.or_self, Bool.false_eq_true, if_false]
  · intro n start p1 q typeName hs ht hid ha hq1 hq2
    have hcond : (start.cur.type = T_INT || start.cur.type = T_FLOAT ||
        start.cur.type = T_BOOL || start.cur.type = T_STRING) = true := by
      simp only [List.mem_cons, List.mem_singleton, List.not_mem_nil, or_false] at hs
      rcases hs with hs | hs | hs | hs <;> rw [hs] <;> rfl
    simp [Parser.parseStatementOrDecl, hcond, ht, hid, ha, hq1, hexp _ q hq2, bind,
      Except.bind, pure, Except.pure, if_true, if_false, ne_eq, not_true_eq_false]
  · intro n start p1 p2 p3 q typeName e hs ht hid ha hp2 ha2 he hq
    have hcond : (start.cur.type = T_INT || start.cur.type = T_FLOAT ||
        start.cur.type = T_BOOL || start.cur.type = T_STRING) = true := by
      simp only [List.mem_cons, List.mem_singleton, List.not_mem_nil, or_false] at hs
      rcases hs with hs | hs | hs | hs <;> rw [hs] <;> rfl
    simp [Parser.parseStatementOrDecl, hcond, ht, hid, ha, hp2, ha2, he, hexp _ q hq, bind,
      Except.bind, pure, Except.pure, if_true, if_false, ne_eq, not_true_eq_false]

/-- Witness for C36: at the token `}` the call `expect(T_SEMICOLON,
FailedToFindToken)` throws `FailedToFindToken` with that token, and at the end
of the input `UnexpectedEOF`; the sample program of `main` in
`phase2/parser.cpp`, in which `return x` is followed by `}`, is rejected with
`FailedToFindToken` at that `}`. -/
theorem expect_mismatch_aborts_witness :
    Parser.expect T_SEMICOLON .FailedToFindToken ⟨⟨[], none⟩, ⟨T_BRACER, "\x7d"⟩⟩ =
      .error (.parseError ⟨.FailedToFindToken, ⟨T_BRACER, "\x7d"⟩⟩) ∧
    Parser.expect T_SEMICOLON .FailedToFindToken Parser.atEnd =
      .error (.parseError ⟨.UnexpectedEOF, ⟨T_EOF, ""⟩⟩) ∧
    TokenStream.ofSource ("fn int my_fn(int x, float y) \x7b string my_str = \"hmm\\n\"; " ++
        "int my_bool = true; if (x != 0 && y >= 2.5) \x7b return x \x7d " ++
        "else \x7b return \"oops\" \x7d \x7d") =
      ⟨[⟨T_FUNCTION, "fn"⟩, ⟨T_INT, "int"⟩, ⟨T_IDENTIFIER, "my_fn"⟩, ⟨T_PARENL, "("⟩,
        ⟨T_INT, "int"⟩, ⟨T_IDENTIFIER, "x"⟩, ⟨T_COMMA, ","⟩, ⟨T_FLOAT, "float"⟩,
        ⟨T_IDENTIFIER, "y"⟩, ⟨T_PARENR, ")"⟩, ⟨T_BRACEL, "\x7b"⟩,
        ⟨T_STRING, "string"⟩, ⟨T_IDENTIFIER, "my_str"⟩, ⟨T_ASSIGNOP, "="⟩,
        ⟨T_STRINGLIT, "hmm\\n"⟩, ⟨T_SEMICOLON, ";"⟩,
        ⟨T_INT, "int"⟩, ⟨T_IDENTIFIER, "my_bool"⟩, ⟨T_ASSIGNOP, "="⟩, ⟨T_BOOLLIT, "true"⟩,
        ⟨T_SEMICOLON, ";"⟩,
        ⟨T_IF, "if"⟩, ⟨T_PARENL, "("⟩, ⟨T_IDENTIFIER, "x"⟩, ⟨T_NOTEQOP, "!="⟩,
        ⟨T_INTLIT, "0"⟩, ⟨T_AND, "&&"⟩, ⟨T_IDENTIFIER, "y"⟩, ⟨T_GEQOP, ">="⟩,
        ⟨T_FLOATLIT, "2.5"⟩, ⟨T_PARENR, ")"⟩, ⟨T_BRACEL, "\x7b"⟩,
        ⟨T_RETURN, "return"⟩, ⟨T_IDENTIFIER, "x"⟩, ⟨T_BRACER, "\x7d"⟩,
        ⟨T_ELSE, "else"⟩, ⟨T_BRACEL, "\x7b"⟩, ⟨T_RETURN, "return"⟩,
        ⟨T_STRINGLIT, "oops"⟩, ⟨T_BRACER, "\x7d"⟩, ⟨T_BRACER, "\x7d"⟩], none⟩ ∧
    parseSource 40
      ⟨[⟨T_FUNCTION, "fn"⟩, ⟨T_INT, "int"⟩, ⟨T_IDENTIFIER, "my_fn"⟩, ⟨T_PARENL, "("⟩,
        ⟨T_INT, "int"⟩, ⟨T_IDENTIFIER, "x"⟩, ⟨T_COMMA, ","⟩, ⟨T_FLOAT, "float"⟩,
        ⟨T_IDENTIFIER, "y"⟩, ⟨T_PARENR, ")"⟩, ⟨T_BRACEL, "\x7b"⟩,
        ⟨T_STRING, "string"⟩, ⟨T_IDENTIFIER, "my_str"⟩, ⟨T_ASSIGNOP, "="⟩,
        ⟨T_STRINGLIT, "hmm\\n"⟩, ⟨T_SEMICOLON, ";"⟩,
        ⟨T_INT, "int"⟩, ⟨T_IDENTIFIER, "my_bool"⟩, ⟨T_ASSIGNOP, "="⟩, ⟨T_BOOLLIT, "true"⟩,
        ⟨T_SEMICOLON, ";"⟩,
        ⟨T_IF, "if"⟩, ⟨T_PARENL, "("⟩, ⟨T_IDENTIFIER, "x"⟩, ⟨T_NOTEQOP, "!="⟩,
        ⟨T_INTLIT, "0"⟩, ⟨T_AND, "&&"⟩, ⟨T_IDENTIFIER, "y"⟩, ⟨T_GEQOP, ">="⟩,
        ⟨T_FLOATLIT, "2.5"⟩, ⟨T_PARENR, ")"⟩, ⟨T_BRACEL, "\x7b"⟩,
        ⟨T_RETURN, "return"⟩, ⟨T_IDENTIFIER, "x"⟩, ⟨T_BRACER, "\x7d"⟩,
        ⟨T_ELSE, "else"⟩, ⟨T_BRACEL, "\x7b"⟩, ⟨T_RETURN, "return"⟩,
        ⟨T_STRINGLIT, "oops"⟩, ⟨T_BRACER, "\x7d"⟩, ⟨T_BRACER, "\x7d"⟩], none⟩ =
      .error (.parseError ⟨.FailedToFindToken, ⟨T_BRACER, "\x7d"⟩⟩) :=
  ⟨(expect_mismatch_aborts T_SEMICOLON .FailedToFindToken ⟨⟨[], none⟩, ⟨T_BRACER, "\x7d"⟩⟩
      (by decide)).1,
   rfl, by decide!, rfl⟩

/-- C34 (blocks).  The body of a function, the then-arm of an `if` and the body of
a `while` are what `parseBlock` returned, and the else arm of an `if`, when there
is one, is a block: let `parseIf` return the statement `st`; then `st` is an
`IfNode` whose then-arm was parsed by `parseBlock`; it has no else arm exactly
when the token after the then-arm is not `else`; after `else`, when the next
token is an opening brace the else arm is the block that `parseBlock` returns,
and otherwise it is the block made of the one statement that
`parseStatementOrDecl` returns.  The statement that `parseWhile` returns has the
result of `parseBlock` as its body, and so has the function that `parseFunction`
returns. -/
theorem else_arm_is_block (n : Nat) (p q : Parser) (st : Stmt)
    (h : Parser.parseIf (n + 1) p = .ok (st, q)) :
    (∃ (cond : Expr) (thenB : List Stmt) (elseArm : Option (List Stmt)) (p4 p5 : Parser),
      Parser.parseBlock n p4 = .ok (thenB, p5) ∧
      st = .IfNode cond thenB elseArm ∧
      (elseArm = none ↔ p5.cur.type ≠ T_ELSE) ∧
      (p5.cur.type ≠ T_ELSE → q = p5) ∧
      (p5.cur.type = T_ELSE → ∃ p6, p5.advance = .ok p6 ∧
        (p6.cur.type = T_BRACEL →
          ∃ elseB, Parser.parseBlock n p6 = .ok (elseB, q) ∧ elseArm = some elseB) ∧
        (p6.cur.type ≠ T_BRACEL →
          ∃ s, Parser.parseStatementOrDecl n p6 = .ok (s, q) ∧ elseArm = some [s]))) ∧
    (∀ (p q : Parser) (st : Stmt), Parser.parseWhile (n + 1) p = .ok (st, q) →
      ∃ (cond : Expr) (body : List Stmt) (p4 : Parser),
        Parser.parseBlock n p4 = .ok (body, q) ∧ st = .WhileNode cond body) ∧
    (∀ (p q : Parser) (item : Item), Parser.parseFunction n p = .ok (item, q) →
      ∃ (ret name : String) (params : List (String × String)) (body : List Stmt)
        (p6 : Parser),
        Parser.parseBlock n p6 = .ok (body, q) ∧ item = .FunctionNode ret name params body) := by
  refine ⟨?_, ?_, ?_⟩
  · simp only [Parser.parseIf, bind_eq_ok, Prod.exists] at h
    obtain ⟨p1, -, p2, -, cond, p3, -, p4, -, thenB, p5, hB, h⟩ := h
    by_cases hE : p5.cur.type = T_ELSE
    · rw [if_pos hE] at h
      simp only [bind_eq_ok] at h
      obtain ⟨p6, h6, h⟩ := h
      by_cases hL : p6.cur.type = T_BRACEL
      · rw [if_pos hL] at h
        simp only [bind_eq_ok, Prod.exists, pure_eq_ok, Prod.mk.injEq] at h
        obtain ⟨elseB, p7, h7, rfl, rfl⟩ := h
        refine ⟨cond, thenB, some elseB, p4, p5, hB, rfl, ?_, fun hne => absurd hE hne,
          fun _ => ⟨p6, h6, fun _ => ⟨elseB, h7, rfl⟩, fun hne => absurd hL hne⟩⟩
        constructor
        · intro hc
          exact Option.noConfusion hc
        · intro hne
          exact absurd hE hne
      · rw [if_neg hL] at h
        simp only [bind_eq_ok, Prod.exists, pure_eq_ok, Prod.mk.injEq] at h
        obtain ⟨s, p7, h7, rfl, rfl⟩ := h
        refine ⟨cond, thenB, some [s], p4, p5, hB, rfl, ?_, fun hne => absurd hE hne,
          fun _ => ⟨p6, h6, fun hl => absurd hl hL, fun _ => ⟨s, h7, rfl⟩⟩⟩
        constructor
        · intro hc
          exact Option.noConfusion hc
        · intro hne
          exact absurd hE hne
    · rw [if_neg hE] at h
      simp only [pure_eq_ok, Prod.mk.injEq] at h
      obtain ⟨rfl, rfl⟩ := h
      exact ⟨cond, thenB, none, p4, p5, hB, rfl, ⟨fun _ => hE, fun _ => rfl⟩, fun _ => rfl,
        fun he => absurd he hE⟩
  · intro p q st h
    simp only [Parser.parseWhile, bind_eq_ok, Prod.exists, pure_eq_ok, Prod.mk.injEq] at h
    obtain ⟨p1, -, p2, -, cond, p3, -, p4, -, body, p5, hB, rfl, rfl⟩ := h
    exact ⟨cond, body, p4, hB, rfl⟩
  · intro p q item h
    simp only [Parser.parseFunction, bind_eq_ok, Prod.exists] at h
    obtain ⟨p1, -, ret, p2, -, h⟩ := h
    split at h
    · simp [throw, throwThe, MonadExceptOf.throw, bind, Except.bind] at h
    · simp only [pure_bind, bind_eq_ok, Prod.exists, pure_eq_ok, Prod.mk.injEq] at h
      obtain ⟨p3, -, p4, -, params, p5, -, p6, -, body, p7, hB, rfl, rfl⟩ := h
      exact ⟨ret, _, params, body, p6, hB, rfl⟩

/-- Witness for C34, on the tokens of `if (a) { } else b;`, of
`if (a) { } else if (b) { }` and of `if (a) { } else { b; }`: the else arm is the
block of the one statement `b;`, the block of the one inner `if`, and the parsed
block; the body of `while (a) { }` is the block that `parseBlock` returned. -/
theorem else_arm_is_block_witness :
    parseSource 30 ⟨[⟨T_IF, "if"⟩, ⟨T_PARENL, "("⟩, ⟨T_IDENTIFIER, "a"⟩, ⟨T_PARENR, ")"⟩,
        ⟨T_BRACEL, "\x7b"⟩, ⟨T_BRACER, "\x7d"⟩, ⟨T_ELSE, "else"⟩, ⟨T_IDENTIFIER, "b"⟩,
        ⟨T_SEMICOLON, ";"⟩], none⟩ =
      .ok ⟨[.Statement (.IfNode (.IdentifierNode "a") []
        (some [.ExprStmtNode (.IdentifierNode "b")]))]⟩ ∧
    parseSource 30 ⟨[⟨T_IF, "if"⟩, ⟨T_PARENL, "("⟩, ⟨T_IDENTIFIER, "a"⟩, ⟨T_PARENR, ")"⟩,
        ⟨T_BRACEL, "\x7b"⟩, ⟨T_BRACER, "\x7d"⟩, ⟨T_ELSE, "else"⟩,
        ⟨T_IF, "if"⟩, ⟨T_PARENL, "("⟩, ⟨T_IDENTIFIER, "b"⟩, ⟨T_PARENR, ")"⟩,
        ⟨T_BRACEL, "\x7b"⟩, ⟨T_BRACER, "\x7d"⟩], none⟩ =
      .ok ⟨[.Statement (.IfNode (.IdentifierNode "a") []
        (some [.IfNode (.IdentifierNode "b") [] none]))]⟩ ∧
    parseSource 30 ⟨[⟨T_IF, "if"⟩, ⟨T_PARENL, "("⟩, ⟨T_IDENTIFIER, "a"⟩, ⟨T_PARENR, ")"⟩,
        ⟨T_BRACEL, "\x7b"⟩, ⟨T_BRACER, "\x7d"⟩, ⟨T_ELSE, "else"⟩, ⟨T_BRACEL, "\x7b"⟩,
        ⟨T_IDENTIFIER, "b"⟩, ⟨T_SEMICOLON, ";"⟩, ⟨T_BRACER, "\x7d"⟩], none⟩ =
      .ok ⟨[.Statement (.IfNode (.IdentifierNode "a") []
        (some [.ExprStmtNode (.IdentifierNode "b")]))]⟩ ∧
    ∃ (cond : Expr) (body : List Stmt) (p4 : Parser),
      Parser.parseBlock 19 p4 = .ok (body, Parser.atEnd) ∧
        Stmt.WhileNode (.IdentifierNode "a") [] = .WhileNode cond body :=
  ⟨rfl, rfl, rfl,
   (else_arm_is_block 19
      ⟨⟨[⟨T_PARENL, "("⟩, ⟨T_IDENTIFIER, "a"⟩, ⟨T_PARENR, ")"⟩, ⟨T_BRACEL, "\x7b"⟩,
        ⟨T_BRACER, "\x7d"⟩, ⟨T_ELSE, "else"⟩, ⟨T_IDENTIFIER, "b"⟩, ⟨T_SEMICOLON, ";"⟩],
        none⟩, ⟨T_IF, "if"⟩⟩
      Parser.atEnd
      (.IfNode (.IdentifierNode "a") [] (some [.ExprStmtNode (.IdentifierNode "b")]))
      rfl).2.1
    ⟨⟨[⟨T_PARENL, "("⟩, ⟨T_IDENTIFIER, "a"⟩, ⟨T_PARENR, ")"⟩, ⟨T_BRACEL, "\x7b"⟩,
        ⟨T_BRACER, "\x7d"⟩], none⟩, ⟨T_WHILE, "while"⟩⟩
    Parser.atEnd (.WhileNode (.IdentifierNode "a") []) rfl⟩

theorem token_ite_ok (c : Prop) [Decidable c] (a b : token) (ha : c → a.TypeNameOk)
    (hb : ¬c → b.TypeNameOk) : (if c then a else b).TypeNameOk := by
  split
  · exact ha (by assumption)
  · exact hb (by assumption)

theorem token.typeNameOk_of_type {t : token}
    (h : t.type ≠ T_INT ∧ t.type ≠ T_FLOAT ∧ t.type ≠ T_BOOL ∧ t.type ≠ T_STRING) :
    t.TypeNameOk :=
  ⟨fun e => absurd e h.1, fun e => absurd e h.2.1, fun e => absurd e h.2.2.1,
    fun e => absurd e h.2.2.2⟩

theorem keywordOrIdentifier_typeNameOk (val : String) : (keywordOrIdentifier val).TypeNameOk := by
  unfold keywordOrIdentifier
  repeat' (first | apply token_ite_ok | intro hc)
  all_goals first
    | exact token.typeNameOk_of_type ⟨fun h => tokenType.noConfusion h,
        fun h => tokenType.noConfusion h, fun h => tokenType.noConfusion h,
        fun h => tokenType.noConfusion h⟩
    | exact ⟨fun _ => hc, fun h => tokenType.noConfusion h, fun h => tokenType.noConfusion h,
        fun h => tokenType.noConfusion h⟩
    | exact ⟨fun h => tokenType.noConfusion h, fun _ => hc, fun h => tokenType.noConfusion h,
        fun h => tokenType.noConfusion h⟩
    | exact ⟨fun h => tokenType.noConfusion h, fun h => tokenType.noConfusion h, fun _ => hc,
        fun h => tokenType.noConfusion h⟩
    | exact ⟨fun h => tokenType.noConfusion h, fun h => tokenType.noConfusion h,
        fun h => tokenType.noConfusion h, fun _ => hc⟩

namespace lexer

theorem number_typeNameOk (w : lexer) (t : token) (lx1 : lexer)
    (h : w.number = .ok (t, lx1)) : t.TypeNameOk := by
  unfold number at h
  simp only at h
  repeat' (split at h)
  all_goals
    cases h <;>
    exact token.typeNameOk_of_type ⟨fun h => tokenType.noConfusion h,
      fun h => tokenType.noConfusion h, fun h => tokenType.noConfusion h,
      fun h => tokenType.noConfusion h⟩

theorem stringLiteral_typeNameOk (w : lexer) (t : token) (lx1 : lexer)
    (h : w.stringLiteral = .ok (t, lx1)) : t.TypeNameOk := by
  unfold stringLiteral at h
  simp only at h
  repeat' (split at h)
  all_goals
    cases h <;>
    exact token.typeNameOk_of_type ⟨fun h => tokenType.noConfusion h,
      fun h => tokenType.noConfusion h, fun h => tokenType.noConfusion h,
      fun h => tokenType.noConfusion h⟩

theorem comment_typeNameOk (w : lexer) (t : token) (lx1 : lexer)
    (h : w.comment = .ok (t, lx1)) : t.TypeNameOk := by
  unfold comment at h
  simp only at h
  repeat' (split at h)
  all_goals
    cases h <;>
    exact token.typeNameOk_of_type ⟨fun h => tokenType.noConfusion h,
      fun h => tokenType.noConfusion h, fun h => tokenType.noConfusion h,
      fun h => tokenType.noConfusion h⟩

set_option maxHeartbeats 1000000 in
theorem tokenAt_typeNameOk (w : lexer) (c : Char) (t : token) (lx1 : lexer)
    (h : w.tokenAt c = .ok (t, lx1)) : t.TypeNameOk := by
  unfold tokenAt at h
  repeat' (with_reducible (refine ite_ok_elim h (fun hc h2 => ?_) (fun hc h2 => ?_)) <;>
    (clear h; rename' h2 => h))
  all_goals first
    | (exfalso; contradiction)
    | exact comment_typeNameOk _ _ _ h
    | exact number_typeNameOk _ _ _ h
    | exact stringLiteral_typeNameOk _ _ _ h
    | (have hk := Except.ok.inj h
       have h3 := keywordOrIdentifier_typeNameOk
         (substr w.src w.pos ((w.identifierOrKeyword).2.pos - w.pos))
       have h4 : (w.identifierOrKeyword).1 = t := congrArg Prod.fst hk
       rw [← h4]
       exact h3)
    | (have hk := Prod.mk.inj (Except.ok.inj h)
       obtain ⟨rfl, -⟩ := hk
       exact token.typeNameOk_of_type ⟨fun h => tokenType.noConfusion h,
         fun h => tokenType.noConfusion h, fun h => tokenType.noConfusion h,
         fun h => tokenType.noConfusion h⟩)

theorem getNextToken_typeNameOk (lx : lexer) (t : token) (lx1 : lexer)
    (h : lx.getNextToken = .ok (t, lx1)) : t.TypeNameOk := by
  rcases getNextToken_cases lx t lx1 h with ⟨-, rfl, -⟩ | ⟨-, ht⟩
  · exact token.typeNameOk_of_type ⟨fun h => tokenType.noConfusion h,
      fun h => tokenType.noConfusion h, fun h => tokenType.noConfusion h,
      fun h => tokenType.noConfusion h⟩
  · exact tokenAt_typeNameOk _ _ t lx1 ht

end lexer

/-- The tokens that the loop of `main` has printed. -/
theorem LexRun.push_tokens (t : token) (r : LexRun) (P : token → Prop) (ht : P t)
    (hr : match r with
      | .eof ts => ∀ x ∈ ts, P x
      | .failed ts _ => ∀ x ∈ ts, P x
      | .unfinished ts => ∀ x ∈ ts, P x) :
    match r.push t with
    | .eof ts => ∀ x ∈ ts, P x
    | .failed ts _ => ∀ x ∈ ts, P x
    | .unfinished ts => ∀ x ∈ ts, P x := by
  cases r with
  | eof ts =>
    intro x hx
    rcases List.mem_cons.mp hx with rfl | hx
    · exact ht
    · exact hr x hx
  | failed ts e =>
    intro x hx
    rcases List.mem_cons.mp hx with rfl | hx
    · exact ht
    · exact hr x hx
  | unfinished ts =>
    intro x hx
    rcases List.mem_cons.mp hx with rfl | hx
    · exact ht
    · exact hr x hx

theorem tokenize_typeNamesOk : ∀ (fuel : Nat) (lx : lexer),
    match tokenize fuel lx with
    | .eof ts => ∀ x ∈ ts, x.TypeNameOk
    | .failed ts _ => ∀ x ∈ ts, x.TypeNameOk
    | .unfinished ts => ∀ x ∈ ts, x.TypeNameOk
  | 0, _ => by
    simp [tokenize]
  | fuel + 1, lx => by
    rw [tokenize]
    cases hg : lx.getNextToken with
    | error e => simp
    | ok r =>
      obtain ⟨t, lx1⟩ := r
      simp only
      by_cases he : t.type = T_EOF
      · rw [if_pos he]
        intro x hx
        cases hx
      · rw [if_neg he]
        exact LexRun.push_tokens t _ _ (lexer.getNextToken_typeNameOk lx t lx1 hg)
          (tokenize_typeNamesOk fuel lx1)

/-- The answers of the hand-written lexer have the lexemes of their type
keywords. -/
theorem ofSource_typeNamesOk (src : String) : (TokenStream.ofSource src).TypeNamesOk := by
  have h := tokenize_typeNamesOk (src.length + 1) ⟨src.toList, 0⟩
  unfold TokenStream.ofSource TokenStream.TypeNamesOk
  cases hr : tokenize (src.length + 1) ⟨src.toList, 0⟩ with
  | eof ts =>
    rw [hr] at h
    exact h
  | failed ts e =>
    rw [hr] at h
    exact h
  | unfinished ts =>
    rw [hr] at h
    exact h

namespace Parser

theorem returns_pure {α : Type} {a : α} {Q : α → Prop} (h : Q a) :
    Returns (pure a : Except ParseFailure α) Q := h

theorem returns_error {α : Type} (e : ParseFailure) (Q : α → Prop) :
    Returns (.error e : Except ParseFailure α) Q := trivial

theorem returns_bind {α β : Type} {x : Except ParseFailure α} {f : α → Except ParseFailure β}
    {Q : α → Prop} {R : β → Prop} (hx : Returns x Q) (hf : ∀ a, Q a → Returns (f a) R) :
    Returns (x >>= f) R := by
  cases x with
  | ok a => exact hf a hx
  | error e => trivial

theorem returns_weaken {α : Type} {x : Except ParseFailure α} {Q R : α → Prop}
    (hx : Returns x Q) (h : ∀ a, Q a → R a) : Returns x R := by
  cases x with
  | ok a => exact h a hx
  | error e => trivial

theorem returns_ite {α : Type} {c : Prop} [Decidable c] {x y : Except ParseFailure α}
    {Q : α → Prop} (hx : c → Returns x Q) (hy : ¬c → Returns y Q) :
    Returns (if c then x else y) Q := by
  split
  · exact hx (by assumption)
  · exact hy (by assumption)

theorem returns_unit {β : Type} {f : PUnit → Except ParseFailure β} {R : β → Prop}
    (h : Returns (f PUnit.unit) R) : Returns (pure PUnit.unit >>= f) R := h

theorem returns_of_ok {α : Type} {x : Except ParseFailure α} {Q : α → Prop} {a : α}
    (hx : Returns x Q) (h : x = .ok a) : Q a := by
  subst h
  exact hx

theorem eof_typeNameOk : (⟨T_EOF, ""⟩ : token).TypeNameOk :=
  ⟨fun h => tokenType.noConfusion h, fun h => tokenType.noConfusion h,
    fun h => tokenType.noConfusion h, fun h => tokenType.noConfusion h⟩

theorem advanceLoop_returns : ∀ (ts : List token) (f : Option LexerError),
    (∀ t ∈ ts, t.TypeNameOk) → Returns (advanceLoop ts f) TokensOk
  | [], none, _ => ⟨eof_typeNameOk, fun t ht => by cases ht⟩
  | [], some e, _ => trivial
  | t :: r, f, h => by
    rw [advanceLoop]
    refine returns_ite (fun _ => ?_) (fun _ => ?_)
    · exact advanceLoop_returns r f (fun x hx => h x (List.mem_cons_of_mem _ hx))
    · exact ⟨h t (List.mem_cons_self _ _), fun x hx => h x (List.mem_cons_of_mem _ hx)⟩

theorem advance_returns (p : Parser) (h : p.TokensOk) : Returns p.advance TokensOk :=
  advanceLoop_returns _ _ h.2

theorem new_returns (lx : TokenStream) (h : lx.TypeNamesOk) : Returns (Parser.new lx) TokensOk :=
  advanceLoop_returns _ _ h

theorem expect_returns (t : tokenType) (kind : ParseErrorKind) (p : Parser) (h : p.TokensOk) :
    Returns (expect t kind p) TokensOk := by
  unfold expect
  refine returns_ite (fun _ => returns_ite (fun _ => trivial) (fun _ => trivial))
    (fun _ => advance_returns p h)

theorem parseTypeName_returns (p : Parser) (h : p.TokensOk) :
    Returns (parseTypeName p) (fun r => r.1 ∈ basicTypes ∧ r.2.TokensOk) := by
  unfold parseTypeName
  refine returns_ite (fun hc => ?_) (fun _ => trivial)
  refine returns_bind (advance_returns p h) (fun p1 h1 => returns_pure ⟨?_, h1⟩)
  simp only [Bool.or_eq_true, decide_eq_true_eq] at hc
  obtain ⟨h1, h2, h3, h4⟩ := h.1
  rcases hc with ((hc | hc) | hc) | hc
  · simp [basicTypes, h1 hc]
  · simp [basicTypes, h2 hc]
  · simp [basicTypes, h3 hc]
  · simp [basicTypes, h4 hc]

theorem parsePrimary_returns (pe : Parser → Except ParseFailure (Expr × Parser))
    (hpe : ∀ q, q.TokensOk → Returns (pe q) (fun r => r.2.TokensOk))
    (p : Parser) (h : p.TokensOk) :
    Returns (parsePrimary pe p) (fun r => r.2.TokensOk) := by
  unfold parsePrimary
  refine returns_ite (fun _ => ?_) (fun _ => ?_)
  · exact returns_bind (advance_returns p h) (fun p1 h1 => returns_pure h1)
  refine returns_ite (fun _ => ?_) (fun _ => ?_)
  · exact returns_bind (advance_returns p h) (fun p1 h1 => returns_pure h1)
  refine returns_ite (fun _ => ?_) (fun _ => ?_)
  · exact returns_bind (advance_returns p h) (fun p1 h1 => returns_pure h1)
  refine returns_ite (fun _ => ?_) (fun _ => ?_)
  · exact returns_bind (advance_returns p h) (fun p1 h1 => returns_pure h1)
  refine returns_ite (fun _ => ?_) (fun _ => ?_)
  · exact returns_bind (advance_returns p h) (fun p1 h1 => returns_pure h1)
  refine returns_ite (fun _ => ?_) (fun _ => ?_)
  · refine returns_bind (advance_returns p h) (fun p1 h1 => ?_)
    refine returns_bind (hpe p1 h1) (fun ⟨e, p2⟩ h2 => ?_)
    exact returns_bind (expect_returns _ _ p2 h2) (fun p3 h3 => returns_pure h3)
  · split <;> trivial

mutual

theorem parseExpression_returns : ∀ (n : Nat) (p : Parser), p.TokensOk →
    Returns (parseExpression n p) (fun r => r.2.TokensOk)
  | 0, _, _ => trivial
  | n + 1, p, h => by
    rw [parseExpression]
    exact returns_ite (fun _ => trivial) (fun _ => parseAssignment_returns n p h)

theorem parseAssignment_returns : ∀ (n : Nat) (p : Parser), p.TokensOk →
    Returns (parseAssignment n p) (fun r => r.2.TokensOk)
  | 0, _, _ => trivial
  | n + 1, p, h => by
    rw [parseAssignment]
    refine returns_bind (parseLogicalOr_returns n p h) (fun ⟨left, p1⟩ h1 => ?_)
    refine returns_ite (fun _ => ?_) (fun _ => returns_pure h1)
    refine returns_bind (advance_returns p1 h1) (fun p2 h2 => ?_)
    exact returns_bind (parseAssignment_returns n p2 h2) (fun ⟨right, p3⟩ h3 => returns_pure h3)

theorem parseLogicalOr_returns : ∀ (n : Nat) (p : Parser), p.TokensOk →
    Returns (parseLogicalOr n p) (fun r => r.2.TokensOk)
  | 0, _, _ => trivial
  | n + 1, p, h => by
    rw [parseLogicalOr]
    exact returns_bind (parseLogicalAnd_returns n p h)
      (fun ⟨node, p1⟩ h1 => parseLogicalOrLoop_returns n node p1 h1)

theorem parseLogicalOrLoop_returns : ∀ (n : Nat) (node : Expr) (p : Parser), p.TokensOk →
    Returns (parseLogicalOrLoop n node p) (fun r => r.2.TokensOk)
  | 0, _, _, _ => trivial
  | n + 1, node, p, h => by
    rw [parseLogicalOrLoop]
    refine returns_ite (fun _ => ?_) (fun _ => returns_pure h)
    refine returns_bind (advance_returns p h) (fun p1 h1 => ?_)
    exact returns_bind (parseLogicalAnd_returns n p1 h1)
      (fun ⟨rhs, p2⟩ h2 => parseLogicalOrLoop_returns n _ p2 h2)

theorem parseLogicalAnd_returns : ∀ (n : Nat) (p : Parser), p.TokensOk →
    Returns (parseLogicalAnd n p) (fun r => r.2.TokensOk)
  | 0, _, _ => trivial
  | n + 1, p, h => by
    rw [parseLogicalAnd]
    exact returns_bind (parseEquality_returns n p h)
      (fun ⟨node, p1⟩ h1 => parseLogicalAndLoop_returns n node p1 h1)

theorem parseLogicalAndLoop_returns : ∀ (n : Nat) (node : Expr) (p : Parser), p.TokensOk →
    Returns (parseLogicalAndLoop n node p) (fun r => r.2.TokensOk)
  | 0, _, _, _ => trivial
  | n + 1, node, p, h => by
    rw [parseLogicalAndLoop]
    refine returns_ite (fun _ => ?_) (fun _ => returns_pure h)
    refine returns_bind (advance_returns p h) (fun p1 h1 => ?_)
    exact returns_bind (parseEquality_returns n p1 h1)
      (fun ⟨rhs, p2⟩ h2 => parseLogicalAndLoop_returns n _ p2 h2)

theorem parseEquality_returns : ∀ (n : Nat) (p : Parser), p.TokensOk →
    Returns (parseEquality n p) (fun r => r.2.TokensOk)
  | 0, _, _ => trivial
  | n + 1, p, h => by
    rw [parseEquality]
    exact returns_bind (parseRelational_returns n p h)
      (fun ⟨node, p1⟩ h1 => parseEqualityLoop_returns n node p1 h1)

theorem parseEqualityLoop_returns : ∀ (n : Nat) (node : Expr) (p : Parser), p.TokensOk →
    Returns (parseEqualityLoop n node p) (fun r => r.2.TokensOk)
  | 0, _, _, _ => trivial
  | n + 1, node, p, h => by
    rw [parseEqualityLoop]
    refine returns_ite (fun _ => ?_) (fun _ => returns_pure h)
    refine returns_bind (advance_returns p h) (fun p1 h1 => ?_)
    exact returns_bind (parseRelational_returns n p1 h1)
      (fun ⟨rhs, p2⟩ h2 => parseEqualityLoop_returns n _ p2 h2)

theorem parseRelational_returns : ∀ (n : Nat) (p : Parser), p.TokensOk →
    Returns (parseRelational n p) (fun r => r.2.TokensOk)
  | 0, _, _ => trivial
  | n + 1, p, h => by
    rw [parseRelational]
    exact returns_bind (parseAdditive_returns n p h)
      (fun ⟨node, p1⟩ h1 => parseRelationalLoop_returns n node p1 h1)

theorem parseRelationalLoop_returns : ∀ (n : Nat) (node : Expr) (p : Parser), p.TokensOk →
    Returns (parseRelationalLoop n node p) (fun r => r.2.TokensOk)
  | 0, _, _, _ => trivial
  | n + 1, node, p, h => by
    rw [parseRelationalLoop]
    refine returns_ite (fun _ => ?_) (fun _ => returns_pure h)
    refine returns_bind (advance_returns p h) (fun p1 h1 => ?_)
    exact returns_bind (parseAdditive_returns n p1 h1)
      (fun ⟨rhs, p2⟩ h2 => parseRelationalLoop_returns n _ p2 h2)

theorem parseAdditive_returns : ∀ (n : Nat) (p : Parser), p.TokensOk →
    Returns (parseAdditive n p) (fun r => r.2.TokensOk)
  | 0, _, _ => trivial
  | n + 1, p, h => by
    rw [parseAdditive]
    exact returns_bind (parseMultiplicative_returns n p h)
      (fun ⟨node, p1⟩ h1 => parseAdditiveLoop_returns n node p1 h1)

theorem parseAdditiveLoop_returns : ∀ (n : Nat) (node : Expr) (p : Parser), p.TokensOk →
    Returns (parseAdditiveLoop n node p) (fun r => r.2.TokensOk)
  | 0, _, _, _ => trivial
  | n + 1, node, p, h => by
    rw [parseAdditiveLoop]
    refine returns_ite (fun _ => ?_) (fun _ => returns_pure h)
    refine returns_bind (advance_returns p h) (fun p1 h1 => ?_)
    exact returns_bind (parseMultiplicative_returns n p1 h1)
      (fun ⟨rhs, p2⟩ h2 => parseAdditiveLoop_returns n _ p2 h2)

theorem parseMultiplicative_returns : ∀ (n : Nat) (p : Parser), p.TokensOk →
    Returns (parseMultiplicative n p) (fun r => r.2.TokensOk)
  | 0, _, _ => trivial
  | n + 1, p, h => by
    rw [parseMultiplicative]
    exact returns_bind (parseUnary_returns n p h)
      (fun ⟨node, p1⟩ h1 => parseMultiplicativeLoop_returns n node p1 h1)

theorem parseMultiplicativeLoop_returns : ∀ (n : Nat) (node : Expr) (p : Parser), p.TokensOk →
    Returns (parseMultiplicativeLoop n node p) (fun r => r.2.TokensOk)
  | 0, _, _, _ => trivial
  | n + 1, node, p, h => by
    rw [parseMultiplicativeLoop]
    refine returns_ite (fun _ => ?_) (fun _ => returns_pure h)
    refine returns_bind (advance_returns p h) (fun p1 h1 => ?_)
    exact returns_bind (parseUnary_returns n p1 h1)
      (fun ⟨rhs, p2⟩ h2 => parseMultiplicativeLoop_returns n _ p2 h2)

theorem parseUnary_returns : ∀ (n : Nat) (p : Parser), p.TokensOk →
    Returns (parseUnary n p) (fun r => r.2.TokensOk)
  | 0, _, _ => trivial
  | n + 1, p, h => by
    rw [parseUnary]
    refine returns_ite (fun _ => ?_) (fun _ => ?_)
    · refine returns_bind (advance_returns p h) (fun p1 h1 => ?_)
      exact returns_bind (parseUnary_returns n p1 h1) (fun ⟨operand, p2⟩ h2 => returns_pure h2)
    refine returns_ite (fun _ => ?_) (fun _ => parsePostfix_returns n p h)
    refine returns_bind (advance_returns p h) (fun p1 h1 => ?_)
    exact returns_bind (parseUnary_returns n p1 h1) (fun ⟨operand, p2⟩ h2 => returns_pure h2)

theorem parsePostfix_returns : ∀ (n : Nat) (p : Parser), p.TokensOk →
    Returns (parsePostfix n p) (fun r => r.2.TokensOk)
  | 0, _, _ => trivial
  | n + 1, p, h => by
    rw [parsePostfix]
    exact returns_bind (parsePrimary_returns _ (parseExpression_returns n) p h)
      (fun ⟨node, p1⟩ h1 => parsePostfixLoop_returns n node p1 h1)

theorem parsePostfixLoop_returns : ∀ (n : Nat) (node : Expr) (p : Parser), p.TokensOk →
    Returns (parsePostfixLoop n node p) (fun r => r.2.TokensOk)
  | 0, _, _, _ => trivial
  | n + 1, node, p, h => by
    rw [parsePostfixLoop]
    refine returns_ite (fun _ => ?_) (fun _ => ?_)
    · refine returns_bind (advance_returns p h) (fun p1 h1 => ?_)
      have hargs : Returns (if p1.cur.type ≠ T_PARENR then parseArgs n [] p1 else pure ([], p1))
          (fun r => r.2.TokensOk) :=
        returns_ite (fun _ => parseArgs_returns n [] p1 h1) (fun _ => returns_pure h1)
      refine returns_bind hargs (fun ⟨args, p2⟩ h2 => ?_)
      exact returns_bind (expect_returns _ _ p2 h2)
        (fun p3 h3 => parsePostfixLoop_returns n _ p3 h3)
    refine returns_ite (fun _ => ?_) (fun _ => returns_pure h)
    exact returns_bind (advance_returns p h) (fun p1 h1 => parsePostfixLoop_returns n _ p1 h1)

theorem parseArgs_returns : ∀ (n : Nat) (args : List Expr) (p : Parser), p.TokensOk →
    Returns (parseArgs n args p) (fun r => r.2.TokensOk)
  | 0, _, _, _ => trivial
  | n + 1, args, p, h => by
    rw [parseArgs]
    refine returns_bind (parseExpression_returns n p h) (fun ⟨e, p1⟩ h1 => ?_)
    refine returns_ite (fun _ => ?_) (fun _ => returns_pure h1)
    exact returns_bind (advance_returns p1 h1) (fun p2 h2 => parseArgs_returns n _ p2 h2)

end

end Parser

theorem Stmt.allTypesBasic_append : ∀ (xs ys : List Stmt),
    Stmt.allTypesBasic (xs ++ ys) = (Stmt.allTypesBasic xs && Stmt.allTypesBasic ys)
  | [], ys => by simp [Stmt.allTypesBasic]
  | x :: xs, ys => by
    simp [Stmt.allTypesBasic, Stmt.allTypesBasic_append xs ys, Bool.and_assoc]

theorem Stmt.allTypesBasic_snoc (xs : List Stmt) (s : Stmt)
    (hx : Stmt.allTypesBasic xs = true) (hs : s.typesBasic = true) :
    Stmt.allTypesBasic (xs ++ [s]) = true := by
  simp [Stmt.allTypesBasic_append, Stmt.allTypesBasic, hx, hs]

namespace Parser

mutual

theorem parseBlock_returns : ∀ (n : Nat) (p : Parser), p.TokensOk →
    Returns (parseBlock n p) (fun r => Stmt.allTypesBasic r.1 = true ∧ r.2.TokensOk)
  | 0, _, _ => trivial
  | n + 1, p, h => by
    rw [parseBlock]
    refine returns_bind (expect_returns _ _ p h) (fun p1 h1 => ?_)
    refine returns_bind (parseBlockLoop_returns n [] p1 rfl h1) (fun ⟨stmts, p2⟩ h2 => ?_)
    exact returns_bind (expect_returns _ _ p2 h2.2) (fun p3 h3 => returns_pure ⟨h2.1, h3⟩)

theorem parseBlockLoop_returns : ∀ (n : Nat) (stmts : List Stmt) (p : Parser),
    Stmt.allTypesBasic stmts = true → p.TokensOk →
    Returns (parseBlockLoop n stmts p) (fun r => Stmt.allTypesBasic r.1 = true ∧ r.2.TokensOk)
  | 0, _, _, _, _ => trivial
  | n + 1, stmts, p, hs, h => by
    rw [parseBlockLoop]
    refine returns_ite (fun _ => ?_) (fun _ => returns_pure ⟨hs, h⟩)
    exact returns_bind (parseStatementOrDecl_returns n p h)
      (fun ⟨s, p1⟩ h1 => parseBlockLoop_returns n _ p1 (Stmt.allTypesBasic_snoc _ _ hs h1.1) h1.2)

theorem parseStatementOrDecl_returns : ∀ (n : Nat) (p : Parser), p.TokensOk →
    Returns (parseStatementOrDecl n p) (fun r => r.1.typesBasic = true ∧ r.2.TokensOk)
  | 0, _, _ => trivial
  | n + 1, p, h => by
    rw [parseStatementOrDecl]
    refine returns_ite (fun _ => ?_) (fun _ => ?_)
    · refine returns_bind (parseTypeName_returns p h) (fun ⟨tname, p1⟩ h1 => ?_)
      refine returns_ite (fun _ => trivial) (fun _ => returns_unit ?_)
      refine returns_bind (advance_returns p1 h1.2) (fun p2 h2 => ?_)
      have hinit : Returns (if p2.cur.type = T_ASSIGNOP then do
            let p3 ← p2.advance
            let (e, p4) ← parseExpression n p3
            pure (some e, p4)
          else pure (none, p2)) (fun r => r.2.TokensOk) := by
        refine returns_ite (fun _ => ?_) (fun _ => returns_pure h2)
        refine returns_bind (advance_returns p2 h2) (fun p3 h3 => ?_)
        exact returns_bind (parseExpression_returns n p3 h3) (fun ⟨e, p4⟩ h4 => returns_pure h4)
      refine returns_bind hinit (fun ⟨init, p4⟩ h4 => ?_)
      refine returns_bind (expect_returns _ _ p4 h4) (fun p5 h5 => returns_pure ⟨?_, h5⟩)
      simpa [Stmt.typesBasic] using h1.1
    refine returns_ite (fun _ => parseIf_returns n p h) (fun _ => ?_)
    refine returns_ite (fun _ => parseWhile_returns n p h) (fun _ => ?_)
    refine returns_ite (fun _ => ?_) (fun _ => ?_)
    · refine returns_bind (advance_returns p h) (fun p1 h1 => ?_)
      have hexpr : Returns (if p1.cur.type ≠ T_SEMICOLON then do
            let (e, p2) ← parseExpression n p1
            pure (some e, p2)
          else pure (none, p1)) (fun r => r.2.TokensOk) := by
        refine returns_ite (fun _ => ?_) (fun _ => returns_pure h1)
        exact returns_bind (parseExpression_returns n p1 h1) (fun ⟨e, p2⟩ h2 => returns_pure h2)
      refine returns_bind hexpr (fun ⟨expr, p2⟩ h2 => ?_)
      exact returns_bind (expect_returns _ _ p2 h2)
        (fun p3 h3 => returns_pure ⟨by simp [Stmt.typesBasic], h3⟩)
    refine returns_ite (fun _ => ?_) (fun _ => ?_)
    · exact returns_bind (parseBlock_returns n p h)
        (fun ⟨b, p1⟩ h1 => returns_pure ⟨by simpa [Stmt.typesBasic] using h1.1, h1.2⟩)
    · refine returns_bind (parseExpression_returns n p h) (fun ⟨e, p1⟩ h1 => ?_)
      exact returns_bind (expect_returns _ _ p1 h1)
        (fun p2 h2 => returns_pure ⟨by simp [Stmt.typesBasic], h2⟩)

theorem parseIf_returns : ∀ (n : Nat) (p : Parser), p.TokensOk →
    Returns (parseIf n p) (fun r => r.1.typesBasic = true ∧ r.2.TokensOk)
  | 0, _, _ => trivial
  | n + 1, p, h => by
    rw [parseIf]
    refine returns_bind (expect_returns _ _ p h) (fun p1 h1 => ?_)
    refine returns_bind (expect_returns _ _ p1 h1) (fun p2 h2 => ?_)
    refine returns_bind (parseExpression_returns n p2 h2) (fun ⟨cond, p3⟩ h3 => ?_)
    refine returns_bind (expect_returns _ _ p3 h3) (fun p4 h4 => ?_)
    refine returns_bind (parseBlock_returns n p4 h4) (fun ⟨thenB, p5⟩ h5 => ?_)
    refine returns_ite (fun _ => ?_)
      (fun _ => returns_pure ⟨by simpa [Stmt.typesBasic] using h5.1, h5.2⟩)
    refine returns_bind (advance_returns p5 h5.2) (fun p6 h6 => ?_)
    refine returns_ite (fun _ => ?_) (fun _ => ?_)
    · exact returns_bind (parseBlock_returns n p6 h6)
        (fun ⟨elseB, p7⟩ h7 => returns_pure ⟨by simpa [Stmt.typesBasic, h5.1] using h7.1, h7.2⟩)
    · exact returns_bind (parseStatementOrDecl_returns n p6 h6)
        (fun ⟨s, p7⟩ h7 => returns_pure
          ⟨by simpa [Stmt.typesBasic, Stmt.allTypesBasic, h5.1] using h7.1, h7.2⟩)

theorem parseWhile_returns : ∀ (n : Nat) (p : Parser), p.TokensOk →
    Returns (parseWhile n p) (fun r => r.1.typesBasic = true ∧ r.2.TokensOk)
  | 0, _, _ => trivial
  | n + 1, p, h => by
    rw [parseWhile]
    refine returns_bind (expect_returns _ _ p h) (fun p1 h1 => ?_)
    refine returns_bind (expect_returns _ _ p1 h1) (fun p2 h2 => ?_)
    refine returns_bind (parseExpression_returns n p2 h2) (fun ⟨cond, p3⟩ h3 => ?_)
    refine returns_bind (expect_returns _ _ p3 h3) (fun p4 h4 => ?_)
    exact returns_bind (parseBlock_returns n p4 h4)
      (fun ⟨body, p5⟩ h5 => returns_pure ⟨by simpa [Stmt.typesBasic] using h5.1, h5.2⟩)

end

theorem parseParams_returns : ∀ (n : Nat) (params : List (String × String)) (p : Parser),
    (∀ x ∈ params, x.1 ∈ basicTypes) → p.TokensOk →
    Returns (parseParams n params p) (fun r => (∀ x ∈ r.1, x.1 ∈ basicTypes) ∧ r.2.TokensOk)
  | 0, _, _, _, _ => trivial
  | n + 1, params, p, hs, h => by
    rw [parseParams]
    refine returns_bind (parseTypeName_returns p h) (fun ⟨ptype, p1⟩ h1 => ?_)
    refine returns_ite (fun _ => trivial) (fun _ => returns_unit ?_)
    refine returns_bind (advance_returns p1 h1.2) (fun p2 h2 => ?_)
    have hps : ∀ x ∈ params ++ [(ptype, p1.cur.value)], x.1 ∈ basicTypes := by
      intro x hx
      rcases List.mem_append.mp hx with hx | hx
      · exact hs x hx
      · rw [List.mem_singleton.mp hx]
        exact h1.1
    refine returns_ite (fun _ => ?_) (fun _ => returns_pure ⟨hps, h2⟩)
    exact returns_bind (advance_returns p2 h2) (fun p3 h3 => parseParams_returns n _ p3 hps h3)

theorem parseFunction_returns (n : Nat) (p : Parser) (h : p.TokensOk) :
    Returns (parseFunction n p) (fun r => r.1.typesBasic = true ∧ r.2.TokensOk) := by
  unfold parseFunction
  refine returns_bind (expect_returns _ _ p h) (fun p1 h1 => ?_)
  refine returns_bind (parseTypeName_returns p1 h1) (fun ⟨ret, p2⟩ h2 => ?_)
  refine returns_ite (fun _ => trivial) (fun _ => returns_unit ?_)
  refine returns_bind (advance_returns p2 h2.2) (fun p3 h3 => ?_)
  refine returns_bind (expect_returns _ _ p3 h3) (fun p4 h4 => ?_)
  have hparams : Returns (if p4.cur.type ≠ T_PARENR then parseParams n [] p4 else pure ([], p4))
      (fun r => (∀ x ∈ r.1, x.1 ∈ basicTypes) ∧ r.2.TokensOk) := by
    refine returns_ite (fun _ => parseParams_returns n [] p4 (fun x hx => by cases hx) h4)
      (fun _ => ?_)
    show (∀ x ∈ ([] : List (String × String)), x.1 ∈ basicTypes) ∧ p4.TokensOk
    exact ⟨fun x hx => (by cases hx), h4⟩
  refine returns_bind hparams (fun ⟨params, p5⟩ h5 => ?_)
  refine returns_bind (expect_returns _ _ p5 h5.2) (fun p6 h6 => ?_)
  refine returns_bind (parseBlock_returns n p6 h6) (fun ⟨body, p7⟩ h7 => returns_pure ⟨?_, h7.2⟩)
  have hret : ret ∈ basicTypes := h2.1
  have hps : ∀ x ∈ params, x.1 ∈ basicTypes := h5.1
  have hb : Stmt.allTypesBasic body = true := h7.1
  have hall : (params.all fun x => decide (x.1 ∈ basicTypes)) = true :=
    List.all_eq_true.mpr (fun x hx => decide_eq_true (hps x hx))
  simp only [Item.typesBasic, hall, hb, decide_eq_true hret, Bool.and_self]

theorem parseProgramLoop_returns : ∀ (n : Nat) (items : List Item) (p : Parser),
    items.all Item.typesBasic = true → p.TokensOk →
    Returns (parseProgramLoop n items p) (fun r => r.1.all Item.typesBasic = true)
  | 0, _, _, _, _ => trivial
  | n + 1, items, p, hs, h => by
    rw [parseProgramLoop]
    refine returns_ite (fun _ => ?_) (fun _ => returns_pure hs)
    refine returns_ite (fun _ => ?_) (fun _ => ?_)
    · refine returns_bind (parseFunction_returns n p h) (fun ⟨f, p1⟩ h1 => ?_)
      refine parseProgramLoop_returns n _ p1 ?_ h1.2
      rw [List.all_append, hs]
      simpa using h1.1
    · refine returns_bind (parseStatementOrDecl_returns n p h) (fun ⟨s, p1⟩ h1 => ?_)
      refine parseProgramLoop_returns n _ p1 ?_ h1.2
      rw [List.all_append, hs]
      simpa [Item.typesBasic] using h1.1

end Parser

/-- A program that `parseSource` returns for a stream of tokens with the lexemes
of their type keywords has only the four type names. -/
theorem parseSource_typesBasic (fuel : Nat) (lx : TokenStream) (prog : ProgramNode)
    (hlx : lx.TypeNamesOk) (h : parseSource fuel lx = .ok prog) : prog.typesBasic = true := by
  have hr : Parser.Returns (parseSource fuel lx) (fun prog => prog.typesBasic = true) := by
    unfold parseSource
    refine Parser.returns_bind (Parser.new_returns lx hlx) (fun p hp => ?_)
    have hprog : Parser.Returns (Parser.parseProgram fuel p)
        (fun r => r.1.typesBasic = true) := by
      unfold Parser.parseProgram
      exact Parser.returns_bind (Parser.parseProgramLoop_returns fuel [] p rfl hp)
        (fun ⟨items, p1⟩ h1 => Parser.returns_pure h1)
    exact Parser.returns_bind hprog (fun ⟨prog, p1⟩ h1 => Parser.returns_pure h1)
  exact Parser.returns_of_ok (Q := fun prog => prog.typesBasic = true) hr h

namespace TypeChecker

mutual

/-- A statement that `checkNode` accepts while the return type of the current
function is not `void` contains no `return;` without expression. -/
theorem checkStmt_bareReturn : ∀ (st : Stmt) (c c1 : TypeChecker), checkStmt st c = .ok c1 →
    c.currentFunctionRetType ≠ "void" → st.containsBareReturn = false
  | .BlockNode stmts, c, c1, h, hv => by
    simp only [checkStmt, bind_eq_ok, pure_eq_ok] at h
    obtain ⟨c2, h2, rfl⟩ := h
    simpa [Stmt.containsBareReturn] using checkStmts_bareReturn stmts _ c2 h2 hv
  | .VarDeclNode typeName name init, c, c1, h, hv => by
    simp [Stmt.containsBareReturn]
  | .ReturnNode none, c, c1, h, hv => by
    simp only [checkStmt, ite_fail_eq_ok, pure_eq_ok] at h
    exact absurd hv h.1
  | .ReturnNode (some e), c, c1, h, hv => by
    simp [Stmt.containsBareReturn]
  | .IfNode cond thenBlock none, c, c1, h, hv => by
    simp only [checkStmt, bind_eq_ok, pure_bind, fail_bind, ite_fail_eq_ok, pure_eq_ok] at h
    obtain ⟨ct, hc, -, c2, h2, rfl⟩ := h
    simpa [Stmt.containsBareReturn] using checkStmts_bareReturn thenBlock _ c2 h2 hv
  | .IfNode cond thenBlock (some stmts), c, c1, h, hv => by
    simp only [checkStmt, bind_eq_ok, pure_bind, fail_bind, ite_fail_eq_ok, pure_eq_ok] at h
    obtain ⟨ct, hc, -, c2, h2, c3, h6, rfl⟩ := h
    have h5 := checkStmts_bareReturn thenBlock _ c2 h2 hv
    have hr := (checkStmts_hasReturn thenBlock _ c2 h2).2
    have h7 := checkStmts_bareReturn stmts _ c3 h6 (by
      show c2.currentFunctionRetType ≠ "void"
      rw [hr]
      exact hv)
    simp [Stmt.containsBareReturn, h5, h7]
  | .WhileNode cond body, c, c1, h, hv => by
    simp only [checkStmt, bind_eq_ok, pure_eq_ok, pure_bind, fail_bind, ite_fail_eq_ok] at h
    obtain ⟨ct, hc, -, c2, h2, rfl⟩ := h
    simpa [Stmt.containsBareReturn] using checkStmts_bareReturn body _ c2 h2 hv
  | .ExprStmtNode expr, c, c1, h, hv => by
    simp [Stmt.containsBareReturn]

theorem checkStmts_bareReturn : ∀ (stmts : List Stmt) (c c1 : TypeChecker),
    checkStmts stmts c = .ok c1 → c.currentFunctionRetType ≠ "void" →
    Stmt.anyContainsBareReturn stmts = false
  | [], c, c1, h, hv => by
    simp [Stmt.anyContainsBareReturn]
  | st :: stmts, c, c1, h, hv => by
    simp only [checkStmts, bind_eq_ok] at h
    obtain ⟨c2, h2, h3⟩ := h
    have h4 := checkStmt_bareReturn st c c2 h2 hv
    have hr := (checkStmt_hasReturn st c c2 h2).2
    have h5 := checkStmts_bareReturn stmts c2 c1 h3 (by
      rw [hr]
      exact hv)
    simp [Stmt.anyContainsBareReturn, h4, h5]

end

/-- A function with a return type other than `void` that `checkFunction` accepts
has a `return` statement in its body and no `return;` without expression. -/
theorem checkFunction_returns_value (retType name : String) (params : List (String × String))
    (body : List Stmt) (c0 c1 : TypeChecker) (hv : retType ≠ "void")
    (h : checkFunction retType name params body c0 = .ok c1) :
    Stmt.anyContainsReturn body = true ∧ Stmt.anyContainsBareReturn body = false ∧
    c1.currentFunctionRetType = retType := by
  simp only [checkFunction, bind_eq_ok, ite_fail_eq_ok, pure_eq_ok] at h
  obtain ⟨s1, -, c2, h2, hflag, rfl⟩ := h
  have hr := checkStmts_hasReturn body _ c2 h2
  have hb := checkStmts_bareReturn body _ c2 h2 hv
  simp only [Bool.false_or] at hr
  refine ⟨?_, hb, hr.2⟩
  rw [← hr.1]
  simpa [hv] using hflag

theorem basicTypes_ne_void (s : String) (h : s ∈ basicTypes) : s ≠ "void" := by
  intro hs
  subst hs
  revert h
  decide

/-- The items of a program with the four type names only that `checkProgram`
accepts, started outside a `void` function: every function has a `return`
statement and there is no `return;` without expression. -/
theorem checkItems_return_values : ∀ (items : List Item) (c c1 : TypeChecker),
    checkItems items c = .ok c1 → items.all Item.typesBasic = true →
    c.currentFunctionRetType ≠ "void" → ∀ it ∈ items, it.lacksReturnValue = false
  | [], _, _, _, _, _ => fun it hit => by cases hit
  | .FunctionNode retType name params body :: items, c, c1, h, ht, hv => by
    simp only [checkItems, bind_eq_ok] at h
    obtain ⟨c2, h2, h3⟩ := h
    simp only [List.all_cons, Bool.and_eq_true, Item.typesBasic, decide_eq_true_eq] at ht
    have hret := basicTypes_ne_void retType ht.1.1.1
    obtain ⟨ha, hb, hc⟩ := checkFunction_returns_value retType name params body c c2 hret h2
    have ih := checkItems_return_values items c2 c1 h3 ht.2 (by
      rw [hc]
      exact hret)
    intro it hit
    rcases List.mem_cons.mp hit with rfl | hit
    · simp [Item.lacksReturnValue, ha, hb]
    · exact ih it hit
  | .Statement s :: items, c, c1, h, ht, hv => by
    simp only [checkItems, bind_eq_ok] at h
    obtain ⟨c2, h2, h3⟩ := h
    simp only [List.all_cons, Bool.and_eq_true] at ht
    have hb := checkStmt_bareReturn s c c2 h2 hv
    have hr := (checkStmt_hasReturn s c c2 h2).2
    have ih := checkItems_return_values items c2 c1 h3 ht.2 (by
      rw [hr]
      exact hv)
    intro it hit
    rcases List.mem_cons.mp hit with rfl | hit
    · simpa [Item.lacksReturnValue] using hb
    · exact ih it hit

end TypeChecker

/-- C37.  A program that `parseSource` returns on the tokens of a lexer that gives
the type keywords their own lexemes (as the hand-written lexer does on every
source) has only the four type names `int`, `float`, `bool` and `string`: as
return type and parameter types of every function and as type of every
declaration at any depth.  No function has return type `void`, and the type
checker, started as `main` starts it, rejects the program when a function has no
`return` statement in its body or when a `return;` without expression occurs
anywhere. -/
theorem parsed_types_are_basic (fuel : Nat) (lx : TokenStream) (prog : ProgramNode)
    (hlx : lx.TypeNamesOk) (h : parseSource fuel lx = .ok prog) :
    prog.typesBasic = true ∧
    (∀ retType name params body, Item.FunctionNode retType name params body ∈ prog.items →
      retType ∈ basicTypes ∧ retType ≠ "void" ∧ (∀ x ∈ params, x.1 ∈ basicTypes) ∧
      Stmt.allTypesBasic body = true) ∧
    (∀ item ∈ prog.items, item.lacksReturnValue = true →
      (∀ stack c1, TypeChecker.check prog (TypeChecker.new stack) ≠ .ok c1) ∧
      analyzeAndCheck prog ≠ .accepted) ∧
    (∀ src, (TokenStream.ofSource src).TypeNamesOk) := by
  have ht := parseSource_typesBasic fuel lx prog hlx h
  have hrej : ∀ item ∈ prog.items, item.lacksReturnValue = true →
      ∀ stack c1, TypeChecker.check prog (TypeChecker.new stack) ≠ .ok c1 := by
    intro item hitem hl stack c1 hc
    have hno := TypeChecker.checkItems_return_values prog.items (TypeChecker.new stack) c1 hc ht
      (show ("" : String) ≠ "void" by decide) item hitem
    rw [hl] at hno
    exact Bool.noConfusion hno
  refine ⟨ht, ?_, ?_, ofSource_typeNamesOk⟩
  · intro retType name params body hmem
    have hi := List.all_eq_true.mp ht _ hmem
    simp only [Item.typesBasic, Bool.and_eq_true, decide_eq_true_eq, List.all_eq_true] at hi
    exact ⟨hi.1.1, TypeChecker.basicTypes_ne_void _ hi.1.1, hi.1.2, hi.2⟩
  · intro item hitem hl
    refine ⟨hrej item hitem hl, ?_⟩
    unfold analyzeAndCheck
    cases ha : ScopeAnalyzer.analyze prog with
    | error e => simp
    | ok stack =>
      simp only
      cases hc : TypeChecker.check prog (TypeChecker.new stack) with
      | error e => cases e <;> simp
      | ok c1 => exact absurd hc (hrej item hitem hl stack c1)

/-- Witness for C37: `fn int f(int a){ float b; return; }` is lexed into fourteen
tokens and parsed into a function with the type names `int`, `int` and `float`;
its `return;` has no expression, and the front end does not accept it. -/
theorem parsed_types_are_basic_witness :
    TokenStream.ofSource "fn int f(int a)\x7b float b; return; \x7d" =
      ⟨[⟨T_FUNCTION, "fn"⟩, ⟨T_INT, "int"⟩, ⟨T_IDENTIFIER, "f"⟩, ⟨T_PARENL, "("⟩,
        ⟨T_INT, "int"⟩, ⟨T_IDENTIFIER, "a"⟩, ⟨T_PARENR, ")"⟩, ⟨T_BRACEL, "\x7b"⟩,
        ⟨T_FLOAT, "float"⟩, ⟨T_IDENTIFIER, "b"⟩, ⟨T_SEMICOLON, ";"⟩,
        ⟨T_RETURN, "return"⟩, ⟨T_SEMICOLON, ";"⟩, ⟨T_BRACER, "\x7d"⟩], none⟩ ∧
    parseSource 30
      ⟨[⟨T_FUNCTION, "fn"⟩, ⟨T_INT, "int"⟩, ⟨T_IDENTIFIER, "f"⟩, ⟨T_PARENL, "("⟩,
        ⟨T_INT, "int"⟩, ⟨T_IDENTIFIER, "a"⟩, ⟨T_PARENR, ")"⟩, ⟨T_BRACEL, "\x7b"⟩,
        ⟨T_FLOAT, "float"⟩, ⟨T_IDENTIFIER, "b"⟩, ⟨T_SEMICOLON, ";"⟩,
        ⟨T_RETURN, "return"⟩, ⟨T_SEMICOLON, ";"⟩, ⟨T_BRACER, "\x7d"⟩], none⟩ =
      .ok ⟨[.FunctionNode "int" "f" [("int", "a")]
        [.VarDeclNode "float" "b" none, .ReturnNode none]]⟩ ∧
    ProgramNode.typesBasic ⟨[.FunctionNode "int" "f" [("int", "a")]
        [.VarDeclNode "float" "b" none, .ReturnNode none]]⟩ = true ∧
    analyzeAndCheck ⟨[.FunctionNode "int" "f" [("int", "a")]
        [.VarDeclNode "float" "b" none, .ReturnNode none]]⟩ ≠ .accepted :=
  ⟨by decide!, rfl,
   (parsed_types_are_basic 30
      ⟨[⟨T_FUNCTION, "fn"⟩, ⟨T_INT, "int"⟩, ⟨T_IDENTIFIER, "f"⟩, ⟨T_PARENL, "("⟩,
        ⟨T_INT, "int"⟩, ⟨T_IDENTIFIER, "a"⟩, ⟨T_PARENR, ")"⟩, ⟨T_BRACEL, "\x7b"⟩,
        ⟨T_FLOAT, "float"⟩, ⟨T_IDENTIFIER, "b"⟩, ⟨T_SEMICOLON, ";"⟩,
        ⟨T_RETURN, "return"⟩, ⟨T_SEMICOLON, ";"⟩, ⟨T_BRACER, "\x7d"⟩], none⟩
      ⟨[.FunctionNode "int" "f" [("int", "a")]
        [.VarDeclNode "float" "b" none, .ReturnNode none]]⟩ (by decide) rfl).1,
   ((parsed_types_are_basic 30
      ⟨[⟨T_FUNCTION, "fn"⟩, ⟨T_INT, "int"⟩, ⟨T_IDENTIFIER, "f"⟩, ⟨T_PARENL, "("⟩,
        ⟨T_INT, "int"⟩, ⟨T_IDENTIFIER, "a"⟩, ⟨T_PARENR, ")"⟩, ⟨T_BRACEL, "\x7b"⟩,
        ⟨T_FLOAT, "float"⟩, ⟨T_IDENTIFIER, "b"⟩, ⟨T_SEMICOLON, ";"⟩,
        ⟨T_RETURN, "return"⟩, ⟨T_SEMICOLON, ";"⟩, ⟨T_BRACER, "\x7d"⟩], none⟩
      ⟨[.FunctionNode "int" "f" [("int", "a")]
        [.VarDeclNode "float" "b" none, .ReturnNode none]]⟩ (by decide) rfl).2.2.1
      _ (List.mem_singleton.mpr rfl) rfl).2⟩

theorem hoistFunctions_filter_isLowered : ∀ (items : List Item) (s : ScopeStack),
    ScopeAnalyzer.hoistFunctions (items.filter Item.isLowered) s =
      ScopeAnalyzer.hoistFunctions items s
  | [], _ => rfl
  | .FunctionNode retType name params body :: items, s => by
    simp only [List.filter, Item.isLowered, ScopeAnalyzer.hoistFunctions]
    cases s.addFunction name retType (params.map (·.1)) with
    | error e => rfl
    | ok s1 => exact hoistFunctions_filter_isLowered items s1
  | .Statement (.VarDeclNode _ _ _) :: items, s => by
    simp only [List.filter, Item.isLowered, ScopeAnalyzer.hoistFunctions]
    exact hoistFunctions_filter_isLowered items s
  | .Statement (.BlockNode _) :: items, s
  | .Statement (.ReturnNode _) :: items, s
  | .Statement (.IfNode _ _ _) :: items, s
  | .Statement (.WhileNode _ _) :: items, s
  | .Statement (.ExprStmtNode _) :: items, s => by
    simp only [List.filter, Item.isLowered, ScopeAnalyzer.hoistFunctions]
    exact hoistFunctions_filter_isLowered items s

theorem genItems_filter_isLowered : ∀ (items : List Item) (g : IRGenerator),
    IRGenerator.genItems (items.filter Item.isLowered) g = IRGenerator.genItems items g
  | [], _ => rfl
  | .FunctionNode _ name params body :: items, g => by
    simp only [List.filter, Item.isLowered, IRGenerator.genItems]
    cases IRGenerator.genFunction name params body g with
    | error e => rfl
    | ok g1 => exact genItems_filter_isLowered items g1
  | .Statement (.VarDeclNode typeName name init) :: items, g => by
    simp only [List.filter, Item.isLowered, IRGenerator.genItems]
    cases IRGenerator.genStmt (.VarDeclNode typeName name init) g with
    | error e => rfl
    | ok g1 => exact genItems_filter_isLowered items g1
  | .Statement (.BlockNode _) :: items, g
  | .Statement (.ReturnNode _) :: items, g
  | .Statement (.IfNode _ _ _) :: items, g
  | .Statement (.WhileNode _ _) :: items, g
  | .Statement (.ExprStmtNode _) :: items, g => by
    simp only [List.filter, Item.isLowered, IRGenerator.genItems]
    exact genItems_filter_isLowered items g

/-- C38 (top-level statements).  `genProgram` generates code for the top-level
functions and the top-level variable declarations only: the run of
`IRGenerator.generate` on a program, its instruction list included, is the run on
the program without its top-level expression statements, `if`s, `while`s,
`return`s and blocks.  A program that consists of such statements only gives the
empty instruction list.  The parser accepts these statements as program items:
on the tokens of `x; if (x) { } while (x) { } return; { }` it returns five
items, and their code is empty. -/
theorem top_level_statements_emit_nothing (prog : ProgramNode) :
    IRGenerator.generate prog = IRGenerator.generate prog.loweredItems ∧
    (prog.loweredItems.items = [] →
      (IRGenerator.generate prog).map (·.instructions) = .ok []) ∧
    parseSource 40 ⟨[⟨T_IDENTIFIER, "x"⟩, ⟨T_SEMICOLON, ";"⟩,
        ⟨T_IF, "if"⟩, ⟨T_PARENL, "("⟩, ⟨T_IDENTIFIER, "x"⟩, ⟨T_PARENR, ")"⟩,
        ⟨T_BRACEL, "\x7b"⟩, ⟨T_BRACER, "\x7d"⟩,
        ⟨T_WHILE, "while"⟩, ⟨T_PARENL, "("⟩, ⟨T_IDENTIFIER, "x"⟩, ⟨T_PARENR, ")"⟩,
        ⟨T_BRACEL, "\x7b"⟩, ⟨T_BRACER, "\x7d"⟩,
        ⟨T_RETURN, "return"⟩, ⟨T_SEMICOLON, ";"⟩,
        ⟨T_BRACEL, "\x7b"⟩, ⟨T_BRACER, "\x7d"⟩], none⟩ =
      .ok ⟨[.Statement (.ExprStmtNode (.IdentifierNode "x")),
        .Statement (.IfNode (.IdentifierNode "x") [] none),
        .Statement (.WhileNode (.IdentifierNode "x") []),
        .Statement (.ReturnNode none),
        .Statement (.BlockNode [])]⟩ := by
  have hgen : IRGenerator.generate prog = IRGenerator.generate prog.loweredItems := by
    simp only [IRGenerator.generate, IRGenerator.genProgram, ProgramNode.loweredItems,
      hoistFunctions_filter_isLowered, genItems_filter_isLowered]
  refine ⟨hgen, fun hempty => ?_, rfl⟩
  rw [hgen]
  have : prog.loweredItems = ⟨[]⟩ := by
    cases hp : prog.loweredItems
    rw [hp] at hempty
    simp only at hempty
    rw [hempty]
  rw [this]
  rfl

/-- Example for C38: the tree of `x; fn int f(){ return 1; } if (x) { }` has the
code of the function alone. -/
theorem top_level_statements_emit_nothing_witness :
    (IRGenerator.generate ⟨[.Statement (.ExprStmtNode (.IdentifierNode "x")),
        .FunctionNode "int" "f" [] [.ReturnNode (some (.LiteralNode "int" "1"))],
        .Statement (.IfNode (.IdentifierNode "x") [] none)]⟩).map (·.instructions) =
      .ok [⟨.FUNC_BEGIN, "f", "", ""⟩, ⟨.RETURN, "", "1", ""⟩, ⟨.FUNC_END, "f", "", ""⟩] ∧
    IRGenerator.generate ⟨[.Statement (.ExprStmtNode (.IdentifierNode "x")),
        .FunctionNode "int" "f" [] [.ReturnNode (some (.LiteralNode "int" "1"))],
        .Statement (.IfNode (.IdentifierNode "x") [] none)]⟩ =
      IRGenerator.generate
        ⟨[.FunctionNode "int" "f" [] [.ReturnNode (some (.LiteralNode "int" "1"))]]⟩ :=
  ⟨by decide!,
   (top_level_statements_emit_nothing
      ⟨[.Statement (.ExprStmtNode (.IdentifierNode "x")),
        .FunctionNode "int" "f" [] [.ReturnNode (some (.LiteralNode "int" "1"))],
        .Statement (.IfNode (.IdentifierNode "x") [] none)]⟩).1⟩

namespace IRGenerator

theorem newLabel_labelCounter {g g1 : IRGenerator} {l : String}
    (h : g.newLabel = .ok (l, g1)) : g1.labelCounter = g.labelCounter + 1 := by
  obtain ⟨-, -, rfl⟩ := (newLabel_eq_ok g l g1).mp h
  rfl

mutual

/-- Lowering a statement allocates two labels for each `if` and each `while` in
it. -/
theorem genStmt_labelCount : ∀ (st : Stmt) (g g1 : IRGenerator), genStmt st g = .ok g1 →
    g1.labelCounter = g.labelCounter + 2 * st.controlCount
  | .VarDeclNode typeName name none, g, gz, h => by
    simp only [genStmt, bind_eq_ok, pure_eq_ok, pure_bind] at h
    obtain ⟨s1, -, rfl⟩ := h
    simp [Stmt.controlCount]
  | .VarDeclNode typeName name (some e), g, gz, h => by
    simp only [genStmt, bind_eq_ok, pure_eq_ok, Prod.exists] at h
    obtain ⟨ga, ⟨v, gb, he, rfl⟩, s1, -, rfl⟩ := h
    have := (genExpression_plain e g v gb he).1
    simpa [Stmt.controlCount, emit] using this
  | .ReturnNode none, g, gz, h => by
    simp only [genStmt, pure_eq_ok] at h
    subst h
    simp [Stmt.controlCount, emit]
  | .ReturnNode (some e), g, gz, h => by
    simp only [genStmt, bind_eq_ok, pure_eq_ok, Prod.exists] at h
    obtain ⟨v, gb, he, rfl⟩ := h
    have := (genExpression_plain e g v gb he).1
    simpa [Stmt.controlCount, emit] using this
  | .IfNode cond thenBlock (some stmts), g, gz, h => by
    simp only [genStmt, bind_eq_ok, Prod.exists, pure_eq_ok] at h
    obtain ⟨cr, g1, hc, l1, g2, hl1, l2, g3, hl2, g5, hT, g9, hE, rfl⟩ := h
    have h1 := (genExpression_plain cond g cr g1 hc).1
    have h2 := newLabel_labelCounter hl1
    have h3 := newLabel_labelCounter hl2
    have h4 := genStmts_labelCount thenBlock _ g5 hT
    have h5 := genStmts_labelCount stmts _ g9 hE
    simp only [emit] at h4 h5 ⊢
    simp only [Stmt.controlCount]
    omega
  | .IfNode cond thenBlock none, g, gz, h => by
    simp only [genStmt, bind_eq_ok, Prod.exists, pure_eq_ok] at h
    obtain ⟨cr, g1, hc, l1, g2, hl1, l2, g3, hl2, g5, hT, rfl⟩ := h
    have h1 := (genExpression_plain cond g cr g1 hc).1
    have h2 := newLabel_labelCounter hl1
    have h3 := newLabel_labelCounter hl2
    have h4 := genStmts_labelCount thenBlock _ g5 hT
    simp only [emit] at h4 ⊢
    simp only [Stmt.controlCount]
    omega
  | .WhileNode cond body, g, gz, h => by
    simp only [genStmt, bind_eq_ok, Prod.exists, pure_eq_ok] at h
    obtain ⟨l1, g1, hl1, l2, g2, hl2, cr, g4, hc, g6, hB, rfl⟩ := h
    have h1 := (genExpression_plain cond _ cr g4 hc).1
    have h2 := newLabel_labelCounter hl1
    have h3 := newLabel_labelCounter hl2
    have h4 := genStmts_labelCount body _ g6 hB
    simp only [emit] at h1 h4 ⊢
    simp only [Stmt.controlCount]
    omega
  | .ExprStmtNode expr, g, gz, h => by
    simp only [genStmt, bind_eq_ok, pure_eq_ok, Prod.exists] at h
    obtain ⟨v, gb, he, rfl⟩ := h
    have := (genExpression_plain expr g v gb he).1
    simpa [Stmt.controlCount] using this
  | .BlockNode stmts, g, gz, h => by
    simp only [genStmt, bind_eq_ok, pure_eq_ok] at h
    obtain ⟨ga, ha, rfl⟩ := h
    have := genStmts_labelCount stmts _ ga ha
    simpa [Stmt.controlCount] using this

theorem genStmts_labelCount : ∀ (stmts : List Stmt) (g g1 : IRGenerator),
    genStmts stmts g = .ok g1 →
    g1.labelCounter = g.labelCounter + 2 * Stmt.allControlCount stmts
  | [], g, g1, h => by
    simp only [genStmts, pure_eq_ok] at h
    subst h
    simp [Stmt.allControlCount]
  | st :: stmts, g, g1, h => by
    simp only [genStmts, bind_eq_ok] at h
    obtain ⟨ga, ha, h⟩ := h
    have h1 := genStmt_labelCount st g ga ha
    have h2 := genStmts_labelCount stmts ga g1 h
    simp only [Stmt.allControlCount]
    omega

end

theorem genFunction_labelCount (name : String) (params : List (String × String))
    (body : List Stmt) (g g1 : IRGenerator) (h : genFunction name params body g = .ok g1) :
    g1.labelCounter = g.labelCounter + 2 * Stmt.allControlCount body := by
  simp only [genFunction, bind_eq_ok, pure_eq_ok] at h
  obtain ⟨s1, -, g2, hb, rfl⟩ := h
  have := genStmts_labelCount body _ g2 hb
  simpa [emit] using this

theorem genItems_labelCount : ∀ (items : List Item) (g g1 : IRGenerator),
    genItems items g = .ok g1 →
    g1.labelCounter = g.labelCounter + 2 * Item.controlCount items
  | [], g, g1, h => by
    simp only [genItems, pure_eq_ok] at h
    subst h
    simp [Item.controlCount]
  | .FunctionNode _ name params body :: items, g, g1, h => by
    simp only [genItems, bind_eq_ok] at h
    obtain ⟨ga, ha, h⟩ := h
    have h1 := genFunction_labelCount name params body g ga ha
    have h2 := genItems_labelCount items ga g1 h
    simp only [Item.controlCount]
    omega
  | .Statement (.VarDeclNode typeName name init) :: items, g, g1, h => by
    simp only [genItems, bind_eq_ok] at h
    obtain ⟨ga, ha, h⟩ := h
    have h1 := genStmt_labelCount _ g ga ha
    have h2 := genItems_labelCount items ga g1 h
    simp only [Item.controlCount, Stmt.controlCount] at h1 ⊢
    omega
  | .Statement (.BlockNode _) :: items, g, g1, h
  | .Statement (.ReturnNode _) :: items, g, g1, h
  | .Statement (.IfNode _ _ _) :: items, g, g1, h
  | .Statement (.WhileNode _ _) :: items, g, g1, h
  | .Statement (.ExprStmtNode _) :: items, g, g1, h => by
    simp only [genItems] at h
    simpa [Item.controlCount] using genItems_labelCount items g g1 h

end IRGenerator

/-- The labels mentioned in a sound segment have numbers of the range. -/
theorem LabelsSound.mentioned {lo hi : Nat} {seg : List IRInstruction}
    (h : LabelsSound lo hi seg) :
    ∀ l ∈ labelsMentioned seg, ∃ k, lo ≤ k ∧ k < hi ∧ l = labelName k := by
  intro l hl
  simp only [labelsMentioned, List.mem_append] at hl
  rcases hl with hl | hl
  · exact h.2.1 l hl
  · exact h.2.1 l (h.2.2 l hl)

theorem labelsMentioned_label (l : String) :
    labelsMentioned [⟨.LABEL, l, "", ""⟩] = [l] := by
  simp [labelsMentioned, labelDefinitions_label, jumpTargets_label, labelDefinitions_nil,
    jumpTargets_nil]

theorem SkipsLabel.embed {seg : List IRInstruction} {n : Nat} (a b : List IRInstruction)
    (h : SkipsLabel seg n) (ha : labelName n ∉ labelsMentioned a)
    (hb : labelName n ∉ labelsMentioned b) : SkipsLabel (a ++ seg ++ b) n := by
  obtain ⟨⟨cr, h1⟩, h2, h3⟩ := h
  refine ⟨⟨cr, ?_⟩, ?_, ?_⟩
  · simp [h1]
  · simp [h2]
  · intro hm
    rcases (labelsMentioned_append _ _ _).mp hm with hm | hm
    · rcases (labelsMentioned_append _ _ _).mp hm with hm | hm
      · exact ha hm
      · exact h3 hm
    · exact hb hm

theorem LabelsSound.not_mentioned {lo hi n : Nat} {seg : List IRInstruction}
    (h : LabelsSound lo hi seg) (hn : n < lo ∨ hi ≤ n) : labelName n ∉ labelsMentioned seg := by
  intro hm
  obtain ⟨k, h1, h2, he⟩ := h.mentioned _ hm
  have := labelName_inj he
  omega

mutual

theorem Stmt.skippedLabels_range : ∀ (st : Stmt) (c n : Nat), n ∈ st.skippedLabels c →
    c ≤ n ∧ n + 2 ≤ c + 2 * st.controlCount
  | .BlockNode stmts, c, n, h => by
    simp only [Stmt.skippedLabels] at h
    simpa [Stmt.controlCount] using Stmt.allSkippedLabels_range stmts c n h
  | .VarDeclNode _ _ _, c, n, h => by
    simp [Stmt.skippedLabels] at h
  | .ReturnNode _, c, n, h => by
    simp [Stmt.skippedLabels] at h
  | .IfNode _ thenBlock none, c, n, h => by
    simp only [Stmt.skippedLabels, List.mem_cons] at h
    simp only [Stmt.controlCount]
    rcases h with rfl | h
    · omega
    · have := Stmt.allSkippedLabels_range thenBlock (c + 2) n h
      omega
  | .IfNode _ thenBlock (some stmts), c, n, h => by
    simp only [Stmt.skippedLabels, List.mem_append] at h
    simp only [Stmt.controlCount]
    rcases h with h | h
    · have := Stmt.allSkippedLabels_range thenBlock (c + 2) n h
      omega
    · have := Stmt.allSkippedLabels_range stmts _ n h
      omega
  | .WhileNode _ body, c, n, h => by
    simp only [Stmt.skippedLabels] at h
    simp only [Stmt.controlCount]
    have := Stmt.allSkippedLabels_range body (c + 2) n h
    omega
  | .ExprStmtNode _, c, n, h => by
    simp [Stmt.skippedLabels] at h

theorem Stmt.allSkippedLabels_range : ∀ (stmts : List Stmt) (c n : Nat),
    n ∈ Stmt.allSkippedLabels stmts c → c ≤ n ∧ n + 2 ≤ c + 2 * Stmt.allControlCount stmts
  | [], c, n, h => by
    simp [Stmt.allSkippedLabels] at h
  | s :: rest, c, n, h => by
    simp only [Stmt.allSkippedLabels, List.mem_append] at h
    simp only [Stmt.allControlCount]
    rcases h with h | h
    · have := Stmt.skippedLabels_range s c n h
      omega
    · have := Stmt.allSkippedLabels_range rest _ n h
      omega

end

namespace IRGenerator

mutual

/-- In the code of a statement every `if` without `else`, at any depth, uses the
second of its two labels in its `IF_FALSE` and its `LABEL`, and the first is
mentioned nowhere. -/
theorem genStmt_skips : ∀ (st : Stmt) (g g1 : IRGenerator) (seg : List IRInstruction),
    genStmt st g = .ok g1 → g1.instructions = g.instructions ++ seg →
    ∀ n ∈ st.skippedLabels g.labelCounter, SkipsLabel seg n
  | .VarDeclNode _ _ _, g, g1, seg, h, hseg => by
    intro n hn
    simp [Stmt.skippedLabels] at hn
  | .ReturnNode _, g, g1, seg, h, hseg => by
    intro n hn
    simp [Stmt.skippedLabels] at hn
  | .ExprStmtNode _, g, g1, seg, h, hseg => by
    intro n hn
    simp [Stmt.skippedLabels] at hn
  | .BlockNode stmts, g, g1, seg, h, hseg => by
    simp only [genStmt, bind_eq_ok, pure_eq_ok] at h
    obtain ⟨ga, ha, rfl⟩ := h
    intro n hn
    simp only [Stmt.skippedLabels] at hn
    exact genStmts_skips stmts _ ga seg ha hseg n hn
  | .IfNode cond thenBlock none, g, g1, seg, h, hseg => by
    simp only [genStmt, bind_eq_ok, Prod.exists, pure_eq_ok] at h
    obtain ⟨cr, gc, hc, l1, g3, hl1, l2, g4, hl2, g5, hT, rfl⟩ := h
    obtain ⟨-, rfl, rfl⟩ := (newLabel_eq_ok _ _ _).mp hl1
    obtain ⟨-, rfl, rfl⟩ := (newLabel_eq_ok _ _ _).mp hl2
    obtain ⟨hk, segC, hiC, hdC, htC⟩ := genExpression_plain cond g cr gc hc
    obtain ⟨hm, segT, hiT, hsT⟩ := genStmts_labelStep thenBlock _ g5 hT
    have ih := genStmts_skips thenBlock _ g5 segT hT hiT
    simp only [emit, hk] at hm hiT hsT hseg ih
    have hs : seg = [] ++ (segC ++ [⟨.IF_FALSE, labelName (g.labelCounter + 1), cr, ""⟩]) ++
        segT ++ [⟨.LABEL, labelName (g.labelCounter + 1), "", ""⟩] := by
      apply @List.append_cancel_left _ g.instructions
      rw [← hseg, hiT, hiC]
      simp
    have hpre : labelsMentioned (segC ++ [⟨.IF_FALSE, labelName (g.labelCounter + 1), cr, ""⟩]) =
        [labelName (g.labelCounter + 1)] := by
      simp [labelsMentioned, labelDefinitions_append, jumpTargets_append, hdC, htC,
        labelDefinitions_ifFalse, jumpTargets_ifFalse, labelDefinitions_nil, jumpTargets_nil]
    intro n hn
    simp only [Stmt.skippedLabels, List.mem_cons] at hn
    rcases hn with rfl | hn
    · rw [hs]
      refine ⟨⟨cr, by simp⟩, by simp, ?_⟩
      intro hmem
      simp only [labelsMentioned_append, labelsMentioned_label, hpre, List.nil_append,
        List.mem_singleton] at hmem
      rcases hmem with (hmem | hmem) | hmem
      · have := labelName_inj hmem
        omega
      · exact hsT.not_mentioned (Or.inl (by omega)) hmem
      · have := labelName_inj hmem
        omega
    · have hr := Stmt.allSkippedLabels_range thenBlock _ n hn
      rw [hs]
      refine (ih n hn).embed _ _ ?_ ?_
      · rw [List.nil_append, hpre]
        intro hmem
        have := labelName_inj (List.mem_singleton.mp hmem)
        omega
      · rw [labelsMentioned_label]
        intro hmem
        have := labelName_inj (List.mem_singleton.mp hmem)
        omega
  | .IfNode cond thenBlock (some stmts), g, g1, seg, h, hseg => by
    simp only [genStmt, bind_eq_ok, Prod.exists, pure_eq_ok] at h
    obtain ⟨cr, gc, hc, l1, g3, hl1, l2, g4, hl2, g5, hT, g9, hE, rfl⟩ := h
    obtain ⟨-, rfl, rfl⟩ := (newLabel_eq_ok _ _ _).mp hl1
    obtain ⟨-, rfl, rfl⟩ := (newLabel_eq_ok _ _ _).mp hl2
    obtain ⟨hk, segC, hiC, hdC, htC⟩ := genExpression_plain cond g cr gc hc
    obtain ⟨hm, segT, hiT, hsT⟩ := genStmts_labelStep thenBlock _ g5 hT
    obtain ⟨hmE, segE, hiE, hsE⟩ := genStmts_labelStep stmts _ g9 hE
    have cT := genStmts_labelCount thenBlock _ g5 hT
    have ihT := genStmts_skips thenBlock _ g5 segT hT hiT
    have ihE := genStmts_skips stmts _ g9 segE hE hiE
    simp only [emit, hk] at hm hiT hsT hmE hiE hsE hseg ihT ihE cT
    rw [cT] at ihE hsE hmE
    have hs : seg = (segC ++ [⟨.IF_FALSE, labelName g.labelCounter, cr, ""⟩]) ++ segT ++
        ([⟨.GOTO, labelName (g.labelCounter + 1), "", ""⟩,
          ⟨.LABEL, labelName g.labelCounter, "", ""⟩] ++ segE ++
          [⟨.LABEL, labelName (g.labelCounter + 1), "", ""⟩]) := by
      apply @List.append_cancel_left _ g.instructions
      rw [← hseg, hiE, hiT, hiC]
      simp
    have hs2 : seg = ((segC ++ [⟨.IF_FALSE, labelName g.labelCounter, cr, ""⟩]) ++ segT ++
        [⟨.GOTO, labelName (g.labelCounter + 1), "", ""⟩,
          ⟨.LABEL, labelName g.labelCounter, "", ""⟩]) ++ segE ++
          [⟨.LABEL, labelName (g.labelCounter + 1), "", ""⟩] := by
      rw [hs]
      simp
    have hpre : labelsMentioned (segC ++ [⟨.IF_FALSE, labelName g.labelCounter, cr, ""⟩]) =
        [labelName g.labelCounter] := by
      simp [labelsMentioned, labelDefinitions_append, jumpTargets_append, hdC, htC,
        labelDefinitions_ifFalse, jumpTargets_ifFalse, labelDefinitions_nil, jumpTargets_nil]
    have hmid : ∀ l, l ∈ labelsMentioned [⟨.GOTO, labelName (g.labelCounter + 1), "", ""⟩,
          ⟨.LABEL, labelName g.labelCounter, "", ""⟩] →
        l = labelName g.labelCounter ∨ l = labelName (g.labelCounter + 1) := by
      intro l hl
      simp [labelsMentioned, labelDefinitions_goto, jumpTargets_goto, labelDefinitions_label,
        jumpTargets_label, labelDefinitions_nil, jumpTargets_nil] at hl
      tauto
    intro n hn
    simp only [Stmt.skippedLabels, List.mem_append] at hn
    rcases hn with hn | hn
    · have hr := Stmt.allSkippedLabels_range thenBlock _ n hn
      rw [hs]
      refine (ihT n hn).embed _ _ ?_ ?_
      · rw [hpre]
        intro hmem
        have := labelName_inj (List.mem_singleton.mp hmem)
        omega
      · intro hmem
        simp only [labelsMentioned_append, labelsMentioned_label, List.mem_singleton] at hmem
        rcases hmem with (hmem | hmem) | hmem
        · rcases hmid _ hmem with he | he
          · have := labelName_inj he
            omega
          · have := labelName_inj he
            omega
        · exact hsE.not_mentioned (Or.inl (by omega)) hmem
        · have := labelName_inj hmem
          omega
    · have hr := Stmt.allSkippedLabels_range stmts _ n hn
      rw [hs2]
      refine (ihE n hn).embed _ _ ?_ ?_
      · intro hmem
        simp only [labelsMentioned_append, hpre, List.mem_singleton] at hmem
        rcases hmem with (hmem | hmem) | hmem
        · have := labelName_inj hmem
          omega
        · exact hsT.not_mentioned (Or.inr (by omega)) hmem
        · rcases hmid _ hmem with he | he
          · have := labelName_inj he
            omega
          · have := labelName_inj he
            omega
      · rw [labelsMentioned_label]
        intro hmem
        have := labelName_inj (List.mem_singleton.mp hmem)
        omega
  | .WhileNode cond body, g, g1, seg, h, hseg => by
    simp only [genStmt, bind_eq_ok, Prod.exists, pure_eq_ok] at h
    obtain ⟨l1, g2, hl1, l2, g3, hl2, cr, g4, hc, g6, hB, rfl⟩ := h
    obtain ⟨-, rfl, rfl⟩ := (newLabel_eq_ok _ _ _).mp hl1
    obtain ⟨-, rfl, rfl⟩ := (newLabel_eq_ok _ _ _).mp hl2
    obtain ⟨hk, segC, hiC, hdC, htC⟩ := genExpression_plain cond _ cr g4 hc
    obtain ⟨hm, segB, hiB, hsB⟩ := genStmts_labelStep body _ g6 hB
    have ih := genStmts_skips body _ g6 segB hB hiB
    simp only [emit] at hk hiC
    simp only [emit, hk] at hm hiB hsB hseg ih
    have hs : seg = ([⟨.LABEL, labelName g.labelCounter, "", ""⟩] ++ segC ++
          [⟨.IF_FALSE, labelName (g.labelCounter + 1), cr, ""⟩]) ++ segB ++
        [⟨.GOTO, labelName g.labelCounter, "", ""⟩,
          ⟨.LABEL, labelName (g.labelCounter + 1), "", ""⟩] := by
      apply @List.append_cancel_left _ g.instructions
      rw [← hseg, hiB, hiC]
      simp
    intro n hn
    simp only [Stmt.skippedLabels] at hn
    have hr := Stmt.allSkippedLabels_range body _ n hn
    rw [hs]
    refine (ih n hn).embed _ _ ?_ ?_
    · intro hmem
      simp [labelsMentioned, labelDefinitions_append, jumpTargets_append, hdC, htC,
        labelDefinitions_ifFalse, jumpTargets_ifFalse, labelDefinitions_label,
        jumpTargets_label, labelDefinitions_nil, jumpTargets_nil] at hmem
      rcases hmem with he | he
      · have := labelName_inj he
        omega
      · have := labelName_inj he
        omega
    · intro hmem
      simp [labelsMentioned, labelDefinitions_goto, jumpTargets_goto, labelDefinitions_label,
        jumpTargets_label, labelDefinitions_nil, jumpTargets_nil] at hmem
      rcases hmem with he | he
      · have := labelName_inj he
        omega
      · have := labelName_inj he
        omega

theorem genStmts_skips : ∀ (stmts : List Stmt) (g g1 : IRGenerator) (seg : List IRInstruction),
    genStmts stmts g = .ok g1 → g1.instructions = g.instructions ++ seg →
    ∀ n ∈ Stmt.allSkippedLabels stmts g.labelCounter, SkipsLabel seg n
  | [], g, g1, seg, h, hseg => by
    intro n hn
    simp [Stmt.allSkippedLabels] at hn
  | st :: stmts, g, g1, seg, h, hseg => by
    simp only [genStmts, bind_eq_ok] at h
    obtain ⟨ga, ha, h⟩ := h
    obtain ⟨hm1, seg1, hi1, hs1⟩ := genStmt_labelStep st g ga ha
    obtain ⟨hm2, seg2, hi2, hs2⟩ := genStmts_labelStep stmts ga g1 h
    have c1 := genStmt_labelCount st g ga ha
    have ih1 := genStmt_skips st g ga seg1 ha hi1
    have ih2 := genStmts_skips stmts ga g1 seg2 h hi2
    rw [c1] at ih2 hs2 hs1
    have hs : seg = seg1 ++ seg2 := by
      apply @List.append_cancel_left _ g.instructions
      rw [← hseg, hi2, hi1, List.append_assoc]
    intro n hn
    simp only [Stmt.allSkippedLabels, List.mem_append] at hn
    rcases hn with hn | hn
    · have hr := Stmt.skippedLabels_range st _ n hn
      have := (ih1 n hn).embed [] seg2 (by simp [labelsMentioned, labelDefinitions_nil,
        jumpTargets_nil]) (hs2.not_mentioned (Or.inl (by omega)))
      rw [hs]
      simpa using this
    · have hr := Stmt.allSkippedLabels_range stmts _ n hn
      have := (ih2 n hn).embed seg1 [] (hs1.not_mentioned (Or.inr (by omega)))
        (by simp [labelsMentioned, labelDefinitions_nil, jumpTargets_nil])
      rw [hs]
      simpa using this

end

end IRGenerator

theorem Stmt.allSkippedLabels_append : ∀ (a b : List Stmt) (c : Nat),
    Stmt.allSkippedLabels (a ++ b) c =
      Stmt.allSkippedLabels a c ++ Stmt.allSkippedLabels b (c + 2 * Stmt.allControlCount a)
  | [], b, c => by simp [Stmt.allSkippedLabels, Stmt.allControlCount]
  | s :: a, b, c => by
    have ih := Stmt.allSkippedLabels_append a b (c + 2 * s.controlCount)
    have e : c + 2 * s.controlCount + 2 * Stmt.allControlCount a =
        c + 2 * (s.controlCount + Stmt.allControlCount a) := by omega
    show Stmt.allSkippedLabels (s :: (a ++ b)) c = _
    simp only [Stmt.allSkippedLabels, Stmt.allControlCount, ih, e, List.append_assoc]

theorem Item.skippedLabels_append : ∀ (a b : List Item) (c : Nat),
    Item.skippedLabels (a ++ b) c =
      Item.skippedLabels a c ++ Item.skippedLabels b (c + 2 * Item.controlCount a)
  | [], b, c => by simp [Item.skippedLabels, Item.controlCount]
  | .FunctionNode retType name params body :: a, b, c => by
    have ih := Item.skippedLabels_append a b (c + 2 * Stmt.allControlCount body)
    have e : c + 2 * Stmt.allControlCount body + 2 * Item.controlCount a =
        c + 2 * (Stmt.allControlCount body + Item.controlCount a) := by omega
    show Item.skippedLabels (.FunctionNode retType name params body :: (a ++ b)) c = _
    simp only [Item.skippedLabels, Item.controlCount, ih, e, List.append_assoc]
  | .Statement st :: a, b, c => by
    have ih := Item.skippedLabels_append a b c
    show Item.skippedLabels (.Statement st :: (a ++ b)) c = _
    simp only [Item.skippedLabels, Item.controlCount, ih]

theorem Item.skippedLabels_ge : ∀ (items : List Item) (c n : Nat),
    n ∈ Item.skippedLabels items c → c ≤ n
  | [], c, n, h => by
    simp [Item.skippedLabels] at h
  | .FunctionNode _ _ _ body :: items, c, n, h => by
    simp only [Item.skippedLabels, List.mem_append] at h
    rcases h with h | h
    · exact (Stmt.allSkippedLabels_range body c n h).1
    · have := Item.skippedLabels_ge items _ n h
      omega
  | .Statement _ :: items, c, n, h => by
    simp only [Item.skippedLabels] at h
    exact Item.skippedLabels_ge items c n h

/-- The `if` without `else` at a place in a function body has its number among
the skipped labels of the program. -/
theorem ProgramNode.mem_skippedLabels (prog : ProgramNode) (itemsBefore itemsAfter : List Item)
    (retType name : String) (params : List (String × String))
    (stmtsBefore stmtsAfter : List Stmt) (cond : Expr) (thenBlock : List Stmt)
    (hitems : prog.items = itemsBefore ++
      .FunctionNode retType name params
        (stmtsBefore ++ .IfNode cond thenBlock none :: stmtsAfter) :: itemsAfter) :
    2 * (Item.controlCount itemsBefore + Stmt.allControlCount stmtsBefore) ∈
      prog.skippedLabels := by
  unfold ProgramNode.skippedLabels
  rw [hitems, Item.skippedLabels_append]
  apply List.mem_append_right
  simp only [Item.skippedLabels]
  apply List.mem_append_left
  rw [Stmt.allSkippedLabels_append]
  apply List.mem_append_right
  simp only [Stmt.allSkippedLabels, Stmt.skippedLabels]
  apply List.mem_append_left
  simp only [Nat.zero_add, List.mem_cons]
  left
  omega

namespace IRGenerator

theorem genFunction_skips (name : String) (params : List (String × String)) (body : List Stmt)
    (g g1 : IRGenerator) (seg : List IRInstruction)
    (h : genFunction name params body g = .ok g1) (hseg : g1.instructions = g.instructions ++ seg) :
    ∀ n ∈ Stmt.allSkippedLabels body g.labelCounter, SkipsLabel seg n := by
  simp only [genFunction, bind_eq_ok, pure_eq_ok] at h
  obtain ⟨s1, -, g2, hb, rfl⟩ := h
  obtain ⟨hm, segB, hiB, hsB⟩ := genStmts_labelStep body _ g2 hb
  have ih := genStmts_skips body _ g2 segB hb hiB
  simp only [emit] at hm hiB hsB hseg ih
  have hs : seg = [⟨.FUNC_BEGIN, name, "", ""⟩] ++ segB ++ [⟨.FUNC_END, name, "", ""⟩] := by
    apply @List.append_cancel_left _ g.instructions
    rw [← hseg, hiB]
    simp
  intro n hn
  rw [hs]
  exact (ih n hn).embed _ _ (by simp [labelsMentioned, labelDefinitions, jumpTargets,
    IROpcode.isJump]) (by simp [labelsMentioned, labelDefinitions, jumpTargets, IROpcode.isJump])

theorem genItems_skips : ∀ (items : List Item) (g g1 : IRGenerator) (seg : List IRInstruction),
    genItems items g = .ok g1 → g1.instructions = g.instructions ++ seg →
    ∀ n ∈ Item.skippedLabels items g.labelCounter, SkipsLabel seg n
  | [], g, g1, seg, h, hseg => by
    intro n hn
    simp [Item.skippedLabels] at hn
  | .FunctionNode _ name params body :: items, g, g1, seg, h, hseg => by
    simp only [genItems, bind_eq_ok] at h
    obtain ⟨ga, ha, h⟩ := h
    obtain ⟨hm1, seg1, hi1, hs1⟩ := genFunction_labelStep name params body g ga ha
    obtain ⟨hm2, seg2, hi2, hs2⟩ := genItems_labelStep items ga g1 h
    have c1 := genFunction_labelCount name params body g ga ha
    have ih1 := genFunction_skips name params body g ga seg1 ha hi1
    have ih2 := genItems_skips items ga g1 seg2 h hi2
    rw [c1] at ih2 hs2 hs1
    have hs : seg = seg1 ++ seg2 := by
      apply @List.append_cancel_left _ g.instructions
      rw [← hseg, hi2, hi1, List.append_assoc]
    intro n hn
    simp only [Item.skippedLabels, List.mem_append] at hn
    rcases hn with hn | hn
    · have hr := Stmt.allSkippedLabels_range body _ n hn
      have := (ih1 n hn).embed [] seg2 (by simp [labelsMentioned, labelDefinitions_nil,
        jumpTargets_nil]) (hs2.not_mentioned (Or.inl (by omega)))
      rw [hs]
      simpa using this
    · have hr := Item.skippedLabels_ge items _ n hn
      have := (ih2 n hn).embed seg1 [] (hs1.not_mentioned (Or.inr (by omega)))
        (by simp [labelsMentioned, labelDefinitions_nil, jumpTargets_nil])
      rw [hs]
      simpa using this
  | .Statement (.VarDeclNode typeName name init) :: items, g, g1, seg, h, hseg => by
    simp only [genItems, bind_eq_ok] at h
    obtain ⟨ga, ha, h⟩ := h
    obtain ⟨hm1, seg1, hi1, hs1⟩ := genStmt_labelStep _ g ga ha
    obtain ⟨hm2, seg2, hi2, hs2⟩ := genItems_labelStep items ga g1 h
    have c1 := genStmt_labelCount _ g ga ha
    have ih2 := genItems_skips items ga g1 seg2 h hi2
    simp only [Stmt.controlCount, Nat.mul_zero, Nat.add_zero] at c1
    rw [c1] at ih2 hs2 hs1
    have hs : seg = seg1 ++ seg2 := by
      apply @List.append_cancel_left _ g.instructions
      rw [← hseg, hi2, hi1, List.append_assoc]
    intro n hn
    simp only [Item.skippedLabels] at hn
    have := (ih2 n hn).embed seg1 [] (hs1.not_mentioned (by
        have hx := Item.skippedLabels_ge items _ n hn
        omega))
      (by simp [labelsMentioned, labelDefinitions_nil, jumpTargets_nil])
    rw [hs]
    simpa using this
  | .Statement (.BlockNode _) :: items, g, g1, seg, h, hseg
  | .Statement (.ReturnNode _) :: items, g, g1, seg, h, hseg
  | .Statement (.IfNode _ _ _) :: items, g, g1, seg, h, hseg
  | .Statement (.WhileNode _ _) :: items, g, g1, seg, h, hseg
  | .Statement (.ExprStmtNode _) :: items, g, g1, seg, h, hseg => by
    simp only [genItems] at h
    intro n hn
    simp only [Item.skippedLabels] at hn
    exact genItems_skips items g g1 seg h hseg n hn

end IRGenerator

/-- C39 (labels of an `if` without `else`).  `genIf` takes two label numbers also
for an `if` without `else` and uses the second only.  For every `if` without
`else` in a function body, at any depth, let `n` be the first of its two label
numbers, which is twice the number of `if` and `while` statements lowered before
it.  Then the code of the program contains `IF_FALSE L(n+1), cond` and
`LABEL L(n+1)`, and the label `Ln` is mentioned nowhere in it, neither by a
`LABEL` nor by a jump.  In particular, for an `if` without `else` that stands in
the body of a function, `n` is twice the number of `if` and `while` statements in
the function bodies before it and in the statements before it in its own body;
for the first control statement of a program these labels are `L1` and `L0`.
The number of labels allocated, the final value of the label counter, is twice
the number of `if` and `while` statements in the function bodies. -/
theorem if_without_else_skips_a_label (prog : ProgramNode) (gfinal : IRGenerator)
    (hprog : IRGenerator.generate prog = .ok gfinal) :
    (∀ n ∈ prog.skippedLabels,
      (∃ condResult : String,
        ⟨.IF_FALSE, labelName (n + 1), condResult, ""⟩ ∈ gfinal.instructions) ∧
      ⟨.LABEL, labelName (n + 1), "", ""⟩ ∈ gfinal.instructions ∧
      labelName n ∉ labelsMentioned gfinal.instructions) ∧
    (∀ (itemsBefore itemsAfter : List Item) (retType name : String)
        (params : List (String × String)) (stmtsBefore stmtsAfter : List Stmt)
        (cond : Expr) (thenBlock : List Stmt),
      prog.items = itemsBefore ++
        .FunctionNode retType name params
          (stmtsBefore ++ .IfNode cond thenBlock none :: stmtsAfter) :: itemsAfter →
      (∃ condResult : String,
        ⟨.IF_FALSE,
          labelName (2 * (Item.controlCount itemsBefore + Stmt.allControlCount stmtsBefore) + 1),
          condResult, ""⟩ ∈ gfinal.instructions) ∧
      ⟨.LABEL,
        labelName (2 * (Item.controlCount itemsBefore + Stmt.allControlCount stmtsBefore) + 1),
        "", ""⟩ ∈ gfinal.instructions ∧
      labelName (2 * (Item.controlCount itemsBefore + Stmt.allControlCount stmtsBefore)) ∉
        labelsMentioned gfinal.instructions) ∧
    gfinal.labelCounter = 2 * prog.controlCount := by
  simp only [IRGenerator.generate, IRGenerator.genProgram, bind_eq_ok] at hprog
  obtain ⟨s0, -, hI⟩ := hprog
  have hcount := IRGenerator.genItems_labelCount prog.items _ gfinal hI
  have hall : ∀ n ∈ prog.skippedLabels, SkipsLabel gfinal.instructions n :=
    IRGenerator.genItems_skips prog.items _ gfinal gfinal.instructions hI
      (by simp [IRGenerator.new])
  refine ⟨hall, ?_, by simpa [IRGenerator.new, ProgramNode.controlCount] using hcount⟩
  intro itemsBefore itemsAfter retType name params stmtsBefore stmtsAfter cond thenBlock hitems
  exact hall _ (ProgramNode.mem_skippedLabels prog itemsBefore itemsAfter retType name params
    stmtsBefore stmtsAfter cond thenBlock hitems)

/-- Witness for C39: the code of the tree of
`fn int f(){ if(true){ return 1; } return 0; }` has `IF_FALSE L1, true` and
`LABEL L1`, the label `L0` is mentioned nowhere in it, and two labels were
allocated.  In `fn int f(){ while(true){ { if(false){ } } } return 0; }` the
`if` is the second control statement: its first label number is 2, and the code
has `IF_FALSE L3, false` and `LABEL L3`. -/
theorem if_without_else_skips_a_label_witness :
    IRGenerator.generate ⟨[.FunctionNode "int" "f" []
        [.IfNode (.LiteralNode "bool" "true") [.ReturnNode (some (.LiteralNode "int" "1"))] none,
         .ReturnNode (some (.LiteralNode "int" "0"))]]⟩ =
      .ok ⟨[⟨.FUNC_BEGIN, "f", "", ""⟩, ⟨.IF_FALSE, "L1", "true", ""⟩, ⟨.RETURN, "", "1", ""⟩,
          ⟨.LABEL, "L1", "", ""⟩, ⟨.RETURN, "", "0", ""⟩, ⟨.FUNC_END, "f", "", ""⟩],
        ⟨[], ⟨0, [("f", ⟨"f", "int", true, [], 0⟩)]⟩, 3⟩, 0, 2, "f"⟩ ∧
    "L0" ∉ labelsMentioned [⟨.FUNC_BEGIN, "f", "", ""⟩, ⟨.IF_FALSE, "L1", "true", ""⟩,
      ⟨.RETURN, "", "1", ""⟩, ⟨.LABEL, "L1", "", ""⟩, ⟨.RETURN, "", "0", ""⟩,
      ⟨.FUNC_END, "f", "", ""⟩] ∧
    IRGenerator.generate ⟨[.FunctionNode "int" "f" []
        [.WhileNode (.LiteralNode "bool" "true")
          [.BlockNode [.IfNode (.LiteralNode "bool" "false") [] none]],
         .ReturnNode (some (.LiteralNode "int" "0"))]]⟩ =
      .ok ⟨[⟨.FUNC_BEGIN, "f", "", ""⟩, ⟨.LABEL, "L0", "", ""⟩,
          ⟨.IF_FALSE, "L1", "true", ""⟩, ⟨.IF_FALSE, "L3", "false", ""⟩,
          ⟨.LABEL, "L3", "", ""⟩, ⟨.GOTO, "L0", "", ""⟩, ⟨.LABEL, "L1", "", ""⟩,
          ⟨.RETURN, "", "0", ""⟩, ⟨.FUNC_END, "f", "", ""⟩],
        ⟨[], ⟨0, [("f", ⟨"f", "int", true, [], 0⟩)]⟩, 5⟩, 0, 4, "f"⟩ ∧
    ProgramNode.skippedLabels ⟨[.FunctionNode "int" "f" []
        [.WhileNode (.LiteralNode "bool" "true")
          [.BlockNode [.IfNode (.LiteralNode "bool" "false") [] none]],
         .ReturnNode (some (.LiteralNode "int" "0"))]]⟩ = [2] :=
  ⟨by decide!,
   ((if_without_else_skips_a_label
      ⟨[.FunctionNode "int" "f" []
        [.IfNode (.LiteralNode "bool" "true") [.ReturnNode (some (.LiteralNode "int" "1"))] none,
         .ReturnNode (some (.LiteralNode "int" "0"))]]⟩
      ⟨[⟨.FUNC_BEGIN, "f", "", ""⟩, ⟨.IF_FALSE, "L1", "true", ""⟩, ⟨.RETURN, "", "1", ""⟩,
          ⟨.LABEL, "L1", "", ""⟩, ⟨.RETURN, "", "0", ""⟩, ⟨.FUNC_END, "f", "", ""⟩],
        ⟨[], ⟨0, [("f", ⟨"f", "int", true, [], 0⟩)]⟩, 3⟩, 0, 2, "f"⟩
      (by decide!)).2.1
      [] [] "int" "f" [] [] [.ReturnNode (some (.LiteralNode "int" "0"))]
      (.LiteralNode "bool" "true") [.ReturnNode (some (.LiteralNode "int" "1"))] rfl).2.2,
   by decide!, by decide!⟩

theorem ScopeNode.find_isSome (sc : ScopeNode) (name : String) :
    (sc.find name).isSome = decide (name ∈ sc.names) := by
  cases sc with
  | mk id symbols =>
    simp only [ScopeNode.find, ScopeNode.names]
    induction symbols with
    | nil => simp [List.lookup]
    | cons p rest ih =>
      obtain ⟨k, v⟩ := p
      simp only [List.lookup, List.map_cons, List.mem_cons]
      by_cases hk : name = k
      · subst hk
        simp
      · have hb : (name == k) = false := by simpa using hk
        simp only [hb, ih, hk, false_or]

namespace ScopeStack

theorem SameNames.names_refl (s : ScopeStack) : SameNames s s := rfl

theorem SameNames.enter {a b : ScopeStack} (h : SameNames a b) :
    SameNames a.enterScope b.enterScope := by
  simp only [SameNames, chain, enterScope, List.cons_append, List.map_cons, ScopeNode.names,
    List.map_nil] at h ⊢
  rw [h]

theorem SameNames.inner_length {a b : ScopeStack} (h : SameNames a b) :
    a.inner.length = b.inner.length := by
  have := congrArg List.length h
  simpa [chain] using this

theorem SameNames.exit {a b : ScopeStack} (h : SameNames a b) :
    SameNames a.exitScope b.exitScope := by
  have hl := h.inner_length
  cases ha : a.inner with
  | nil =>
    cases hb : b.inner with
    | nil =>
      simp only [SameNames, chain, exitScope, ha, hb] at h ⊢
      exact h
    | cons y ys => simp [ha, hb] at hl
  | cons x xs =>
    cases hb : b.inner with
    | nil => simp [ha, hb] at hl
    | cons y ys =>
      simp only [SameNames, chain, exitScope, ha, hb, List.cons_append, List.map_cons,
        List.cons.injEq] at h ⊢
      exact h.2

theorem SameNames.of_chain {a a1 b : ScopeStack} (hc : a1.chain = a.chain) (h : SameNames a b) :
    SameNames a1 b := by
  simp only [SameNames, hc] at h ⊢
  exact h

theorem SameNames.current {a b : ScopeStack} (h : SameNames a b) :
    a.currentScope.names = b.currentScope.names := by
  have ha := a.chain_head
  have hb := b.chain_head
  have := congrArg List.head? h
  simp only [List.head?_map, ha, hb, Option.map_some', Option.some.injEq] at this
  exact this

/-- When the analyzer's `addSymbol` succeeds, so does that of a generator whose
scope stack binds the same names, and the stacks still bind the same names. -/
theorem SameNames.addSymbol {a a1 b : ScopeStack} (h : SameNames a b) (name type : String)
    (ha : a.addSymbol name type false = .ok a1) :
    ∃ b1, b.addSymbol name type false = .ok b1 ∧ SameNames a1 b1 := by
  have hcur := h.current
  have hl := h.inner_length
  unfold ScopeStack.addSymbol at ha ⊢
  rw [ScopeNode.find_isSome] at ha ⊢
  rw [← hcur]
  by_cases hm : name ∈ a.currentScope.names
  · simp [hm] at ha
  · simp only [hm, decide_False, Bool.false_eq_true, if_false] at ha ⊢
    cases hai : a.inner with
    | nil =>
      cases hbi : b.inner with
      | nil =>
        simp only [hai, Except.ok.injEq] at ha
        subst ha
        refine ⟨_, rfl, ?_⟩
        simp only [SameNames, chain, hai, hbi, List.nil_append, List.map_cons, List.map_nil,
          ScopeNode.names, ScopeNode.insert, List.cons.injEq, and_true] at h ⊢
        rw [h]
        exact ⟨trivial, rfl⟩
      | cons y ys => simp [hai, hbi] at hl
    | cons x xs =>
      cases hbi : b.inner with
      | nil => simp [hai, hbi] at hl
      | cons y ys =>
        simp only [hai, Except.ok.injEq] at ha
        subst ha
        refine ⟨_, rfl, ?_⟩
        simp only [SameNames, chain, hai, hbi, List.cons_append, List.map_cons,
          ScopeNode.names, ScopeNode.insert, List.cons.injEq] at h ⊢
        exact ⟨by rw [h.1]; exact ⟨trivial, rfl⟩, h.2⟩

theorem SameNames.addParams : ∀ (params : List (String × String)) {a a1 b : ScopeStack},
    SameNames a b → a.addParams params = .ok a1 →
    ∃ b1, b.addParams params = .ok b1 ∧ SameNames a1 b1
  | [], a, a1, b, h, ha => by
    simp only [ScopeStack.addParams, Except.ok.injEq] at ha
    subst ha
    exact ⟨b, rfl, h⟩
  | p :: params, a, a1, b, h, ha => by
    simp only [ScopeStack.addParams, bind_eq_ok] at ha
    obtain ⟨a2, h2, h3⟩ := ha
    obtain ⟨b2, hb2, hs2⟩ := h.addSymbol p.2 p.1 h2
    obtain ⟨b1, hb1, hs1⟩ := SameNames.addParams params hs2 h3
    refine ⟨b1, ?_, hs1⟩
    simp only [ScopeStack.addParams, hb2, bind, Except.bind]
    exact hb1

end ScopeStack

namespace IRGenerator

theorem Completes.of_ok {α : Type} {a : α} {Q : α → Prop} (h : Q a) :
    Completes (.ok a : Except IRFailure α) Q := h

theorem Completes.of_pure {α : Type} {a : α} {Q : α → Prop} (h : Q a) :
    Completes (pure a : Except IRFailure α) Q := h

theorem Completes.of_bind {α β : Type} {x : Except IRFailure α} {f : α → Except IRFailure β}
    {Q : α → Prop} {R : β → Prop} (hx : Completes x Q) (hf : ∀ a, Q a → Completes (f a) R) :
    Completes (x >>= f) R := by
  cases x with
  | ok a => exact hf a hx
  | error e =>
    cases e with
    | signedOverflow => trivial
    | scopeException ex => exact hx

theorem Completes.weaken {α : Type} {x : Except IRFailure α} {Q R : α → Prop}
    (hx : Completes x Q) (h : ∀ a, Q a → R a) : Completes x R := by
  cases x with
  | ok a => exact h a hx
  | error e =>
    cases e with
    | signedOverflow => trivial
    | scopeException ex => exact hx

theorem Completes.of_newTemp (g : IRGenerator) :
    Completes g.newTemp (fun r => r.2.scopeStack = g.scopeStack) := by
  unfold IRGenerator.newTemp
  split
  · trivial
  · rfl

theorem Completes.of_newLabel (g : IRGenerator) :
    Completes g.newLabel (fun r => r.2.scopeStack = g.scopeStack) := by
  unfold IRGenerator.newLabel
  split
  · trivial
  · rfl

theorem Completes.liftScope_ok {α : Type} {r : Except ScopeException α} {a : α}
    {Q : α → Prop} (h : r = .ok a) (hq : Q a) : Completes (liftScope r) Q := by
  subst h
  exact hq

end IRGenerator

namespace IRGenerator

mutual

/-- The code generation of an expression throws no `ScopeException` and leaves
the scope stack as it was. -/
theorem genExpression_completes : ∀ (e : Expr) (g : IRGenerator),
    Completes (genExpression e g) (fun r => r.2.scopeStack = g.scopeStack)
  | .BinaryOpNode op left right, g => by
    simp only [genExpression]
    refine (genExpression_completes left g).of_bind (fun ⟨l, g1⟩ h1 => ?_)
    refine (genExpression_completes right g1).of_bind (fun ⟨r, g2⟩ h2 => ?_)
    refine (Completes.of_newTemp g2).of_bind (fun ⟨t, g3⟩ h3 => ?_)
    exact Completes.of_pure (h3.trans (h2.trans h1))
  | .UnaryOpNode op operand isPostfix, g => by
    simp only [genExpression]
    refine (genExpression_completes operand g).of_bind (fun ⟨o, g1⟩ h1 => ?_)
    simp only
    split
    · split
      · refine (Completes.of_newTemp g1).of_bind (fun ⟨t, g2⟩ h2 => ?_)
        refine (Completes.of_newTemp (g2.emit .COPY t o "")).of_bind (fun ⟨r, g4⟩ h4 => ?_)
        exact Completes.of_pure (h4.trans (h2.trans h1))
      · refine (Completes.of_newTemp g1).of_bind (fun ⟨r, g2⟩ h2 => ?_)
        exact Completes.of_pure (h2.trans h1)
    · split
      · refine (Completes.of_newTemp g1).of_bind (fun ⟨r, g2⟩ h2 => ?_)
        exact Completes.of_pure (h2.trans h1)
      · split
        · refine (Completes.of_newTemp g1).of_bind (fun ⟨r, g2⟩ h2 => ?_)
          exact Completes.of_pure (h2.trans h1)
        · exact Completes.of_pure h1
  | .LiteralNode _ value, g => by
    simp only [genExpression]
    exact Completes.of_pure rfl
  | .IdentifierNode name, g => by
    simp only [genExpression]
    exact Completes.of_pure rfl
  | .CallNode (.IdentifierNode name) args, g => by
    simp only [genExpression]
    refine (genArgs_completes args g).of_bind (fun g1 h1 => ?_)
    refine (Completes.of_newTemp g1).of_bind (fun ⟨t, g2⟩ h2 => ?_)
    exact Completes.of_pure (h2.trans h1)
  | .CallNode (.BinaryOpNode _ _ _) args, g
  | .CallNode (.UnaryOpNode _ _ _) args, g
  | .CallNode (.LiteralNode _ _) args, g
  | .CallNode (.CallNode _ _) args, g
  | .CallNode (.AssignmentNode _ _ _) args, g => by
    simp only [genExpression]
    exact Completes.of_pure rfl
  | .AssignmentNode (.IdentifierNode name) op right, g => by
    simp only [genExpression]
    refine (genExpression_completes right g).of_bind (fun ⟨r, g1⟩ h1 => ?_)
    simp only
    split
    · exact Completes.of_pure h1
    · refine (Completes.of_newTemp g1).of_bind (fun ⟨t, g2⟩ h2 => ?_)
      exact Completes.of_pure (h2.trans h1)
  | .AssignmentNode (.BinaryOpNode _ _ _) op right, g
  | .AssignmentNode (.UnaryOpNode _ _ _) op right, g
  | .AssignmentNode (.LiteralNode _ _) op right, g
  | .AssignmentNode (.CallNode _ _) op right, g
  | .AssignmentNode (.AssignmentNode _ _ _) op right, g => by
    simp only [genExpression]
    exact Completes.of_pure rfl

theorem genArgs_completes : ∀ (args : List Expr) (g : IRGenerator),
    Completes (genArgs args g) (fun g1 => g1.scopeStack = g.scopeStack)
  | [], g => by
    simp only [genArgs]
    exact Completes.of_pure rfl
  | arg :: args, g => by
    simp only [genArgs]
    refine (genExpression_completes arg g).of_bind (fun ⟨v, g1⟩ h1 => ?_)
    exact (genArgs_completes args (g1.emit .PARAM "" v "")).weaken (fun g2 h2 => h2.trans h1)

end

end IRGenerator

namespace IRGenerator

open ScopeAnalyzer in
mutual

/-- A statement that the analyzer accepts is lowered without `ScopeException` by
a generator whose scope stack binds the same names as the analyzer's, and
afterwards the two scope stacks bind the same names again. -/
theorem genStmt_simulates : ∀ (st : Stmt) (sA sA1 : ScopeStack) (g : IRGenerator),
    analyzeStmt st sA = .ok sA1 → sA.SameNames g.scopeStack →
    Completes (genStmt st g) (fun g1 => sA1.SameNames g1.scopeStack)
  | .BlockNode stmts, sA, sA1, g, h, hs => by
    simp only [analyzeStmt, bind_eq_ok, pure_eq_ok] at h
    obtain ⟨s2, h2, rfl⟩ := h
    simp only [genStmt]
    refine (genStmts_simulates stmts _ s2 { g with scopeStack := g.scopeStack.enterScope } h2
      hs.enter).of_bind (fun g1 h1 => ?_)
    exact Completes.of_pure h1.exit
  | .VarDeclNode typeName name none, sA, sA1, g, h, hs => by
    simp only [analyzeStmt, pure_bind] at h
    obtain ⟨b1, hb1, hs1⟩ := hs.addSymbol name typeName h
    simp only [genStmt, pure_bind]
    refine (Completes.liftScope_ok hb1 hs1).of_bind (fun s1 h1 => ?_)
    exact Completes.of_pure h1
  | .VarDeclNode typeName name (some e), sA, sA1, g, h, hs => by
    simp only [analyzeStmt, bind_eq_ok] at h
    obtain ⟨_, _, h2⟩ := h
    simp only [genStmt]
    have hinner : Completes (do
        let (initValue, g1) ← genExpression e g
        pure (g1.emit .COPY name initValue "")) (fun g1 => g1.scopeStack = g.scopeStack) :=
      (genExpression_completes e g).of_bind (fun ⟨v, g1⟩ h1 => Completes.of_pure h1)
    refine hinner.of_bind (fun g1 h1 => ?_)
    rw [← h1] at hs
    obtain ⟨b1, hb1, hs1⟩ := hs.addSymbol name typeName h2
    refine (Completes.liftScope_ok hb1 hs1).of_bind (fun s1 h3 => ?_)
    exact Completes.of_pure h3
  | .ReturnNode none, sA, sA1, g, h, hs => by
    simp only [analyzeStmt, pure_bind, pure_eq_ok] at h
    subst h
    simp only [genStmt]
    exact Completes.of_pure hs
  | .ReturnNode (some e), sA, sA1, g, h, hs => by
    simp only [analyzeStmt, bind_eq_ok, pure_eq_ok] at h
    obtain ⟨_, _, rfl⟩ := h
    simp only [genStmt]
    refine (genExpression_completes e g).of_bind (fun ⟨v, g1⟩ h1 => ?_)
    exact Completes.of_pure (by
      show sA.SameNames g1.scopeStack
      rw [h1]
      exact hs)
  | .IfNode cond thenBlock none, sA, sA1, g, h, hs => by
    simp only [analyzeStmt, bind_eq_ok, pure_eq_ok] at h
    obtain ⟨_, _, s2, h2, rfl⟩ := h
    simp only [genStmt]
    refine (genExpression_completes cond g).of_bind (fun ⟨cr, g1⟩ h1 => ?_)
    refine (Completes.of_newLabel g1).of_bind (fun ⟨l1, g2⟩ hl1 => ?_)
    refine (Completes.of_newLabel g2).of_bind (fun ⟨l2, g3⟩ hl2 => ?_)
    have h3 : g3.scopeStack = g.scopeStack := hl2.trans (hl1.trans h1)
    have hs3 : sA.enterScope.SameNames
        ({ g3.emit .IF_FALSE l2 cr "" with
          scopeStack := (g3.emit .IF_FALSE l2 cr "").scopeStack.enterScope } :
          IRGenerator).scopeStack := by
      show sA.enterScope.SameNames g3.scopeStack.enterScope
      rw [h3]
      exact hs.enter
    refine (genStmts_simulates thenBlock _ s2 _ h2 hs3).of_bind (fun g5 h5 => ?_)
    exact Completes.of_pure h5.exit
  | .IfNode cond thenBlock (some stmts), sA, sA1, g, h, hs => by
    simp only [analyzeStmt, bind_eq_ok, pure_eq_ok] at h
    obtain ⟨_, _, s2, h2, s3, h3, rfl⟩ := h
    simp only [genStmt]
    refine (genExpression_completes cond g).of_bind (fun ⟨cr, g1⟩ h1 => ?_)
    refine (Completes.of_newLabel g1).of_bind (fun ⟨l1, g2⟩ hl1 => ?_)
    refine (Completes.of_newLabel g2).of_bind (fun ⟨l2, g3⟩ hl2 => ?_)
    have hg3 : g3.scopeStack = g.scopeStack := hl2.trans (hl1.trans h1)
    have hs3 : sA.enterScope.SameNames
        ({ g3.emit .IF_FALSE l1 cr "" with
          scopeStack := (g3.emit .IF_FALSE l1 cr "").scopeStack.enterScope } :
          IRGenerator).scopeStack := by
      show sA.enterScope.SameNames g3.scopeStack.enterScope
      rw [hg3]
      exact hs.enter
    refine (genStmts_simulates thenBlock _ s2 _ h2 hs3).of_bind (fun g5 h5 => ?_)
    have hs5 : s2.exitScope.enterScope.SameNames g5.scopeStack.exitScope.enterScope :=
      h5.exit.enter
    refine (genStmts_simulates stmts _ s3 _ h3 hs5).of_bind (fun g9 h9 => ?_)
    exact Completes.of_pure h9.exit
  | .WhileNode cond body, sA, sA1, g, h, hs => by
    simp only [analyzeStmt, bind_eq_ok, pure_eq_ok] at h
    obtain ⟨_, _, s2, h2, rfl⟩ := h
    simp only [genStmt]
    refine (Completes.of_newLabel g).of_bind (fun ⟨l1, g1⟩ hl1 => ?_)
    refine (Completes.of_newLabel g1).of_bind (fun ⟨l2, g2⟩ hl2 => ?_)
    refine (genExpression_completes cond (g2.emit .LABEL l1 "" "")).of_bind
      (fun ⟨cr, g4⟩ h4 => ?_)
    have hg4 : g4.scopeStack = g.scopeStack := h4.trans (hl2.trans hl1)
    have hs4 : sA.enterScope.SameNames g4.scopeStack.enterScope := by
      rw [hg4]
      exact hs.enter
    refine (genStmts_simulates body _ s2 _ h2 hs4).of_bind (fun g6 h6 => ?_)
    exact Completes.of_pure h6.exit
  | .ExprStmtNode e, sA, sA1, g, h, hs => by
    simp only [analyzeStmt, bind_eq_ok, pure_eq_ok] at h
    obtain ⟨_, _, rfl⟩ := h
    simp only [genStmt]
    refine (genExpression_completes e g).of_bind (fun ⟨v, g1⟩ h1 => ?_)
    exact Completes.of_pure (by
      show sA.SameNames g1.scopeStack
      rw [h1]
      exact hs)

theorem genStmts_simulates : ∀ (stmts : List Stmt) (sA sA1 : ScopeStack) (g : IRGenerator),
    analyzeStmts stmts sA = .ok sA1 → sA.SameNames g.scopeStack →
    Completes (genStmts stmts g) (fun g1 => sA1.SameNames g1.scopeStack)
  | [], sA, sA1, g, h, hs => by
    simp only [analyzeStmts, pure_eq_ok] at h
    subst h
    simp only [genStmts]
    exact Completes.of_pure hs
  | st :: stmts, sA, sA1, g, h, hs => by
    simp only [analyzeStmts, bind_eq_ok] at h
    obtain ⟨s2, h2, h3⟩ := h
    simp only [genStmts]
    exact (genStmt_simulates st sA s2 g h2 hs).of_bind
      (fun g1 h1 => genStmts_simulates stmts s2 sA1 g1 h3 h1)

end

end IRGenerator

namespace IRGenerator

theorem fits_pure {α : Type} {a : α} {Q : α → Prop} (h : Q a) :
    Fits (pure a : Except IRFailure α) Q := h

theorem fits_bind {α β : Type} {x : Except IRFailure α} {f : α → Except IRFailure β}
    {Q : α → Prop} {R : β → Prop} (hx : Fits x Q) (hf : ∀ a, Q a → Fits (f a) R) :
    Fits (x >>= f) R := by
  cases x with
  | ok a => exact hf a hx
  | error e =>
    cases e with
    | signedOverflow => exact hx
    | scopeException ex => trivial

theorem fits_weaken {α : Type} {x : Except IRFailure α} {Q R : α → Prop}
    (hx : Fits x Q) (h : ∀ a, Q a → R a) : Fits x R := by
  cases x with
  | ok a => exact h a hx
  | error e =>
    cases e with
    | signedOverflow => exact hx
    | scopeException ex => trivial

theorem fits_newTemp (g : IRGenerator) (h : g.tempCounter < INT_MAX) :
    Fits g.newTemp (fun r => r.2.tempCounter = g.tempCounter + 1 ∧
      r.2.labelCounter = g.labelCounter) := by
  unfold IRGenerator.newTemp
  split
  · exact absurd h (by omega)
  · exact ⟨rfl, rfl⟩

theorem fits_newLabel (g : IRGenerator) (h : g.labelCounter < INT_MAX) :
    Fits g.newLabel (fun r => r.2.tempCounter = g.tempCounter ∧
      r.2.labelCounter = g.labelCounter + 1) := by
  unfold IRGenerator.newLabel
  split
  · exact absurd h (by omega)
  · exact ⟨rfl, rfl⟩

theorem fits_liftScope {α : Type} (r : Except ScopeException α) :
    Fits (liftScope r) (fun _ => True) := by
  cases r <;> trivial

mutual

/-- The code generation of an expression does not stop at an overflow when the
counter of temporaries is far enough from `INT_MAX`. -/
theorem genExpression_fits : ∀ (e : Expr) (g : IRGenerator),
    g.tempCounter + e.tempBound ≤ INT_MAX →
    Fits (genExpression e g) (fun r => r.2.tempCounter ≤ g.tempCounter + e.tempBound ∧
      r.2.labelCounter = g.labelCounter)
  | .BinaryOpNode op left right, g, hb => by
    simp only [Expr.tempBound] at hb ⊢
    simp only [genExpression]
    refine fits_bind (genExpression_fits left g (by omega)) (fun ⟨l, g1⟩ h1 => ?_)
    simp only at h1
    refine fits_bind (genExpression_fits right g1 (by omega)) (fun ⟨r, g2⟩ h2 => ?_)
    simp only at h2
    refine fits_bind (fits_newTemp g2 (by omega)) (fun ⟨t, g3⟩ h3 => ?_)
    simp only at h3
    refine fits_pure ?_
    simp only [emit]
    omega
  | .UnaryOpNode op operand isPostfix, g, hb => by
    simp only [Expr.tempBound] at hb ⊢
    simp only [genExpression]
    refine fits_bind (genExpression_fits operand g (by omega)) (fun ⟨o, g1⟩ h1 => ?_)
    simp only at h1 ⊢
    split
    · split
      · refine fits_bind (fits_newTemp g1 (by omega)) (fun ⟨t, g2⟩ h2 => ?_)
        simp only at h2
        refine fits_bind (fits_newTemp (g2.emit .COPY t o "") (by
          simp only [emit]
          omega)) (fun ⟨r, g4⟩ h4 => ?_)
        simp only [emit] at h4
        refine fits_pure ?_
        simp only [emit]
        omega
      · refine fits_bind (fits_newTemp g1 (by omega)) (fun ⟨r, g2⟩ h2 => ?_)
        simp only at h2
        refine fits_pure ?_
        simp only [emit]
        omega
    · split
      · refine fits_bind (fits_newTemp g1 (by omega)) (fun ⟨r, g2⟩ h2 => ?_)
        simp only at h2
        refine fits_pure ?_
        simp only [emit]
        omega
      · split
        · refine fits_bind (fits_newTemp g1 (by omega)) (fun ⟨r, g2⟩ h2 => ?_)
          simp only at h2
          refine fits_pure ?_
          simp only [emit]
          omega
        · refine fits_pure ?_
          simp only
          omega
  | .LiteralNode _ value, g, hb => by
    simp only [genExpression]
    exact fits_pure ⟨Nat.le_add_right _ _, rfl⟩
  | .IdentifierNode name, g, hb => by
    simp only [genExpression]
    exact fits_pure ⟨Nat.le_add_right _ _, rfl⟩
  | .CallNode (.IdentifierNode name) args, g, hb => by
    simp only [Expr.tempBound] at hb ⊢
    simp only [genExpression]
    refine fits_bind (genArgs_fits args g (by omega)) (fun g1 h1 => ?_)
    simp only at h1
    refine fits_bind (fits_newTemp g1 (by omega)) (fun ⟨t, g2⟩ h2 => ?_)
    simp only at h2
    refine fits_pure ?_
    simp only [emit]
    omega
  | .CallNode (.BinaryOpNode _ _ _) args, g, hb
  | .CallNode (.UnaryOpNode _ _ _) args, g, hb
  | .CallNode (.LiteralNode _ _) args, g, hb
  | .CallNode (.CallNode _ _) args, g, hb
  | .CallNode (.AssignmentNode _ _ _) args, g, hb => by
    simp only [genExpression]
    exact fits_pure ⟨Nat.le_add_right _ _, rfl⟩
  | .AssignmentNode (.IdentifierNode name) op right, g, hb => by
    simp only [Expr.tempBound] at hb ⊢
    simp only [genExpression]
    refine fits_bind (genExpression_fits right g (by omega)) (fun ⟨r, g1⟩ h1 => ?_)
    simp only at h1 ⊢
    split
    · refine fits_pure ?_
      simp only [emit]
      omega
    · refine fits_bind (fits_newTemp g1 (by omega)) (fun ⟨t, g2⟩ h2 => ?_)
      simp only at h2
      refine fits_pure ?_
      simp only [emit]
      omega
  | .AssignmentNode (.BinaryOpNode _ _ _) op right, g, hb
  | .AssignmentNode (.UnaryOpNode _ _ _) op right, g, hb
  | .AssignmentNode (.LiteralNode _ _) op right, g, hb
  | .AssignmentNode (.CallNode _ _) op right, g, hb
  | .AssignmentNode (.AssignmentNode _ _ _) op right, g, hb => by
    simp only [genExpression]
    exact fits_pure ⟨Nat.le_add_right _ _, rfl⟩

theorem genArgs_fits : ∀ (args : List Expr) (g : IRGenerator),
    g.tempCounter + Expr.allTempBound args ≤ INT_MAX →
    Fits (genArgs args g) (fun g1 => g1.tempCounter ≤ g.tempCounter + Expr.allTempBound args ∧
      g1.labelCounter = g.labelCounter)
  | [], g, hb => by
    simp only [genArgs]
    exact fits_pure ⟨Nat.le_add_right _ _, rfl⟩
  | arg :: args, g, hb => by
    simp only [Expr.allTempBound] at hb ⊢
    simp only [genArgs]
    refine fits_bind (genExpression_fits arg g (by omega)) (fun ⟨v, g1⟩ h1 => ?_)
    simp only at h1
    refine fits_weaken (genArgs_fits args (g1.emit .PARAM "" v "") (by
      simp only [emit]
      omega)) (fun g2 h2 => ?_)
    simp only [emit] at h2
    omega

end

mutual

/-- The code generation of a statement does not stop at an overflow when both
counters are far enough from `INT_MAX`. -/
theorem genStmt_fits : ∀ (st : Stmt) (g : IRGenerator),
    g.tempCounter + st.tempBound ≤ INT_MAX → g.labelCounter + 2 * st.controlCount ≤ INT_MAX →
    Fits (genStmt st g) (fun g1 => g1.tempCounter ≤ g.tempCounter + st.tempBound ∧
      g1.labelCounter ≤ g.labelCounter + 2 * st.controlCount)
  | .VarDeclNode typeName name none, g, ht, hl => by
    simp only [genStmt, pure_bind]
    refine fits_bind (fits_liftScope _) (fun s1 _ => fits_pure ?_)
    simp only
    omega
  | .VarDeclNode typeName name (some e), g, ht, hl => by
    simp only [Stmt.tempBound, Stmt.controlCount] at ht hl ⊢
    simp only [genStmt]
    have hinner : Fits (do
        let (initValue, g1) ← genExpression e g
        pure (g1.emit .COPY name initValue "")) (fun g1 =>
          g1.tempCounter ≤ g.tempCounter + e.tempBound ∧ g1.labelCounter = g.labelCounter) :=
      fits_bind (genExpression_fits e g ht) (fun ⟨v, g1⟩ h1 => fits_pure h1)
    refine fits_bind hinner (fun g1 h1 => ?_)
    refine fits_bind (fits_liftScope _) (fun s1 _ => fits_pure ?_)
    simp only at h1 ⊢
    omega
  | .ReturnNode none, g, ht, hl => by
    simp only [genStmt]
    refine fits_pure ?_
    simp only [emit]
    omega
  | .ReturnNode (some e), g, ht, hl => by
    simp only [Stmt.tempBound, Stmt.controlCount] at ht hl ⊢
    simp only [genStmt]
    refine fits_bind (genExpression_fits e g ht) (fun ⟨v, g1⟩ h1 => fits_pure ?_)
    simp only [emit] at h1 ⊢
    omega
  | .IfNode cond thenBlock none, g, ht, hl => by
    simp only [Stmt.tempBound, Stmt.controlCount] at ht hl ⊢
    simp only [genStmt]
    refine fits_bind (genExpression_fits cond g (by omega)) (fun ⟨cr, g1⟩ h1 => ?_)
    simp only at h1
    refine fits_bind (fits_newLabel g1 (by omega)) (fun ⟨l1, g2⟩ h2 => ?_)
    simp only at h2
    refine fits_bind (fits_newLabel g2 (by omega)) (fun ⟨l2, g3⟩ h3 => ?_)
    simp only at h3 ⊢
    refine fits_bind (genStmts_fits thenBlock _ (by
      simp only [emit]
      omega) (by
      simp only [emit]
      omega)) (fun g5 h5 => fits_pure ?_)
    simp only [emit] at h5 ⊢
    omega
  | .IfNode cond thenBlock (some stmts), g, ht, hl => by
    simp only [Stmt.tempBound, Stmt.controlCount] at ht hl ⊢
    simp only [genStmt]
    refine fits_bind (genExpression_fits cond g (by omega)) (fun ⟨cr, g1⟩ h1 => ?_)
    simp only at h1
    refine fits_bind (fits_newLabel g1 (by omega)) (fun ⟨l1, g2⟩ h2 => ?_)
    simp only at h2
    refine fits_bind (fits_newLabel g2 (by omega)) (fun ⟨l2, g3⟩ h3 => ?_)
    simp only at h3 ⊢
    refine fits_bind (genStmts_fits thenBlock _ (by
      simp only [emit]
      omega) (by
      simp only [emit]
      omega)) (fun g5 h5 => ?_)
    simp only [emit] at h5
    refine fits_bind (genStmts_fits stmts _ (by
      simp only [emit]
      omega) (by
      simp only [emit]
      omega)) (fun g9 h9 => fits_pure ?_)
    simp only [emit] at h9 ⊢
    omega
  | .WhileNode cond body, g, ht, hl => by
    simp only [Stmt.tempBound, Stmt.controlCount] at ht hl ⊢
    simp only [genStmt]
    refine fits_bind (fits_newLabel g (by omega)) (fun ⟨l1, g1⟩ h1 => ?_)
    simp only at h1
    refine fits_bind (fits_newLabel g1 (by omega)) (fun ⟨l2, g2⟩ h2 => ?_)
    simp only at h2
    refine fits_bind (genExpression_fits cond _ (by
      simp only [emit]
      omega)) (fun ⟨cr, g4⟩ h4 => ?_)
    simp only [emit] at h4 ⊢
    refine fits_bind (genStmts_fits body _ (by
      simp only
      omega) (by
      simp only
      omega)) (fun g6 h6 => fits_pure ?_)
    simp only at h6 ⊢
    omega
  | .ExprStmtNode expr, g, ht, hl => by
    simp only [Stmt.tempBound, Stmt.controlCount] at ht hl ⊢
    simp only [genStmt]
    refine fits_bind (genExpression_fits expr g ht) (fun ⟨v, g1⟩ h1 => fits_pure ?_)
    simp only at h1 ⊢
    omega
  | .BlockNode stmts, g, ht, hl => by
    simp only [Stmt.tempBound, Stmt.controlCount] at ht hl ⊢
    simp only [genStmt]
    refine fits_bind (genStmts_fits stmts _ ht hl) (fun g1 h1 => fits_pure ?_)
    simp only at h1 ⊢
    omega

theorem genStmts_fits : ∀ (stmts : List Stmt) (g : IRGenerator),
    g.tempCounter + Stmt.allTempBound stmts ≤ INT_MAX →
    g.labelCounter + 2 * Stmt.allControlCount stmts ≤ INT_MAX →
    Fits (genStmts stmts g) (fun g1 => g1.tempCounter ≤ g.tempCounter + Stmt.allTempBound stmts ∧
      g1.labelCounter ≤ g.labelCounter + 2 * Stmt.allControlCount stmts)
  | [], g, ht, hl => by
    simp only [genStmts]
    exact fits_pure ⟨Nat.le_add_right _ _, Nat.le_add_right _ _⟩
  | st :: stmts, g, ht, hl => by
    simp only [Stmt.allTempBound, Stmt.allControlCount] at ht hl ⊢
    simp only [genStmts]
    refine fits_bind (genStmt_fits st g (by omega) (by omega)) (fun g1 h1 => ?_)
    simp only at h1
    refine fits_weaken (genStmts_fits stmts g1 (by omega) (by omega)) (fun g2 h2 => ?_)
    simp only at h2 ⊢
    omega

end

theorem genFunction_fits (name : String) (params : List (String × String)) (body : List Stmt)
    (g : IRGenerator) (ht : g.tempCounter + Stmt.allTempBound body ≤ INT_MAX)
    (hl : g.labelCounter + 2 * Stmt.allControlCount body ≤ INT_MAX) :
    Fits (genFunction name params body g) (fun g1 =>
      g1.tempCounter ≤ g.tempCounter + Stmt.allTempBound body ∧
      g1.labelCounter ≤ g.labelCounter + 2 * Stmt.allControlCount body) := by
  simp only [genFunction]
  refine fits_bind (fits_liftScope _) (fun s1 _ => ?_)
  refine fits_bind (genStmts_fits body _ ht hl) (fun g2 h2 => fits_pure ?_)
  simp only [emit] at h2 ⊢
  exact h2

theorem genItems_fits : ∀ (items : List Item) (g : IRGenerator),
    g.tempCounter + Item.tempBound items ≤ INT_MAX →
    g.labelCounter + 2 * Item.controlCount items ≤ INT_MAX →
    Fits (genItems items g) (fun _ => True)
  | [], g, ht, hl => by
    simp only [genItems]
    exact fits_pure trivial
  | .FunctionNode retType name params body :: items, g, ht, hl => by
    simp only [Item.tempBound, Item.controlCount] at ht hl
    simp only [genItems]
    refine fits_bind (genFunction_fits name params body g (by omega) (by omega))
      (fun g1 h1 => ?_)
    simp only at h1
    exact genItems_fits items g1 (by omega) (by omega)
  | .Statement (.VarDeclNode typeName name init) :: items, g, ht, hl => by
    simp only [Item.tempBound, Item.controlCount] at ht hl
    simp only [genItems]
    refine fits_bind (genStmt_fits (.VarDeclNode typeName name init) g (by omega) (by
      simp only [Stmt.controlCount]
      omega)) (fun g1 h1 => ?_)
    simp only [Stmt.controlCount] at h1
    exact genItems_fits items g1 (by omega) (by omega)
  | .Statement (.BlockNode _) :: items, g, ht, hl
  | .Statement (.ReturnNode _) :: items, g, ht, hl
  | .Statement (.IfNode _ _ _) :: items, g, ht, hl
  | .Statement (.WhileNode _ _) :: items, g, ht, hl
  | .Statement (.ExprStmtNode _) :: items, g, ht, hl => by
    simp only [Item.tempBound, Item.controlCount] at ht hl
    simp only [genItems]
    exact genItems_fits items g ht hl

/-- A program whose bounds of temporaries and labels fit into a C++ `int` is
lowered without a stop at an overflow. -/
theorem generate_fits (prog : ProgramNode) (ht : prog.tempBound ≤ INT_MAX)
    (hl : 2 * prog.controlCount ≤ INT_MAX) :
    IRGenerator.generate prog ≠ .error .signedOverflow := by
  have hf : Fits (IRGenerator.generate prog) (fun _ => True) := by
    simp only [generate, genProgram]
    refine fits_bind (fits_liftScope _) (fun s1 _ => ?_)
    refine genItems_fits prog.items _ ?_ ?_
    · simpa [IRGenerator.new, ProgramNode.tempBound] using ht
    · simpa [IRGenerator.new, ProgramNode.controlCount] using hl
  intro h
  rw [h] at hf
  exact hf

end IRGenerator

namespace ScopeAnalyzer

/-- A statement other than a declaration leaves the chain of scopes as it was. -/
theorem analyzeStmt_chain : ∀ (st : Stmt) (s s1 : ScopeStack), analyzeStmt st s = .ok s1 →
    (∀ typeName name init, st ≠ .VarDeclNode typeName name init) → s1.chain = s.chain
  | .BlockNode stmts, s, s1, h, _ => by
    simp only [analyzeStmt, bind_eq_ok, pure_eq_ok] at h
    obtain ⟨s2, h2, rfl⟩ := h
    exact (analyzeStmts_keeps stmts _ s2 h2).1.exit_chain.1
  | .VarDeclNode typeName name init, _, _, _, hne => absurd rfl (hne typeName name init)
  | .ReturnNode none, s, s1, h, _ => by
    simp only [analyzeStmt, pure_bind, pure_eq_ok] at h
    rw [h]
  | .ReturnNode (some e), s, s1, h, _ => by
    simp only [analyzeStmt, bind_eq_ok, pure_eq_ok] at h
    obtain ⟨_, _, rfl⟩ := h
    rfl
  | .IfNode cond thenBlock none, s, s1, h, _ => by
    simp only [analyzeStmt, bind_eq_ok, pure_eq_ok] at h
    obtain ⟨_, _, s2, h2, rfl⟩ := h
    exact (analyzeStmts_keeps thenBlock _ s2 h2).1.exit_chain.1
  | .IfNode cond thenBlock (some stmts), s, s1, h, _ => by
    simp only [analyzeStmt, bind_eq_ok, pure_eq_ok] at h
    obtain ⟨_, _, s2, h2, s3, h3, rfl⟩ := h
    rw [(analyzeStmts_keeps stmts _ s3 h3).1.exit_chain.1]
    exact (analyzeStmts_keeps thenBlock _ s2 h2).1.exit_chain.1
  | .WhileNode cond body, s, s1, h, _ => by
    simp only [analyzeStmt, bind_eq_ok, pure_eq_ok] at h
    obtain ⟨_, _, s2, h2, rfl⟩ := h
    exact (analyzeStmts_keeps body _ s2 h2).1.exit_chain.1
  | .ExprStmtNode e, s, s1, h, _ => by
    simp only [analyzeStmt, bind_eq_ok, pure_eq_ok] at h
    obtain ⟨_, _, rfl⟩ := h
    rfl

end ScopeAnalyzer

namespace IRGenerator

open ScopeAnalyzer

theorem genFunction_simulates (name : String) (params : List (String × String))
    (body : List Stmt) (sA sA1 : ScopeStack) (g : IRGenerator)
    (h : analyzeFunction params body sA = .ok sA1) (hs : sA.SameNames g.scopeStack) :
    Completes (genFunction name params body g) (fun g1 => sA1.SameNames g1.scopeStack) := by
  simp only [analyzeFunction, bind_eq_ok, pure_eq_ok] at h
  obtain ⟨s1, h1, s2, h2, rfl⟩ := h
  obtain ⟨b1, hb1, hs1⟩ := ScopeStack.SameNames.addParams params hs.enter h1
  simp only [genFunction]
  refine (Completes.liftScope_ok hb1 hs1).of_bind (fun sp hp => ?_)
  refine (genStmts_simulates body s1 s2 _ h2 hp).of_bind (fun g2 hg2 => ?_)
  exact Completes.of_pure hg2.exit

theorem genItems_simulates : ∀ (items : List Item) (sA sA1 : ScopeStack) (g : IRGenerator),
    analyzeItems items sA = .ok sA1 → sA.SameNames g.scopeStack →
    Completes (genItems items g) (fun g1 => sA1.SameNames g1.scopeStack)
  | [], sA, sA1, g, h, hs => by
    simp only [analyzeItems, pure_eq_ok] at h
    subst h
    simp only [genItems]
    exact Completes.of_pure hs
  | .FunctionNode _ name params body :: items, sA, sA1, g, h, hs => by
    simp only [analyzeItems, bind_eq_ok] at h
    obtain ⟨s2, h2, h3⟩ := h
    simp only [genItems]
    exact (genFunction_simulates name params body sA s2 g h2 hs).of_bind
      (fun g1 h1 => genItems_simulates items s2 sA1 g1 h3 h1)
  | .Statement (.VarDeclNode typeName name init) :: items, sA, sA1, g, h, hs => by
    simp only [analyzeItems, bind_eq_ok] at h
    obtain ⟨s2, h2, h3⟩ := h
    simp only [genItems]
    exact (genStmt_simulates _ sA s2 g h2 hs).of_bind
      (fun g1 h1 => genItems_simulates items s2 sA1 g1 h3 h1)
  | .Statement (.BlockNode b) :: items, sA, sA1, g, h, hs => by
    simp only [analyzeItems, bind_eq_ok] at h
    obtain ⟨s2, h2, h3⟩ := h
    simp only [genItems]
    exact genItems_simulates items s2 sA1 g h3
      (hs.of_chain (analyzeStmt_chain _ sA s2 h2 (fun _ _ _ hc => Stmt.noConfusion hc)))
  | .Statement (.ReturnNode e) :: items, sA, sA1, g, h, hs => by
    simp only [analyzeItems, bind_eq_ok] at h
    obtain ⟨s2, h2, h3⟩ := h
    simp only [genItems]
    exact genItems_simulates items s2 sA1 g h3
      (hs.of_chain (analyzeStmt_chain _ sA s2 h2 (fun _ _ _ hc => Stmt.noConfusion hc)))
  | .Statement (.IfNode c t e) :: items, sA, sA1, g, h, hs => by
    simp only [analyzeItems, bind_eq_ok] at h
    obtain ⟨s2, h2, h3⟩ := h
    simp only [genItems]
    exact genItems_simulates items s2 sA1 g h3
      (hs.of_chain (analyzeStmt_chain _ sA s2 h2 (fun _ _ _ hc => Stmt.noConfusion hc)))
  | .Statement (.WhileNode c b) :: items, sA, sA1, g, h, hs => by
    simp only [analyzeItems, bind_eq_ok] at h
    obtain ⟨s2, h2, h3⟩ := h
    simp only [genItems]
    exact genItems_simulates items s2 sA1 g h3
      (hs.of_chain (analyzeStmt_chain _ sA s2 h2 (fun _ _ _ hc => Stmt.noConfusion hc)))
  | .Statement (.ExprStmtNode e) :: items, sA, sA1, g, h, hs => by
    simp only [analyzeItems, bind_eq_ok] at h
    obtain ⟨s2, h2, h3⟩ := h
    simp only [genItems]
    exact genItems_simulates items s2 sA1 g h3
      (hs.of_chain (analyzeStmt_chain _ sA s2 h2 (fun _ _ _ hc => Stmt.noConfusion hc)))

end IRGenerator

/-- C40 (no scope error in the generator).  For every program that
`ScopeAnalyzer.analyze` accepts, `IRGenerator.generate`, run with its own new
scope stack, throws no `ScopeException`: every `addFunction` and `addSymbol` of
the generator is performed by the analyzer in a scope that binds the same names.
The run returns the generator with its instruction list, and the scope
stack then binds the same names as the analyzer's; the one other outcome of the
embedding is the stop at a counter of temporaries or labels that has reached
`INT_MAX`, where the C++ increment has no defined behaviour, and it does not
occur for a program whose temporaries and labels fit into an `int`. -/
theorem generate_raises_no_scope_exception (prog : ProgramNode) (sA : ScopeStack)
    (h : ScopeAnalyzer.analyze prog = .ok sA) :
    (∀ e, IRGenerator.generate prog ≠ .error (.scopeException e)) ∧
    ((∃ g, IRGenerator.generate prog = .ok g ∧ sA.SameNames g.scopeStack) ∨
      IRGenerator.generate prog = .error .signedOverflow) ∧
    (prog.tempBound ≤ INT_MAX → 2 * prog.controlCount ≤ INT_MAX →
      ∃ g, IRGenerator.generate prog = .ok g ∧ sA.SameNames g.scopeStack) := by
  simp only [ScopeAnalyzer.analyze, ScopeAnalyzer.analyzeProgram, bind_eq_ok] at h
  obtain ⟨s1, h1, h2⟩ := h
  have hgen : IRGenerator.generate prog =
      IRGenerator.genItems prog.items { IRGenerator.new with scopeStack := s1 } := by
    have : ScopeAnalyzer.hoistFunctions prog.items IRGenerator.new.scopeStack = .ok s1 := h1
    simp only [IRGenerator.generate, IRGenerator.genProgram, this, IRGenerator.liftScope,
      bind, Except.bind]
  have hc := IRGenerator.genItems_simulates prog.items s1 sA
    { IRGenerator.new with scopeStack := s1 } h2 (ScopeStack.SameNames.names_refl s1)
  rw [← hgen] at hc
  cases hg : IRGenerator.generate prog with
  | ok g =>
    rw [hg] at hc
    exact ⟨fun e he => Except.noConfusion he, Or.inl ⟨g, rfl, hc⟩, fun _ _ => ⟨g, rfl, hc⟩⟩
  | error err =>
    rw [hg] at hc
    cases err with
    | signedOverflow =>
      exact ⟨fun e he => IRFailure.noConfusion (Except.error.inj he), Or.inr rfl,
        fun ht hl => absurd hg (IRGenerator.generate_fits prog ht hl)⟩
    | scopeException ex => exact absurd hc (fun hf => hf)

/-- Witness for C40: the analyzer accepts the tree of
`fn int f(int a){ int b = a + 1; return b; }`, and the generator, which adds
`f` to its own global scope and `a` and `b` to the scope of the function,
returns five instructions and a scope stack with the names of the analyzer's. -/
theorem generate_raises_no_scope_exception_witness :
    IRGenerator.generate ⟨[.FunctionNode "int" "f" [("int", "a")]
        [.VarDeclNode "int" "b"
          (some (.BinaryOpNode "+" (.IdentifierNode "a") (.LiteralNode "int" "1"))),
         .ReturnNode (some (.IdentifierNode "b"))]]⟩ =
      .ok ⟨[⟨.FUNC_BEGIN, "f", "", ""⟩, ⟨.ADD, "t0", "a", "1"⟩, ⟨.COPY, "b", "t0", ""⟩,
          ⟨.RETURN, "", "b", ""⟩, ⟨.FUNC_END, "f", "", ""⟩],
        ⟨[], ⟨0, [("f", ⟨"f", "int", true, ["int"], 0⟩)]⟩, 2⟩, 1, 0, "f"⟩ ∧
    ∃ g, IRGenerator.generate ⟨[.FunctionNode "int" "f" [("int", "a")]
        [.VarDeclNode "int" "b"
          (some (.BinaryOpNode "+" (.IdentifierNode "a") (.LiteralNode "int" "1"))),
         .ReturnNode (some (.IdentifierNode "b"))]]⟩ = .ok g ∧
      ScopeStack.SameNames ⟨[], ⟨0, [("f", ⟨"f", "int", true, ["int"], 0⟩)]⟩, 2⟩ g.scopeStack :=
  ⟨by decide!,
   (generate_raises_no_scope_exception
      ⟨[.FunctionNode "int" "f" [("int", "a")]
        [.VarDeclNode "int" "b"
          (some (.BinaryOpNode "+" (.IdentifierNode "a") (.LiteralNode "int" "1"))),
         .ReturnNode (some (.IdentifierNode "b"))]]⟩
      ⟨[], ⟨0, [("f", ⟨"f", "int", true, ["int"], 0⟩)]⟩, 2⟩ (by decide!)).2.2
      (by decide) (by decide)⟩

/-! ## Calls, binary operations and increments in the run of the generator -/

namespace IRGenerator

theorem ite_ne_param (c : Prop) [Decidable c] (a b : IROpcode) (ha : a ≠ .PARAM)
    (hb : b ≠ .PARAM) : (if c then a else b) ≠ .PARAM := by
  split <;> assumption

theorem binaryOpcode_ne_param (op : String) : binaryOpcode op ≠ .PARAM := by
  unfold binaryOpcode
  repeat' apply ite_ne_param
  all_goals exact fun h => IROpcode.noConfusion h

theorem compoundOpcode_ne_param (op : String) : compoundOpcode op ≠ .PARAM := by
  unfold compoundOpcode
  repeat' apply ite_ne_param
  all_goals exact fun h => IROpcode.noConfusion h

/-- The code of an expression is empty or ends with an instruction that is no
`PARAM`. -/
theorem genExpression_code_end : ∀ (e : Expr) (g : IRGenerator) (v : String) (g1 : IRGenerator)
    (code : List IRInstruction), genExpression e g = .ok (v, g1) →
    g1.instructions = g.instructions ++ code →
    ∀ last, code.getLast? = some last → last.op ≠ .PARAM
  | .BinaryOpNode op left right, g, v, g1, code, h, hc => by
    simp only [genExpression, bind_eq_ok, Prod.exists, pure_eq_ok, Prod.mk.injEq] at h
    obtain ⟨l, ga, hl, r, gb, hr, t, gc, ht, -, rfl⟩ := h
    obtain ⟨-, c1, i1, -, -⟩ := genExpression_plain left g l ga hl
    obtain ⟨-, c2, i2, -, -⟩ := genExpression_plain right ga r gb hr
    obtain ⟨-, -, rfl⟩ := (newTemp_eq_ok gb t gc).mp ht
    simp only [emit, i2, i1, List.append_assoc] at hc
    have := List.append_cancel_left hc
    intro last hlast
    rw [← this] at hlast
    simp at hlast
    subst hlast
    exact binaryOpcode_ne_param op
  | .UnaryOpNode op operand isPostfix, g, v, g1, code, h, hc => by
    simp only [genExpression, bind_eq_ok, Prod.exists] at h
    obtain ⟨o, ga, ho, h⟩ := h
    obtain ⟨-, c1, i1, -, -⟩ := genExpression_plain operand g o ga ho
    split at h
    · split at h
      · simp only [bind_eq_ok, Prod.exists, pure_eq_ok, Prod.mk.injEq] at h
        obtain ⟨t, gb, ht, r, gc, hr, -, rfl⟩ := h
        obtain ⟨-, -, rfl⟩ := (newTemp_eq_ok ga t gb).mp ht
        obtain ⟨-, -, rfl⟩ := (newTemp_eq_ok _ r gc).mp hr
        simp only [emit, i1, List.append_assoc] at hc
        have := List.append_cancel_left hc
        intro last hlast
        rw [← this] at hlast
        simp at hlast
        subst hlast
        exact fun h => IROpcode.noConfusion h
      · simp only [bind_eq_ok, Prod.exists, pure_eq_ok, Prod.mk.injEq] at h
        obtain ⟨r, gc, hr, -, rfl⟩ := h
        obtain ⟨-, -, rfl⟩ := (newTemp_eq_ok ga r gc).mp hr
        simp only [emit, i1, List.append_assoc] at hc
        have := List.append_cancel_left hc
        intro last hlast
        rw [← this] at hlast
        simp at hlast
        subst hlast
        exact fun h => IROpcode.noConfusion h
    · split at h
      · simp only [bind_eq_ok, Prod.exists, pure_eq_ok, Prod.mk.injEq] at h
        obtain ⟨r, gc, hr, -, rfl⟩ := h
        obtain ⟨-, -, rfl⟩ := (newTemp_eq_ok ga r gc).mp hr
        simp only [emit, i1, List.append_assoc] at hc
        have := List.append_cancel_left hc
        intro last hlast
        rw [← this] at hlast
        simp at hlast
        subst hlast
        exact fun h => IROpcode.noConfusion h
      · split at h
        · simp only [bind_eq_ok, Prod.exists, pure_eq_ok, Prod.mk.injEq] at h
          obtain ⟨r, gc, hr, -, rfl⟩ := h
          obtain ⟨-, -, rfl⟩ := (newTemp_eq_ok ga r gc).mp hr
          simp only [emit, i1, List.append_assoc] at hc
          have := List.append_cancel_left hc
          intro last hlast
          rw [← this] at hlast
          simp at hlast
          subst hlast
          exact fun h => IROpcode.noConfusion h
        · simp only [pure_eq_ok, Prod.mk.injEq] at h
          obtain ⟨-, rfl⟩ := h
          exact genExpression_code_end operand g o ga code ho hc
  | .LiteralNode _ value, g, v, g1, code, h, hc => by
    simp only [genExpression, pure_eq_ok, Prod.mk.injEq] at h
    obtain ⟨-, rfl⟩ := h
    have hnil : code = [] := by simpa using hc
    subst hnil
    intro last hlast
    simp at hlast
  | .IdentifierNode name, g, v, g1, code, h, hc => by
    simp only [genExpression, pure_eq_ok, Prod.mk.injEq] at h
    obtain ⟨-, rfl⟩ := h
    have hnil : code = [] := by simpa using hc
    subst hnil
    intro last hlast
    simp at hlast
  | .CallNode (.IdentifierNode name) args, g, v, g1, code, h, hc => by
    simp only [genExpression, bind_eq_ok, Prod.exists, pure_eq_ok, Prod.mk.injEq] at h
    obtain ⟨ga, ha, t, gb, ht, -, rfl⟩ := h
    obtain ⟨-, c1, i1, -, -⟩ := genArgs_plain args g ga ha
    obtain ⟨-, -, rfl⟩ := (newTemp_eq_ok ga t gb).mp ht
    simp only [emit, i1, List.append_assoc] at hc
    have := List.append_cancel_left hc
    intro last hlast
    rw [← this] at hlast
    simp at hlast
    subst hlast
    exact fun h => IROpcode.noConfusion h
  | .CallNode (.BinaryOpNode _ _ _) args, g, v, g1, code, h, hc
  | .CallNode (.UnaryOpNode _ _ _) args, g, v, g1, code, h, hc
  | .CallNode (.LiteralNode _ _) args, g, v, g1, code, h, hc
  | .CallNode (.CallNode _ _) args, g, v, g1, code, h, hc
  | .CallNode (.AssignmentNode _ _ _) args, g, v, g1, code, h, hc => by
    simp only [genExpression, pure_eq_ok, Prod.mk.injEq] at h
    obtain ⟨-, rfl⟩ := h
    have hnil : code = [] := by simpa using hc
    subst hnil
    intro last hlast
    simp at hlast
  | .AssignmentNode (.IdentifierNode name) op right, g, v, g1, code, h, hc => by
    simp only [genExpression, bind_eq_ok, Prod.exists] at h
    obtain ⟨r, ga, hr, h⟩ := h
    obtain ⟨-, c1, i1, -, -⟩ := genExpression_plain right g r ga hr
    split at h
    · simp only [pure_eq_ok, Prod.mk.injEq] at h
      obtain ⟨-, rfl⟩ := h
      simp only [emit, i1, List.append_assoc] at hc
      have := List.append_cancel_left hc
      intro last hlast
      rw [← this] at hlast
      simp at hlast
      subst hlast
      exact fun h => IROpcode.noConfusion h
    · simp only [bind_eq_ok, Prod.exists, pure_eq_ok, Prod.mk.injEq] at h
      obtain ⟨t, gb, ht, -, rfl⟩ := h
      obtain ⟨-, -, rfl⟩ := (newTemp_eq_ok ga t gb).mp ht
      simp only [emit, i1, List.append_assoc] at hc
      have := List.append_cancel_left hc
      intro last hlast
      rw [← this] at hlast
      simp at hlast
      subst hlast
      exact fun h => IROpcode.noConfusion h
  | .AssignmentNode (.BinaryOpNode _ _ _) op right, g, v, g1, code, h, hc
  | .AssignmentNode (.UnaryOpNode _ _ _) op right, g, v, g1, code, h, hc
  | .AssignmentNode (.LiteralNode _ _) op right, g, v, g1, code, h, hc
  | .AssignmentNode (.CallNode _ _) op right, g, v, g1, code, h, hc
  | .AssignmentNode (.AssignmentNode _ _ _) op right, g, v, g1, code, h, hc => by
    simp only [genExpression, pure_eq_ok, Prod.mk.injEq] at h
    obtain ⟨-, rfl⟩ := h
    have hnil : code = [] := by simpa using hc
    subst hnil
    intro last hlast
    simp at hlast

end IRGenerator

theorem paramCode_of_empty : ∀ (parts : List (List IRInstruction × String)),
    (∀ p ∈ parts, p.1 = []) →
    paramCode parts = parts.map (fun p => (⟨.PARAM, "", p.2, ""⟩ : IRInstruction))
  | [], _ => rfl
  | (code, v) :: rest, h => by
    have hc : code = [] := h (code, v) (List.mem_cons_self _ _)
    subst hc
    simp only [paramCode, List.nil_append, List.map_cons]
    rw [paramCode_of_empty rest (fun p hp => h p (List.mem_cons_of_mem _ hp))]

theorem paramCode_length : ∀ (parts : List (List IRInstruction × String)),
    parts.length ≤ (paramCode parts).length
  | [] => Nat.le_refl _
  | (code, v) :: rest => by
    have := paramCode_length rest
    simp only [paramCode, List.length_append, List.length_cons]
    omega

theorem take_params_shorter {xs : List IRInstruction} {m : Nat}
    (h : ∀ i ∈ xs.take (m + 1), i.op = .PARAM) : ∀ i ∈ xs.take m, i.op = .PARAM := by
  intro i hi
  apply h
  have e : xs.take m = (xs.take (m + 1)).take m := by
    rw [List.take_take]
    congr 1
    omega
  rw [e] at hi
  exact List.mem_of_mem_take hi

/-- When an argument emits code, the instructions before the `CALL`, as many as
there are arguments and one more, are not all `PARAM`s. -/
theorem params_interrupted : ∀ (parts : List (List IRInstruction × String))
    (pre : List IRInstruction),
    (∀ p ∈ parts, ∀ last, p.1.getLast? = some last → last.op ≠ .PARAM) →
    (∃ p ∈ parts, p.1 ≠ []) →
    ¬ ∀ i ∈ (pre ++ paramCode parts).reverse.take (parts.length + 1), i.op = .PARAM
  | [], _, _, ⟨p, hp, _⟩ => by cases hp
  | (code, v) :: rest, pre, hend, hex => by
    intro hall
    by_cases hrest : ∃ p ∈ rest, p.1 ≠ []
    · refine params_interrupted rest (pre ++ code ++ [⟨.PARAM, "", v, ""⟩])
        (fun p hp => hend p (List.mem_cons_of_mem _ hp)) hrest ?_
      have e : pre ++ code ++ [⟨.PARAM, "", v, ""⟩] ++ paramCode rest =
          pre ++ paramCode ((code, v) :: rest) := by
        simp [paramCode]
      rw [e]
      exact take_params_shorter hall
    · have hempty : ∀ p ∈ rest, p.1 = [] := by
        intro p hp
        by_contra hne
        exact hrest ⟨p, hp, hne⟩
      have hcode : code ≠ [] := by
        obtain ⟨p, hp, hne⟩ := hex
        rcases List.mem_cons.mp hp with rfl | hp
        · exact hne
        · exact absurd (hempty p hp) hne
      obtain ⟨init, last, rfl⟩ : ∃ init last, code = init ++ [last] := by
        rcases List.eq_nil_or_concat code with h | ⟨init, last, h⟩
        · exact absurd h hcode
        · exact ⟨init, last, by simpa using h⟩
      have hlast := hend (init ++ [last], v) (List.mem_cons_self _ _) last (by simp)
      apply hlast
      apply hall
      have e : (pre ++ paramCode ((init ++ [last], v) :: rest)).reverse =
          (rest.map (fun p => (⟨.PARAM, "", p.2, ""⟩ : IRInstruction))).reverse ++
            (⟨.PARAM, "", v, ""⟩ :: last :: (pre ++ init).reverse) := by
        simp [paramCode, paramCode_of_empty rest hempty]
      have hl : (rest.map (fun p => (⟨.PARAM, "", p.2, ""⟩ : IRInstruction))).reverse.length =
          rest.length := by simp
      rw [e, List.length_cons, ← hl, Nat.add_assoc, List.take_append]
      simp

namespace IRGenerator

/-- What `LowersArgs` describes is the run of `genArgs`. -/
theorem LowersArgs.run : ∀ (args : List Expr) (g : IRGenerator)
    (parts : List (List IRInstruction × String)) (gA : IRGenerator),
    LowersArgs args g parts gA →
    genArgs args g = .ok gA ∧ gA.instructions = g.instructions ++ paramCode parts ∧
    parts.length = args.length ∧
    (∀ p ∈ parts, ∀ last, p.1.getLast? = some last → last.op ≠ .PARAM)
  | [], g, parts, gA, h => by
    obtain ⟨rfl, rfl⟩ := h
    exact ⟨rfl, by simp [paramCode], rfl, fun p hp => by cases hp⟩
  | a :: args, g, parts, gA, h => by
    obtain ⟨code, v, ga, rest, rfl, ha, hcode, hrest⟩ := h
    obtain ⟨h1, h2, h3, h4⟩ := LowersArgs.run args _ rest gA hrest
    refine ⟨?_, ?_, by simp [h3], ?_⟩
    · simp only [genArgs, ha, bind, Except.bind]
      exact h1
    · rw [h2]
      simp [emit, hcode, paramCode]
    · intro p hp
      rcases List.mem_cons.mp hp with rfl | hp
      · exact genExpression_code_end a g v ga code ha hcode
      · exact h4 p hp

/-- Every run of `genArgs` is described by `LowersArgs`. -/
theorem LowersArgs.of_genArgs : ∀ (args : List Expr) (g gA : IRGenerator),
    genArgs args g = .ok gA → ∃ parts, LowersArgs args g parts gA
  | [], g, gA, h => by
    simp only [genArgs, pure_eq_ok] at h
    exact ⟨[], rfl, h.symm⟩
  | a :: args, g, gA, h => by
    simp only [genArgs, bind_eq_ok, Prod.exists] at h
    obtain ⟨v, ga, ha, h⟩ := h
    obtain ⟨-, code, hcode, -, -⟩ := genExpression_plain a g v ga ha
    obtain ⟨rest, hrest⟩ := LowersArgs.of_genArgs args _ gA h
    exact ⟨(code, v) :: rest, code, v, ga, rest, rfl, ha, hcode, hrest⟩

/-- An identifier or a literal emits no instruction; a binary operation and a
call of an identifier emit at least one. -/
theorem LowersArgs.kinds : ∀ (args : List Expr) (g : IRGenerator)
    (parts : List (List IRInstruction × String)) (gA : IRGenerator),
    LowersArgs args g parts gA → ∀ a p, (a, p) ∈ args.zip parts →
    (a.isAtom = true → p.1 = [] ∧ p.2 = a.atomValue) ∧
    (a.isOperationOrCall = true → p.1 ≠ [])
  | [], g, parts, gA, h => by
    intro a p hp
    simp at hp
  | a0 :: args, g, parts, gA, h => by
    obtain ⟨code, v, ga, rest, rfl, ha, hcode, hrest⟩ := h
    intro a p hp
    simp only [List.zip_cons_cons, List.mem_cons, Prod.mk.injEq] at hp
    rcases hp with ⟨rfl, rfl⟩ | hp
    · constructor
      · intro hatom
        rw [genExpression_atom a g hatom] at ha
        simp only [Except.ok.injEq, Prod.mk.injEq] at ha
        obtain ⟨rfl, rfl⟩ := ha
        exact ⟨by simpa using hcode, rfl⟩
      · intro hop hnil
        subst hnil
        rw [List.append_nil] at hcode
        cases a with
        | BinaryOpNode op left right =>
          simp only [genExpression, bind_eq_ok, Prod.exists, pure_eq_ok, Prod.mk.injEq] at ha
          obtain ⟨l, g1, hl, r, g2, hr, t, g3, ht, -, rfl⟩ := ha
          obtain ⟨-, c1, i1, -, -⟩ := genExpression_plain left g l g1 hl
          obtain ⟨-, c2, i2, -, -⟩ := genExpression_plain right g1 r g2 hr
          obtain ⟨-, -, rfl⟩ := (newTemp_eq_ok g2 t g3).mp ht
          simp only [emit, i2, i1] at hcode
          have := congrArg List.length hcode
          simp at this
        | CallNode callee cargs =>
          cases callee with
          | IdentifierNode name =>
            simp only [genExpression, bind_eq_ok, Prod.exists, pure_eq_ok, Prod.mk.injEq] at ha
            obtain ⟨g1, h1, t, g2, ht, -, rfl⟩ := ha
            obtain ⟨-, c1, i1, -, -⟩ := genArgs_plain cargs g g1 h1
            obtain ⟨-, -, rfl⟩ := (newTemp_eq_ok g1 t g2).mp ht
            simp only [emit, i1] at hcode
            have := congrArg List.length hcode
            simp at this
          | _ => simp [Expr.isOperationOrCall] at hop
        | _ => simp [Expr.isOperationOrCall] at hop
    · exact LowersArgs.kinds args _ rest gA hrest a p hp

end IRGenerator

theorem zip_tail_left {α β : Type} : ∀ (xs : List α) (ys : List β), xs.length = ys.length →
    ∀ x ∈ xs, ∃ y ∈ ys, (x, y) ∈ xs.zip ys
  | [], _, _ => fun x hx => by cases hx
  | x0 :: xs, [], h => by simp at h
  | x0 :: xs, y0 :: ys, h => by
    intro x hx
    rcases List.mem_cons.mp hx with rfl | hx
    · exact ⟨y0, List.mem_cons_self _ _, by simp⟩
    · obtain ⟨y, hy, hz⟩ := zip_tail_left xs ys (by simpa using h) x hx
      exact ⟨y, List.mem_cons_of_mem _ hy, by simp [hz]⟩

theorem zip_tail_right {α β : Type} : ∀ (xs : List α) (ys : List β), xs.length = ys.length →
    ∀ y ∈ ys, ∃ x ∈ xs, (x, y) ∈ xs.zip ys
  | _, [], _ => fun y hy => by cases hy
  | [], y0 :: ys, h => by simp at h
  | x0 :: xs, y0 :: ys, h => by
    intro y hy
    rcases List.mem_cons.mp hy with rfl | hy
    · exact ⟨x0, List.mem_cons_self _ _, by simp⟩
    · obtain ⟨x, hx, hz⟩ := zip_tail_right xs ys (by simpa using h) y hy
      exact ⟨x, List.mem_cons_of_mem _ hx, by simp [hz]⟩

/-- The `PARAM`s of a call are contiguous before its `CALL` exactly when no
argument after the first has code. -/
theorem endsWithParamsAndCall_iff (pre : List IRInstruction)
    (parts : List (List IRInstruction × String)) (call : IRInstruction)
    (hcall : call.op = .CALL)
    (hend : ∀ p ∈ parts, ∀ last, p.1.getLast? = some last → last.op ≠ .PARAM) :
    endsWithParamsAndCall parts.length (pre ++ paramCode parts ++ [call]) = true ↔
      ∀ p ∈ parts.tail, p.1 = [] := by
  have hlen := paramCode_length parts
  have hunfold : endsWithParamsAndCall parts.length (pre ++ paramCode parts ++ [call]) = true ↔
      ∀ i ∈ (pre ++ paramCode parts).reverse.take parts.length, i.op = .PARAM := by
    simp only [endsWithParamsAndCall, List.reverse_append, List.reverse_cons, List.reverse_nil,
      List.nil_append, List.singleton_append, hcall, decide_True, Bool.true_and,
      Bool.and_eq_true, decide_eq_true_eq, List.all_eq_true, List.length_append,
      List.length_reverse]
    constructor
    · exact fun h => h.2
    · exact fun h => ⟨by omega, h⟩
  rw [hunfold]
  cases parts with
  | nil => simp
  | cons p0 tail =>
    obtain ⟨code, v⟩ := p0
    simp only [List.tail_cons, List.length_cons]
    constructor
    · intro hall p hp
      by_contra hne
      refine params_interrupted tail (pre ++ code ++ [⟨.PARAM, "", v, ""⟩])
        (fun q hq => hend q (List.mem_cons_of_mem _ hq)) ⟨p, hp, hne⟩ ?_
      have e : pre ++ code ++ [⟨.PARAM, "", v, ""⟩] ++ paramCode tail =
          pre ++ paramCode ((code, v) :: tail) := by
        simp [paramCode]
      rw [e]
      exact hall
    · intro hempty
      have e : (pre ++ paramCode ((code, v) :: tail)).reverse =
          ((tail.map (fun p => (⟨.PARAM, "", p.2, ""⟩ : IRInstruction))).reverse ++
            [⟨.PARAM, "", v, ""⟩]) ++ (pre ++ code).reverse := by
        simp [paramCode, paramCode_of_empty tail hempty]
      have hl : ((tail.map (fun p => (⟨.PARAM, "", p.2, ""⟩ : IRInstruction))).reverse ++
          [(⟨.PARAM, "", v, ""⟩ : IRInstruction)]).length = tail.length + 1 := by simp
      rw [e, ← hl, List.take_left]
      intro i hi
      simp only [List.mem_append, List.mem_reverse, List.mem_map, List.mem_singleton] at hi
      rcases hi with ⟨p, -, rfl⟩ | rfl <;> rfl

/-- C5, amended.  `genCall` emits, for every argument in turn, the code of the
argument and then its `PARAM`, and after the last `PARAM` the `CALL`: when the
arguments are lowered one after the other, with the codes and values `parts`,
the code of the call `f(a1, ..., an)` is the code of `a1`, `PARAM v1`, the code
of `a2`, `PARAM v2`, and so on, and then `CALL t, f, n`, where `t` is the next
temporary, which the call returns.  The `n` instructions `PARAM` are contiguous
and immediately precede the `CALL` exactly when no argument after the first has
code; this is so when every argument after the first is an identifier or a
literal, and it is not so when one of them is a binary operation or a call of an
identifier, whose computation then stands between the `PARAM`s.  Every call that
is lowered is of this form. -/
theorem call_params_follow_each_argument (f : String) (args : List Expr) (g gA : IRGenerator)
    (parts : List (List IRInstruction × String))
    (hargs : IRGenerator.LowersArgs args g parts gA)
    (htemp : gA.tempCounter < INT_MAX) :
    IRGenerator.genExpression (.CallNode (.IdentifierNode f) args) g =
      .ok (tempName gA.tempCounter,
        { gA with
          instructions := g.instructions ++ paramCode parts ++
            [⟨.CALL, tempName gA.tempCounter, f, toString args.length⟩]
          tempCounter := gA.tempCounter + 1 }) ∧
    parts.length = args.length ∧
    (∀ a p, (a, p) ∈ args.zip parts →
      (a.isAtom = true → p.1 = [] ∧ p.2 = a.atomValue) ∧
      (a.isOperationOrCall = true → p.1 ≠ [])) ∧
    (endsWithParamsAndCall args.length
        (g.instructions ++ paramCode parts ++
          [⟨.CALL, tempName gA.tempCounter, f, toString args.length⟩]) = true ↔
      ∀ p ∈ parts.tail, p.1 = []) ∧
    ((∀ a ∈ args.tail, a.isAtom = true) →
      endsWithParamsAndCall args.length
        (g.instructions ++ paramCode parts ++
          [⟨.CALL, tempName gA.tempCounter, f, toString args.length⟩]) = true) ∧
    ((∃ a ∈ args.tail, a.isOperationOrCall = true) →
      endsWithParamsAndCall args.length
        (g.instructions ++ paramCode parts ++
          [⟨.CALL, tempName gA.tempCounter, f, toString args.length⟩]) = false) ∧
    (∀ (g0 g1 : IRGenerator) (t : String),
      IRGenerator.genExpression (.CallNode (.IdentifierNode f) args) g0 = .ok (t, g1) →
      ∃ parts0 gA0, IRGenerator.LowersArgs args g0 parts0 gA0 ∧ gA0.tempCounter < INT_MAX) := by
  obtain ⟨hrun, hinstr, hlen, hend⟩ := IRGenerator.LowersArgs.run args g parts gA hargs
  have hkinds := IRGenerator.LowersArgs.kinds args g parts gA hargs
  have hiff := endsWithParamsAndCall_iff g.instructions parts
    ⟨.CALL, tempName gA.tempCounter, f, toString args.length⟩ rfl hend
  rw [hlen] at hiff
  have htail : args.tail.length = parts.tail.length := by
    simp [List.length_tail, hlen]
  have hzip : ∀ a p, (a, p) ∈ args.tail.zip parts.tail → (a, p) ∈ args.zip parts := by
    intro a p hp
    cases args with
    | nil => simp at hp
    | cons a0 as =>
      cases parts with
      | nil => simp at hp
      | cons p0 ps => exact List.mem_cons_of_mem _ hp
  refine ⟨?_, hlen, hkinds, hiff, ?_, ?_, ?_⟩
  · have h2 : ¬ gA.tempCounter ≥ INT_MAX := by omega
    simp only [IRGenerator.genExpression, hrun, bind, Except.bind, IRGenerator.newTemp, h2,
      if_false, pure, Except.pure, IRGenerator.emit, tempName, hinstr]
  · intro hatoms
    apply hiff.mpr
    intro p hp
    obtain ⟨a, ha, hz⟩ := zip_tail_right args.tail parts.tail htail p hp
    exact ((hkinds a p (hzip a p hz)).1 (hatoms a ha)).1
  · rintro ⟨a, ha, hop⟩
    obtain ⟨p, hp, hz⟩ := zip_tail_left args.tail parts.tail htail a ha
    have hne := (hkinds a p (hzip a p hz)).2 hop
    cases hb : endsWithParamsAndCall args.length
        (g.instructions ++ paramCode parts ++
          [⟨.CALL, tempName gA.tempCounter, f, toString args.length⟩]) with
    | false => rfl
    | true => exact absurd (hiff.mp hb p hp) hne
  · intro g0 g1 t h
    simp only [IRGenerator.genExpression, bind_eq_ok, Prod.exists, pure_eq_ok,
      Prod.mk.injEq] at h
    obtain ⟨ga, ha, t1, gb, ht, -, -⟩ := h
    obtain ⟨parts0, hp⟩ := IRGenerator.LowersArgs.of_genArgs args g0 ga ha
    exact ⟨parts0, ga, hp, ((IRGenerator.newTemp_eq_ok ga t1 gb).mp ht).1⟩

/-- Witness for C5, amended: the call `f(a + b, 1, c)`, whose code is
`ADD t0, a, b`, `PARAM t0`, `PARAM 1`, `PARAM c`, `CALL t1, f, 3`, with the three
`PARAM`s before the `CALL`. -/
theorem call_params_follow_each_argument_witness :
    IRGenerator.genExpression
      (.CallNode (.IdentifierNode "f")
        [.BinaryOpNode "+" (.IdentifierNode "a") (.IdentifierNode "b"),
         .LiteralNode "int" "1", .IdentifierNode "c"]) IRGenerator.new =
      .ok ("t1", ⟨[⟨.ADD, "t0", "a", "b"⟩, ⟨.PARAM, "", "t0", ""⟩, ⟨.PARAM, "", "1", ""⟩,
        ⟨.PARAM, "", "c", ""⟩, ⟨.CALL, "t1", "f", "3"⟩], ScopeStack.new, 2, 0, ""⟩) :=
  (call_params_follow_each_argument "f"
    [.BinaryOpNode "+" (.IdentifierNode "a") (.IdentifierNode "b"),
     .LiteralNode "int" "1", .IdentifierNode "c"] IRGenerator.new
    ⟨[⟨.ADD, "t0", "a", "b"⟩, ⟨.PARAM, "", "t0", ""⟩, ⟨.PARAM, "", "1", ""⟩,
      ⟨.PARAM, "", "c", ""⟩], ScopeStack.new, 1, 0, ""⟩
    [([⟨.ADD, "t0", "a", "b"⟩], "t0"), ([], "1"), ([], "c")]
    ⟨[⟨.ADD, "t0", "a", "b"⟩], "t0", ⟨[⟨.ADD, "t0", "a", "b"⟩], ScopeStack.new, 1, 0, ""⟩,
      [([], "1"), ([], "c")], rfl, rfl, rfl,
      ⟨[], "1", ⟨[⟨.ADD, "t0", "a", "b"⟩, ⟨.PARAM, "", "t0", ""⟩], ScopeStack.new, 1, 0, ""⟩,
        [([], "c")], rfl, rfl, rfl,
        ⟨[], "c", ⟨[⟨.ADD, "t0", "a", "b"⟩, ⟨.PARAM, "", "t0", ""⟩, ⟨.PARAM, "", "1", ""⟩],
            ScopeStack.new, 1, 0, ""⟩,
          [], rfl, rfl, rfl, ⟨rfl, rfl⟩⟩⟩⟩
    (by decide)).1

theorem Expr.exprNames_append : ∀ (a b : List Expr),
    Expr.allNames (a ++ b) = Expr.allNames a ++ Expr.allNames b
  | [], b => by simp [Expr.allNames]
  | e :: a, b => by
    show Expr.allNames (e :: (a ++ b)) = _
    simp only [Expr.allNames, Expr.exprNames_append a b, List.append_assoc]

theorem Stmt.stmtNames_append : ∀ (a b : List Stmt),
    Stmt.allNames (a ++ b) = Stmt.allNames a ++ Stmt.allNames b
  | [], b => by simp [Stmt.allNames]
  | s :: a, b => by
    show Stmt.allNames (s :: (a ++ b)) = _
    simp only [Stmt.allNames, Stmt.stmtNames_append a b, List.append_assoc]

theorem Item.itemNames_append : ∀ (a b : List Item),
    Item.allNames (a ++ b) = Item.allNames a ++ Item.allNames b
  | [], b => by simp [Item.allNames]
  | .FunctionNode retType name params body :: a, b => by
    show Item.allNames (.FunctionNode retType name params body :: (a ++ b)) = _
    simp only [Item.allNames, Item.itemNames_append a b, List.append_assoc, List.cons_append]
  | .Statement st :: a, b => by
    show Item.allNames (.Statement st :: (a ++ b)) = _
    simp only [Item.allNames, Item.itemNames_append a b, List.append_assoc]

theorem mem_namesUsed_of_result : ∀ (instrs : List IRInstruction) (s : String),
    s ∈ instrs.map (·.result) → s ∈ namesUsed instrs
  | [], s, h => by cases h
  | i :: rest, s, h => by
    simp only [List.map_cons, List.mem_cons] at h
    simp only [namesUsed, List.mem_cons]
    rcases h with h | h
    · exact Or.inl h
    · exact Or.inr (Or.inr (Or.inr (mem_namesUsed_of_result rest s h)))

/-- When the operands that are temporaries are defined before their use, every
name of the form of a temporary in the instructions is among `defined` or is the
result of an instruction. -/
theorem operandsDefinedFrom_names : ∀ (instrs : List IRInstruction) (defined : List String),
    operandsDefinedFrom defined instrs = true →
    ∀ s ∈ namesUsed instrs, isTempName s = true → s ∈ defined ++ instrs.map (·.result)
  | [], _, _, s, hs, _ => by cases hs
  | i :: rest, defined, h, s, hs, ht => by
    simp only [operandsDefinedFrom, IRInstruction.operands, List.all_cons, List.all_nil,
      Bool.and_true, Bool.and_eq_true, Bool.or_eq_true, Bool.not_eq_true',
      decide_eq_true_eq] at h
    obtain ⟨⟨h1, h2⟩, h3⟩ := h
    simp only [namesUsed, List.mem_cons] at hs
    simp only [List.map_cons, List.mem_append, List.mem_cons]
    rcases hs with rfl | rfl | rfl | hs
    · exact Or.inr (Or.inl rfl)
    · rcases h1 with h1 | h1
      · rw [h1] at ht
        exact Bool.noConfusion ht
      · exact Or.inl h1
    · rcases h2 with h2 | h2
      · rw [h2] at ht
        exact Bool.noConfusion ht
      · exact Or.inl h2
    · have := operandsDefinedFrom_names rest (defined ++ [i.result]) h3 s hs ht
      simp only [List.mem_append, List.mem_singleton] at this
      rcases this with (h | h) | h
      · exact Or.inl h
      · exact Or.inr (Or.inl h)
      · exact Or.inr (Or.inr h)

namespace IRGenerator

/-- In a generator whose temporaries are numbered in order, every name of the
form of a temporary in the instructions has a number below the counter. -/
theorem TempsInOrder.below {g : IRGenerator} (h : g.TempsInOrder) :
    ∀ s ∈ namesUsed g.instructions, isTempName s = true →
      ∃ j, j < g.tempCounter ∧ s = tempName j := by
  intro s hs ht
  have hres := operandsDefinedFrom_names g.instructions [] h.2 s hs ht
  rw [List.nil_append] at hres
  have : s ∈ temporariesInOrder g.instructions :=
    (mem_firstOccurrences _ _).mpr (List.mem_filter.mpr ⟨hres, ht⟩)
  rw [h.1, List.mem_map] at this
  obtain ⟨j, hj, he⟩ := this
  exact ⟨j, List.mem_range.mp hj, he.symm⟩

/-- The temporaries that the counter has not handed out yet occur nowhere in the
instructions. -/
theorem TempsInOrder.unused {g : IRGenerator} (h : g.TempsInOrder) (k : Nat)
    (hk : g.tempCounter ≤ k) : tempName k ∉ namesUsed g.instructions := by
  intro hm
  obtain ⟨j, hj, he⟩ := h.below _ hm (isTempName_tempName k)
  have := tempName_injective he
  omega

/-- A value that is defined is none of the temporaries not handed out yet. -/
theorem TempsInOrder.ne_defined {g : IRGenerator} (h : g.TempsInOrder) {v : String}
    (hv : g.Defined v) (k : Nat) (hk : g.tempCounter ≤ k) : tempName k ≠ v := by
  intro he
  subst he
  exact h.unused k hk (mem_namesUsed_of_result _ _ (hv (isTempName_tempName k)))

end IRGenerator

/-- The state in which an operand is lowered has its temporaries numbered in
order, and the operand has no name of the form of a temporary. -/
theorem Expr.LoweredIn.expr_temps {e0 e : Expr} {g0 g : IRGenerator} (h : Expr.LoweredIn e0 g0 e g) :
    (∀ s ∈ e0.names, isTempName s = false) → g0.TempsInOrder →
    g.TempsInOrder ∧ ∀ s ∈ e.names, isTempName s = false := by
  induction h with
  | self e g => exact fun hn hinv => ⟨hinv, hn⟩
  | binaryLeft _ ih =>
    intro hn hinv
    simp only [Expr.names, List.mem_append] at hn
    exact ih (fun s hs => hn s (Or.inl hs)) hinv
  | binaryRight hl _ ih =>
    intro hn hinv
    simp only [Expr.names, List.mem_append] at hn
    exact ih (fun s hs => hn s (Or.inr hs))
      (IRGenerator.genExpression_temps _ _ _ _ (fun s hs => hn s (Or.inl hs)) hinv hl).1
  | unaryOperand _ ih =>
    intro hn hinv
    simp only [Expr.names] at hn
    exact ih hn hinv
  | callArgument hargs _ ih =>
    intro hn hinv
    simp only [Expr.names, Expr.exprNames_append, Expr.allNames, List.mem_append,
      List.mem_cons, List.not_mem_nil, or_false] at hn
    exact ih (fun s hs => hn s (Or.inr (Or.inr (Or.inl hs))))
      (IRGenerator.genArgs_temps _ _ _ (fun s hs => hn s (Or.inr (Or.inl hs))) hinv hargs)
  | assignmentRight _ ih =>
    intro hn hinv
    simp only [Expr.names, List.mem_append] at hn
    exact ih (fun s hs => hn s (Or.inr hs)) hinv

theorem Stmt.names_of_if_cond (cond : Expr) (thenBlock : List Stmt)
    (elseBlock : Option (List Stmt)) :
    ∀ s ∈ cond.names, s ∈ (Stmt.IfNode cond thenBlock elseBlock).names := by
  intro s hs
  cases elseBlock <;> simp [Stmt.names, hs]

open IRGenerator in
/-- The state in which an expression of a statement is lowered has its
temporaries numbered in order, and the expression has no name of the form of a
temporary. -/
theorem Stmt.LoweredIn.stmt_temps {st : Stmt} {e : Expr} {g0 g : IRGenerator}
    (h : Stmt.LoweredIn st g0 e g) :
    (∀ s ∈ st.names, isTempName s = false) → g0.TempsInOrder →
    g.TempsInOrder ∧ ∀ s ∈ e.names, isTempName s = false := by
  induction h with
  | varDecl he =>
    intro hn hinv
    simp only [Stmt.names, Expr.optionalNames, List.mem_cons] at hn
    exact he.expr_temps (fun s hs => hn s (Or.inr hs)) hinv
  | returnValue he =>
    intro hn hinv
    simp only [Stmt.names, Expr.optionalNames] at hn
    exact he.expr_temps hn hinv
  | exprStmt he =>
    intro hn hinv
    simp only [Stmt.names] at hn
    exact he.expr_temps hn hinv
  | ifCond he =>
    intro hn hinv
    exact he.expr_temps (fun s hs => hn s (Stmt.names_of_if_cond _ _ _ s hs)) hinv
  | ifThenOnly hc hl1 hl2 hpre _ ih =>
    intro hn hinv
    simp only [Stmt.names, Stmt.stmtNames_append, Stmt.allNames, List.mem_append,
      List.append_nil] at hn
    obtain ⟨Ic, Dc⟩ := genExpression_temps _ _ _ _ (fun s hs => hn s (Or.inl hs)) hinv hc
    have I4 := ((Ic.temps_newLabel hl1).temps_newLabel hl2).emit_old .IF_FALSE
      (Defined.of_not_temp _ (newLabel_not_temp hl2))
      ((Dc.defined_newLabel hl1).defined_newLabel hl2)
      (Defined.of_not_temp _ isTempName_empty)
    have Ip := genStmts_temps _ _ _ (fun s hs => hn s (Or.inr (Or.inl hs)))
      (I4.temps_setScope _) hpre
    exact ih (fun s hs => hn s (Or.inr (Or.inr (Or.inl hs)))) Ip
  | ifThen hc hl1 hl2 hpre _ ih =>
    intro hn hinv
    simp only [Stmt.names, Stmt.stmtNames_append, Stmt.allNames, List.mem_append] at hn
    obtain ⟨Ic, Dc⟩ := genExpression_temps _ _ _ _
      (fun s hs => hn s (Or.inl (Or.inl hs))) hinv hc
    have I4 := ((Ic.temps_newLabel hl1).temps_newLabel hl2).emit_old .IF_FALSE
      (Defined.of_not_temp _ (newLabel_not_temp hl1))
      ((Dc.defined_newLabel hl1).defined_newLabel hl2)
      (Defined.of_not_temp _ isTempName_empty)
    have Ip := genStmts_temps _ _ _ (fun s hs => hn s (Or.inl (Or.inr (Or.inl hs))))
      (I4.temps_setScope _) hpre
    exact ih (fun s hs => hn s (Or.inl (Or.inr (Or.inr (Or.inl hs))))) Ip
  | @ifElse cond e thenBlock before after st g0 g1 g2 g3 g5 gp g cr l1 l2 hc hl1 hl2 hthen hpre _
      ih =>
    intro hn hinv
    simp only [Stmt.names, Stmt.stmtNames_append, Stmt.allNames, List.mem_append] at hn
    obtain ⟨Ic, Dc⟩ := genExpression_temps _ _ _ _
      (fun s hs => hn s (Or.inl (Or.inl hs))) hinv hc
    have hL1 := newLabel_not_temp hl1
    have hL2 := newLabel_not_temp hl2
    have I4 := ((Ic.temps_newLabel hl1).temps_newLabel hl2).emit_old .IF_FALSE
      (Defined.of_not_temp _ hL1) ((Dc.defined_newLabel hl1).defined_newLabel hl2)
      (Defined.of_not_temp _ isTempName_empty)
    have I5 := genStmts_temps _ _ _ (fun s hs => hn s (Or.inl (Or.inr hs)))
      (I4.temps_setScope _) hthen
    have I7 := (I5.temps_setScope g5.scopeStack.exitScope).emit_old .GOTO
      (Defined.of_not_temp _ hL2) (Defined.of_not_temp _ isTempName_empty)
      (Defined.of_not_temp _ isTempName_empty)
    have I8 := I7.emit_old .LABEL (Defined.of_not_temp _ hL1)
      (Defined.of_not_temp _ isTempName_empty) (Defined.of_not_temp _ isTempName_empty)
    have Ip := genStmts_temps _ _ _ (fun s hs => hn s (Or.inr (Or.inl hs)))
      (I8.temps_setScope _) hpre
    exact ih (fun s hs => hn s (Or.inr (Or.inr (Or.inl hs)))) Ip
  | whileCond hl1 hl2 he =>
    intro hn hinv
    simp only [Stmt.names, List.mem_append] at hn
    have I3 := ((hinv.temps_newLabel hl1).temps_newLabel hl2).emit_old .LABEL
      (Defined.of_not_temp _ (newLabel_not_temp hl1))
      (Defined.of_not_temp _ isTempName_empty) (Defined.of_not_temp _ isTempName_empty)
    exact he.expr_temps (fun s hs => hn s (Or.inl hs)) I3
  | whileBody hl1 hl2 hc hpre _ ih =>
    intro hn hinv
    simp only [Stmt.names, Stmt.stmtNames_append, Stmt.allNames, List.mem_append] at hn
    have I3 := ((hinv.temps_newLabel hl1).temps_newLabel hl2).emit_old .LABEL
      (Defined.of_not_temp _ (newLabel_not_temp hl1))
      (Defined.of_not_temp _ isTempName_empty) (Defined.of_not_temp _ isTempName_empty)
    obtain ⟨Ic, Dc⟩ := genExpression_temps _ _ _ _ (fun s hs => hn s (Or.inl hs)) I3 hc
    have I5 := Ic.emit_old .IF_FALSE (Defined.of_not_temp _ (newLabel_not_temp hl2)) Dc
      (Defined.of_not_temp _ isTempName_empty)
    have Ip := genStmts_temps _ _ _ (fun s hs => hn s (Or.inr (Or.inl hs)))
      (I5.temps_setScope _) hpre
    exact ih (fun s hs => hn s (Or.inr (Or.inr (Or.inl hs)))) Ip
  | block hpre _ ih =>
    intro hn hinv
    simp only [Stmt.names, Stmt.stmtNames_append, Stmt.allNames, List.mem_append] at hn
    have Ip := genStmts_temps _ _ _ (fun s hs => hn s (Or.inl hs))
      (hinv.temps_setScope _) hpre
    exact ih (fun s hs => hn s (Or.inr (Or.inl hs))) Ip

open IRGenerator in
theorem Item.LoweredIn.item_temps {item : Item} {e : Expr} {g0 g : IRGenerator}
    (h : Item.LoweredIn item g0 e g) (hn : ∀ s ∈ Item.allNames [item], isTempName s = false)
    (hinv : g0.TempsInOrder) :
    g.TempsInOrder ∧ ∀ s ∈ e.names, isTempName s = false := by
  cases h with
  | function hparams hpre hst =>
    rename_i retType name params before after st gp s1
    simp only [Item.allNames, Stmt.stmtNames_append, Stmt.allNames, List.mem_cons,
      List.mem_append, List.append_nil] at hn
    have hname := hn name (Or.inl rfl)
    have I0 : TempsInOrder { g0 with currentFunction := name } := hinv
    have I1 := I0.emit_old .FUNC_BEGIN (Defined.of_not_temp _ hname)
      (Defined.of_not_temp _ isTempName_empty) (Defined.of_not_temp _ isTempName_empty)
    have Ip := genStmts_temps _ _ _ (fun s hs => hn s (Or.inr (Or.inl hs)))
      (I1.temps_setScope s1) hpre
    exact hst.stmt_temps (fun s hs => hn s (Or.inr (Or.inr (Or.inl hs)))) Ip
  | declaration hst =>
    simp only [Item.allNames, List.append_nil] at hn
    exact hst.stmt_temps hn hinv

/-- In the run of `generate` on a program without names of the form of a
temporary, every call of `genExpression` starts from a state whose temporaries
are numbered in order, on an expression without such names. -/
theorem ProgramNode.Lowers.program_temps {prog : ProgramNode} {e : Expr} {g : IRGenerator}
    (h : prog.Lowers e g) (hn : ∀ s ∈ prog.names, isTempName s = false) :
    g.TempsInOrder ∧ ∀ s ∈ e.names, isTempName s = false := by
  obtain ⟨s1, before, after, item, gp, -, hitems, hpre, hitem⟩ := h
  have hn2 : ∀ s ∈ Item.allNames before ++ (Item.allNames [item] ++ Item.allNames after),
      isTempName s = false := by
    intro s hs
    apply hn s
    unfold ProgramNode.names
    rw [hitems, Item.itemNames_append,
      show item :: after = [item] ++ after from rfl, Item.itemNames_append]
    exact hs
  have hnew : IRGenerator.TempsInOrder { IRGenerator.new with scopeStack := s1 } := ⟨rfl, rfl⟩
  have Ip := IRGenerator.genItems_temps before _ gp
    (fun s hs => hn2 s (List.mem_append_left _ hs)) hnew hpre
  exact hitem.item_temps (fun s hs => hn2 s (List.mem_append_right _ (List.mem_append_left _ hs))) Ip

namespace IRGenerator

/-- An argument of a call is lowered from the state that the loop of `genCall`
has reached after the arguments before it. -/
theorem genArgs_at : ∀ (before : List Expr) (arg : Expr) (after : List Expr)
    (g0 gp : IRGenerator), genArgs before g0 = .ok gp →
    genArgs (before ++ arg :: after) g0 =
      (do
        let (v, ga) ← genExpression arg gp
        genArgs after (ga.emit .PARAM "" v ""))
  | [], arg, after, g0, gp, h => by
    simp only [genArgs, pure_eq_ok] at h
    subst h
    simp only [List.nil_append, genArgs]
  | a :: before, arg, after, g0, gp, h => by
    simp only [genArgs, bind_eq_ok, Prod.exists] at h
    obtain ⟨v, ga, ha, h⟩ := h
    have ih := genArgs_at before arg after _ gp h
    show genArgs (a :: (before ++ arg :: after)) g0 = _
    simp only [genArgs, ha, bind, Except.bind]
    exact ih

/-- A statement of a list is lowered from the state that the statements before
it leave. -/
theorem genStmts_at : ∀ (before : List Stmt) (st : Stmt) (after : List Stmt)
    (g0 gp : IRGenerator), genStmts before g0 = .ok gp →
    genStmts (before ++ st :: after) g0 = (genStmt st gp >>= genStmts after)
  | [], st, after, g0, gp, h => by
    simp only [genStmts, pure_eq_ok] at h
    subst h
    simp only [List.nil_append, genStmts]
  | s :: before, st, after, g0, gp, h => by
    simp only [genStmts, bind_eq_ok] at h
    obtain ⟨ga, ha, h⟩ := h
    have ih := genStmts_at before st after ga gp h
    show genStmts (s :: (before ++ st :: after)) g0 = _
    simp only [genStmts, ha, bind, Except.bind]
    exact ih

end IRGenerator

/-- C27, as the code has it.  When the operands have been lowered, the left one
first and the right one from the state the left one leaves, `genBinaryOp` emits
after all their instructions exactly one instruction `(opcode, t, l, r)`, where
`l` and `r` are the values of the operands, `t` is the next temporary `t<k>`,
`k` being the value of the counter, and the opcode is the one the table gives for
the operator; it returns `t`.  When `genBinaryOp` is called in the run of
`generate` on a program in which no function name, declared variable, identifier
or literal has the form `t<n>`, the temporary `t` occurs in no instruction
emitted before, neither as a result nor as an operand, and it differs from `l`
and from `r`. -/
theorem binary_op_lowering (op : String) (left right : Expr) (g gl gr : IRGenerator)
    (l r : String)
    (hl : IRGenerator.genExpression left g = .ok (l, gl))
    (hr : IRGenerator.genExpression right gl = .ok (r, gr))
    (ht : gr.tempCounter < INT_MAX) :
    (∃ leftCode rightCode, gl.instructions = g.instructions ++ leftCode ∧
      gr.instructions = gl.instructions ++ rightCode ∧
      IRGenerator.genExpression (.BinaryOpNode op left right) g =
        .ok (tempName gr.tempCounter,
          { gr with
            instructions := g.instructions ++ leftCode ++ rightCode ++
              [⟨IRGenerator.binaryOpcode op, tempName gr.tempCounter, l, r⟩]
            tempCounter := gr.tempCounter + 1 })) ∧
    g.tempCounter ≤ gr.tempCounter ∧
    (∀ p ∈ binaryOpcodeTable, IRGenerator.binaryOpcode p.1 = p.2) ∧
    (∀ prog : ProgramNode, (∀ s ∈ prog.names, isTempName s = false) →
      prog.Lowers (.BinaryOpNode op left right) g →
      tempName gr.tempCounter ∉ namesUsed gr.instructions ∧
      tempName gr.tempCounter ≠ l ∧ tempName gr.tempCounter ≠ r) := by
  obtain ⟨-, leftCode, h1, -, -⟩ := IRGenerator.genExpression_plain left g l gl hl
  obtain ⟨-, rightCode, h2, -, -⟩ := IRGenerator.genExpression_plain right gl r gr hr
  refine ⟨⟨leftCode, rightCode, h1, h2, ?_⟩, ?_, by decide, ?_⟩
  · have hnot : ¬ gr.tempCounter ≥ INT_MAX := by omega
    simp only [IRGenerator.genExpression, hl, hr, IRGenerator.newTemp, hnot, if_false, bind,
      Except.bind, pure, Except.pure, IRGenerator.emit, tempName, h2, h1]
  · have a := IRGenerator.genExpression_tempCounter left g l gl hl
    have b := IRGenerator.genExpression_tempCounter right gl r gr hr
    omega
  · intro prog hnames hcall
    obtain ⟨hinv, hn⟩ := hcall.program_temps hnames
    simp only [Expr.names, List.mem_append] at hn
    obtain ⟨Il, Dl⟩ := IRGenerator.genExpression_temps left g l gl
      (fun s hs => hn s (Or.inl hs)) hinv hl
    obtain ⟨Ir, Dr⟩ := IRGenerator.genExpression_temps right gl r gr
      (fun s hs => hn s (Or.inr hs)) Il hr
    exact ⟨Ir.unused _ (Nat.le_refl _),
      Ir.ne_defined (Dl.defined_plain (IRGenerator.genExpression_plain right gl r gr hr)) _
        (Nat.le_refl _),
      Ir.ne_defined Dr _ (Nat.le_refl _)⟩

/-- C27 fails for programs that use a name of the form `t<n>`.  The program
`fn int f(){ int t0 = 5; return t0 + 1; }` passes the scope analysis and the type
check; its code is `FUNC_BEGIN f`, `COPY t0, 5`, `ADD t0, t0, 1`, `RETURN _, t0`,
`FUNC_END f`.  `genBinaryOp` is called for `t0 + 1` after the `COPY`, with the
counter at 0: the temporary of the `ADD` is `t0`, the variable of the program,
which is the result of the `COPY` before and the left operand of the `ADD`
itself. -/
theorem binary_op_result_is_user_variable :
    analyzeAndCheck ⟨[.FunctionNode "int" "f" []
        [.VarDeclNode "int" "t0" (some (.LiteralNode "int" "5")),
         .ReturnNode (some (.BinaryOpNode "+" (.IdentifierNode "t0")
           (.LiteralNode "int" "1")))]]⟩ = .accepted ∧
    (IRGenerator.generate ⟨[.FunctionNode "int" "f" []
        [.VarDeclNode "int" "t0" (some (.LiteralNode "int" "5")),
         .ReturnNode (some (.BinaryOpNode "+" (.IdentifierNode "t0")
           (.LiteralNode "int" "1")))]]⟩).map (·.instructions) =
      .ok [⟨.FUNC_BEGIN, "f", "", ""⟩, ⟨.COPY, "t0", "5", ""⟩, ⟨.ADD, "t0", "t0", "1"⟩,
        ⟨.RETURN, "", "t0", ""⟩, ⟨.FUNC_END, "f", "", ""⟩] ∧
    ProgramNode.Lowers ⟨[.FunctionNode "int" "f" []
        [.VarDeclNode "int" "t0" (some (.LiteralNode "int" "5")),
         .ReturnNode (some (.BinaryOpNode "+" (.IdentifierNode "t0")
           (.LiteralNode "int" "1")))]]⟩
      (.BinaryOpNode "+" (.IdentifierNode "t0") (.LiteralNode "int" "1"))
      ⟨[⟨.FUNC_BEGIN, "f", "", ""⟩, ⟨.COPY, "t0", "5", ""⟩],
        ⟨[⟨1, [("t0", ⟨"t0", "int", false, [], 1⟩)]⟩],
          ⟨0, [("f", ⟨"f", "int", true, [], 0⟩)]⟩, 2⟩, 0, 0, "f"⟩ ∧
    IRGenerator.genExpression
        (.BinaryOpNode "+" (.IdentifierNode "t0") (.LiteralNode "int" "1"))
        ⟨[⟨.FUNC_BEGIN, "f", "", ""⟩, ⟨.COPY, "t0", "5", ""⟩],
          ⟨[⟨1, [("t0", ⟨"t0", "int", false, [], 1⟩)]⟩],
            ⟨0, [("f", ⟨"f", "int", true, [], 0⟩)]⟩, 2⟩, 0, 0, "f"⟩ =
      .ok ("t0",
        ⟨[⟨.FUNC_BEGIN, "f", "", ""⟩, ⟨.COPY, "t0", "5", ""⟩, ⟨.ADD, "t0", "t0", "1"⟩],
          ⟨[⟨1, [("t0", ⟨"t0", "int", false, [], 1⟩)]⟩],
            ⟨0, [("f", ⟨"f", "int", true, [], 0⟩)]⟩, 2⟩, 1, 0, "f"⟩) ∧
    "t0" ∈ namesUsed [⟨.FUNC_BEGIN, "f", "", ""⟩, ⟨.COPY, "t0", "5", ""⟩] :=
  ⟨by decide!, by decide!,
   ⟨⟨[], ⟨0, [("f", ⟨"f", "int", true, [], 0⟩)]⟩, 1⟩, [], [],
    .FunctionNode "int" "f" []
      [.VarDeclNode "int" "t0" (some (.LiteralNode "int" "5")),
       .ReturnNode (some (.BinaryOpNode "+" (.IdentifierNode "t0")
         (.LiteralNode "int" "1")))],
    ⟨[], ⟨[], ⟨0, [("f", ⟨"f", "int", true, [], 0⟩)]⟩, 1⟩, 0, 0, ""⟩,
    by decide!, rfl, by decide!,
    @Item.LoweredIn.function "int" "f" []
      [.VarDeclNode "int" "t0" (some (.LiteralNode "int" "5"))] []
      (.ReturnNode (some (.BinaryOpNode "+" (.IdentifierNode "t0")
        (.LiteralNode "int" "1")))) _ _
      ⟨[⟨.FUNC_BEGIN, "f", "", ""⟩, ⟨.COPY, "t0", "5", ""⟩],
        ⟨[⟨1, [("t0", ⟨"t0", "int", false, [], 1⟩)]⟩],
          ⟨0, [("f", ⟨"f", "int", true, [], 0⟩)]⟩, 2⟩, 0, 0, "f"⟩ _
      ⟨[⟨1, []⟩], ⟨0, [("f", ⟨"f", "int", true, [], 0⟩)]⟩, 2⟩
      (by decide!) (by decide!)
      (Stmt.LoweredIn.returnValue (Expr.LoweredIn.self _ _))⟩,
   by decide!, by decide⟩

/-- Witness for the amended C27: the code of the tree of
`fn int f(int x){ return x + 1; }` is `FUNC_BEGIN f`, `ADD t0, x, 1`,
`RETURN _, t0`, `FUNC_END f`; `genBinaryOp` is called for `x + 1` after
`FUNC_BEGIN f`, and its temporary `t0` occurs in no instruction before and
differs from the operands `x` and `1`. -/
theorem binary_op_lowering_witness :
    (IRGenerator.generate ⟨[.FunctionNode "int" "f" [("int", "x")]
        [.ReturnNode (some (.BinaryOpNode "+" (.IdentifierNode "x")
          (.LiteralNode "int" "1")))]]⟩).map (·.instructions) =
      .ok [⟨.FUNC_BEGIN, "f", "", ""⟩, ⟨.ADD, "t0", "x", "1"⟩, ⟨.RETURN, "", "t0", ""⟩,
        ⟨.FUNC_END, "f", "", ""⟩] ∧
    tempName 0 ∉ namesUsed [⟨.FUNC_BEGIN, "f", "", ""⟩] ∧
    tempName 0 ≠ "x" ∧ tempName 0 ≠ "1" :=
  ⟨by decide!,
   (binary_op_lowering "+" (.IdentifierNode "x") (.LiteralNode "int" "1")
      ⟨[⟨.FUNC_BEGIN, "f", "", ""⟩],
        ⟨[⟨1, [("x", ⟨"x", "int", false, [], 1⟩)]⟩],
          ⟨0, [("f", ⟨"f", "int", true, ["int"], 0⟩)]⟩, 2⟩, 0, 0, "f"⟩
      ⟨[⟨.FUNC_BEGIN, "f", "", ""⟩],
        ⟨[⟨1, [("x", ⟨"x", "int", false, [], 1⟩)]⟩],
          ⟨0, [("f", ⟨"f", "int", true, ["int"], 0⟩)]⟩, 2⟩, 0, 0, "f"⟩
      ⟨[⟨.FUNC_BEGIN, "f", "", ""⟩],
        ⟨[⟨1, [("x", ⟨"x", "int", false, [], 1⟩)]⟩],
          ⟨0, [("f", ⟨"f", "int", true, ["int"], 0⟩)]⟩, 2⟩, 0, 0, "f"⟩
      "x" "1" rfl rfl (by decide)).2.2.2
      ⟨[.FunctionNode "int" "f" [("int", "x")]
        [.ReturnNode (some (.BinaryOpNode "+" (.IdentifierNode "x")
          (.LiteralNode "int" "1")))]]⟩
      (by decide!)
      ⟨⟨[], ⟨0, [("f", ⟨"f", "int", true, ["int"], 0⟩)]⟩, 1⟩, [], [],
        .FunctionNode "int" "f" [("int", "x")]
          [.ReturnNode (some (.BinaryOpNode "+" (.IdentifierNode "x")
            (.LiteralNode "int" "1")))],
        ⟨[], ⟨[], ⟨0, [("f", ⟨"f", "int", true, ["int"], 0⟩)]⟩, 1⟩, 0, 0, ""⟩,
        by decide!, rfl, by decide!,
        @Item.LoweredIn.function "int" "f" [("int", "x")] [] []
          (.ReturnNode (some (.BinaryOpNode "+" (.IdentifierNode "x")
            (.LiteralNode "int" "1")))) _ _
          ⟨[⟨.FUNC_BEGIN, "f", "", ""⟩],
            ⟨[⟨1, [("x", ⟨"x", "int", false, [], 1⟩)]⟩],
              ⟨0, [("f", ⟨"f", "int", true, ["int"], 0⟩)]⟩, 2⟩, 0, 0, "f"⟩ _
          ⟨[⟨1, [("x", ⟨"x", "int", false, [], 1⟩)]⟩],
            ⟨0, [("f", ⟨"f", "int", true, ["int"], 0⟩)]⟩, 2⟩
          (by decide!) (by decide!)
          (Stmt.LoweredIn.returnValue (Expr.LoweredIn.self _ _))⟩⟩

/-- C28, as the code has it.  For `op` one of `++`, `--` and `opcode` being `ADD`
for `++` and `SUB` for `--`: the prefix form on the identifier `x` emits
`opcode t, x, 1` and `COPY x, t` and returns `t`, the next temporary; the postfix
form emits `COPY tsave, x`, `opcode tnew, x, 1` and `COPY x, tnew` and returns
`tsave`, where `tsave` and `tnew` are the next two temporaries `t<k>` and
`t<k+1>`, `k` being the value of the counter; they are distinct.  When
`genUnaryOp` is called in the run of `generate` on a program in which no function
name, declared variable, identifier or literal has the form `t<n>`, these
temporaries occur in no instruction emitted before, neither as a result nor as an
operand, and they differ from `x`: the two instructions after `COPY tsave, x`
have the results `tnew` and `x` and leave `tsave` as it is. -/
theorem increment_lowering (op x : String) (g : IRGenerator) (hop : op = "++" ∨ op = "--") :
    (g.tempCounter < INT_MAX →
      IRGenerator.genExpression (.UnaryOpNode op (.IdentifierNode x) false) g =
        .ok (tempName g.tempCounter,
          { g with
            instructions := g.instructions ++
              [⟨if op = "++" then .ADD else .SUB, tempName g.tempCounter, x, "1"⟩,
               ⟨.COPY, x, tempName g.tempCounter, ""⟩]
            tempCounter := g.tempCounter + 1 })) ∧
    (g.tempCounter + 1 < INT_MAX →
      IRGenerator.genExpression (.UnaryOpNode op (.IdentifierNode x) true) g =
        .ok (tempName g.tempCounter,
          { g with
            instructions := g.instructions ++
              [⟨.COPY, tempName g.tempCounter, x, ""⟩,
               ⟨if op = "++" then .ADD else .SUB, tempName (g.tempCounter + 1), x, "1"⟩,
               ⟨.COPY, x, tempName (g.tempCounter + 1), ""⟩]
            tempCounter := g.tempCounter + 2 })) ∧
    tempName g.tempCounter ≠ tempName (g.tempCounter + 1) ∧
    (∀ (prog : ProgramNode) (isPostfix : Bool), (∀ s ∈ prog.names, isTempName s = false) →
      prog.Lowers (.UnaryOpNode op (.IdentifierNode x) isPostfix) g →
      tempName g.tempCounter ∉ namesUsed g.instructions ∧
      tempName (g.tempCounter + 1) ∉ namesUsed g.instructions ∧
      tempName g.tempCounter ≠ x ∧ tempName (g.tempCounter + 1) ≠ x) := by
  have hb : (op = "++" || op = "--") = true := by
    rcases hop with rfl | rfl <;> decide
  refine ⟨fun ht => ?_, fun ht => ?_, fun he => ?_, fun prog isPostfix hnames hcall => ?_⟩
  · have hnot : ¬ g.tempCounter ≥ INT_MAX := by omega
    simp [IRGenerator.genExpression, hb, IRGenerator.newTemp, hnot, bind, Except.bind, pure,
      Except.pure, IRGenerator.emit, tempName]
  · have hnot : ¬ g.tempCounter ≥ INT_MAX := by omega
    have hnot2 : ¬ g.tempCounter + 1 ≥ INT_MAX := by omega
    simp [IRGenerator.genExpression, hb, IRGenerator.newTemp, hnot, hnot2, bind, Except.bind,
      pure, Except.pure, IRGenerator.emit, tempName]
  · have := tempName_injective he
    omega
  · obtain ⟨hinv, hn⟩ := hcall.program_temps hnames
    have hx : isTempName x = false := hn x (by simp [Expr.names])
    refine ⟨hinv.unused _ (Nat.le_refl _), hinv.unused _ (Nat.le_succ _), ?_, ?_⟩
    · intro he
      rw [← he, isTempName_tempName] at hx
      exact Bool.noConfusion hx
    · intro he
      rw [← he, isTempName_tempName] at hx
      exact Bool.noConfusion hx

/-- C28 fails for programs that use a name of the form `t<n>`.  The program
`fn int f(int t0){ return t0++; }` passes the scope analysis and the type check;
its code is `FUNC_BEGIN f`, `COPY t0, t0`, `ADD t1, t0, 1`, `COPY t0, t1`,
`RETURN _, t0`, `FUNC_END f`.  `genUnaryOp` is called for `t0++` after
`FUNC_BEGIN f`, with the counter at 0: the temporary that is to save the value is
`t0`, the variable itself, so that the third instruction overwrites it, and the
value returned is the name of the updated variable. -/
theorem postfix_increment_saves_into_user_variable :
    analyzeAndCheck ⟨[.FunctionNode "int" "f" [("int", "t0")]
        [.ReturnNode (some (.UnaryOpNode "++" (.IdentifierNode "t0") true))]]⟩ = .accepted ∧
    (IRGenerator.generate ⟨[.FunctionNode "int" "f" [("int", "t0")]
        [.ReturnNode (some (.UnaryOpNode "++" (.IdentifierNode "t0") true))]]⟩).map
        (·.instructions) =
      .ok [⟨.FUNC_BEGIN, "f", "", ""⟩, ⟨.COPY, "t0", "t0", ""⟩, ⟨.ADD, "t1", "t0", "1"⟩,
        ⟨.COPY, "t0", "t1", ""⟩, ⟨.RETURN, "", "t0", ""⟩, ⟨.FUNC_END, "f", "", ""⟩] ∧
    ProgramNode.Lowers ⟨[.FunctionNode "int" "f" [("int", "t0")]
        [.ReturnNode (some (.UnaryOpNode "++" (.IdentifierNode "t0") true))]]⟩
      (.UnaryOpNode "++" (.IdentifierNode "t0") true)
      ⟨[⟨.FUNC_BEGIN, "f", "", ""⟩],
        ⟨[⟨1, [("t0", ⟨"t0", "int", false, [], 1⟩)]⟩],
          ⟨0, [("f", ⟨"f", "int", true, ["int"], 0⟩)]⟩, 2⟩, 0, 0, "f"⟩ ∧
    IRGenerator.genExpression (.UnaryOpNode "++" (.IdentifierNode "t0") true)
        ⟨[⟨.FUNC_BEGIN, "f", "", ""⟩],
          ⟨[⟨1, [("t0", ⟨"t0", "int", false, [], 1⟩)]⟩],
            ⟨0, [("f", ⟨"f", "int", true, ["int"], 0⟩)]⟩, 2⟩, 0, 0, "f"⟩ =
      .ok ("t0",
        ⟨[⟨.FUNC_BEGIN, "f", "", ""⟩, ⟨.COPY, "t0", "t0", ""⟩, ⟨.ADD, "t1", "t0", "1"⟩,
            ⟨.COPY, "t0", "t1", ""⟩],
          ⟨[⟨1, [("t0", ⟨"t0", "int", false, [], 1⟩)]⟩],
            ⟨0, [("f", ⟨"f", "int", true, ["int"], 0⟩)]⟩, 2⟩, 2, 0, "f"⟩) ∧
    tempName 0 = "t0" :=
  ⟨by decide!, by decide!,
   ⟨⟨[], ⟨0, [("f", ⟨"f", "int", true, ["int"], 0⟩)]⟩, 1⟩, [], [],
    .FunctionNode "int" "f" [("int", "t0")]
      [.ReturnNode (some (.UnaryOpNode "++" (.IdentifierNode "t0") true))],
    ⟨[], ⟨[], ⟨0, [("f", ⟨"f", "int", true, ["int"], 0⟩)]⟩, 1⟩, 0, 0, ""⟩,
    by decide!, rfl, by decide!,
    @Item.LoweredIn.function "int" "f" [("int", "t0")] [] []
      (.ReturnNode (some (.UnaryOpNode "++" (.IdentifierNode "t0") true))) _ _
      ⟨[⟨.FUNC_BEGIN, "f", "", ""⟩],
        ⟨[⟨1, [("t0", ⟨"t0", "int", false, [], 1⟩)]⟩],
          ⟨0, [("f", ⟨"f", "int", true, ["int"], 0⟩)]⟩, 2⟩, 0, 0, "f"⟩ _
      ⟨[⟨1, [("t0", ⟨"t0", "int", false, [], 1⟩)]⟩],
        ⟨0, [("f", ⟨"f", "int", true, ["int"], 0⟩)]⟩, 2⟩
      (by decide!) (by decide!)
      (Stmt.LoweredIn.returnValue (Expr.LoweredIn.self _ _))⟩,
   by decide!, by decide⟩

/-- Witness for the amended C28.  From a new generator `++x` gives
`ADD t0, x, 1`, `COPY x, t0` and the value `t0`, and `x--` gives `COPY t0, x`,
`SUB t1, x, 1`, `COPY x, t1` and the value `t0`.  In the run on
`fn int f(int x){ return x--; }` the call for `x--` comes after `FUNC_BEGIN f`;
`t0` and `t1` occur in no instruction before and differ from `x`. -/
theorem increment_lowering_witness :
    IRGenerator.genExpression (.UnaryOpNode "++" (.IdentifierNode "x") false) IRGenerator.new =
      .ok ("t0", ⟨[⟨.ADD, "t0", "x", "1"⟩, ⟨.COPY, "x", "t0", ""⟩], ScopeStack.new, 1, 0, ""⟩) ∧
    IRGenerator.genExpression (.UnaryOpNode "--" (.IdentifierNode "x") true) IRGenerator.new =
      .ok ("t0", ⟨[⟨.COPY, "t0", "x", ""⟩, ⟨.SUB, "t1", "x", "1"⟩, ⟨.COPY, "x", "t1", ""⟩],
        ScopeStack.new, 2, 0, ""⟩) ∧
    (IRGenerator.generate ⟨[.FunctionNode "int" "f" [("int", "x")]
        [.ReturnNode (some (.UnaryOpNode "--" (.IdentifierNode "x") true))]]⟩).map
        (·.instructions) =
      .ok [⟨.FUNC_BEGIN, "f", "", ""⟩, ⟨.COPY, "t0", "x", ""⟩, ⟨.SUB, "t1", "x", "1"⟩,
        ⟨.COPY, "x", "t1", ""⟩, ⟨.RETURN, "", "t0", ""⟩, ⟨.FUNC_END, "f", "", ""⟩] ∧
    tempName 0 ∉ namesUsed [⟨.FUNC_BEGIN, "f", "", ""⟩] ∧
    tempName (0 + 1) ∉ namesUsed [⟨.FUNC_BEGIN, "f", "", ""⟩] ∧
    tempName 0 ≠ "x" ∧ tempName (0 + 1) ≠ "x" :=
  ⟨(increment_lowering "++" "x" IRGenerator.new (Or.inl rfl)).1 (by decide),
   (increment_lowering "--" "x" IRGenerator.new (Or.inr rfl)).2.1 (by decide),
   by decide!,
   (increment_lowering "--" "x"
      ⟨[⟨.FUNC_BEGIN, "f", "", ""⟩],
        ⟨[⟨1, [("x", ⟨"x", "int", false, [], 1⟩)]⟩],
          ⟨0, [("f", ⟨"f", "int", true, ["int"], 0⟩)]⟩, 2⟩, 0, 0, "f"⟩
      (Or.inr rfl)).2.2.2
      ⟨[.FunctionNode "int" "f" [("int", "x")]
        [.ReturnNode (some (.UnaryOpNode "--" (.IdentifierNode "x") true))]]⟩
      true (by decide!)
      ⟨⟨[], ⟨0, [("f", ⟨"f", "int", true, ["int"], 0⟩)]⟩, 1⟩, [], [],
        .FunctionNode "int" "f" [("int", "x")]
          [.ReturnNode (some (.UnaryOpNode "--" (.IdentifierNode "x") true))],
        ⟨[], ⟨[], ⟨0, [("f", ⟨"f", "int", true, ["int"], 0⟩)]⟩, 1⟩, 0, 0, ""⟩,
        by decide!, rfl, by decide!,
        @Item.LoweredIn.function "int" "f" [("int", "x")] [] []
          (.ReturnNode (some (.UnaryOpNode "--" (.IdentifierNode "x") true))) _ _
          ⟨[⟨.FUNC_BEGIN, "f", "", ""⟩],
            ⟨[⟨1, [("x", ⟨"x", "int", false, [], 1⟩)]⟩],
              ⟨0, [("f", ⟨"f", "int", true, ["int"], 0⟩)]⟩, 2⟩, 0, 0, "f"⟩ _
          ⟨[⟨1, [("x", ⟨"x", "int", false, [], 1⟩)]⟩],
            ⟨0, [("f", ⟨"f", "int", true, ["int"], 0⟩)]⟩, 2⟩
          (by decide!) (by decide!)
          (Stmt.LoweredIn.returnValue (Expr.LoweredIn.self _ _))⟩⟩

end Compiler
